import Mathlib

/-!
# The xlsx consumer of xlnt: a shallow embedding

Source: `source/detail/xlsx_consumer.cpp`.  The readers of that file pull events
from an XML event source and write into a destination workbook.  The event source,
the workbook object model and the standard numeric conversions are not part of the
source file; they are modelled in the first section and every reader after it is a
transcription of the C++ function of the same name.

Loops of the form `while (true) { if (parser.peek() == end_element) break; ... }`
become functions recursive on a fuel argument; the entry points supply more fuel
than there are pending events, and `error.nontermination` is the result of a loop
that is still running when its fuel is spent.  A reader that writes into the
destination returns a `res`: the destination is written in place, so an exception
leaves behind what was written before it.

`read` and `populate_workbook` work on a `consumer`: the archive, the manifest, the
state of the part readers, and a trace of the parts fetched and the readers called,
which is what the statements about the order of a read speak of.
-/

namespace xlnt

/-! ## Exceptions -/

/-- The exceptions the readers can raise: `parsing` is `xml::parsing` raised by the
event source, `invalid_file` and `exception` are the `xlnt` exceptions with their
message, `out_of_range` and `invalid_argument` are the standard library ones
(`vector::at`, `std::stoull`), `undefined` stands for undefined behaviour (an end
iterator dereferenced) and `nontermination` for a loop that does not finish;
`key_not_found` is the exception of a manifest query without answer and
`runtime_error` the one of the archive asked for a part it does not hold. -/
inductive error where
  | parsing : error
  | invalid_file (msg : String) : error
  | exception (msg : String) : error
  | out_of_range : error
  | invalid_argument : error
  | undefined : error
  | nontermination : error
  | key_not_found : error
  | runtime_error : error
deriving DecidableEq, Repr

/-! ## Numeric conversions of the standard library -/

/-- The characters `std::isspace` accepts in the C locale. -/
def isspace (c : Char) : Bool :=
  c.toNat = 32 || (9 ≤ c.toNat && c.toNat ≤ 13)

/-- Value of a run of decimal digits. -/
def digits_value (ds : List Char) : Nat :=
  ds.foldl (fun acc c => 10 * acc + (c.toNat - 48)) 0

/-- The conversion `std::stoull(s)` in base 10: leading white space is skipped, one
sign is accepted, the longest run of digits is converted and what follows it is
ignored; no digit raises `invalid_argument`, a value of 2^64 or more raises
`out_of_range`, and a minus sign negates modulo 2^64. -/
def stoull (s : String) : Except error Nat :=
  let cs := s.toList.dropWhile isspace
  let neg := cs.head? = some (Char.ofNat 45)
  let cs := if cs.head? = some (Char.ofNat 45) ∨ cs.head? = some (Char.ofNat 43) then cs.tail else cs
  let ds := cs.takeWhile Char.isDigit
  if ds = [] then .error .invalid_argument
  else if 2 ^ 64 ≤ digits_value ds then .error .out_of_range
  else .ok (if neg then (2 ^ 64 - digits_value ds) % 2 ^ 64 else digits_value ds)

/-- Source lines 23-30: `string_to_size_t`, on a platform whose `size_t` has the
width of `unsigned long long`. -/
def string_to_size_t (s : String) : Except error Nat :=
  stoull s

/-- Source lines 18-21: `is_true`. -/
def is_true (bool_string : String) : Bool :=
  bool_string = "1" || bool_string = "true"

/-! ## The XML event source -/

/-- The events of the pull parser. -/
inductive event_type where
  | start_element
  | end_element
  | start_attribute
  | end_attribute
  | characters
  | start_namespace_decl
  | end_namespace_decl
  | eof
deriving DecidableEq, Repr

/-- A qualified name: namespace and local name. -/
structure qname where
  namespace_ : String
  name : String
deriving DecidableEq, Repr

/-- One event of the stream.  `attributes` is the attribute map of a start tag.
`value` is what `parser.value()` yields while the event is the current one: the text of
a `characters` event, and the empty text for a tag (no character data has been read when
the readers below ask for the value at a start tag). -/
structure event where
  type : event_type
  qname : qname
  attributes : List (xlnt.qname × String)
  value : String
deriving DecidableEq, Repr

/-- Modelled from the spec: the XML Event Source, a "pull parser emitting start/end
element, attribute, character-data, namespace-declaration events over one part's
byte stream".  `current` is the event last returned by `next`, `attrs` the
attribute map of the element started last, `rest` the events still to come. -/
structure parser where
  current : event
  attrs : List (qname × String)
  rest : List event
deriving DecidableEq, Repr

/-- The event reported once the stream is exhausted. -/
def eof_event : event :=
  ⟨.eof, ⟨"", ""⟩, [], ""⟩

/-- A parser over a list of events, before the first call of `next`. -/
def parser.of_events (es : List event) : parser :=
  ⟨eof_event, [], es⟩

/-- The call `parser.peek()`: type of the next event, which stays pending. -/
def parser.peek (p : parser) : event_type :=
  match p.rest with
  | [] => .eof
  | e :: _ => e.type

/-- The call `parser.next()`: the next event becomes the current one. -/
def parser.next (p : parser) : event_type × parser :=
  match p.rest with
  | [] => (.eof, ⟨eof_event, p.attrs, []⟩)
  | e :: es => (e.type, ⟨e, if e.type = .start_element then e.attributes else p.attrs, es⟩)

/-- The call `parser.next_expect(e)`: `xml::parsing` unless the next event has type `e`. -/
def parser.next_expect (p : parser) (e : event_type) : Except error parser :=
  if (p.next).1 = e then .ok (p.next).2 else .error .parsing

/-- The call `parser.next_expect(e, ns, n)`, which checks the qualified name too.  The
overload `next_expect(e, n)` is this one with the empty namespace, and
`next_expect(e, parser.qname())` passes the name that is current before the call. -/
def parser.next_expect_qname (p : parser) (e : event_type) (q : qname) : Except error parser :=
  if (p.next).1 = e ∧ (p.next).2.current.qname = q then .ok (p.next).2 else .error .parsing

/-- The accessors `parser.qname()`, `parser.name()`, `parser.namespace_()` and
`parser.value()` of the current event. -/
def parser.qname (p : parser) : qname :=
  p.current.qname

/-- Local name of the current event. -/
def parser.name (p : parser) : String :=
  p.current.qname.name

/-- Namespace of the current event. -/
def parser.namespace_ (p : parser) : String :=
  p.current.qname.namespace_

/-- Value of the current event. -/
def parser.value (p : parser) : String :=
  p.current.value

/-- Lookup in an attribute map. -/
def lookup_attribute (q : qname) : List (qname × String) → Option String
  | [] => none
  | (k, v) :: m => if k = q then some v else lookup_attribute q m

/-- The call `parser.attribute_present(n)` for an unqualified name. -/
def parser.attribute_present (p : parser) (n : String) : Bool :=
  (lookup_attribute ⟨"", n⟩ p.attrs).isSome

/-- The call `parser.attribute(n)`: `xml::parsing` when the attribute is absent. -/
def parser.attribute (p : parser) (n : String) : Except error String :=
  match lookup_attribute ⟨"", n⟩ p.attrs with
  | some v => .ok v
  | none => .error .parsing

/-- The call `parser.attribute<std::size_t>(n)`: the attribute must be present and
its whole text must convert, else `xml::parsing`; the texts taken to convert are the
unsigned decimal numerals below 2^64. -/
def parser.attribute_size_t (p : parser) (n : String) : Except error Nat :=
  match lookup_attribute ⟨"", n⟩ p.attrs with
  | some v =>
    if v.toList ≠ [] ∧ v.toList.all Char.isDigit ∧ digits_value v.toList < 2 ^ 64
    then .ok (digits_value v.toList) else .error .parsing
  | none => .error .parsing

/-- Events of the character data `text` of the element `q`: one `characters` event, and
none for the empty text. -/
def text_events (q : qname) (text : String) : List event :=
  if text = "" then [] else [⟨.characters, q, [], text⟩]

/-- Events of an element: its start tag with attributes, its text, the events of its
children, its end tag. -/
def element_events (q : qname) (attrs : List (qname × String)) (text : String)
    (children : List event) : List event :=
  ⟨.start_element, q, attrs, ""⟩
    :: (text_events q text ++ (children ++ [⟨.end_element, q, [], ""⟩]))

/-- Outcome of a reader that writes into a destination of type `σ`: the destination
is written in place, so what was written before an exception stays written. -/
inductive res (σ : Type) where
  | ok (p : parser) (s : σ) : res σ
  | fail (e : error) (s : σ) : res σ
deriving DecidableEq, Repr

/-! ## Maps with string keys -/

/-- The assignment `m[k] = v` of a map with string keys, kept as the list of its
entries: the entry of `k` is replaced, or added when there is none. -/
def map_set {α : Type} : List (String × α) → String → α → List (String × α)
  | [], k, v => [(k, v)]
  | (k1, v1) :: m, k, v => if k1 = k then (k, v) :: m else (k1, v1) :: map_set m k v

/-- The value `m[k]` of a map to `size_t`: a key without entry reads as 0 (the entry
`operator[]` creates for it holds 0, so later reads are not affected). -/
def map_get : List (String × Nat) → String → Nat
  | [], _ => 0
  | (k1, v1) :: m, k => if k1 = k then v1 else map_get m k

/-! ## Style components of the object model -/

/-- The conversions of attribute texts that the source takes from headers outside it:
`to_double` is `parser.attribute<double>`, and `to_enum E` is
`xml::value_traits<E>::parse` for the enumeration named `E`, an enumerator being kept
as its name.  `F` is the type of the floating-point numbers. -/
structure value_traits (F : Type) where
  to_double : String → Except error F
  to_enum : String → String → Except error String

/-- Modelled from the spec: a color is automatic (the default), or given as RGB text,
theme index or palette index; it may carry a tint. -/
inductive color_kind where
  | automatic
  | rgb (s : String)
  | theme (index : Nat)
  | indexed (index : Nat)
deriving DecidableEq, Repr

/-- A color of the object model. -/
structure color (F : Type) where
  kind : color_kind := .automatic
  tint : Option F := none
deriving DecidableEq, Repr

/-- Modelled from the spec: Protection. -/
structure protection where
  locked : Bool := false
  hidden : Bool := false
deriving DecidableEq, Repr

/-- Modelled from the spec: Alignment; a field is `none` until its setter is called. -/
structure alignment where
  wrap : Option Bool := none
  shrink : Option Bool := none
  vertical : Option String := none
  horizontal : Option String := none
deriving DecidableEq, Repr

/-- Modelled from the spec: Font; a field is `none` until its setter is called. -/
structure font (F : Type) where
  size : Option Nat := none
  name : Option String := none
  color : Option (xlnt.color F) := none
  family : Option Nat := none
  scheme : Option String := none
  bold : Option Bool := none
  strikethrough : Option Bool := none
  italic : Option Bool := none
  underline : Option String := none
deriving DecidableEq, Repr

/-- A pattern fill. -/
structure pattern_fill (F : Type) where
  type : Option String := none
  foreground : Option (color F) := none
  background : Option (color F) := none
deriving DecidableEq, Repr

/-- A gradient fill with its stops. -/
structure gradient_fill (F : Type) where
  type : Option String := none
  stops : List (F × color F) := []
deriving DecidableEq, Repr

/-- Modelled from the spec: Fill, a "pattern-or-gradient variant"; `none` is the
default-constructed fill. -/
inductive fill (F : Type) where
  | none : fill F
  | pattern (f : pattern_fill F) : fill F
  | gradient (f : gradient_fill F) : fill F
deriving DecidableEq, Repr

/-- One side of a border: "style + color". -/
structure border_property (F : Type) where
  style : Option String := none
  color : Option (xlnt.color F) := none
deriving DecidableEq, Repr

/-- Modelled from the spec: Border, a "border-sides map keyed by side identity". -/
structure border (F : Type) where
  sides : List (String × border_property F) := []
deriving DecidableEq, Repr

/-- The call `b.side(side_type, side)`: the entry of the side is set. -/
def border.side {F : Type} (b : border F) (side_type : String) (side : border_property F) :
    border F :=
  { sides := map_set b.sides side_type side }

/-- Modelled from the spec: Number Format, "id + format code". -/
structure number_format where
  format_string : String := ""
  id : Nat := 0
deriving DecidableEq, Repr

/-- Modelled from the spec: Cell Style, a named formatting preset; each component
comes with its "applied" flag. -/
structure style (F : Type) where
  name : String := ""
  builtin_id : Nat := 0
  alignment : xlnt.alignment × Bool := ({}, false)
  border : xlnt.border F × Bool := ({}, false)
  fill : xlnt.fill F × Bool := (.none, false)
  font : xlnt.font F × Bool := ({}, false)
  number_format : xlnt.number_format × Bool := ({}, false)
  protection : xlnt.protection × Bool := ({}, false)
deriving DecidableEq, Repr

/-- Modelled from the spec: Cell Format, which "holds a non-owning reference (by
name) to its Cell Style" next to its own components. -/
structure format (F : Type) where
  style : Option String := none
  alignment : xlnt.alignment × Bool := ({}, false)
  border : xlnt.border F × Bool := ({}, false)
  fill : xlnt.fill F × Bool := (.none, false)
  font : xlnt.font F × Bool := ({}, false)
  number_format : xlnt.number_format × Bool := ({}, false)
  protection : xlnt.protection × Bool := ({}, false)
deriving DecidableEq, Repr

/-- The style table of the destination (`destination_.impl().stylesheet_`), and the
flag `enable_x15` sets on the destination. -/
structure stylesheet (F : Type) where
  number_formats : List number_format := []
  fonts : List (font F) := []
  fills : List (fill F) := []
  borders : List (border F) := []
  styles : List (style F) := []
  formats : List (format F) := []
  x15 : Bool := false
deriving DecidableEq, Repr

/-! ## Shared strings and cells of the object model -/

/-- Modelled from the spec: one run of a shared string, "each run carrying its own
font/size/color/family/scheme formatting"; a field is `none` until its setter is
called. -/
structure text_run where
  string : String := ""
  size : Option Nat := none
  font : Option String := none
  color : Option String := none
  family : Option Nat := none
  scheme : Option String := none
deriving DecidableEq, Repr

/-- Modelled from the spec: a Shared String, "either a plain run or a sequence of
runs". -/
structure text where
  runs : List text_run := []
deriving DecidableEq, Repr

/-- The call `t.set_plain_string(s)`: the text becomes the single unformatted run `s`. -/
def text.set_plain_string (_t : text) (s : String) : text :=
  { runs := [{ string := s }] }

/-- The call `t.add_run(run)`. -/
def text.add_run (t : text) (run : text_run) : text :=
  { runs := t.runs ++ [run] }

/-- The setters of the cell object the worksheet reader calls, `F` being the type of
`long double`; `get_cell` records that the cell was fetched (and created when new). -/
inductive cell_call (F : Type) where
  | get_cell : cell_call F
  | set_formula (formula : String) : cell_call F
  | set_value_string (s : String) : cell_call F
  | set_value_text (t : text) : cell_call F
  | set_value_bool (b : Bool) : cell_call F
  | set_value_number (x : F) : cell_call F
  | set_error (s : String) : cell_call F
  | set_format (fmt : format F) : cell_call F
deriving DecidableEq, Repr

/-- Whether a call sets the value of the cell (`set_value` in one of its overloads,
or `set_error`). -/
def cell_call.sets_value {F : Type} : cell_call F → Bool
  | .set_value_string _ => true
  | .set_value_text _ => true
  | .set_value_bool _ => true
  | .set_value_number _ => true
  | .set_error _ => true
  | _ => false

/-- Modelled from the spec: Column Properties, "width, custom-width flag, style id";
a field is `none` until it is assigned. -/
structure column_properties (F : Type) where
  width : Option F := none
  custom : Option Bool := none
  style : Option Nat := none
deriving DecidableEq, Repr

/-- The page margins `set_page_margins` receives. -/
structure page_margins (F : Type) where
  top : F
  bottom : F
  left : F
  right : F
  header : F
  footer : F
deriving DecidableEq, Repr

/-- Modelled from the spec: a Worksheet of the object model, as far as the reader
writes it: title, id, and the setter calls made on its cells, each with the
reference of its cell, in the order they were made; then the flags the reader sets,
the references handed to `merge_cells` in the order of the calls, the "sparse
per-index override records" of rows (height) and columns, the reference handed to
`auto_filter` and the page margins. -/
structure worksheet (F : Type) where
  title_ : String := ""
  id_ : Nat := 0
  cell_calls : List (String × cell_call F) := []
  x14ac : Bool := false
  has_dimension_ : Bool := false
  has_view_ : Bool := false
  has_format_properties_ : Bool := false
  merged_cells_ : List String := []
  row_heights_ : List (Nat × F) := []
  column_properties_ : List (Nat × column_properties F) := []
  auto_filter_ : Option String := none
  page_margins_ : Option (page_margins F) := none
deriving DecidableEq, Repr

/-- A call on the cell `ref` of the worksheet. -/
def worksheet.call {F : Type} (ws : worksheet F) (ref : String) (c : cell_call F) : worksheet F :=
  { ws with cell_calls := ws.cell_calls ++ [(ref, c)] }

/-! ## `read_worksheet`: one cell (source lines 1528-1607) -/

/-- The locals of the cell loop that the child elements of `c` fill in (source
lines 1537-1542). -/
structure cell_locals where
  has_value : Bool := false
  value_string : String := ""
  has_formula : Bool := false
  has_shared_formula : Bool := false
  formula_value_string : String := ""
deriving DecidableEq, Repr

/-- Source lines 1550-1566: the branch on the name of one child of `c`. -/
def read_cell_child (xmlns : String) (p : parser) (l : cell_locals) :
    Except error (parser × cell_locals) :=
  if p.qname = ⟨xmlns, "v"⟩ then
    .ok (p, { l with has_value := true, value_string := p.value })
  else if p.qname = ⟨xmlns, "f"⟩ then
    .ok (p, { l with
      has_formula := true
      has_shared_formula := p.attribute_present "t" &&
        (match p.attribute "t" with | .ok v => decide (v = "shared") | .error _ => false)
      formula_value_string := p.value })
  else if p.qname = ⟨xmlns, "is"⟩ then
    match p.next_expect_qname .start_element ⟨xmlns, "t"⟩ with
    | .error e => .error e
    | .ok p1 =>
      match p1.next_expect_qname .end_element ⟨xmlns, "t"⟩ with
      | .error e => .error e
      | .ok p2 => .ok (p2, { l with value_string := p1.value })
  else .ok (p, l)

/-- Source lines 1544-1569: the loop over the children of `c`. -/
def read_cell_children (xmlns : String) : Nat → parser → cell_locals →
    Except error (parser × cell_locals)
  | 0, _, _ => .error .nontermination
  | fuel + 1, p, l =>
    if p.peek = .end_element then .ok (p, l)
    else
      match p.next_expect .start_element with
      | .error e => .error e
      | .ok p1 =>
        match read_cell_child xmlns p1 l with
        | .error e => .error e
        | .ok (p2, l2) =>
          match p2.next_expect_qname .end_element p2.qname with
          | .error e => .error e
          | .ok p3 => read_cell_children xmlns fuel p3 l2

/-- Source lines 1571-1574: the formula is stored. -/
def store_cell_formula {F : Type} (data_only : Bool) (l : cell_locals) (ref : String)
    (ws : worksheet F) : worksheet F :=
  if l.has_formula && !l.has_shared_formula && !data_only then
    ws.call ref (.set_formula l.formula_value_string)
  else ws

/-- Source lines 1576-1600: the value is stored according to the type code. -/
def store_cell_value {F : Type} (stold : String → Except error F) (shared_strings : List text)
    (has_type : Bool) (type : String) (l : cell_locals) (ref : String) (ws : worksheet F) :
    Except error (worksheet F) :=
  if has_type && (type = "inlineStr" || type = "str") then
    .ok (ws.call ref (.set_value_string l.value_string))
  else if has_type && type = "s" && !l.has_formula then
    match stoull l.value_string with
    | .error e => .error e
    | .ok shared_string_index =>
      match shared_strings[shared_string_index]? with
      | none => .error .out_of_range
      | some shared_string => .ok (ws.call ref (.set_value_text shared_string))
  else if has_type && type = "b" then
    .ok (ws.call ref (.set_value_bool (l.value_string != "0")))
  else if l.has_value && l.value_string != "" then
    if l.value_string != "" && l.value_string.toList.head? = some (Char.ofNat 35) then
      .ok (ws.call ref (.set_error l.value_string))
    else
      match stold l.value_string with
      | .error e => .error e
      | .ok x => .ok (ws.call ref (.set_value_number x))
  else .ok ws

/-- Source lines 1528-1607: one `c` element of a row.  The reference of the cell is
kept as the text of the attribute `r`.  `formats` is the format table of the
destination, and `destination_.get_format(format_id)`, defined outside the source, is
its entry at `format_id`, `out_of_range` when there is none. -/
def read_cell {F : Type} (xmlns : String) (stold : String → Except error F)
    (shared_strings : List text) (formats : List (format F)) (data_only : Bool) (p : parser)
    (ws : worksheet F) : res (worksheet F) :=
  match p.next_expect_qname .start_element ⟨xmlns, "c"⟩ with
  | .error e => .fail e ws
  | .ok p1 =>
  match p1.attribute "r" with
  | .error e => .fail e ws
  | .ok ref =>
  let ws1 := ws.call ref .get_cell
  let has_type := p1.attribute_present "t"
  let type := if has_type then (match p1.attribute "t" with | .ok v => v | .error _ => "") else ""
  let has_format := p1.attribute_present "s"
  match (if has_format then (match p1.attribute "s" with | .ok v => stoull v | .error e => .error e)
         else .ok 0) with
  | .error e => .fail e ws1
  | .ok format_id =>
  match read_cell_children xmlns (p1.rest.length + 1) p1 {} with
  | .error e => .fail e ws1
  | .ok (p2, l) =>
  let ws2 := store_cell_formula data_only l ref ws1
  match store_cell_value stold shared_strings has_type type l ref ws2 with
  | .error e => .fail e ws2
  | .ok ws3 =>
  match ((if has_format then
          (match formats[format_id]? with
            | some fmt => .ok (ws3.call ref (.set_format fmt))
            | none => .error .out_of_range)
         else .ok ws3) : Except error (worksheet F)) with
  | .error e => .fail e ws3
  | .ok ws4 =>
  match p2.next_expect_qname .end_element ⟨xmlns, "c"⟩ with
  | .error e => .fail e ws4
  | .ok p3 => .ok p3 ws4

/-- The conversion `std::stold` on unsigned decimal integers, whose value is the
integer itself; used where a concrete conversion is needed. -/
def stold_decimal (s : String) : Except error Nat :=
  if s.toList ≠ [] ∧ s.toList.all Char.isDigit then .ok (digits_value s.toList)
  else .error .invalid_argument

/-- A decimal numeral: a non-empty string of digits. -/
def is_numeral (s : String) : Prop :=
  s.toList ≠ [] ∧ ∀ c ∈ s.toList, c.isDigit = true

instance (s : String) : Decidable (is_numeral s) := by
  unfold is_numeral
  infer_instance

/-! ## `read_workbook`: the sheet list (source lines 825-847), and the insertion of a
worksheet by `read_worksheet` (source lines 1382-1399) -/

/-- The call `parser.attribute(qn)` for a qualified name. -/
def parser.attribute_qname (p : parser) (q : xlnt.qname) : Except error String :=
  match lookup_attribute q p.attrs with
  | some v => .ok v
  | none => .error .parsing

/-- The maps `read_workbook` fills from the sheet list and the worksheet sequence of
the destination: `sheet_title_id_map_` and `sheet_title_index_map_` are members of
the consumer, `sheet_title_rel_id_map_` and `worksheets_` of the destination. -/
structure sheet_state (F : Type) where
  sheet_title_id_map_ : List (String × Nat) := []
  sheet_title_index_map_ : List (String × Nat) := []
  sheet_title_rel_id_map_ : List (String × String) := []
  worksheets_ : List (worksheet F) := []
deriving DecidableEq, Repr

/-- Source lines 829-844: the loop over the `sheet` elements, `index` counting them. -/
def read_workbook_sheets_loop {F : Type} (xmlns_s xmlns_r : String) :
    Nat → parser → Nat → sheet_state F → Except error (parser × Nat × sheet_state F)
  | 0, _, _, _ => .error .nontermination
  | fuel + 1, p, index, st =>
    if p.peek = .end_element then .ok (p, index, st)
    else
      match p.next_expect_qname .start_element ⟨xmlns_s, "sheet"⟩ with
      | .error e => .error e
      | .ok p1 =>
        match p1.attribute_qname ⟨xmlns_r, "id"⟩ with
        | .error e => .error e
        | .ok rel_id =>
          match p1.attribute "name" with
          | .error e => .error e
          | .ok title =>
            match p1.attribute "sheetId" with
            | .error e => .error e
            | .ok id_text =>
              match string_to_size_t id_text with
              | .error e => .error e
              | .ok id =>
                match p1.next_expect_qname .end_element ⟨xmlns_s, "sheet"⟩ with
                | .error e => .error e
                | .ok p2 =>
                  read_workbook_sheets_loop xmlns_s xmlns_r fuel p2 (index + 1)
                    { st with
                      sheet_title_id_map_ := map_set st.sheet_title_id_map_ title id
                      sheet_title_index_map_ := map_set st.sheet_title_index_map_ title index
                      sheet_title_rel_id_map_ := map_set st.sheet_title_rel_id_map_ title rel_id }

/-- Source lines 825-847: the branch of `read_workbook` for the element `sheets`, whose
start tag has been consumed. -/
def read_workbook_sheets {F : Type} (xmlns xmlns_s xmlns_r : String) (p : parser)
    (st : sheet_state F) : Except error (parser × sheet_state F) :=
  match read_workbook_sheets_loop xmlns_s xmlns_r (p.rest.length + 1) p 0 st with
  | .error e => .error e
  | .ok (p1, _, st1) =>
    match p1.next_expect_qname .end_element ⟨xmlns, "sheets"⟩ with
    | .error e => .error e
    | .ok p2 => .ok (p2, st1)

/-- Source lines 1392-1399: the worksheet is put before the first worksheet whose
declared index is not below `index`. -/
def insert_worksheet {F : Type} (sheet_title_index_map_ : List (String × Nat)) (index : Nat)
    (ws : worksheet F) : List (worksheet F) → List (worksheet F)
  | [] => [ws]
  | x :: xs =>
    if map_get sheet_title_index_map_ x.title_ < index then
      x :: insert_worksheet sheet_title_index_map_ index ws xs
    else ws :: x :: xs

/-- Source lines 1382-1399: the beginning of `read_worksheet(rel_id, parser)`, up to
the insertion of the new worksheet.  `find_if` visits the entries of the map in the
order of the list; dereferencing its result when no entry has the relationship id is
undefined. -/
def read_worksheet_insert {F : Type} (rel_id : String) (st : sheet_state F) :
    Except error (sheet_state F) :=
  match st.sheet_title_rel_id_map_.find? (fun p => p.2 = rel_id) with
  | none => .error .undefined
  | some (title, _) =>
    let id := map_get st.sheet_title_id_map_ title
    let index := map_get st.sheet_title_index_map_ title
    .ok { st with worksheets_ :=
      (insert_worksheet st.sheet_title_index_map_ index { title_ := title, id_ := id }
        st.worksheets_) }

/-- The calls `read_worksheet(rel_id, _)` of the second pass, one after the other, as
far as the worksheet sequence is concerned. -/
def read_worksheets_insert {F : Type} : List String → sheet_state F →
    Except error (sheet_state F)
  | [], st => .ok st
  | rel_id :: rel_ids, st =>
    match read_worksheet_insert rel_id st with
    | .error e => .error e
    | .ok st1 => read_worksheets_insert rel_ids st1

/-- The events of the element `<sheet r:id=.. name=.. sheetId=../>` for a declared
sheet `(rel_id, title, sheetId)`. -/
def sheet_events (xmlns_s xmlns_r : String) (s : String × String × String) : List event :=
  element_events ⟨xmlns_s, "sheet"⟩
    [(⟨xmlns_r, "id"⟩, s.1), (⟨"", "name"⟩, s.2.1), (⟨"", "sheetId"⟩, s.2.2)] "" []

/-- The events of the children of `<sheets>` followed by its end tag. -/
def sheets_events (xmlns xmlns_s xmlns_r : String) (sheets : List (String × String × String)) :
    List event :=
  (sheets.map (sheet_events xmlns_s xmlns_r)).flatten ++ [⟨.end_element, ⟨xmlns, "sheets"⟩, [], ""⟩]

/-! ## `read_shared_string_table` (source lines 910-994) -/

/-- Source lines 958-977: one child of `rPr` sets one property of the run. -/
def read_run_property (xmlns : String) (p : parser) (run : text_run) : Except error text_run :=
  if p.qname = ⟨xmlns, "sz"⟩ then
    match p.attribute "val" with
    | .error e => .error e
    | .ok v =>
      match string_to_size_t v with
      | .error e => .error e
      | .ok n => .ok { run with size := some n }
  else if p.qname = ⟨xmlns, "rFont"⟩ then
    match p.attribute "val" with
    | .error e => .error e
    | .ok v => .ok { run with font := some v }
  else if p.qname = ⟨xmlns, "color"⟩ then
    match p.attribute "rgb" with
    | .error e => .error e
    | .ok v => .ok { run with color := some v }
  else if p.qname = ⟨xmlns, "family"⟩ then
    match p.attribute "val" with
    | .error e => .error e
    | .ok v =>
      match string_to_size_t v with
      | .error e => .error e
      | .ok n => .ok { run with family := some n }
  else if p.qname = ⟨xmlns, "scheme"⟩ then
    match p.attribute "val" with
    | .error e => .error e
    | .ok v => .ok { run with scheme := some v }
  else .ok run

/-- Source lines 952-980: the loop over the children of `rPr`. -/
def read_run_properties (xmlns : String) : Nat → parser → text_run →
    Except error (parser × text_run)
  | 0, _, _ => .error .nontermination
  | fuel + 1, p, run =>
    if p.peek = .end_element then .ok (p, run)
    else
      match p.next_expect .start_element with
      | .error e => .error e
      | .ok p1 =>
        match read_run_property xmlns p1 run with
        | .error e => .error e
        | .ok run1 =>
          match p1.next_expect_qname .end_element p1.qname with
          | .error e => .error e
          | .ok p2 => read_run_properties xmlns fuel p2 run1

/-- Source lines 939-984: the loop that collects the runs of a rich-text entry. -/
def read_runs (xmlns : String) : Nat → parser → text → Except error (parser × text)
  | 0, _, _ => .error .nontermination
  | fuel + 1, p, t =>
    if p.peek = .end_element then .ok (p, t)
    else
      match p.next_expect_qname .start_element ⟨xmlns, "t"⟩ with
      | .error e => .error e
      | .ok p1 =>
        let run : text_run := { string := p1.value }
        if p1.peek = .start_element then
          match p1.next_expect_qname .start_element ⟨xmlns, "rPr"⟩ with
          | .error e => .error e
          | .ok p2 =>
            match read_run_properties xmlns (p2.rest.length + 1) p2 run with
            | .error e => .error e
            | .ok (p3, run3) => read_runs xmlns fuel p3 (t.add_run run3)
        else read_runs xmlns fuel p1 (t.add_run run)

/-- Source lines 928-985: what follows the start tag of one `si`: its first child
decides between a plain string, a sequence of runs and an empty text. -/
def read_shared_string (xmlns : String) (p : parser) : Except error (parser × text) :=
  match p.next_expect .start_element with
  | .error e => .error e
  | .ok p1 =>
    if p1.name = "t" then .ok (p1, ({} : text).set_plain_string p1.value)
    else if p1.name = "r" then read_runs xmlns (p1.rest.length + 1) p1 {}
    else .ok (p1, {})

/-- Source lines 924-988: the loop over the `si` entries; every entry is appended to
the shared strings of the destination. -/
def read_shared_strings (xmlns : String) : Nat → parser → List text → res (List text)
  | 0, _, strings => .fail .nontermination strings
  | fuel + 1, p, strings =>
    if p.peek = .end_element then .ok p strings
    else
      match p.next_expect_qname .start_element ⟨xmlns, "si"⟩ with
      | .error e => .fail e strings
      | .ok p1 =>
        match read_shared_string xmlns p1 with
        | .error e => .fail e strings
        | .ok (p2, t) => read_shared_strings xmlns fuel p2 (strings ++ [t])

/-- Source lines 910-994: `read_shared_string_table`; `strings` are the shared
strings of the destination. -/
def read_shared_string_table (xmlns : String) (p : parser) (strings : List text) :
    res (List text) :=
  match p.next_expect_qname .start_element ⟨xmlns, "sst"⟩ with
  | .error e => .fail e strings
  | .ok p1 =>
    match (if p1.attribute_present "uniqueCount" then
            (match p1.attribute "uniqueCount" with
              | .ok v => string_to_size_t v
              | .error e => .error e)
           else .ok 0) with
    | .error e => .fail e strings
    | .ok unique_count =>
      match read_shared_strings xmlns (p1.rest.length + 1) p1 strings with
      | .fail e strings1 => .fail e strings1
      | .ok p2 strings1 =>
        if unique_count ≠ strings1.length then .fail (.invalid_file "sizes don't match") strings1
        else .ok p2 strings1

/-- The events of the plain entry `<si><t>s</t></si>`. -/
def plain_si_events (xmlns : String) (s : String) : List event :=
  element_events ⟨xmlns, "si"⟩ [] "" (element_events ⟨xmlns, "t"⟩ [] s [])

/-- The events of a shared-string part that declares `uniqueCount` and holds the
plain entries `ss`. -/
def plain_sst_events (xmlns : String) (unique_count : String) (ss : List String) : List event :=
  element_events ⟨xmlns, "sst"⟩ [(⟨"", "uniqueCount"⟩, unique_count)] ""
    (ss.map (plain_si_events xmlns)).flatten

/-! ## The readers of the style components (source lines 60-347) -/

/-- Source lines 60-71: `read_protection`. -/
def read_protection (p : parser) : Except error (parser × protection) :=
  match p.next_expect_qname .start_element ⟨"", "protection"⟩ with
  | .error e => .error e
  | .ok p1 =>
    match p1.attribute "locked" with
    | .error e => .error e
    | .ok locked =>
      match p1.attribute "hidden" with
      | .error e => .error e
      | .ok hidden =>
        match p1.next_expect_qname .end_element ⟨"", "protection"⟩ with
        | .error e => .error e
        | .ok p2 => .ok (p2, { locked := is_true locked, hidden := is_true hidden })

/-- Source lines 73-91: `read_alignment`. -/
def read_alignment {F : Type} (vt : value_traits F) (p : parser) : Except error alignment :=
  match p.attribute "wrapText" with
  | .error e => .error e
  | .ok wrap =>
    match p.attribute "shrinkToFit" with
    | .error e => .error e
    | .ok shrink =>
      let align : alignment := { wrap := some (is_true wrap), shrink := some (is_true shrink) }
      match (if p.attribute_present "vertical" then
              (match p.attribute "vertical" with
                | .ok v => (vt.to_enum "vertical_alignment" v).map
                    (fun x => { align with vertical := some x })
                | .error e => .error e)
             else .ok align) with
      | .error e => .error e
      | .ok align1 =>
        if p.attribute_present "horizontal" then
          match p.attribute "horizontal" with
          | .ok v => (vt.to_enum "horizontal_alignment" v).map
              (fun x => { align1 with horizontal := some x })
          | .error e => .error e
        else .ok align1

/-- Source lines 93-121: `read_color`. -/
def read_color {F : Type} (vt : value_traits F) (p : parser) : Except error (color F) :=
  if p.attribute_present "auto" then .ok {}
  else
    match (if p.attribute_present "rgb" then
            (match p.attribute "rgb" with
              | .ok v => .ok ({ kind := .rgb v } : color F)
              | .error e => .error e)
           else if p.attribute_present "theme" then
            (match p.attribute "theme" with
              | .ok v => (string_to_size_t v).map (fun n => ({ kind := .theme n } : color F))
              | .error e => .error e)
           else if p.attribute_present "indexed" then
            (match p.attribute "indexed" with
              | .ok v => (string_to_size_t v).map (fun n => ({ kind := .indexed n } : color F))
              | .error e => .error e)
           else .ok {}) with
    | .error e => .error e
    | .ok result =>
      if p.attribute_present "tint" then
        match p.attribute "tint" with
        | .ok v => (vt.to_double v).map (fun x => { result with tint := some x })
        | .error e => .error e
      else .ok result

/-- The pattern `if (attribute_present("val")) x(is_true(attribute("val"))) else x(true)`
of source lines 159-191. -/
def read_flag (p : parser) : Bool :=
  if p.attribute_present "val" then
    (match p.attribute "val" with | .ok v => is_true v | .error _ => true)
  else true

/-- Source lines 139-202: one child of `font` sets one property. -/
def read_font_child {F : Type} (vt : value_traits F) (p : parser) (f : font F) :
    Except error (font F) :=
  if p.name = "sz" then
    match p.attribute "val" with
    | .error e => .error e
    | .ok v => (string_to_size_t v).map (fun n => { f with size := some n })
  else if p.name = "name" then
    (p.attribute "val").map (fun v => { f with name := some v })
  else if p.name = "color" then
    (read_color vt p).map (fun c => { f with color := some c })
  else if p.name = "family" then
    match p.attribute "val" with
    | .error e => .error e
    | .ok v => (string_to_size_t v).map (fun n => { f with family := some n })
  else if p.name = "scheme" then
    (p.attribute "val").map (fun v => { f with scheme := some v })
  else if p.name = "b" then .ok { f with bold := some (read_flag p) }
  else if p.name = "strike" then .ok { f with strikethrough := some (read_flag p) }
  else if p.name = "i" then .ok { f with italic := some (read_flag p) }
  else if p.name = "u" then
    if p.attribute_present "val" then
      match p.attribute "val" with
      | .ok v => (vt.to_enum "underline_style" v).map (fun x => { f with underline := some x })
      | .error e => .error e
    else .ok { f with underline := some "single" }
  else .ok f

/-- Source lines 132-205: the loop over the children of `font`. -/
def read_font_children {F : Type} (vt : value_traits F) : Nat → parser → font F →
    Except error (parser × font F)
  | 0, _, _ => .error .nontermination
  | fuel + 1, p, f =>
    if p.peek = .end_element then .ok (p, f)
    else
      match p.next_expect .start_element with
      | .error e => .error e
      | .ok p1 =>
        match read_font_child vt p1 f with
        | .error e => .error e
        | .ok f1 =>
          match p1.next_expect .end_element with
          | .error e => .error e
          | .ok p2 => read_font_children vt fuel p2 f1

/-- Source lines 123-210: `read_font`. -/
def read_font {F : Type} (vt : value_traits F) (xmlns : String) (p : parser) :
    Except error (parser × font F) :=
  match p.next_expect_qname .start_element ⟨xmlns, "font"⟩ with
  | .error e => .error e
  | .ok p1 =>
    match read_font_children vt (p1.rest.length + 1) p1 {} with
    | .error e => .error e
    | .ok (p2, f) =>
      match p2.next_expect_qname .end_element ⟨xmlns, "font"⟩ with
      | .error e => .error e
      | .ok p3 => .ok (p3, f)

/-- Source lines 247-266: the loop over the children of `patternFill`. -/
def read_pattern_fill_children {F : Type} (vt : value_traits F) : Nat → parser →
    pattern_fill F → Except error (parser × pattern_fill F)
  | 0, _, _ => .error .nontermination
  | fuel + 1, p, pattern =>
    if p.peek = .end_element then .ok (p, pattern)
    else
      match p.next_expect .start_element with
      | .error e => .error e
      | .ok p1 =>
        match (if p1.name = "fgColor" then
                (read_color vt p1).map (fun c => { pattern with foreground := some c })
               else if p1.name = "bgColor" then
                (read_color vt p1).map (fun c => { pattern with background := some c })
               else .ok pattern) with
        | .error e => .error e
        | .ok pattern1 =>
          match p1.next_expect .end_element with
          | .error e => .error e
          | .ok p2 => read_pattern_fill_children vt fuel p2 pattern1

/-- Source lines 284-296: the loop over the `stop` children of `gradientFill`. -/
def read_gradient_fill_stops {F : Type} (vt : value_traits F) : Nat → parser →
    gradient_fill F → Except error (parser × gradient_fill F)
  | 0, _, _ => .error .nontermination
  | fuel + 1, p, gradient =>
    if p.peek = .end_element then .ok (p, gradient)
    else
      match p.next_expect_qname .start_element ⟨"", "stop"⟩ with
      | .error e => .error e
      | .ok p1 =>
        match p1.attribute "position" with
        | .error e => .error e
        | .ok position_text =>
          match vt.to_double position_text with
          | .error e => .error e
          | .ok position =>
            match p1.next_expect_qname .start_element ⟨"", "color"⟩ with
            | .error e => .error e
            | .ok p2 =>
              match read_color vt p2 with
              | .error e => .error e
              | .ok c =>
                match p2.next_expect_qname .end_element ⟨"", "color"⟩ with
                | .error e => .error e
                | .ok p3 =>
                  match p3.next_expect_qname .end_element ⟨"", "stop"⟩ with
                  | .error e => .error e
                  | .ok p4 =>
                    read_gradient_fill_stops vt fuel p4
                      { gradient with stops := gradient.stops ++ [(position, c)] }

/-- Source lines 239-299: the child of `fill`, whose start tag is the current event. -/
def read_fill_child {F : Type} (vt : value_traits F) (xmlns : String) (p : parser) :
    Except error (parser × fill F) :=
  if p.qname = ⟨xmlns, "patternFill"⟩ then
    if p.attribute_present "patternType" then
      match p.attribute "patternType" with
      | .error e => .error e
      | .ok v =>
        match vt.to_enum "pattern_fill_type" v with
        | .error e => .error e
        | .ok type =>
          match read_pattern_fill_children vt (p.rest.length + 1) p { type := some type } with
          | .error e => .error e
          | .ok (p1, pattern) => .ok (p1, .pattern pattern)
    else .ok (p, .pattern {})
  else if p.qname = ⟨xmlns, "gradientFill"⟩ then
    match (if p.attribute_present "type" then
            (match p.attribute "type" with
              | .ok v => vt.to_enum "gradient_fill_type" v
              | .error e => .error e)
           else .ok "linear") with
    | .error e => .error e
    | .ok type =>
      match read_gradient_fill_stops vt (p.rest.length + 1) p { type := some type } with
      | .error e => .error e
      | .ok (p1, gradient) => .ok (p1, .gradient gradient)
  else .ok (p, .none)

/-- Source lines 229-305: `read_fill`. -/
def read_fill {F : Type} (vt : value_traits F) (xmlns : String) (p : parser) :
    Except error (parser × fill F) :=
  match p.next_expect_qname .start_element ⟨xmlns, "fill"⟩ with
  | .error e => .error e
  | .ok p1 =>
    match p1.next_expect .start_element with
    | .error e => .error e
    | .ok p2 =>
      match read_fill_child vt xmlns p2 with
      | .error e => .error e
      | .ok (p3, new_fill) =>
        match p3.next_expect .end_element with
        | .error e => .error e
        | .ok p4 =>
          match p4.next_expect .end_element with
          | .error e => .error e
          | .ok p5 => .ok (p5, new_fill)

/-- Source lines 307-324: `read_side`. -/
def read_side {F : Type} (vt : value_traits F) (p : parser) :
    Except error (parser × border_property F) :=
  match (if p.attribute_present "style" then
          (match p.attribute "style" with
            | .ok v => (vt.to_enum "border_style" v).map
                (fun x => ({ style := some x } : border_property F))
            | .error e => .error e)
         else .ok {}) with
  | .error e => .error e
  | .ok new_side =>
    if p.peek = .start_element then
      match p.next_expect_qname .start_element ⟨"", "color"⟩ with
      | .error e => .error e
      | .ok p1 =>
        match read_color vt p1 with
        | .error e => .error e
        | .ok c =>
          match p1.next_expect_qname .end_element ⟨"", "color"⟩ with
          | .error e => .error e
          | .ok p2 => .ok (p2, { new_side with color := some c })
    else .ok (p, new_side)

/-- Source lines 333-342: the loop over the sides of a `border`. -/
def read_border_sides {F : Type} (vt : value_traits F) : Nat → parser → border F →
    Except error (parser × border F)
  | 0, _, _ => .error .nontermination
  | fuel + 1, p, new_border =>
    if p.peek = .end_element then .ok (p, new_border)
    else
      match p.next_expect .start_element with
      | .error e => .error e
      | .ok p1 =>
        match vt.to_enum "border_side" p1.name with
        | .error e => .error e
        | .ok side_type =>
          match read_side vt p1 with
          | .error e => .error e
          | .ok (p2, side) =>
            match p2.next_expect .end_element with
            | .error e => .error e
            | .ok p3 => read_border_sides vt fuel p3 (new_border.side side_type side)

/-- Source lines 326-347: `read_border`. -/
def read_border {F : Type} (vt : value_traits F) (p : parser) :
    Except error (parser × border F) :=
  match p.next_expect .start_element with
  | .error e => .error e
  | .ok p1 =>
    match read_border_sides vt (p1.rest.length + 1) p1 {} with
    | .error e => .error e
    | .ok (p2, new_border) =>
      match p2.next_expect .end_element with
      | .error e => .error e
      | .ok p3 => .ok (p3, new_border)

/-! ## `read_stylesheet` (source lines 1008-1365) -/

/-- Source lines 1037-1046: `formatting_record`, with its default member values. -/
structure formatting_record where
  alignment : xlnt.alignment × Bool := ({}, false)
  border_id : Nat × Bool := (0, false)
  fill_id : Nat × Bool := (0, false)
  font_id : Nat × Bool := (0, false)
  number_format_id : Nat × Bool := (0, false)
  protection : xlnt.protection × Bool := ({}, false)
  style_id : Nat × Bool := (0, false)
deriving DecidableEq, Repr

/-- Source lines 1048-1053: `style_data`. -/
structure style_data where
  name : String := ""
  record_id : Nat := 0
  builtin_id : Nat := 0
deriving DecidableEq, Repr

/-- The style table of the destination together with the three local vectors of
`read_stylesheet` (source lines 1055-1057). -/
structure style_state (F : Type) where
  stylesheet : xlnt.stylesheet F := {}
  style_datas : List style_data := []
  style_records : List formatting_record := []
  format_records : List formatting_record := []
deriving DecidableEq, Repr

/-- The pattern `attribute_present(n) && is_true(attribute(n))` of source lines
1187-1218. -/
def attribute_applied (p : parser) (n : String) : Bool :=
  p.attribute_present n && (match p.attribute n with | .ok v => is_true v | .error _ => false)

/-- The pattern `attribute_present(n) ? string_to_size_t(attribute(n)) : 0` of source
lines 1194-1213. -/
def attribute_index (p : parser) (n : String) : Except error Nat :=
  if p.attribute_present n then
    (match p.attribute n with | .ok v => string_to_size_t v | .error e => .error e)
  else .ok 0

/-- Source lines 1187-1224: the record an `xf` start tag yields from its attributes;
`p.name` is the name of the current element, which is `xf` here. -/
def read_xf_attributes (p : parser) : Except error formatting_record :=
  let alignment_applied := attribute_applied p "applyAlignment"
  let border_applied := attribute_applied p "applyBorder"
  match attribute_index p "borderId" with
  | .error e => .error e
  | .ok border_index =>
    let fill_applied := attribute_applied p "applyFill"
    match attribute_index p "fillId" with
    | .error e => .error e
    | .ok fill_index =>
      let font_applied := attribute_applied p "applyFont"
      match attribute_index p "fontId" with
      | .error e => .error e
      | .ok font_index =>
        let number_format_applied := attribute_applied p "applyNumberFormat"
        match attribute_index p "numFmtId" with
        | .error e => .error e
        | .ok number_format_id =>
          let protection_applied := attribute_applied p "applyProtection"
          let record : formatting_record :=
            { alignment := ({}, alignment_applied)
              border_id := (border_index, border_applied)
              fill_id := (fill_index, fill_applied)
              font_id := (font_index, font_applied)
              number_format_id := (number_format_id, number_format_applied)
              protection := ({}, protection_applied) }
          if p.attribute_present "xfId" && p.name = "cellXfs" then
            match p.attribute_size_t "xfId" with
            | .error e => .error e
            | .ok xf_id => .ok { record with style_id := (xf_id, true) }
          else .ok record

/-- Source lines 1226-1244: the loop over the children of `xf`; the two flags are
`apply_alignment_present || ...` as computed from the attributes of `xf`. -/
def read_xf_children {F : Type} (vt : value_traits F) (xmlns : String)
    (alignment_flag protection_flag : Bool) : Nat → parser → formatting_record →
    Except error (parser × formatting_record)
  | 0, _, _ => .error .nontermination
  | fuel + 1, p, record =>
    if p.peek = .end_element then .ok (p, record)
    else
      match p.next_expect .start_element with
      | .error e => .error e
      | .ok p1 =>
        match (if p1.qname = ⟨xmlns, "alignment"⟩ then
                (read_alignment vt p1).map
                  (fun a => (p1, { record with alignment := (a, alignment_flag) }))
               else if p1.qname = ⟨xmlns, "protection"⟩ then
                (read_protection p1).map
                  (fun r => (r.1, { record with protection := (r.2, protection_flag) }))
               else .ok (p1, record)) with
        | .error e => .error e
        | .ok (p2, record1) =>
          match p2.next_expect_qname .end_element p2.qname with
          | .error e => .error e
          | .ok p3 => read_xf_children vt xmlns alignment_flag protection_flag fuel p3 record1

/-- Source lines 1181-1246: one `xf` element. -/
def read_xf {F : Type} (vt : value_traits F) (xmlns : String) (p : parser) :
    Except error (parser × formatting_record) :=
  match p.next_expect_qname .start_element ⟨xmlns, "xf"⟩ with
  | .error e => .error e
  | .ok p1 =>
    match read_xf_attributes p1 with
    | .error e => .error e
    | .ok record =>
      match read_xf_children vt xmlns
          (!p1.attribute_present "applyAlignment" || attribute_applied p1 "applyAlignment")
          (!p1.attribute_present "applyProtection" || attribute_applied p1 "applyProtection")
          (p1.rest.length + 1) p1 record with
      | .error e => .error e
      | .ok (p2, record1) =>
        match p2.next_expect_qname .end_element ⟨xmlns, "xf"⟩ with
        | .error e => .error e
        | .ok p3 => .ok (p3, record1)

/-- Source lines 1177-1248: the loop over the `xf` elements of `cellStyleXfs` or
`cellXfs`. -/
def read_xfs {F : Type} (vt : value_traits F) (xmlns : String) (in_style_records : Bool) :
    Nat → parser → style_state F → res (style_state F)
  | 0, _, st => .fail .nontermination st
  | fuel + 1, p, st =>
    if p.peek = .end_element then .ok p st
    else
      match read_xf vt xmlns p with
      | .error e => .fail e st
      | .ok (p1, record) =>
        read_xfs vt xmlns in_style_records fuel p1
          (if in_style_records then { st with style_records := st.style_records ++ [record] }
           else { st with format_records := st.format_records ++ [record] })

/-- Source lines 1072-1076, 1089-1093 and 1111-1115: the loop that reads the children
of `borders`, `fills` or `fonts` with `read_one` and hands each to `push`. -/
def read_components {F α : Type} (read_one : parser → Except error (parser × α))
    (push : style_state F → α → style_state F) :
    Nat → parser → style_state F → res (style_state F)
  | 0, _, st => .fail .nontermination st
  | fuel + 1, p, st =>
    if p.peek = .end_element then .ok p st
    else
      match read_one p with
      | .error e => .fail e st
      | .ok (p1, x) => read_components read_one push fuel p1 (push st x)

/-- Source lines 1126-1144: the loop over the `numFmt` elements. -/
def read_number_formats {F : Type} : Nat → parser → style_state F → res (style_state F)
  | 0, _, st => .fail .nontermination st
  | fuel + 1, p, st =>
    if p.peek = .end_element then .ok p st
    else
      match p.next_expect_qname .start_element ⟨"", "numFmt"⟩ with
      | .error e => .fail e st
      | .ok p1 =>
        match p1.attribute "formatCode" with
        | .error e => .fail e st
        | .ok format_string =>
          match p1.attribute "numFmtId" with
          | .error e => .fail e st
          | .ok id_text =>
            match string_to_size_t id_text with
            | .error e => .fail e st
            | .ok id =>
              read_number_formats fuel p1
                { st with stylesheet := { st.stylesheet with
                    number_formats := st.stylesheet.number_formats ++
                      [{ format_string :=
                          if format_string = "GENERAL" then "General" else format_string
                         id := id }] } }

/-- Source lines 1153-1164: the loop over the `cellStyle` elements. -/
def read_cell_styles {F : Type} (xmlns : String) : Nat → parser → style_state F →
    res (style_state F)
  | 0, _, st => .fail .nontermination st
  | fuel + 1, p, st =>
    if p.peek = .end_element then .ok p st
    else
      match p.next_expect_qname .start_element ⟨xmlns, "cellStyle"⟩ with
      | .error e => .fail e st
      | .ok p1 =>
        match p1.attribute "name" with
        | .error e => .fail e st
        | .ok name =>
          match p1.attribute_size_t "xfId" with
          | .error e => .fail e st
          | .ok record_id =>
            match p1.attribute_size_t "builtinId" with
            | .error e => .fail e st
            | .ok builtin_id =>
              match p1.next_expect_qname .end_element ⟨xmlns, "cellStyle"⟩ with
              | .error e => .fail e st
              | .ok p2 =>
                read_cell_styles xmlns fuel p2
                  { st with style_datas := st.style_datas ++
                      [{ name := name, record_id := record_id, builtin_id := builtin_id }] }

/-- Source lines 1261-1266 and 1280-1285: the loop that skips the children of `dxfs`
and `tableStyles`. -/
def skip_children : Nat → parser → Except error parser
  | 0, _ => .error .nontermination
  | fuel + 1, p =>
    if p.peek = .end_element then .ok p
    else
      match p.next_expect .start_element with
      | .error e => .error e
      | .ok p1 =>
        match p1.next_expect .end_element with
        | .error e => .error e
        | .ok p2 => skip_children fuel p2

/-- The check `if (count != size) throw xlnt::exception("counts don't match")` that
ends the branch of a counted table. -/
def check_count {F : Type} (count size : Nat) (r : res (style_state F)) : res (style_state F) :=
  match r with
  | .fail e st => .fail e st
  | .ok p st =>
    if count ≠ size then .fail (.exception "counts don't match") st else .ok p st

/-- Source lines 1066-1082: the branch `borders`. -/
def read_stylesheet_borders {F : Type} (vt : value_traits F) (p : parser) (st : style_state F) :
    res (style_state F) :=
  let st0 := { st with stylesheet := { st.stylesheet with borders := [] } }
  match p.attribute_size_t "count" with
  | .error e => .fail e st0
  | .ok count =>
    match read_components (read_border vt)
        (fun s b => { s with stylesheet := { s.stylesheet with
          borders := s.stylesheet.borders ++ [b] } })
        (p.rest.length + 1) p st0 with
    | .fail e st1 => .fail e st1
    | .ok p1 st1 => check_count count st1.stylesheet.borders.length (.ok p1 st1)

/-- Source lines 1083-1099: the branch `fills`. -/
def read_stylesheet_fills {F : Type} (vt : value_traits F) (xmlns : String) (p : parser)
    (st : style_state F) : res (style_state F) :=
  let st0 := { st with stylesheet := { st.stylesheet with fills := [] } }
  match p.attribute_size_t "count" with
  | .error e => .fail e st0
  | .ok count =>
    match read_components (read_fill vt xmlns)
        (fun s x => { s with stylesheet := { s.stylesheet with
          fills := s.stylesheet.fills ++ [x] } })
        (p.rest.length + 1) p st0 with
    | .fail e st1 => .fail e st1
    | .ok p1 st1 => check_count count st1.stylesheet.fills.length (.ok p1 st1)

/-- Source lines 1100-1121: the branch `fonts` (the attribute `knownFonts` is read and
dropped). -/
def read_stylesheet_fonts {F : Type} (vt : value_traits F) (xmlns : String) (p : parser)
    (st : style_state F) : res (style_state F) :=
  let st0 := { st with stylesheet := { st.stylesheet with fonts := [] } }
  match p.attribute_size_t "count" with
  | .error e => .fail e st0
  | .ok count =>
    match read_components (read_font vt xmlns)
        (fun s x => { s with stylesheet := { s.stylesheet with
          fonts := s.stylesheet.fonts ++ [x] } })
        (p.rest.length + 1) p st0 with
    | .fail e st1 => .fail e st1
    | .ok p1 st1 => check_count count st1.stylesheet.fonts.length (.ok p1 st1)

/-- Source lines 1122-1145: the branch `numFmts`. -/
def read_stylesheet_number_formats {F : Type} (p : parser) (st : style_state F) :
    res (style_state F) :=
  read_number_formats (p.rest.length + 1) p
    { st with stylesheet := { st.stylesheet with number_formats := [] } }

/-- Source lines 1149-1170: the branch `cellStyles`. -/
def read_stylesheet_cell_styles {F : Type} (xmlns : String) (p : parser) (st : style_state F) :
    res (style_state F) :=
  match p.attribute_size_t "count" with
  | .error e => .fail e st
  | .ok count =>
    match read_cell_styles xmlns (p.rest.length + 1) p st with
    | .fail e st1 => .fail e st1
    | .ok p1 st1 => check_count count st1.style_datas.length (.ok p1 st1)

/-- Source lines 1171-1255: the branch `cellStyleXfs` or `cellXfs`. -/
def read_stylesheet_xfs {F : Type} (vt : value_traits F) (xmlns : String) (p : parser)
    (st : style_state F) : res (style_state F) :=
  let in_style_records := decide (p.name = "cellStyleXfs")
  match p.attribute_size_t "count" with
  | .error e => .fail e st
  | .ok count =>
    match read_xfs vt xmlns in_style_records (p.rest.length + 1) p st with
    | .fail e st1 => .fail e st1
    | .ok p1 st1 =>
      if (in_style_records && count != st1.style_records.length)
          || (!in_style_records && count != st1.format_records.length) then
        .fail (.exception "counts don't match") st1
      else .ok p1 st1

/-- Source lines 1256-1272: the branch `dxfs`; `processed` stays 0. -/
def read_stylesheet_dxfs {F : Type} (p : parser) (st : style_state F) : res (style_state F) :=
  match p.attribute_size_t "count" with
  | .error e => .fail e st
  | .ok count =>
    match skip_children (p.rest.length + 1) p with
    | .error e => .fail e st
    | .ok p1 => check_count count 0 (.ok p1 st)

/-- Source lines 1273-1291: the branch `tableStyles`; `processed` stays 0. -/
def read_stylesheet_table_styles {F : Type} (p : parser) (st : style_state F) :
    res (style_state F) :=
  match p.attribute "defaultTableStyle" with
  | .error e => .fail e st
  | .ok _ =>
    match p.attribute "defaultPivotStyle" with
    | .error e => .fail e st
    | .ok _ =>
      match p.attribute_size_t "count" with
      | .error e => .fail e st
      | .ok count =>
        match skip_children (p.rest.length + 1) p with
        | .error e => .fail e st
        | .ok p1 => check_count count 0 (.ok p1 st)

/-- Source lines 1292-1303: the branch `extLst`. -/
def read_stylesheet_ext_lst (xmlns xmlns_x14 : String) (p : parser) : Except error parser :=
  match p.next_expect_qname .start_element ⟨xmlns, "ext"⟩ with
  | .error e => .error e
  | .ok p1 =>
    match p1.attribute "uri" with
    | .error e => .error e
    | .ok _ =>
      match p1.next_expect .start_namespace_decl with
      | .error e => .error e
      | .ok p2 =>
        match p2.next_expect_qname .start_element ⟨xmlns_x14, "slicerStyles"⟩ with
        | .error e => .error e
        | .ok p3 =>
          match p3.attribute "defaultSlicerStyle" with
          | .error e => .error e
          | .ok _ =>
            match p3.next_expect_qname .end_element ⟨xmlns_x14, "slicerStyles"⟩ with
            | .error e => .error e
            | .ok p4 =>
              match p4.next_expect_qname .end_element ⟨xmlns, "ext"⟩ with
              | .error e => .error e
              | .ok p5 => p5.next_expect .end_namespace_decl

/-- Source lines 1066-1303: the branch on the name of a child of `styleSheet`, whose
start tag is the current event. -/
def read_stylesheet_child {F : Type} (vt : value_traits F) (xmlns xmlns_x14 : String)
    (p : parser) (st : style_state F) : res (style_state F) :=
  if p.qname = ⟨xmlns, "borders"⟩ then read_stylesheet_borders vt p st
  else if p.qname = ⟨xmlns, "fills"⟩ then read_stylesheet_fills vt xmlns p st
  else if p.qname = ⟨xmlns, "fonts"⟩ then read_stylesheet_fonts vt xmlns p st
  else if p.qname = ⟨xmlns, "numFmts"⟩ then read_stylesheet_number_formats p st
  else if p.qname = ⟨xmlns, "colors"⟩ then .ok p st
  else if p.qname = ⟨xmlns, "cellStyles"⟩ then read_stylesheet_cell_styles xmlns p st
  else if p.qname = ⟨xmlns, "cellStyleXfs"⟩ ∨ p.qname = ⟨xmlns, "cellXfs"⟩ then
    read_stylesheet_xfs vt xmlns p st
  else if p.qname = ⟨xmlns, "dxfs"⟩ then read_stylesheet_dxfs p st
  else if p.qname = ⟨xmlns, "tableStyles"⟩ then read_stylesheet_table_styles p st
  else if p.qname = ⟨xmlns, "extLst"⟩ then
    match read_stylesheet_ext_lst xmlns xmlns_x14 p with
    | .error e => .fail e st
    | .ok p1 => .ok p1 st
  else .ok p st

/-- Source lines 1059-1306: the loop over the children of `styleSheet`. -/
def read_stylesheet_children {F : Type} (vt : value_traits F) (xmlns xmlns_x14 : String) :
    Nat → parser → style_state F → res (style_state F)
  | 0, _, st => .fail .nontermination st
  | fuel + 1, p, st =>
    if p.peek = .end_element then .ok p st
    else
      match p.next_expect .start_element with
      | .error e => .fail e st
      | .ok p1 =>
        match read_stylesheet_child vt xmlns xmlns_x14 p1 st with
        | .fail e st1 => .fail e st1
        | .ok p2 st1 =>
          match p2.next_expect .end_element with
          | .error e => .fail e st1
          | .ok p3 => read_stylesheet_children vt xmlns xmlns_x14 fuel p3 st1

/-- Source lines 1020-1030: the namespace declarations of `styleSheet`; the one of
`x14ac` enables x15 on the destination. -/
def read_stylesheet_namespaces {F : Type} (xmlns_x14ac : String) : Nat → parser →
    style_state F → res (style_state F)
  | 0, _, st => .fail .nontermination st
  | fuel + 1, p, st =>
    if p.peek ≠ .start_namespace_decl then .ok p st
    else
      match p.next_expect .start_namespace_decl with
      | .error e => .fail e st
      | .ok p1 =>
        read_stylesheet_namespaces xmlns_x14ac fuel p1
          (if p1.namespace_ = xmlns_x14ac then
            { st with stylesheet := { st.stylesheet with x15 := true } }
           else st)

/-- Source lines 1310-1331: the lambda `lookup_number_format`.  `general` is
`number_format::general()` and `from_builtin_id` is `number_format::from_builtin_id`,
both defined outside the source. -/
def lookup_number_format (general : number_format)
    (from_builtin_id : Nat → Except error number_format) (number_formats : List number_format)
    (number_format_id : Nat) : Except error number_format :=
  let found := number_formats.find? (fun nf => nf.id = number_format_id)
  let result := found.getD general
  let is_custom_number_format := found.isSome
  if number_format_id < 164 && !is_custom_number_format then from_builtin_id number_format_id
  else .ok result

/-- Source lines 1337-1347: one style record becomes a Cell Style.  `create_style`
appends the style to the table and the setters then fill it, so an exception leaves
the style behind as far as it was set; `data` is the `cellStyle` entry under the
iterator, `none` when the iterator has reached the end. -/
def resolve_style {F : Type} (general : number_format)
    (from_builtin_id : Nat → Except error number_format) (record : formatting_record)
    (data : Option style_data) (p : parser) (ss : stylesheet F) : res (stylesheet F) :=
  match data with
  | none => .fail .undefined { ss with styles := ss.styles ++ [{}] }
  | some d =>
    let s1 : style F :=
      { name := d.name, builtin_id := d.builtin_id, alignment := record.alignment }
    match ss.borders[record.border_id.1]? with
    | none => .fail .out_of_range { ss with styles := ss.styles ++ [s1] }
    | some b =>
      let s2 := { s1 with border := (b, record.border_id.2) }
      match ss.fills[record.fill_id.1]? with
      | none => .fail .out_of_range { ss with styles := ss.styles ++ [s2] }
      | some fl =>
        let s3 := { s2 with fill := (fl, record.fill_id.2) }
        match ss.fonts[record.font_id.1]? with
        | none => .fail .out_of_range { ss with styles := ss.styles ++ [s3] }
        | some fn =>
          let s4 := { s3 with font := (fn, record.font_id.2) }
          match lookup_number_format general from_builtin_id ss.number_formats
              record.number_format_id.1 with
          | .error e => .fail e { ss with styles := ss.styles ++ [s4] }
          | .ok nf =>
            .ok p { ss with styles := ss.styles ++
              [{ s4 with
                  number_format := (nf, record.number_format_id.2)
                  protection := record.protection }] }

/-- Source lines 1333-1350: the loop over the style records, `style_datas` being what
the iterator `style_data_iter` still has before it. -/
def resolve_styles {F : Type} (general : number_format)
    (from_builtin_id : Nat → Except error number_format) :
    List formatting_record → List style_data → parser → stylesheet F → res (stylesheet F)
  | [], _, p, ss => .ok p ss
  | record :: records, style_datas, p, ss =>
    match resolve_style general from_builtin_id record style_datas.head? p ss with
    | .fail e ss1 => .fail e ss1
    | .ok p1 ss1 => resolve_styles general from_builtin_id records style_datas.tail p1 ss1

/-- Source lines 1354-1363: one format record becomes a Cell Format. -/
def resolve_format {F : Type} (general : number_format)
    (from_builtin_id : Nat → Except error number_format) (record : formatting_record)
    (p : parser) (ss : stylesheet F) : res (stylesheet F) :=
  match ss.styles[record.style_id.1]? with
  | none => .fail .out_of_range { ss with formats := ss.formats ++ [{}] }
  | some s =>
    let f1 : format F := { style := some s.name, alignment := record.alignment }
    match ss.borders[record.border_id.1]? with
    | none => .fail .out_of_range { ss with formats := ss.formats ++ [f1] }
    | some b =>
      let f2 := { f1 with border := (b, record.border_id.2) }
      match ss.fills[record.fill_id.1]? with
      | none => .fail .out_of_range { ss with formats := ss.formats ++ [f2] }
      | some fl =>
        let f3 := { f2 with fill := (fl, record.fill_id.2) }
        match ss.fonts[record.font_id.1]? with
        | none => .fail .out_of_range { ss with formats := ss.formats ++ [f3] }
        | some fn =>
          let f4 := { f3 with font := (fn, record.font_id.2) }
          match lookup_number_format general from_builtin_id ss.number_formats
              record.number_format_id.1 with
          | .error e => .fail e { ss with formats := ss.formats ++ [f4] }
          | .ok nf =>
            .ok p { ss with formats := ss.formats ++
              [{ f4 with
                  number_format := (nf, record.number_format_id.2)
                  protection := record.protection }] }

/-- Source lines 1352-1364: the loop over the format records. -/
def resolve_formats {F : Type} (general : number_format)
    (from_builtin_id : Nat → Except error number_format) :
    List formatting_record → parser → stylesheet F → res (stylesheet F)
  | [], p, ss => .ok p ss
  | record :: records, p, ss =>
    match resolve_format general from_builtin_id record p ss with
    | .fail e ss1 => .fail e ss1
    | .ok p1 ss1 => resolve_formats general from_builtin_id records p1 ss1

/-- Source lines 1333-1364: the resolution pass, style records first. -/
def resolve_records {F : Type} (general : number_format)
    (from_builtin_id : Nat → Except error number_format) (p : parser) (st : style_state F) :
    res (stylesheet F) :=
  match resolve_styles general from_builtin_id st.style_records st.style_datas p
      st.stylesheet with
  | .fail e ss1 => .fail e ss1
  | .ok p1 ss1 => resolve_formats general from_builtin_id st.format_records p1 ss1

/-- Source lines 1008-1365: `read_stylesheet`.  `xmlns`, `xmlns_x14` and `xmlns_x14ac`
are the namespaces `constants::get_namespace` gives for "worksheet", "x14" and
"x14ac"; the attribute `mc:Ignorable` is read and dropped. -/
def read_stylesheet {F : Type} (vt : value_traits F) (general : number_format)
    (from_builtin_id : Nat → Except error number_format) (xmlns xmlns_x14 xmlns_x14ac : String)
    (p : parser) (ss : stylesheet F) : res (stylesheet F) :=
  match p.next_expect_qname .start_element ⟨xmlns, "styleSheet"⟩ with
  | .error e => .fail e ss
  | .ok p1 =>
    match read_stylesheet_namespaces xmlns_x14ac (p1.rest.length + 1) p1
        ({ stylesheet := ss } : style_state F) with
    | .fail e st => .fail e st.stylesheet
    | .ok p2 st =>
      match read_stylesheet_children vt xmlns xmlns_x14 (p2.rest.length + 1) p2 st with
      | .fail e st1 => .fail e st1.stylesheet
      | .ok p3 st1 =>
        match p3.next_expect_qname .end_element ⟨xmlns, "styleSheet"⟩ with
        | .error e => .fail e st1.stylesheet
        | .ok p4 => resolve_records general from_builtin_id p4 st1

/-! ## Properties the claims about the resolution pass speak of -/

/-- The record `r` can be resolved against the tables of `ss`: its border, fill and
font ids are within their tables and its number format is found. -/
def record_resolvable {F : Type} (general : number_format)
    (from_builtin_id : Nat → Except error number_format) (ss : stylesheet F)
    (r : formatting_record) : Prop :=
  (r.border_id.1 < ss.borders.length ∧ r.fill_id.1 < ss.fills.length
    ∧ r.font_id.1 < ss.fonts.length)
  ∧ ∃ nf, lookup_number_format general from_builtin_id ss.number_formats
      r.number_format_id.1 = .ok nf

/-- The style `s` has the name and builtin id of the `cellStyle` entry `d` and the
alignment, border, fill, font, number format and protection, each with its applied
flag, that the record `r` resolves to in the tables of `ss`. -/
def style_resolves {F : Type} (general : number_format)
    (from_builtin_id : Nat → Except error number_format) (ss : stylesheet F)
    (r : formatting_record) (d : style_data) (s : style F) : Prop :=
  s.name = d.name ∧ s.builtin_id = d.builtin_id ∧ s.alignment = r.alignment
  ∧ ss.borders[r.border_id.1]? = some s.border.1 ∧ s.border.2 = r.border_id.2
  ∧ ss.fills[r.fill_id.1]? = some s.fill.1 ∧ s.fill.2 = r.fill_id.2
  ∧ ss.fonts[r.font_id.1]? = some s.font.1 ∧ s.font.2 = r.font_id.2
  ∧ lookup_number_format general from_builtin_id ss.number_formats r.number_format_id.1
      = .ok s.number_format.1
  ∧ s.number_format.2 = r.number_format_id.2
  ∧ s.protection = r.protection

/-- The format `f` is bound to the name of the style at `r.style_id` and has the
components, each with its applied flag, that the record `r` resolves to in the
tables of `ss`. -/
def format_resolves {F : Type} (general : number_format)
    (from_builtin_id : Nat → Except error number_format) (ss : stylesheet F)
    (r : formatting_record) (f : format F) : Prop :=
  (∃ s, ss.styles[r.style_id.1]? = some s ∧ f.style = some s.name)
  ∧ f.alignment = r.alignment
  ∧ ss.borders[r.border_id.1]? = some f.border.1 ∧ f.border.2 = r.border_id.2
  ∧ ss.fills[r.fill_id.1]? = some f.fill.1 ∧ f.fill.2 = r.fill_id.2
  ∧ ss.fonts[r.font_id.1]? = some f.font.1 ∧ f.font.2 = r.font_id.2
  ∧ lookup_number_format general from_builtin_id ss.number_formats r.number_format_id.1
      = .ok f.number_format.1
  ∧ f.number_format.2 = r.number_format_id.2
  ∧ f.protection = r.protection

/-- Conversions for the sample inputs: numbers are unsigned decimal integers and every
enumerator text is accepted. -/
def sample_traits : value_traits Nat :=
  ⟨stold_decimal, fun _ v => .ok v⟩

/-- Built-in formats for the sample inputs: every id has one. -/
def sample_builtin (n : Nat) : Except error number_format :=
  .ok ⟨"builtin", n⟩

/-- The events of an element of the namespace `ns` without text. -/
def ns_element (name : String) (attrs : List (String × String)) (children : List event) :
    List event :=
  element_events ⟨"ns", name⟩ (attrs.map (fun a => (⟨"", a.1⟩, a.2))) "" children

/-- The events of the tables `fonts`, `fills` and `borders` of the sample style
sheet, two entries each. -/
def sample_component_events : List event :=
  ns_element "fonts" [("count", "2")]
    (ns_element "font" [] (ns_element "sz" [("val", "11")] [])
      ++ ns_element "font" [] (ns_element "b" [] []))
  ++ ns_element "fills" [("count", "2")]
    (ns_element "fill" [] (ns_element "patternFill" [("patternType", "none")] [])
      ++ ns_element "fill" [] (ns_element "patternFill" [("patternType", "gray125")] []))
  ++ ns_element "borders" [("count", "2")]
    (ns_element "border" [] []
      ++ ns_element "border" [] (ns_element "left" [("style", "thin")] []))

/-- The events of the sample style sheet: two fonts, fills and borders, the style
records `xf` of `cellStyleXfs` for the styles `Normal` and `Bold`, and one format
record in `cellXfs` that declares `fontId`, `fillId`, `borderId` and `xfId` 1. -/
def sample_stylesheet_events : List event :=
  ns_element "styleSheet" []
    (sample_component_events
      ++ ns_element "cellStyleXfs" [("count", "2")]
        (ns_element "xf" [("fontId", "0"), ("fillId", "0"), ("borderId", "0")] []
          ++ ns_element "xf" [("fontId", "1"), ("fillId", "0"), ("borderId", "0")] [])
      ++ ns_element "cellXfs" [("count", "1")]
        (ns_element "xf"
          [("fontId", "1"), ("fillId", "1"), ("borderId", "1"), ("xfId", "1")] [])
      ++ ns_element "cellStyles" [("count", "2")]
        (ns_element "cellStyle" [("name", "Normal"), ("xfId", "0"), ("builtinId", "0")] []
          ++ ns_element "cellStyle" [("name", "Bold"), ("xfId", "1"), ("builtinId", "1")] []))

/-- The state in which the loop over the children of `styleSheet` leaves the sample
style sheet: its tables and the three local vectors. -/
def sample_style_state : style_state Nat :=
  { stylesheet :=
      { fonts := [{ size := some 11 }, { bold := some true }]
        fills := [.pattern { type := some "none" }, .pattern { type := some "gray125" }]
        borders := [{}, { sides := [("left", { style := some "thin" })] }] }
    style_datas := [⟨"Normal", 0, 0⟩, ⟨"Bold", 1, 1⟩]
    style_records := [{}, { font_id := (1, false) }]
    format_records := [{ font_id := (1, false), fill_id := (1, false), border_id := (1, false) }] }

/-- The state a reader ends in, whether it returned or raised. -/
def res.state {σ : Type} : res σ → σ
  | .ok _ s => s
  | .fail _ s => s

/-- The events `c` are one child element that `read_one` reads as `x`: they begin
with a start tag, and `read_one` consumes exactly them whatever follows. -/
def parses_as {α : Type} (read_one : parser → Except error (parser × α)) (c : List event)
    (x : α) : Prop :=
  (∃ e es, c = e :: es ∧ e.type = .start_element)
  ∧ ∀ (cur : event) (attrs : List (qname × String)) (rest : List event),
      ∃ cur1 attrs1, read_one ⟨cur, attrs, c ++ rest⟩ = .ok (⟨cur1, attrs1, rest⟩, x)

/-- The events of the element `<cellStyle name=.. xfId=.. builtinId=../>` for an entry
`(name, xfId, builtinId)`. -/
def cell_style_events (xmlns : String) (s : String × String × String) : List event :=
  element_events ⟨xmlns, "cellStyle"⟩
    [(⟨"", "name"⟩, s.1), (⟨"", "xfId"⟩, s.2.1), (⟨"", "builtinId"⟩, s.2.2)] "" []

/-- The entry `(name, xfId, builtinId)` as `style_data`. -/
def cell_style_data (s : String × String × String) : style_data :=
  { name := s.1, record_id := digits_value s.2.1.toList, builtin_id := digits_value s.2.2.toList }

/-- The parser positioned on the start tag of a counted table: the tag is the current
event, it carries the attribute `count`, and the events of the children, the end tag
and the rest of the part follow. -/
def table_start (q : qname) (count : String) (children : List (List event))
    (tail : List event) : parser :=
  ⟨⟨.start_element, q, [(⟨"", "count"⟩, count)], ""⟩, [(⟨"", "count"⟩, count)],
    children.flatten ++ ⟨.end_element, q, [], ""⟩ :: tail⟩

/-- The children of the sample tables, each with the value it is read as: one border,
two fills, two fonts, the two style records and the format record. -/
def sample_border_children : List (List event × border Nat) :=
  [(ns_element "border" [] [], {})]

/-- Two `fill` elements with a pattern fill each. -/
def sample_fill_children : List (List event × fill Nat) :=
  [(ns_element "fill" [] (ns_element "patternFill" [("patternType", "none")] []),
      .pattern { type := some "none" }),
    (ns_element "fill" [] (ns_element "patternFill" [("patternType", "gray125")] []),
      .pattern { type := some "gray125" })]

/-- Two `font` elements, one with a size and one bold. -/
def sample_font_children : List (List event × font Nat) :=
  [(ns_element "font" [] (ns_element "sz" [("val", "11")] []), { size := some 11 }),
    (ns_element "font" [] (ns_element "b" [] []), { bold := some true })]

/-- The two `xf` elements of `cellStyleXfs` in the sample style sheet. -/
def sample_style_xf_children : List (List event × formatting_record) :=
  [(ns_element "xf" [("fontId", "0"), ("fillId", "0"), ("borderId", "0")] [], {}),
    (ns_element "xf" [("fontId", "1"), ("fillId", "0"), ("borderId", "0")] [],
      { font_id := (1, false) })]

/-- The `xf` element of `cellXfs` in the sample style sheet. -/
def sample_format_xf_children : List (List event × formatting_record) :=
  [(ns_element "xf" [("fontId", "1"), ("fillId", "1"), ("borderId", "1"), ("xfId", "1")] [],
      { font_id := (1, false), fill_id := (1, false), border_id := (1, false) })]

/-! ## `read_worksheet`: the children of `worksheet` (source lines 1403-1666) -/

/-- An entry of a map with integer keys, such as the row and column properties of a
worksheet. -/
def index_map_find {α : Type} : List (Nat × α) → Nat → Option α
  | [], _ => none
  | (k1, v1) :: m, k => if k1 = k then some v1 else index_map_find m k

/-- The assignment `m[k] = v` of a map with integer keys. -/
def index_map_set {α : Type} : List (Nat × α) → Nat → α → List (Nat × α)
  | [], k, v => [(k, v)]
  | (k1, v1) :: m, k, v => if k1 = k then (k, v) :: m else (k1, v1) :: index_map_set m k v

/-- The call `ws.has_column_properties(column)`. -/
def worksheet.has_column_properties {F : Type} (ws : worksheet F) (column : Nat) : Bool :=
  (index_map_find ws.column_properties_ column).isSome

/-- The call `ws.add_column_properties(column, props)`. -/
def worksheet.add_column_properties {F : Type} (ws : worksheet F) (column : Nat)
    (props : column_properties F) : worksheet F :=
  { ws with column_properties_ := index_map_set ws.column_properties_ column props }

/-- The reference `ws.get_column_properties(column)`, read: the record of the column,
created on first reference. -/
def worksheet.get_column_properties {F : Type} (ws : worksheet F) (column : Nat) :
    column_properties F :=
  (index_map_find ws.column_properties_ column).getD {}

/-- The conversion `std::stoll(s)` in base 10: as `std::stoull`, with the range of a
signed 64-bit integer. -/
def stoll (s : String) : Except error Int :=
  let cs := s.toList.dropWhile isspace
  let neg := cs.head? = some (Char.ofNat 45)
  let cs := if cs.head? = some (Char.ofNat 45) ∨ cs.head? = some (Char.ofNat 43) then cs.tail else cs
  let ds := cs.takeWhile Char.isDigit
  if ds = [] then .error .invalid_argument
  else if neg then
    (if 2 ^ 63 < digits_value ds then .error .out_of_range else .ok (-(digits_value ds : Int)))
  else if 2 ^ 63 ≤ digits_value ds then .error .out_of_range
  else .ok (digits_value ds : Int)

/-- Source lines 1440-1448 and 1456-1464: the loop that calls `parser.next()` until it
returns the end tag with the local name `name`. -/
def skip_to_end (name : String) : Nat → parser → Except error parser
  | 0, _ => .error .nontermination
  | fuel + 1, p =>
    if (p.next).1 = .end_element ∧ (p.next).2.name = name then .ok (p.next).2
    else skip_to_end name fuel (p.next).2

/-- Source lines 1472-1481: the loop over the `mergeCell` elements; `count` is the
local of type `unsigned long long` that is decremented once per element.  The
reference handed to `merge_cells` is kept as the text of the attribute `ref`. -/
def read_merge_cells {F : Type} (xmlns : String) : Nat → parser → Nat → worksheet F →
    Except error (parser × Nat) × worksheet F
  | 0, _, _, ws => (.error .nontermination, ws)
  | fuel + 1, p, count, ws =>
    if p.peek = .end_element then (.ok (p, count), ws)
    else
      match p.next_expect_qname .start_element ⟨xmlns, "mergeCell"⟩ with
      | .error e => (.error e, ws)
      | .ok p1 =>
        match p1.attribute "ref" with
        | .error e => (.error e, ws)
        | .ok ref =>
          let ws1 := { ws with merged_cells_ := ws.merged_cells_ ++ [ref] }
          match p1.next_expect_qname .start_element ⟨xmlns, "mergeCell"⟩ with
          | .error e => (.error e, ws1)
          | .ok p2 => read_merge_cells xmlns fuel p2 ((count + 2 ^ 64 - 1) % 2 ^ 64) ws1

/-- Source lines 1468-1489: the branch `mergeCells`. -/
def read_worksheet_merge_cells {F : Type} (xmlns : String) (p : parser) (ws : worksheet F) :
    res (worksheet F) :=
  match p.attribute "count" with
  | .error e => .fail e ws
  | .ok count_text =>
    match stoull count_text with
    | .error e => .fail e ws
    | .ok count =>
      match read_merge_cells xmlns (p.rest.length + 1) p count ws with
      | (.error e, ws1) => .fail e ws1
      | (.ok (p1, count1), ws1) =>
        if count1 ≠ 0 then .fail (.invalid_file "sizes don't match") ws1
        else
          match p1.next_expect_qname .end_element ⟨xmlns, "mergeCells"⟩ with
          | .error e => .fail e ws1
          | .ok p2 => .ok p2 ws1

/-- Source lines 1524-1608: the loop over the `c` elements of a row. -/
def read_row_cells {F : Type} (xmlns : String) (stold : String → Except error F)
    (shared_strings : List text) (formats : List (format F)) (data_only : Bool) :
    Nat → parser → worksheet F → res (worksheet F)
  | 0, _, ws => .fail .nontermination ws
  | fuel + 1, p, ws =>
    if p.peek = .end_element then .ok p ws
    else
      match read_cell xmlns stold shared_strings formats data_only p ws with
      | .fail e ws1 => .fail e ws1
      | .ok p1 ws1 => read_row_cells xmlns stold shared_strings formats data_only fuel p1 ws1

/-- Source lines 1507-1522: the span of a row.  The two columns are computed and not
used afterwards, so only the conversions that can raise are kept; without a colon the
columns come from the local `full_range`, which cannot raise. -/
def read_row_span (span_string : String) : Except error Unit :=
  if Char.ofNat 58 ∈ span_string.toList then
    match stoll (String.mk (span_string.toList.takeWhile (fun c => c ≠ Char.ofNat 58))) with
    | .error e => .error e
    | .ok _ =>
      match stoll (String.mk ((span_string.toList.dropWhile (fun c => c ≠ Char.ofNat 58)).tail)) with
      | .error e => .error e
      | .ok _ => .ok ()
  else .ok ()

/-- Source lines 1498-1608: one `row` element, up to the end of the loop over its
cells; `row_t` is an unsigned 32-bit integer. -/
def read_row {F : Type} (xmlns : String) (stold : String → Except error F)
    (shared_strings : List text) (formats : List (format F)) (data_only : Bool) (p : parser)
    (ws : worksheet F) : res (worksheet F) :=
  match p.next_expect_qname .start_element ⟨xmlns, "row"⟩ with
  | .error e => .fail e ws
  | .ok p1 =>
    match p1.attribute "r" with
    | .error e => .fail e ws
    | .ok r =>
      match stoull r with
      | .error e => .fail e ws
      | .ok row =>
        let row_index := row % 2 ^ 32
        match ((if p1.attribute_present "ht" then
                (match p1.attribute "ht" with
                  | .error e => .error e
                  | .ok ht =>
                    match stold ht with
                    | .error e => .error e
                    | .ok height =>
                      .ok { ws with row_heights_ := index_map_set ws.row_heights_ row_index height })
               else .ok ws) : Except error (worksheet F)) with
        | .error e => .fail e ws
        | .ok ws1 =>
          match p1.attribute "spans" with
          | .error e => .fail e ws1
          | .ok span_string =>
            match read_row_span span_string with
            | .error e => .fail e ws1
            | .ok _ =>
              read_row_cells xmlns stold shared_strings formats data_only
                (p1.rest.length + 1) p1 ws1

/-- Source lines 1494-1609: the loop over the `row` elements. -/
def read_rows {F : Type} (xmlns : String) (stold : String → Except error F)
    (shared_strings : List text) (formats : List (format F)) (data_only : Bool) :
    Nat → parser → worksheet F → res (worksheet F)
  | 0, _, ws => .fail .nontermination ws
  | fuel + 1, p, ws =>
    if p.peek = .end_element then .ok p ws
    else
      match read_row xmlns stold shared_strings formats data_only p ws with
      | .fail e ws1 => .fail e ws1
      | .ok p1 ws1 => read_rows xmlns stold shared_strings formats data_only fuel p1 ws1

/-- Source lines 1490-1612: the branch `sheetData`. -/
def read_worksheet_sheet_data {F : Type} (xmlns : String) (stold : String → Except error F)
    (shared_strings : List text) (formats : List (format F)) (data_only : Bool) (p : parser)
    (ws : worksheet F) : res (worksheet F) :=
  match read_rows xmlns stold shared_strings formats data_only (p.rest.length + 1) p ws with
  | .fail e ws1 => .fail e ws1
  | .ok p1 ws1 =>
    match p1.next_expect_qname .end_element ⟨xmlns, "sheetData"⟩ with
    | .error e => .fail e ws1
    | .ok p2 => .ok p2 ws1

/-- Source lines 1629-1636: the body of the loop over the columns of a `col` element;
the properties that are written are those of `min`. -/
def set_column_properties {F : Type} (min : Nat) (width : F) (column_style : Nat)
    (custom : Bool) (column : Nat) (ws : worksheet F) : worksheet F :=
  let ws1 := if !ws.has_column_properties column then ws.add_column_properties column {}
    else ws
  let ws2 := ws1.add_column_properties min
    { ws1.get_column_properties min with width := some width }
  let ws3 := ws2.add_column_properties min
    { ws2.get_column_properties min with style := some column_style }
  ws3.add_column_properties min
    { ws3.get_column_properties min with custom := some custom }

/-- Source lines 1627-1637: the loop `for (auto column = min; column <= max; column++)`.
`column_t::index_t` is an unsigned 32-bit integer, so the increment wraps. -/
def set_column_range {F : Type} (min max : Nat) (width : F) (column_style : Nat)
    (custom : Bool) : Nat → Nat → worksheet F → Except error (worksheet F)
  | 0, _, _ => .error .nontermination
  | fuel + 1, column, ws =>
    if column ≤ max then
      set_column_range min max width column_style custom fuel ((column + 1) % 2 ^ 32)
        (set_column_properties min width column_style custom column ws)
    else .ok ws

/-- Source lines 1619-1639: one `col` element. -/
def read_col {F : Type} (xmlns : String) (stold : String → Except error F) (p : parser)
    (ws : worksheet F) : res (worksheet F) :=
  match p.next_expect_qname .start_element ⟨xmlns, "col"⟩ with
  | .error e => .fail e ws
  | .ok p1 =>
    match p1.attribute "min" with
    | .error e => .fail e ws
    | .ok min_text =>
    match stoull min_text with
    | .error e => .fail e ws
    | .ok min_value =>
    let min := min_value % 2 ^ 32
    match p1.attribute "max" with
    | .error e => .fail e ws
    | .ok max_text =>
    match stoull max_text with
    | .error e => .fail e ws
    | .ok max_value =>
    let max := max_value % 2 ^ 32
    match p1.attribute "width" with
    | .error e => .fail e ws
    | .ok width_text =>
    match stold width_text with
    | .error e => .fail e ws
    | .ok width =>
    match p1.attribute "customWidth" with
    | .error e => .fail e ws
    | .ok custom_text =>
    let custom := decide (custom_text = "1")
    match attribute_index p1 "style" with
    | .error e => .fail e ws
    | .ok column_style =>
    match set_column_range min max width column_style custom (max - min + 2) min ws with
    | .error e => .fail e ws
    | .ok ws1 =>
      match p1.next_expect_qname .end_element ⟨xmlns, "col"⟩ with
      | .error e => .fail e ws1
      | .ok p2 => .ok p2 ws1

/-- Source lines 1615-1640: the loop over the `col` elements. -/
def read_cols {F : Type} (xmlns : String) (stold : String → Except error F) :
    Nat → parser → worksheet F → res (worksheet F)
  | 0, _, ws => .fail .nontermination ws
  | fuel + 1, p, ws =>
    if p.peek = .end_element then .ok p ws
    else
      match read_col xmlns stold p ws with
      | .fail e ws1 => .fail e ws1
      | .ok p1 ws1 => read_cols xmlns stold fuel p1 ws1

/-- Source lines 1613-1643: the branch `cols`. -/
def read_worksheet_cols {F : Type} (xmlns : String) (stold : String → Except error F)
    (p : parser) (ws : worksheet F) : res (worksheet F) :=
  match read_cols xmlns stold (p.rest.length + 1) p ws with
  | .fail e ws1 => .fail e ws1
  | .ok p1 ws1 =>
    match p1.next_expect_qname .end_element ⟨xmlns, "cols"⟩ with
    | .error e => .fail e ws1
    | .ok p2 => .ok p2 ws1

/-- Source lines 1649-1663: the branch `pageMargins`. -/
def read_worksheet_page_margins {F : Type} (vt : value_traits F) (xmlns : String) (p : parser)
    (ws : worksheet F) : res (worksheet F) :=
  match p.attribute "top" >>= vt.to_double with
  | .error e => .fail e ws
  | .ok top =>
  match p.attribute "bottom" >>= vt.to_double with
  | .error e => .fail e ws
  | .ok bottom =>
  match p.attribute "left" >>= vt.to_double with
  | .error e => .fail e ws
  | .ok left =>
  match p.attribute "right" >>= vt.to_double with
  | .error e => .fail e ws
  | .ok right =>
  match p.attribute "header" >>= vt.to_double with
  | .error e => .fail e ws
  | .ok header =>
  match p.attribute "footer" >>= vt.to_double with
  | .error e => .fail e ws
  | .ok footer =>
    let ws1 := { ws with page_margins_ := some ⟨top, bottom, left, right, header, footer⟩ }
    match p.next_expect_qname .end_element ⟨xmlns, "pageMargins"⟩ with
    | .error e => .fail e ws1
    | .ok p1 => .ok p1 ws1

/-- What the worksheet reader takes from outside the part it reads: the conversions,
and from the destination workbook its shared strings, its format table and its
`data_only` flag. -/
structure worksheet_context (F : Type) where
  vt : value_traits F
  stold : String → Except error F
  shared_strings : List text := []
  formats : List (format F) := []
  data_only : Bool := false

/-- Source lines 1430-1663: the branch on the name of a child of `worksheet`, whose
start tag is the current event.  The references handed to `range_reference` are kept
as the text of the attribute `ref`; the local `full_range` is never read in a way
that has an effect and is left out. -/
def read_worksheet_child {F : Type} (cx : worksheet_context F) (xmlns : String) (p : parser)
    (ws : worksheet F) : res (worksheet F) :=
  if p.qname = ⟨xmlns, "dimension"⟩ then
    match p.attribute "ref" with
    | .error e => .fail e ws
    | .ok _ =>
      let ws1 := { ws with has_dimension_ := true }
      match p.next_expect_qname .end_element ⟨xmlns, "dimension"⟩ with
      | .error e => .fail e ws1
      | .ok p1 => .ok p1 ws1
  else if p.qname = ⟨xmlns, "sheetViews"⟩ then
    let ws1 := { ws with has_view_ := true }
    match skip_to_end "sheetViews" (p.rest.length + 1) p with
    | .error e => .fail e ws1
    | .ok p1 => .ok p1 ws1
  else if p.qname = ⟨xmlns, "sheetFormatPr"⟩ then
    let ws1 := { ws with has_format_properties_ := true }
    match skip_to_end "sheetFormatPr" (p.rest.length + 1) p with
    | .error e => .fail e ws1
    | .ok p1 => .ok p1 ws1
  else if p.qname = ⟨xmlns, "mergeCells"⟩ then read_worksheet_merge_cells xmlns p ws
  else if p.qname = ⟨xmlns, "sheetData"⟩ then
    read_worksheet_sheet_data xmlns cx.stold cx.shared_strings cx.formats cx.data_only p ws
  else if p.qname = ⟨xmlns, "cols"⟩ then read_worksheet_cols xmlns cx.stold p ws
  else if p.qname = ⟨xmlns, "autoFilter"⟩ then
    match p.attribute "ref" with
    | .error e => .fail e ws
    | .ok ref =>
      let ws1 := { ws with auto_filter_ := some ref }
      match p.next_expect_qname .end_element ⟨xmlns, "autoFilter"⟩ with
      | .error e => .fail e ws1
      | .ok p1 => .ok p1 ws1
  else if p.qname = ⟨xmlns, "pageMargins"⟩ then read_worksheet_page_margins cx.vt xmlns p ws
  else .ok p ws

/-- Source lines 1423-1664: the loop over the children of `worksheet`. -/
def read_worksheet_children {F : Type} (cx : worksheet_context F) (xmlns : String) :
    Nat → parser → worksheet F → res (worksheet F)
  | 0, _, ws => .fail .nontermination ws
  | fuel + 1, p, ws =>
    if p.peek = .end_element then .ok p ws
    else
      match p.next_expect .start_element with
      | .error e => .fail e ws
      | .ok p1 =>
        match read_worksheet_child cx xmlns p1 ws with
        | .fail e ws1 => .fail e ws1
        | .ok p2 ws1 => read_worksheet_children cx xmlns fuel p2 ws1

/-- Source lines 1406-1414: the namespace declarations of `worksheet`; the one of
`x14ac` enables x14ac on the worksheet. -/
def read_worksheet_namespaces {F : Type} (xmlns_x14ac : String) : Nat → parser →
    worksheet F → res (worksheet F)
  | 0, _, ws => .fail .nontermination ws
  | fuel + 1, p, ws =>
    if p.peek ≠ .start_namespace_decl then .ok p ws
    else
      match p.next_expect .start_namespace_decl with
      | .error e => .fail e ws
      | .ok p1 =>
        read_worksheet_namespaces xmlns_x14ac fuel p1
          (if p1.namespace_ = xmlns_x14ac then { ws with x14ac := true } else ws)

/-- Source lines 1403-1666: `read_worksheet` from the start tag of `worksheet` on, `ws`
being the worksheet that lines 1382-1401 have put into the destination.  `xmlns` and
`xmlns_x14ac` are the namespaces `constants::get_namespace` gives for "worksheet" and
"x14ac"; the attribute `mc:Ignorable` is read and dropped. -/
def read_worksheet_body {F : Type} (cx : worksheet_context F) (xmlns xmlns_x14ac : String)
    (p : parser) (ws : worksheet F) : res (worksheet F) :=
  match p.next_expect_qname .start_element ⟨xmlns, "worksheet"⟩ with
  | .error e => .fail e ws
  | .ok p1 =>
    match read_worksheet_namespaces xmlns_x14ac (p1.rest.length + 1) p1 ws with
    | .fail e ws1 => .fail e ws1
    | .ok p2 ws1 =>
      match read_worksheet_children cx xmlns (p2.rest.length + 1) p2 ws1 with
      | .fail e ws2 => .fail e ws2
      | .ok p3 ws2 =>
        match p3.next_expect_qname .end_element ⟨xmlns, "worksheet"⟩ with
        | .error e => .fail e ws2
        | .ok p4 => .ok p4 ws2

/-- The events of the element `<mergeCell ref=../>`. -/
def merge_cell_events (xmlns : String) (ref : String) : List event :=
  element_events ⟨xmlns, "mergeCell"⟩ [(⟨"", "ref"⟩, ref)] "" []

/-- The events of the element `<mergeCells count=..>` with one `mergeCell` child for
each of the references. -/
def merge_cells_events (xmlns : String) (count : String) (refs : List String) : List event :=
  element_events ⟨xmlns, "mergeCells"⟩ [(⟨"", "count"⟩, count)] ""
    (refs.map (merge_cell_events xmlns)).flatten

/-- The events of the element `<col min=.. max=.. width=.. customWidth=../>`, with the
attribute `style` when `style` is given. -/
def col_events (xmlns : String) (min max width custom_width : String) (style : Option String) :
    List event :=
  element_events ⟨xmlns, "col"⟩
    ([(⟨"", "min"⟩, min), (⟨"", "max"⟩, max), (⟨"", "width"⟩, width),
        (⟨"", "customWidth"⟩, custom_width)]
      ++ (style.map (fun s => ((⟨"", "style"⟩ : qname), s))).toList) "" []

/-! ## The package: paths, relationships, manifest and archive -/

/-- Modelled from the spec: a Part is "identified by a normalized forward-slash path".
`path_parent` is the path without its last segment. -/
def path_parent (p : String) : String :=
  String.mk ((p.toList.reverse.dropWhile (fun c => c ≠ Char.ofNat 47)).drop 1).reverse

/-- The last segment of a path. -/
def path_filename (p : String) : String :=
  String.mk (p.toList.reverse.takeWhile (fun c => c ≠ Char.ofNat 47)).reverse

/-- The extension of a path: what follows the last dot of its last segment, empty
when there is no dot. -/
def path_extension (p : String) : String :=
  if Char.ofNat 46 ∈ (path_filename p).toList then
    String.mk ((path_filename p).toList.reverse.takeWhile (fun c => c ≠ Char.ofNat 46)).reverse
  else ""

/-- The first component of `split_extension()`: the last segment without its
extension. -/
def path_split_extension_first (p : String) : String :=
  if Char.ofNat 46 ∈ (path_filename p).toList then
    String.mk (((path_filename p).toList.reverse.dropWhile
      (fun c => c ≠ Char.ofNat 46)).drop 1).reverse
  else path_filename p

/-- The call `p.append(q)`: the path `q` below `p`. -/
def path_append (p q : String) : String :=
  if p = "" then q else p ++ "/" ++ q

/-- The absolute form of a path, with which the overrides of the content types are
keyed. -/
def path_absolute (p : String) : String :=
  if p.toList.head? = some (Char.ofNat 47) then p else "/" ++ p

/-- The relationship types that `populate_workbook` tells apart; `other` stands for
the enumerators it leaves to `default`. -/
inductive relationship_type where
  | core_properties
  | extended_properties
  | custom_properties
  | office_document
  | connections
  | custom_xml_mappings
  | external_workbook_references
  | metadata
  | pivot_table
  | shared_workbook_revision_headers
  | volatile_dependencies
  | shared_string_table
  | styles
  | theme
  | chartsheet
  | dialogsheet
  | worksheet
  | other (name : String)
deriving DecidableEq, Repr

/-- Modelled from the spec: Relationship, the "tuple (id, type, source part, target
part, target mode)"; the target mode is `internal` for every relationship this
source creates and is left out. -/
structure relationship where
  id : String
  type : relationship_type
  source : String
  target : String
deriving DecidableEq, Repr

/-- Lookup in a map with string keys. -/
def map_find {α : Type} : List (String × α) → String → Option α
  | [], _ => none
  | (k1, v1) :: m, k => if k1 = k then some v1 else map_find m k

/-- Modelled from the spec: Manifest, which "owns all Relationships plus the
Content-Type table (default-by-extension and override-by-exact-path)". -/
structure manifest where
  default_types : List (String × String) := []
  override_types : List (String × String) := []
  relationships : List relationship := []
deriving DecidableEq, Repr

/-- The call `manifest.register_default_type(extension, type)`. -/
def manifest.register_default_type (m : manifest) (extension type : String) : manifest :=
  { m with default_types := map_set m.default_types extension type }

/-- The call `manifest.register_override_type(part, type)`. -/
def manifest.register_override_type (m : manifest) (part type : String) : manifest :=
  { m with override_types := map_set m.override_types (path_absolute part) type }

/-- The call `manifest.register_relationship(source, type, target, mode, id)`. -/
def manifest.register_relationship (m : manifest) (source : String) (type : relationship_type)
    (target id : String) : manifest :=
  { m with relationships := m.relationships ++ [⟨id, type, source, target⟩] }

/-- The call `manifest.get_relationships(part)`: the relationships whose source is
`part`, in the order of their registration. -/
def manifest.get_relationships (m : manifest) (part : String) : List relationship :=
  m.relationships.filter (fun r => r.source = part)

/-- The call `manifest.get_relationship(part, type)`: the relationship of `part` with
that type, `key_not_found` when there is none. -/
def manifest.get_relationship (m : manifest) (part : String) (type : relationship_type) :
    Except error relationship :=
  match (m.get_relationships part).find? (fun r => r.type = type) with
  | some r => .ok r
  | none => .error .key_not_found

/-- The call `manifest.get_content_type(part)`: "every part has exactly one
resolvable content type (override wins over default-by-extension)", and
`key_not_found` is raised for a part without either. -/
def manifest.get_content_type (m : manifest) (part : String) : Except error String :=
  match map_find m.override_types (path_absolute part) with
  | some t => .ok t
  | none =>
    match map_find m.default_types (path_extension part) with
    | some t => .ok t
    | none => .error .key_not_found

/-- Modelled from the spec: the Part Store, which "maps a part path to raw bytes;
enumerates all parts".  The bytes of a part are kept as the events that the XML Event
Source emits for them. -/
structure zip_file where
  parts : List (String × List event) := []
deriving DecidableEq, Repr

/-- The call `archive.has_file(part)`. -/
def zip_file.has_file (z : zip_file) (part : String) : Bool :=
  (map_find z.parts part).isSome

/-- The call `archive.read(part)`; the archive raises when it does not hold the part. -/
def zip_file.read (z : zip_file) (part : String) : Except error (List event) :=
  match map_find z.parts part with
  | some es => .ok es
  | none => .error .runtime_error

/-- The call `archive.infolist()`: the names of the parts. -/
def zip_file.infolist (z : zip_file) : List String :=
  z.parts.map Prod.fst

/-- Source lines 380-387: `check_document_type`. -/
def check_document_type (document_content_type : String) : Except error Unit :=
  if document_content_type
        ≠ "application/vnd.openxmlformats-officedocument.spreadsheetml.sheet.main+xml"
      ∧ document_content_type
        ≠ "application/vnd.openxmlformats-officedocument.spreadsheetml.template.main+xml "
  then .error (.invalid_file document_content_type)
  else .ok ()

/-! ## `read` and `populate_workbook` (source lines 398-530), `read_relationships` and
`read_manifest` (source lines 349-378 and 534-601) -/

/-- The part readers `populate_workbook` dispatches; the readers of sheets are called
with the id of the relationship. -/
inductive reader where
  | read_core_properties
  | read_extended_properties
  | read_custom_property
  | read_workbook
  | read_connections
  | read_custom_xml_mappings
  | read_external_workbook_references
  | read_metadata
  | read_pivot_table
  | read_shared_workbook_revision_headers
  | read_volatile_dependencies
  | read_shared_string_table
  | read_stylesheet
  | read_theme
  | read_chartsheet (rel_id : String)
  | read_dialogsheet (rel_id : String)
  | read_worksheet (rel_id : String)
deriving DecidableEq, Repr

/-- What a read does that the claims about the order of a read speak of: a part is
fetched from the archive, or a part reader is called on the events of a part. -/
inductive step where
  | store_read (part : String)
  | call (r : reader) (part : String)
deriving DecidableEq, Repr

/-- Outcome of a piece of the read that writes into a state of type `σ`: it returns,
or it raises, and what was written before stays written. -/
inductive outcome (σ : Type) where
  | done (s : σ) : outcome σ
  | raised (e : error) (s : σ) : outcome σ
deriving DecidableEq, Repr

/-- The state an outcome ends in. -/
def outcome.state {σ : Type} : outcome σ → σ
  | .done s => s
  | .raised _ s => s

/-- What the part readers read and write: the two title maps of the consumer and the
destination workbook, of which `destination_` is everything but the manifest. -/
structure reader_state (δ : Type) where
  sheet_title_id_map_ : List (String × Nat) := []
  sheet_title_index_map_ : List (String × Nat) := []
  destination_ : δ

/-- The part readers whose body is not empty, each on the parser of the part it is
given; `read_worksheet` also takes the id of the relationship.  `populate_workbook`
only calls them, one part after the other, so it is stated for any such readers and
any representation `δ` of the destination; a reader that raises leaves its state as
far as it was written. -/
structure part_readers (δ : Type) where
  read_core_properties : parser → reader_state δ → outcome (reader_state δ)
  read_extended_properties : parser → reader_state δ → outcome (reader_state δ)
  read_workbook : parser → reader_state δ → outcome (reader_state δ)
  read_shared_string_table : parser → reader_state δ → outcome (reader_state δ)
  read_stylesheet : parser → reader_state δ → outcome (reader_state δ)
  read_theme : parser → reader_state δ → outcome (reader_state δ)
  read_worksheet : String → parser → reader_state δ → outcome (reader_state δ)

/-- The consumer during a read: the archive `source_`, the manifest of the
destination, the state of the part readers, and the steps taken so far. -/
structure consumer (δ : Type) where
  source_ : zip_file := {}
  manifest : xlnt.manifest := {}
  state : reader_state δ
  trace : List step := []

/-- The call `source_.read(part)`, recorded in the trace. -/
def consumer.read_part {δ : Type} (c : consumer δ) (part : String) :
    Except error (List event) × consumer δ :=
  (c.source_.read part, { c with trace := c.trace ++ [.store_read part] })

/-- The call of the part reader `r` on the part `part`, recorded in the trace; `f` is
the reader applied to the parser of the part. -/
def consumer.dispatch {δ : Type} (c : consumer δ) (r : reader) (part : String)
    (f : reader_state δ → outcome (reader_state δ)) : outcome (consumer δ) :=
  match f c.state with
  | .done s => .done { c with state := s, trace := c.trace ++ [.call r part] }
  | .raised e s => .raised e { c with state := s, trace := c.trace ++ [.call r part] }

/-- A range-based `for` loop whose body may raise. -/
def for_each {α σ : Type} (body : α → σ → outcome σ) : List α → σ → outcome σ
  | [], s => .done s
  | a :: as, s =>
    match body a s with
    | .done s1 => for_each body as s1
    | .raised e s1 => .raised e s1

/-- What the readers of the package take from headers outside the source: the
namespaces `constants::get_namespace` gives for "relationships" and "content-types",
and the conversion of the attribute `Type` of a relationship. -/
structure package_context where
  xmlns_relationships : String
  xmlns_content_types : String
  to_relationship_type : String → Except error relationship_type

/-- Source lines 363-373: the loop over the `Relationship` elements; `source` is the
part the relationship file was read from. -/
def read_relationship_entries (pc : package_context) (source : String) :
    Nat → parser → List relationship → Except error (parser × List relationship)
  | 0, _, _ => .error .nontermination
  | fuel + 1, p, relationships =>
    if p.peek = .end_element then .ok (p, relationships)
    else
      match p.next_expect_qname .start_element ⟨pc.xmlns_relationships, "Relationship"⟩ with
      | .error e => .error e
      | .ok p1 =>
        match p1.attribute "Id" with
        | .error e => .error e
        | .ok id =>
          match p1.attribute "Type" >>= pc.to_relationship_type with
          | .error e => .error e
          | .ok type =>
            match p1.attribute "Target" with
            | .error e => .error e
            | .ok target =>
              match p1.next_expect_qname .end_element
                  ⟨pc.xmlns_relationships, "Relationship"⟩ with
              | .error e => .error e
              | .ok p2 =>
                read_relationship_entries pc source fuel p2
                  (relationships ++ [⟨id, type, source, target⟩])

/-- Source lines 349-378: `read_relationships(part, archive)`, the archive being the one
of the consumer, whose trace records the read. -/
def read_relationships {δ : Type} (pc : package_context) (part : String) (c : consumer δ) :
    Except error (List relationship) × consumer δ :=
  if !c.source_.has_file part then (.ok [], c)
  else
    match c.read_part part with
    | (.error e, c1) => (.error e, c1)
    | (.ok es, c1) =>
      (match (parser.of_events es).next_expect_qname .start_element
          ⟨pc.xmlns_relationships, "Relationships"⟩ with
        | .error e => .error e
        | .ok p1 =>
          match read_relationship_entries pc part (p1.rest.length + 1) p1 [] with
          | .error e => .error e
          | .ok (p2, relationships) =>
            match p2.next_expect_qname .end_element
                ⟨pc.xmlns_relationships, "Relationships"⟩ with
            | .error e => .error e
            | .ok _ => .ok relationships, c1)

/-- Source lines 550-568: the loop over the children of `Types`. -/
def read_content_types (xmlns : String) : Nat → parser → manifest → res manifest
  | 0, _, m => .fail .nontermination m
  | fuel + 1, p, m =>
    if p.peek = .end_element then .ok p m
    else
      match p.next_expect .start_element with
      | .error e => .fail e m
      | .ok p1 =>
        if p1.name = "Default" then
          match p1.attribute "Extension" with
          | .error e => .fail e m
          | .ok extension =>
            match p1.attribute "ContentType" with
            | .error e => .fail e m
            | .ok type =>
              let m1 := m.register_default_type extension type
              match p1.next_expect_qname .end_element ⟨xmlns, "Default"⟩ with
              | .error e => .fail e m1
              | .ok p2 => read_content_types xmlns fuel p2 m1
        else if p1.name = "Override" then
          match p1.attribute "PartName" with
          | .error e => .fail e m
          | .ok part_name =>
            match p1.attribute "ContentType" with
            | .error e => .fail e m
            | .ok type =>
              let m1 := m.register_override_type part_name type
              match p1.next_expect_qname .end_element ⟨xmlns, "Override"⟩ with
              | .error e => .fail e m1
              | .ok p2 => read_content_types xmlns fuel p2 m1
        else read_content_types xmlns fuel p1 m

/-- Source lines 572-579 and 594-599: the relationships read from a file are registered
with the source `source`. -/
def register_relationships (source : String) (relationships : List relationship)
    (m : manifest) : manifest :=
  relationships.foldl (fun m1 r => m1.register_relationship source r.type r.target r.id) m

/-- Source lines 583-599: the body of the loop over the parts of the archive. -/
def read_part_relationships {δ : Type} (pc : package_context) (filename : String)
    (c : consumer δ) : outcome (consumer δ) :=
  if filename = "_rels/.rels" ∨ path_extension filename ≠ "rels" then .done c
  else
    let part := path_append (path_parent (path_parent filename))
      (path_split_extension_first filename)
    match read_relationships pc filename c with
    | (.error e, c1) => .raised e c1
    | (.ok part_rels, c1) =>
      .done { c1 with manifest := register_relationships part part_rels c1.manifest }

/-- Source lines 534-601: `read_manifest`. -/
def read_manifest {δ : Type} (pc : package_context) (c : consumer δ) : outcome (consumer δ) :=
  if !c.source_.has_file "_rels/.rels" then .raised (.invalid_file "missing package rels") c
  else
    match read_relationships pc "_rels/.rels" c with
    | (.error e, c1) => .raised e c1
    | (.ok package_rels, c1) =>
      match c1.read_part "[Content_Types].xml" with
      | (.error e, c2) => .raised e c2
      | (.ok es, c2) =>
        match (parser.of_events es).next_expect_qname .start_element
            ⟨pc.xmlns_content_types, "Types"⟩ with
        | .error e => .raised e c2
        | .ok p1 =>
          match read_content_types pc.xmlns_content_types (p1.rest.length + 1) p1 c2.manifest with
          | .fail e m1 => .raised e { c2 with manifest := m1 }
          | .ok p2 m1 =>
            match p2.next_expect_qname .end_element ⟨pc.xmlns_content_types, "Types"⟩ with
            | .error e => .raised e { c2 with manifest := m1 }
            | .ok _ =>
              for_each (read_part_relationships pc) c2.source_.infolist
                { c2 with manifest := register_relationships "/" package_rels m1 }

/-- Source lines 428-469: the body of the loop over the relationships of the package
root.  The readers with an empty body return at once. -/
def populate_root_part {δ : Type} (rd : part_readers δ) (rel : relationship) (c : consumer δ) :
    outcome (consumer δ) :=
  match c.read_part rel.target with
  | (.error e, c1) => .raised e c1
  | (.ok es, c1) =>
    match rel.type with
    | .core_properties =>
      c1.dispatch .read_core_properties rel.target (rd.read_core_properties (parser.of_events es))
    | .extended_properties =>
      c1.dispatch .read_extended_properties rel.target
        (rd.read_extended_properties (parser.of_events es))
    | .custom_properties => c1.dispatch .read_custom_property rel.target .done
    | .office_document =>
      match c1.manifest.get_content_type rel.target with
      | .error e => .raised e c1
      | .ok content_type =>
        match check_document_type content_type with
        | .error e => .raised e c1
        | .ok _ => c1.dispatch .read_workbook rel.target (rd.read_workbook (parser.of_events es))
    | .connections => c1.dispatch .read_connections rel.target .done
    | .custom_xml_mappings => c1.dispatch .read_custom_xml_mappings rel.target .done
    | .external_workbook_references =>
      c1.dispatch .read_external_workbook_references rel.target .done
    | .metadata => c1.dispatch .read_metadata rel.target .done
    | .pivot_table => c1.dispatch .read_pivot_table rel.target .done
    | .shared_workbook_revision_headers =>
      c1.dispatch .read_shared_workbook_revision_headers rel.target .done
    | .volatile_dependencies => c1.dispatch .read_volatile_dependencies rel.target .done
    | _ => .done c1

/-- Source lines 478 and 505: the path of the part a relationship of the workbook part
points to. -/
def part_path (rel : relationship) : String :=
  path_append (path_parent rel.source) rel.target

/-- Source lines 478-498: the body of the first loop over the relationships of the
workbook part. -/
def populate_first_pass_part {δ : Type} (rd : part_readers δ) (rel : relationship)
    (c : consumer δ) : outcome (consumer δ) :=
  match c.read_part (part_path rel) with
  | (.error e, c1) => .raised e c1
  | (.ok es, c1) =>
    match rel.type with
    | .shared_string_table =>
      c1.dispatch .read_shared_string_table (part_path rel)
        (rd.read_shared_string_table (parser.of_events es))
    | .styles =>
      c1.dispatch .read_stylesheet (part_path rel) (rd.read_stylesheet (parser.of_events es))
    | .theme => c1.dispatch .read_theme (part_path rel) (rd.read_theme (parser.of_events es))
    | _ => .done c1

/-- Source lines 505-523: the body of the second loop over the relationships of the
workbook part. -/
def populate_second_pass_part {δ : Type} (rd : part_readers δ) (rel : relationship)
    (c : consumer δ) : outcome (consumer δ) :=
  match c.read_part (part_path rel) with
  | (.error e, c1) => .raised e c1
  | (.ok es, c1) =>
    match rel.type with
    | .chartsheet => c1.dispatch (.read_chartsheet rel.id) (part_path rel) .done
    | .dialogsheet => c1.dispatch (.read_dialogsheet rel.id) (part_path rel) .done
    | .worksheet =>
      c1.dispatch (.read_worksheet rel.id) (part_path rel)
        (rd.read_worksheet rel.id (parser.of_events es))
    | _ => .done c1

/-- Source lines 476-524: the two loops over the relationships `rels` of the workbook
part. -/
def populate_workbook_parts {δ : Type} (rd : part_readers δ) (rels : List relationship)
    (c : consumer δ) : outcome (consumer δ) :=
  match for_each (populate_first_pass_part rd) rels c with
  | .raised e c1 => .raised e c1
  | .done c1 => for_each (populate_second_pass_part rd) rels c1

/-- Source lines 421-530: `populate_workbook`. -/
def populate_workbook {δ : Type} (pc : package_context) (rd : part_readers δ) (c : consumer δ) :
    outcome (consumer δ) :=
  match read_manifest pc c with
  | .raised e c1 => .raised e c1
  | .done c1 =>
    match for_each (populate_root_part rd) (c1.manifest.get_relationships "/") c1 with
    | .raised e c2 => .raised e c2
    | .done c2 =>
      match c2.manifest.get_relationship "/" .office_document with
      | .error e => .raised e c2
      | .ok workbook_rel =>
        populate_workbook_parts rd (c2.manifest.get_relationships workbook_rel.target) c2

/-- Source lines 398-417: `read(source)`.  The three overloads differ in what the
archive is loaded from, and `source` is the loaded archive.  `destination_.clear()`
is `workbook::clear`, whose body is outside the source: `clear` is what it makes of
the two parts of the workbook that the consumer holds, the manifest and the rest of
the destination.  It is called first, then the archive is loaded, then
`populate_workbook` runs; the title maps belong to the consumer and are not
touched. -/
def read {δ : Type} (pc : package_context) (rd : part_readers δ)
    (clear : manifest → δ → manifest × δ) (source : zip_file) (c : consumer δ) :
    outcome (consumer δ) :=
  populate_workbook pc rd
    { c with
      manifest := (clear c.manifest c.state.destination_).1
      state := { c.state with destination_ := (clear c.manifest c.state.destination_).2 }
      source_ := source }

/-- The part readers called in a trace, in the order of the calls. -/
def calls : List step → List (reader × String)
  | [] => []
  | .store_read _ :: t => calls t
  | .call r part :: t => (r, part) :: calls t

/-- The reader the first loop over the relationships of the workbook part calls for a
relationship, if it calls one. -/
def first_pass_call (rel : relationship) : List (reader × String) :=
  match rel.type with
  | .shared_string_table => [(.read_shared_string_table, part_path rel)]
  | .styles => [(.read_stylesheet, part_path rel)]
  | .theme => [(.read_theme, part_path rel)]
  | _ => []

/-- The reader the second loop calls for a relationship, if it calls one. -/
def second_pass_call (rel : relationship) : List (reader × String) :=
  match rel.type with
  | .chartsheet => [(.read_chartsheet rel.id, part_path rel)]
  | .dialogsheet => [(.read_dialogsheet rel.id, part_path rel)]
  | .worksheet => [(.read_worksheet rel.id, part_path rel)]
  | _ => []

/-- Part readers for the sample packages: each returns at once. -/
def sample_readers : part_readers Unit :=
  { read_core_properties := fun _ s => .done s
    read_extended_properties := fun _ s => .done s
    read_workbook := fun _ s => .done s
    read_shared_string_table := fun _ s => .done s
    read_stylesheet := fun _ s => .done s
    read_theme := fun _ s => .done s
    read_worksheet := fun _ _ s => .done s }

/-- The namespaces and the relationship types of the sample packages. -/
def sample_package_context : package_context :=
  { xmlns_relationships := "rel"
    xmlns_content_types := "ct"
    to_relationship_type := fun s =>
      if s = "officeDocument" then .ok .office_document
      else if s = "sharedStrings" then .ok .shared_string_table
      else if s = "styles" then .ok .styles
      else if s = "worksheet" then .ok .worksheet
      else .ok (.other s) }

/-- The events of a relationship file with the entries `(Id, Type, Target)`. -/
def relationships_events (xmlns : String) (entries : List (String × String × String)) :
    List event :=
  element_events ⟨xmlns, "Relationships"⟩ [] ""
    (entries.map (fun r => element_events ⟨xmlns, "Relationship"⟩
      [(⟨"", "Id"⟩, r.1), (⟨"", "Type"⟩, r.2.1), (⟨"", "Target"⟩, r.2.2)] "" [])).flatten

/-- A package with a workbook part of the content type `content_type`, one worksheet,
shared strings and styles; the parts that the sample readers do not look at are
empty. -/
def sample_package (content_type : String) : zip_file :=
  { parts :=
      [("_rels/.rels",
          relationships_events "rel" [("rId1", "officeDocument", "xl/workbook.xml")]),
        ("[Content_Types].xml",
          element_events ⟨"ct", "Types"⟩ [] ""
            (element_events ⟨"ct", "Override"⟩
              [(⟨"", "PartName"⟩, "/xl/workbook.xml"), (⟨"", "ContentType"⟩, content_type)]
              "" [])),
        ("xl/workbook.xml", []),
        ("xl/_rels/workbook.xml.rels",
          relationships_events "rel"
            [("rId1", "worksheet", "worksheets/sheet1.xml"),
              ("rId2", "sharedStrings", "sharedStrings.xml"),
              ("rId3", "styles", "styles.xml")]),
        ("xl/worksheets/sheet1.xml", []),
        ("xl/sharedStrings.xml", []),
        ("xl/styles.xml", [])] }

/-- The relationships of the workbook part of the sample package. -/
def sample_workbook_relationships : List relationship :=
  [⟨"rId1", .worksheet, "xl/workbook.xml", "worksheets/sheet1.xml"⟩,
    ⟨"rId2", .shared_string_table, "xl/workbook.xml", "sharedStrings.xml"⟩,
    ⟨"rId3", .styles, "xl/workbook.xml", "styles.xml"⟩]

/-- The events of the run `<r><t>s</t></r>`, without run properties. -/
def run_events (xmlns : String) (s : String) : List event :=
  element_events ⟨xmlns, "r"⟩ [] "" (element_events ⟨xmlns, "t"⟩ [] s [])

/-- The events of the rich-text entry `<si>` with one run without properties for each
of the texts. -/
def rich_si_events (xmlns : String) (texts : List String) : List event :=
  element_events ⟨xmlns, "si"⟩ [] "" (texts.map (run_events xmlns)).flatten

/-- The events of the run `<r><rPr>..</rPr><t>s</t></r>`, whose run properties are the
elements `properties`. -/
def formatted_run_events (xmlns : String) (properties : List event) (s : String) : List event :=
  element_events ⟨xmlns, "r"⟩ [] ""
    (element_events ⟨xmlns, "rPr"⟩ [] "" properties ++ element_events ⟨xmlns, "t"⟩ [] s [])

/-- The names of the children of `worksheet` that `read_worksheet` has a branch for
(source lines 1430-1649). -/
def worksheet_child_names : List String :=
  ["dimension", "sheetViews", "sheetFormatPr", "mergeCells", "sheetData", "cols", "autoFilter",
    "pageMargins"]

/-- The parts fetched from the archive in a trace, in the order of the fetches. -/
def reads : List step → List String
  | [] => []
  | .store_read part :: t => part :: reads t
  | .call _ _ :: t => reads t

/-- The relationship registered with the source `source` for the entry `(Id, Type,
Target)` of a relationship file, `ty` giving the relationship type of a type text. -/
def entry_relationship (ty : String → relationship_type) (source : String)
    (e : String × String × String) : relationship :=
  ⟨e.1, ty e.2.1, source, e.2.2⟩

/-- The events of a child of `Types`: `<Override PartName=.. ContentType=../>` when the
flag is set, else `<Default Extension=.. ContentType=../>`. -/
def content_type_events (xmlns : String) (e : Bool × String × String) : List event :=
  if e.1 then
    element_events ⟨xmlns, "Override"⟩
      [(⟨"", "PartName"⟩, e.2.1), (⟨"", "ContentType"⟩, e.2.2)] "" []
  else
    element_events ⟨xmlns, "Default"⟩
      [(⟨"", "Extension"⟩, e.2.1), (⟨"", "ContentType"⟩, e.2.2)] "" []

/-- The events of a `[Content_Types].xml` with the given children. -/
def content_types_events (xmlns : String) (entries : List (Bool × String × String)) :
    List event :=
  element_events ⟨xmlns, "Types"⟩ [] "" (entries.map (content_type_events xmlns)).flatten

/-- Source lines 586-587: the part that owns the relationship file `filename`. -/
def rels_owner (filename : String) : String :=
  path_append (path_parent (path_parent filename)) (path_split_extension_first filename)

/-- Source lines 583-584: whether the loop over the parts of the archive reads
`filename` as the relationship file of a part. -/
def is_part_rels (filename : String) : Bool :=
  decide (filename ≠ "_rels/.rels") && decide (path_extension filename = "rels")

/-- The relationship type that `sample_package_context` gives a type text. -/
def sample_relationship_type (s : String) : relationship_type :=
  if s = "officeDocument" then .office_document
  else if s = "sharedStrings" then .shared_string_table
  else if s = "styles" then .styles
  else if s = "worksheet" then .worksheet
  else .other s

/-- The entries of the relationship files of the parts of the sample package. -/
def sample_part_entries (filename : String) : List (String × String × String) :=
  if filename = "xl/_rels/workbook.xml.rels" then
    [("rId1", "worksheet", "worksheets/sheet1.xml"),
      ("rId2", "sharedStrings", "sharedStrings.xml"),
      ("rId3", "styles", "styles.xml")]
  else []

/-- Source lines 1367-1370: `read_theme`, which does not touch its parser.
`set_theme` is the setter of the destination workbook and `default_theme` the theme
that `theme()` constructs, both outside the sources at hand. -/
def read_theme {δ θ : Type} (set_theme : θ → δ → δ) (default_theme : θ) (_p : parser)
    (s : reader_state δ) : outcome (reader_state δ) :=
  .done { s with destination_ := set_theme default_theme s.destination_ }

/-- The archive `z` with the events `es` in place of what the part `part` holds; the
names of the parts and their order stay. -/
def zip_file.replace (z : zip_file) (part : String) (es : List event) : zip_file :=
  { parts := z.parts.map (fun kv => (kv.1, if kv.1 = part then es else kv.2)) }

/-- The consumer `c` on the archive in which the part `part` holds `es`. -/
def consumer.replace_part {δ : Type} (c : consumer δ) (part : String) (es : List event) :
    consumer δ :=
  { c with source_ := c.source_.replace part es }

/-- The outcome `o` with `f` applied to the state it ends in. -/
def outcome.map {σ τ : Type} (f : σ → τ) : outcome σ → outcome τ
  | .done s => .done (f s)
  | .raised e s => .raised e (f s)

/-- Part readers for a destination that is only the name of its theme: `read_theme`
is the one of the source, the others return at once. -/
def sample_theme_readers : part_readers (Option String) :=
  { read_core_properties := fun _ s => .done s
    read_extended_properties := fun _ s => .done s
    read_workbook := fun _ s => .done s
    read_shared_string_table := fun _ s => .done s
    read_stylesheet := fun _ s => .done s
    read_theme := read_theme (fun t _ => some t) "default"
    read_worksheet := fun _ _ s => .done s }

/-- A package whose workbook part has a theme part that holds the events `theme`. -/
def sample_theme_package (theme : List event) : zip_file :=
  { parts :=
      [("_rels/.rels",
          relationships_events "rel" [("rId1", "officeDocument", "xl/workbook.xml")]),
        ("[Content_Types].xml",
          content_types_events "ct"
            [(true, "/xl/workbook.xml",
              "application/vnd.openxmlformats-officedocument.spreadsheetml.sheet.main+xml")]),
        ("xl/workbook.xml", []),
        ("xl/_rels/workbook.xml.rels",
          relationships_events "rel" [("rId1", "theme", "theme/theme1.xml")]),
        ("xl/theme/theme1.xml", theme)] }

/-- The namespaces and the relationship types of `sample_theme_package`. -/
def sample_theme_context : package_context :=
  { xmlns_relationships := "rel"
    xmlns_content_types := "ct"
    to_relationship_type := fun s =>
      if s = "officeDocument" then .ok .office_document
      else if s = "theme" then .ok .theme
      else .ok (.other s) }

/-- The tables of `styleSheet` that the resolution pass reads from. -/
inductive style_table_kind where
  | borders
  | fills
  | fonts
  | number_formats
  | cell_styles
  | cell_style_xfs
  | cell_xfs
deriving DecidableEq, Repr

/-- A top-level table of a style sheet: the text of its attribute `count` and its
children, each child of `borders`, `fills`, `fonts`, `cellStyleXfs` and `cellXfs` with
the value it is read as, each child of `cellStyles` as `(name, xfId, builtinId)`;
`number_formats` is a `numFmts` element with any attributes and one `numFmt` child
for each `(numFmtId, formatCode)`. -/
inductive style_table (F : Type) where
  | borders (count : String) (children : List (List event × border F))
  | fills (count : String) (children : List (List event × fill F))
  | fonts (count : String) (children : List (List event × font F))
  | number_formats (attributes : List (qname × String)) (children : List (String × String))
  | cell_styles (count : String) (entries : List (String × String × String))
  | cell_style_xfs (count : String) (children : List (List event × formatting_record))
  | cell_xfs (count : String) (children : List (List event × formatting_record))

/-- The kind of a table. -/
def style_table.kind {F : Type} : style_table F → style_table_kind
  | .borders _ _ => .borders
  | .fills _ _ => .fills
  | .fonts _ _ => .fonts
  | .number_formats _ _ => .number_formats
  | .cell_styles _ _ => .cell_styles
  | .cell_style_xfs _ _ => .cell_style_xfs
  | .cell_xfs _ _ => .cell_xfs

/-- The events of a table: its element with the attribute `count` and the events of
its children. -/
def style_table.events {F : Type} (xmlns : String) : style_table F → List event
  | .borders count children =>
    element_events ⟨xmlns, "borders"⟩ [(⟨"", "count"⟩, count)] "" (children.map Prod.fst).flatten
  | .fills count children =>
    element_events ⟨xmlns, "fills"⟩ [(⟨"", "count"⟩, count)] "" (children.map Prod.fst).flatten
  | .fonts count children =>
    element_events ⟨xmlns, "fonts"⟩ [(⟨"", "count"⟩, count)] "" (children.map Prod.fst).flatten
  | .number_formats attributes children =>
    element_events ⟨xmlns, "numFmts"⟩ attributes ""
      (children.map (fun c => element_events ⟨xmlns, "numFmt"⟩
        [(⟨"", "numFmtId"⟩, c.1), (⟨"", "formatCode"⟩, c.2)] "" [])).flatten
  | .cell_styles count entries =>
    element_events ⟨xmlns, "cellStyles"⟩ [(⟨"", "count"⟩, count)] ""
      (entries.map (cell_style_events xmlns)).flatten
  | .cell_style_xfs count children =>
    element_events ⟨xmlns, "cellStyleXfs"⟩ [(⟨"", "count"⟩, count)] ""
      (children.map Prod.fst).flatten
  | .cell_xfs count children =>
    element_events ⟨xmlns, "cellXfs"⟩ [(⟨"", "count"⟩, count)] "" (children.map Prod.fst).flatten

/-- The branch of a table returns: the declared count equals the number of the
children, and `numFmts` has no child (a `numFmt` child in the namespace of the part is
not the `numFmt` without namespace that source line 1130 asks for). -/
def style_table.accepted {F : Type} : style_table F → Bool
  | .borders count children => decide (digits_value count.toList = children.length)
  | .fills count children => decide (digits_value count.toList = children.length)
  | .fonts count children => decide (digits_value count.toList = children.length)
  | .number_formats _ children => children.isEmpty
  | .cell_styles count entries => decide (digits_value count.toList = entries.length)
  | .cell_style_xfs count children => decide (digits_value count.toList = children.length)
  | .cell_xfs count children => decide (digits_value count.toList = children.length)

/-- The state with the entries of a table in the vector that the branch of the table
fills. -/
def style_table.store {F : Type} : style_table F → style_state F → style_state F
  | .borders _ children, st =>
    { st with stylesheet := { st.stylesheet with borders := children.map Prod.snd } }
  | .fills _ children, st =>
    { st with stylesheet := { st.stylesheet with fills := children.map Prod.snd } }
  | .fonts _ children, st =>
    { st with stylesheet := { st.stylesheet with fonts := children.map Prod.snd } }
  | .number_formats _ _, st =>
    { st with stylesheet := { st.stylesheet with number_formats := [] } }
  | .cell_styles _ entries, st => { st with style_datas := entries.map cell_style_data }
  | .cell_style_xfs _ children, st => { st with style_records := children.map Prod.snd }
  | .cell_xfs _ children, st => { st with format_records := children.map Prod.snd }

/-- The vector that the branch of a table appends to is empty; the branches of
`borders`, `fills`, `fonts` and `numFmts` clear theirs. -/
def style_table.fresh {F : Type} : style_table F → style_state F → Prop
  | .cell_styles _ _, st => st.style_datas = []
  | .cell_style_xfs _ _, st => st.style_records = []
  | .cell_xfs _ _, st => st.format_records = []
  | _, _ => True

/-- A table is well formed: its count is a `size_t` numeral, and its children are
read one after the other as the values they are listed with (the numbers of a
`cellStyle` being `size_t` numerals); for `numFmts` with a child, the namespace of the
part is not the empty one. -/
def style_table.well_formed {F : Type} (vt : value_traits F) (xmlns : String) :
    style_table F → Prop
  | .borders count children =>
    (is_numeral count ∧ digits_value count.toList < 2 ^ 64)
    ∧ ∀ c ∈ children, parses_as (read_border vt) c.1 c.2
  | .fills count children =>
    (is_numeral count ∧ digits_value count.toList < 2 ^ 64)
    ∧ ∀ c ∈ children, parses_as (read_fill vt xmlns) c.1 c.2
  | .fonts count children =>
    (is_numeral count ∧ digits_value count.toList < 2 ^ 64)
    ∧ ∀ c ∈ children, parses_as (read_font vt xmlns) c.1 c.2
  | .number_formats _ children => children = [] ∨ xmlns ≠ ""
  | .cell_styles count entries =>
    (is_numeral count ∧ digits_value count.toList < 2 ^ 64)
    ∧ ∀ s ∈ entries, (is_numeral s.2.1 ∧ digits_value s.2.1.toList < 2 ^ 64)
        ∧ (is_numeral s.2.2 ∧ digits_value s.2.2.toList < 2 ^ 64)
  | .cell_style_xfs count children =>
    (is_numeral count ∧ digits_value count.toList < 2 ^ 64)
    ∧ ∀ c ∈ children, parses_as (read_xf vt xmlns) c.1 c.2
  | .cell_xfs count children =>
    (is_numeral count ∧ digits_value count.toList < 2 ^ 64)
    ∧ ∀ c ∈ children, parses_as (read_xf vt xmlns) c.1 c.2

/-- The events of a style sheet part with the given top-level tables, in their
order. -/
def stylesheet_events {F : Type} (xmlns : String) (tables : List (style_table F)) :
    List event :=
  element_events ⟨xmlns, "styleSheet"⟩ [] "" (tables.map (style_table.events xmlns)).flatten

/-- What a reader returned with: the destination when it returned, nothing when it
raised. -/
def res.value? {σ : Type} : res σ → Option σ
  | .ok _ s => some s
  | .fail _ _ => none

/-- The tables of a sample style sheet, `fonts` first and `cellXfs` last: two fonts,
two fills, two borders, two style records with their two `cellStyle` entries, and one
format record that refers to the second font, fill and border. -/
def sample_style_tables : List (style_table Nat) :=
  [.fonts "2" sample_font_children,
    .fills "2" sample_fill_children,
    .borders "2" (sample_border_children ++ sample_border_children),
    .number_formats [(⟨"", "count"⟩, "0")] [],
    .cell_style_xfs "2" sample_style_xf_children,
    .cell_styles "2" [("Normal", "0", "0"), ("Title", "1", "15")],
    .cell_xfs "1" sample_format_xf_children]

/-- The events of the empty elements `<q attributes/>`, one after the other. -/
def empty_elements (children : List (qname × List (qname × String))) : List event :=
  (children.map (fun c => element_events c.1 c.2 "" [])).flatten

/-! ## `w3cdtf_to_datetime` (source lines 32-47) -/

/-- The call `string.find(c, pos)` of `std::string`: the index of the first `c` at or
after `pos`, and `npos`, the largest `size_t`, when there is none. -/
def string_find (s : String) (c : Char) (pos : Nat) : Nat :=
  if pos + (s.toList.drop pos).indexOf c < s.toList.length then
    pos + (s.toList.drop pos).indexOf c
  else 2 ^ 64 - 1

/-- The call `string.substr(pos, count)` of `std::string`: at most `count` characters
from `pos` on, `out_of_range` when `pos` is beyond the end. -/
def string_substr (s : String) (pos count : Nat) : Except error String :=
  if s.toList.length < pos then .error .out_of_range
  else .ok (String.mk ((s.toList.drop pos).take count))

/-- The conversion `std::stoi(s)` in base 10: as `std::stoull`, with the range of a
signed 32-bit integer. -/
def stoi (s : String) : Except error Int :=
  let cs := s.toList.dropWhile isspace
  let neg := cs.head? = some (Char.ofNat 45)
  let cs := if cs.head? = some (Char.ofNat 45) ∨ cs.head? = some (Char.ofNat 43) then cs.tail else cs
  let ds := cs.takeWhile Char.isDigit
  if ds = [] then .error .invalid_argument
  else if neg then
    (if 2 ^ 31 < digits_value ds then .error .out_of_range else .ok (-(digits_value ds : Int)))
  else if 2 ^ 31 ≤ digits_value ds then .error .out_of_range
  else .ok (digits_value ds : Int)

/-- Modelled from the spec: the date and time of the core properties "created" and
"modified", with the six fields that `w3cdtf_to_datetime` assigns; the constructor
`datetime(year, month, day)` of source line 34 leaves the time of day at zero. -/
structure datetime where
  year : Int
  month : Int
  day : Int
  hour : Int := 0
  minute : Int := 0
  second : Int := 0
deriving DecidableEq, Repr

/-- Source lines 32-47: `w3cdtf_to_datetime`.  The second argument of `substr` is a
count, and the source passes it the index of the next separator; the sums are sums of
`size_t`.  The characters 45, 84, 58 and 90 are the minus sign, `T`, the colon and
`Z`. -/
def w3cdtf_to_datetime (string : String) : Except error datetime := do
  let result : datetime := { year := 1900, month := 1, day := 1 }
  let separator_index := string_find string (Char.ofNat 45) 0
  let year ← string_substr string 0 separator_index >>= stoi
  let result := { result with year := year }
  let month ← string_substr string ((separator_index + 1) % 2 ^ 64)
      (string_find string (Char.ofNat 45) ((separator_index + 1) % 2 ^ 64)) >>= stoi
  let result := { result with month := month }
  let separator_index := string_find string (Char.ofNat 45) ((separator_index + 1) % 2 ^ 64)
  let day ← string_substr string ((separator_index + 1) % 2 ^ 64)
      (string_find string (Char.ofNat 84) ((separator_index + 1) % 2 ^ 64)) >>= stoi
  let result := { result with day := day }
  let separator_index := string_find string (Char.ofNat 84) ((separator_index + 1) % 2 ^ 64)
  let hour ← string_substr string ((separator_index + 1) % 2 ^ 64)
      (string_find string (Char.ofNat 58) ((separator_index + 1) % 2 ^ 64)) >>= stoi
  let result := { result with hour := hour }
  let separator_index := string_find string (Char.ofNat 58) ((separator_index + 1) % 2 ^ 64)
  let minute ← string_substr string ((separator_index + 1) % 2 ^ 64)
      (string_find string (Char.ofNat 58) ((separator_index + 1) % 2 ^ 64)) >>= stoi
  let result := { result with minute := minute }
  let separator_index := string_find string (Char.ofNat 58) ((separator_index + 1) % 2 ^ 64)
  let second ← string_substr string ((separator_index + 1) % 2 ^ 64)
      (string_find string (Char.ofNat 90) ((separator_index + 1) % 2 ^ 64)) >>= stoi
  let result := { result with second := second }
  return result

/-- The string `Y-M-DTh:m:sZ` with the given six fields. -/
def w3cdtf_string (year month day hour minute second : String) : String :=
  year ++ "-" ++ month ++ "-" ++ day ++ "T" ++ hour ++ ":" ++ minute ++ ":" ++ second ++ "Z"


/-- The parser positioned on the start tag of the empty element `<q attributes/>`: the
tag is the current event and its attributes are the current attribute map. -/
def child_start (c : qname × List (qname × String)) : parser :=
  ⟨⟨.start_element, c.1, c.2, ""⟩, c.2, []⟩


/-! ## The test helper `xml_helper` (`tests/helpers/xml_helper.hpp`)

The helper compares documents that pugixml has parsed into trees.  The library is not
among the sources; the tree below carries what the helper asks of it: the kind, name
and value of a node, its attributes in document order, its children in document order. -/

/-- The kinds of node of a pugixml tree (`pugi::xml_node_type`, the null node apart). -/
inductive xml_node_type where
  | document | element | pcdata | cdata | comment | pi | declaration | doctype
deriving DecidableEq, Repr

/-- A node of a pugixml tree.  A document is the node of kind `document` whose children
are the top-level nodes; character data is a child of kind `pcdata` or `cdata` whose
value is the text and whose name is empty. -/
inductive xml_node where
  | mk (type : xml_node_type) (name value : String) (attributes : List (String × String))
      (children : List xml_node) : xml_node

/-- The call `node.type()`. -/
def xml_node.type : xml_node → xml_node_type
  | .mk t _ _ _ _ => t

/-- The call `node.name()`. -/
def xml_node.name : xml_node → String
  | .mk _ n _ _ _ => n

/-- The call `node.value()`. -/
def xml_node.value : xml_node → String
  | .mk _ _ v _ _ => v

/-- The call `node.attributes()`: pairs of name and value. -/
def xml_node.attributes : xml_node → List (String × String)
  | .mk _ _ _ a _ => a

/-- The call `node.children()`. -/
def xml_node.children : xml_node → List xml_node
  | .mk _ _ _ _ c => c

/-- The first attribute with the name `n` in a list of attributes, if there is one. -/
def find_attribute (n : String) : List (String × String) → Option String
  | [] => none
  | (k, v) :: rest => if k = n then some v else find_attribute n rest

/-- The call `node.attribute(n)`: the value of the first attribute named `n`; `none` is
the null attribute, which converts to false and whose `value()` is the empty string. -/
def xml_node.attribute (x : xml_node) (n : String) : Option String :=
  find_attribute n x.attributes

/-- The call `node.child(n)`: the first child named `n`; `none` is the null node. -/
def xml_node.child (x : xml_node) (n : String) : Option xml_node :=
  x.children.find? (fun c => c.name = n)

/-- The call `node.text()`: the character data of the node, which is the node itself when
it is of kind `pcdata` or `cdata` and its first child of such a kind otherwise; `none`
is the empty text object, which converts to false.  The value is what `get()` yields. -/
def xml_node.text (x : xml_node) : Option String :=
  if x.type = .pcdata ∨ x.type = .cdata then some x.value
  else (x.children.find? (fun c => c.type = .pcdata ∨ c.type = .cdata)).map xml_node.value

/-- Source lines 128-160 of the helper: the loop of `compare_relationships_xml` over the
children of the left `Relationships` node. -/
def compare_relationships_children (right_children : List xml_node) : List xml_node → Bool
  | [] => true
  | left_child :: rest =>
    match right_children.find?
        (fun right_child =>
          (left_child.attribute "Id").getD "" = (right_child.attribute "Id").getD "") with
    | none => false
    | some matching_right_child =>
      if (left_child.attribute "Type").isNone ∨ (left_child.attribute "Target").isNone
          ∨ (matching_right_child.attribute "Type").isNone
          ∨ (matching_right_child.attribute "Target").isNone then false
      else if (left_child.attribute "Type").getD "" ≠ (left_child.attribute "Type").getD ""
          ∨ (left_child.attribute "Target").getD "" ≠ (left_child.attribute "Target").getD ""
        then false
      else compare_relationships_children right_children rest

/-- Source lines 107-163 of the helper: `compare_relationships_xml`. -/
def compare_relationships_xml (left right : xml_node) : Bool :=
  match left.child "Relationships", right.child "Relationships" with
  | some left_relationships_node, some right_relationships_node =>
    if left_relationships_node.children.length ≠ right_relationships_node.children.length
    then false
    else compare_relationships_children right_relationships_node.children
      left_relationships_node.children
  | _, _ => false

/-- Source lines 11-21 of the helper: `difference_type`. -/
inductive difference_type where
  | names_differ | missing_attribute | attribute_values_differ | missing_text
  | text_values_differ | missing_child | child_order_differs | equivalent
deriving DecidableEq, Repr

/-- Source lines 23-33 of the helper: `comparison_result`. -/
structure comparison_result where
  difference : difference_type
  value_left : String
  value_right : String
deriving DecidableEq, Repr

/-- The conversion `operator bool` of `comparison_result`. -/
def comparison_result.to_bool (r : comparison_result) : Bool :=
  r.difference = .equivalent

/-- Source lines 421-442 of the helper: the loop over the attributes of the left node,
`some` being a `return` out of `compare_xml_nodes`. -/
def compare_left_attributes (left_name : String) (right_attributes : List (String × String)) :
    List (String × String) → Option comparison_result
  | [] => none
  | (attribute_name, left_attribute_value) :: rest =>
    if (find_attribute attribute_name right_attributes).isNone
        ∧ ¬ (left_name = "mc:AlternateContent" ∧ attribute_name = "xmlns:mc") then
      some ⟨.missing_attribute, attribute_name, "((empty))"⟩
    else if left_attribute_value ≠ (find_attribute attribute_name right_attributes).getD ""
        ∧ ¬ (left_name = "mc:AlternateContent" ∧ attribute_name = "xmlns:mc") then
      some ⟨.attribute_values_differ, left_attribute_value,
        (find_attribute attribute_name right_attributes).getD ""⟩
    else compare_left_attributes left_name right_attributes rest

/-- Source lines 444-465 of the helper: the loop over the attributes of the right node. -/
def compare_right_attributes (left_name : String) (left_attributes : List (String × String)) :
    List (String × String) → Option comparison_result
  | [] => none
  | (attribute_name, right_attribute_value) :: rest =>
    if (find_attribute attribute_name left_attributes).isNone
        ∧ ¬ (left_name = "mc:AlternateContent" ∧ attribute_name = "xmlns:mc") then
      some ⟨.missing_attribute, "((empty))", attribute_name⟩
    else if (find_attribute attribute_name left_attributes).getD "" ≠ right_attribute_value
        ∧ ¬ (left_name = "mc:AlternateContent" ∧ attribute_name = "xmlns:mc") then
      some ⟨.attribute_values_differ, (find_attribute attribute_name left_attributes).getD "",
        right_attribute_value⟩
    else compare_right_attributes left_name left_attributes rest

/-- Source lines 467-486 of the helper: the comparison of the texts of the two nodes. -/
def compare_text : Option String → Option String → Option comparison_result
  | some left_text, none => some ⟨.missing_text, left_text, "((empty))"⟩
  | some left_text, some right_text =>
    if left_text ≠ right_text then some ⟨.text_values_differ, left_text, right_text⟩ else none
  | none, some right_text => some ⟨.text_values_differ, "((empty))", right_text⟩
  | none, none => none

mutual
/-- Source lines 411-517 of the helper: `compare_xml_nodes`. -/
def compare_xml_nodes : xml_node → xml_node → comparison_result
  | .mk lt ln lv la lc, .mk rt rn rv ra rc =>
    if ln ≠ rn then ⟨.names_differ, ln, rn⟩
    else
      match compare_left_attributes ln ra la with
      | some result => result
      | none =>
        match compare_right_attributes ln la ra with
        | some result => result
        | none =>
          match compare_text (xml_node.mk lt ln lv la lc).text (xml_node.mk rt rn rv ra rc).text with
          | some result => result
          | none => compare_xml_children lc rc
/-- Source lines 488-516 of the helper: the loop over the children of the left node, the
second list being what the iterator over the children of the right node has left. -/
def compare_xml_children : List xml_node → List xml_node → comparison_result
  | [], [] => ⟨.equivalent, "", ""⟩
  | [], right_child :: _ => ⟨.child_order_differs, "((end))", right_child.name⟩
  | left_child :: _, [] => ⟨.child_order_differs, left_child.name, "((end))"⟩
  | left_child :: left_rest, right_child :: right_rest =>
    if (compare_xml_nodes left_child right_child).to_bool then
      compare_xml_children left_rest right_rest
    else compare_xml_nodes left_child right_child
end

mutual
/-- The attribute names are unique within each element of the tree. -/
def xml_node.unique_attribute_names : xml_node → Bool
  | .mk _ _ _ a c => decide ((a.map Prod.fst).Nodup) && unique_attribute_names_all c
/-- The attribute names are unique within each element of the trees. -/
def unique_attribute_names_all : List xml_node → Bool
  | [] => true
  | x :: xs => x.unique_attribute_names && unique_attribute_names_all xs
end

/-- The element `<Relationship Id=.. Type=.. Target=../>`. -/
def relationship_node (id type target : String) : xml_node :=
  .mk .element "Relationship" "" [("Id", id), ("Type", type), ("Target", target)] []

/-- The document `<Relationships>..</Relationships>` with the given children. -/
def relationships_document (children : List xml_node) : xml_node :=
  .mk .document "" "" [] [.mk .element "Relationships" "" [] children]

/-- The events of a worksheet part whose sheet data is the one row
`<row r="1" spans="1:1">` with the given events of its cells. -/
def one_row_worksheet_events (xmlns : String) (cells : List event) : List event :=
  element_events ⟨xmlns, "worksheet"⟩ [] ""
    (element_events ⟨xmlns, "sheetData"⟩ [] ""
      (element_events ⟨xmlns, "row"⟩ [(⟨"", "r"⟩, "1"), (⟨"", "spans"⟩, "1:1")] "" cells))

/-- The sample style sheet with a second table `cellXfs` after the first: the second
declares the count 2 and holds one `xf`. -/
def repeated_cell_xfs_events : List event :=
  ns_element "styleSheet" []
    (sample_component_events
      ++ ns_element "cellStyleXfs" [("count", "2")]
        (ns_element "xf" [("fontId", "0"), ("fillId", "0"), ("borderId", "0")] []
          ++ ns_element "xf" [("fontId", "1"), ("fillId", "0"), ("borderId", "0")] [])
      ++ ns_element "cellXfs" [("count", "1")]
        (ns_element "xf"
          [("fontId", "1"), ("fillId", "1"), ("borderId", "1"), ("xfId", "1")] [])
      ++ ns_element "cellXfs" [("count", "2")]
        (ns_element "xf"
          [("fontId", "1"), ("fillId", "1"), ("borderId", "1"), ("xfId", "1")] [])
      ++ ns_element "cellStyles" [("count", "2")]
        (ns_element "cellStyle" [("name", "Normal"), ("xfId", "0"), ("builtinId", "0")] []
          ++ ns_element "cellStyle" [("name", "Bold"), ("xfId", "1"), ("builtinId", "1")] []))

/-! # Theorems -/

/-! ## Lemmas on the event streams -/

/-- An element without text has no `characters` event. -/
@[simp]
theorem text_events_empty (q : qname) : text_events q "" = [] := rfl

/-- An element with text has one `characters` event. -/
theorem text_events_ne (q : qname) (text : String) (h : text ≠ "") :
    text_events q text = [⟨.characters, q, [], text⟩] := by
  simp [text_events, h]

/-! ## Lemmas on the conversions -/

theorem isDigit_toNat (c : Char) (h : c.isDigit = true) : 48 ≤ c.toNat ∧ c.toNat ≤ 57 := by
  simp only [Char.isDigit, Bool.and_eq_true, decide_eq_true_eq] at h
  obtain ⟨h1, h2⟩ := h
  rw [ge_iff_le, UInt32.le_def] at h1
  rw [UInt32.le_def] at h2
  exact ⟨h1, h2⟩

theorem isDigit_not_isspace (c : Char) (h : c.isDigit = true) : isspace c = false := by
  have := isDigit_toNat c h
  simp only [isspace, Bool.or_eq_false_iff, Bool.and_eq_false_imp, decide_eq_false_iff_not,
    decide_eq_true_eq]
  omega

theorem isDigit_ne_sign (c : Char) (h : c.isDigit = true) :
    c ≠ Char.ofNat 45 ∧ c ≠ Char.ofNat 43 := by
  have := isDigit_toNat c h
  constructor
  · rintro rfl
    revert this
    decide
  · rintro rfl
    revert this
    decide

theorem stoull_numeral (s : String) (h : is_numeral s) (hlt : digits_value s.toList < 2 ^ 64) :
    stoull s = .ok (digits_value s.toList) := by
  obtain ⟨hne, hd⟩ := h
  obtain ⟨c, cs, hcs⟩ := List.exists_cons_of_ne_nil hne
  have hc : c.isDigit = true := hd c (by rw [hcs]; exact List.mem_cons_self _ _)
  have hsp := isDigit_not_isspace c hc
  obtain ⟨hm, hp⟩ := isDigit_ne_sign c hc
  have htw : List.takeWhile Char.isDigit (c :: cs) = c :: cs := by
    rw [List.takeWhile_eq_self_iff]
    intro x hx
    exact hd x (by rw [hcs]; exact hx)
  have hlt2 : ¬ (2 ^ 64 ≤ digits_value (c :: cs)) := by
    rw [← hcs]; omega
  unfold stoull
  simp only [hcs, List.dropWhile_cons, hsp, Bool.false_eq_true, if_false, List.head?_cons,
    Option.some.injEq, hm, hp, or_self, htw, decide_False, hlt2]
  simp

/-! ## Cells on the event stream -/

/-- A child of `c` with text makes the loop over the children raise `xml::parsing`: the
readers ask for the value at the start tag and then for the end tag, where the
`characters` event comes. -/
theorem read_cell_children_text (xmlns : String) (fuel : Nat) (cur : event)
    (attrs qattrs : List (qname × String)) (q : qname) (txt : String) (rest : List event)
    (l : cell_locals) (h : txt ≠ "") (hfuel : 0 < fuel) :
    read_cell_children xmlns fuel
        ⟨cur, attrs, element_events q qattrs txt [] ++ rest⟩ l = .error .parsing := by
  obtain ⟨fuel, rfl⟩ : ∃ k, fuel = k + 1 := ⟨fuel - 1, by omega⟩
  by_cases hv : q = ⟨xmlns, "v"⟩
  · subst hv
    simp [read_cell_children, element_events, text_events_ne _ txt h, parser.peek,
      parser.next_expect, parser.next, read_cell_child, parser.qname, parser.next_expect_qname]
  by_cases hf : q = ⟨xmlns, "f"⟩
  · subst hf
    simp [read_cell_children, element_events, text_events_ne _ txt h, parser.peek,
      parser.next_expect, parser.next, read_cell_child, parser.qname, parser.next_expect_qname]
  by_cases hi : q = ⟨xmlns, "is"⟩
  · subst hi
    simp [read_cell_children, element_events, text_events_ne _ txt h, parser.peek,
      parser.next_expect, parser.next, read_cell_child, parser.qname, parser.next_expect_qname]
  simp [read_cell_children, element_events, text_events_ne _ txt h, parser.peek,
    parser.next_expect, parser.next, read_cell_child, parser.qname, parser.next_expect_qname,
    hv, hf, hi]

/-- An empty child `v` sets `has_value` and leaves the value text empty. -/
theorem read_cell_children_empty_value (xmlns : String) (fuel : Nat) (cur : event)
    (attrs vattrs : List (qname × String)) (rest : List event) (l : cell_locals) :
    read_cell_children xmlns (fuel + 1)
        ⟨cur, attrs, element_events ⟨xmlns, "v"⟩ vattrs "" [] ++ rest⟩ l
      = read_cell_children xmlns fuel ⟨⟨.end_element, ⟨xmlns, "v"⟩, [], ""⟩, vattrs, rest⟩
          { l with has_value := true, value_string := "" } := by
  simp [read_cell_children, element_events, parser.peek, parser.next_expect, parser.next,
    read_cell_child, parser.qname, parser.next_expect_qname, parser.value]

/-- An empty child `f` sets `has_formula`, and `has_shared_formula` when it is marked
`t="shared"`, and leaves the formula text empty. -/
theorem read_cell_children_empty_formula (xmlns : String) (fuel : Nat) (cur : event)
    (attrs fattrs : List (qname × String)) (rest : List event) (l : cell_locals) :
    read_cell_children xmlns (fuel + 1)
        ⟨cur, attrs, element_events ⟨xmlns, "f"⟩ fattrs "" [] ++ rest⟩ l
      = read_cell_children xmlns fuel ⟨⟨.end_element, ⟨xmlns, "f"⟩, [], ""⟩, fattrs, rest⟩
          { l with
            has_formula := true
            has_shared_formula := decide (lookup_attribute ⟨"", "t"⟩ fattrs = some "shared")
            formula_value_string := "" } := by
  cases ht : lookup_attribute ⟨"", "t"⟩ fattrs <;>
  simp [read_cell_children, element_events, parser.peek, parser.next_expect, parser.next,
    read_cell_child, parser.qname, parser.next_expect_qname, parser.value,
    parser.attribute_present, parser.attribute, ht]

/-- A cell whose children raise is left as `get_cell` made it. -/
theorem read_cell_children_raise {F : Type} (xmlns : String) (stold : String → Except error F)
    (shared_strings : List text) (formats : List (format F)) (data_only : Bool)
    (ws : worksheet F) (cur : event) (attrs cattrs : List (qname × String))
    (children tail : List event) (ref : String) (e : error)
    (hr : lookup_attribute ⟨"", "r"⟩ cattrs = some ref)
    (hs : ∀ v, lookup_attribute ⟨"", "s"⟩ cattrs = some v → ∃ id, stoull v = .ok id)
    (hch : read_cell_children xmlns
        ((children ++ ⟨.end_element, ⟨xmlns, "c"⟩, [], ""⟩ :: tail).length + 1)
        ⟨⟨.start_element, ⟨xmlns, "c"⟩, cattrs, ""⟩, cattrs,
          children ++ ⟨.end_element, ⟨xmlns, "c"⟩, [], ""⟩ :: tail⟩ {} = .error e) :
    read_cell xmlns stold shared_strings formats data_only
        ⟨cur, attrs, element_events ⟨xmlns, "c"⟩ cattrs "" children ++ tail⟩ ws
      = .fail e (ws.call ref .get_cell) := by
  have hstart : (⟨cur, attrs, element_events ⟨xmlns, "c"⟩ cattrs "" children ++ tail⟩ :
      parser).next_expect_qname .start_element ⟨xmlns, "c"⟩
      = .ok ⟨⟨.start_element, ⟨xmlns, "c"⟩, cattrs, ""⟩, cattrs,
          children ++ ⟨.end_element, ⟨xmlns, "c"⟩, [], ""⟩ :: tail⟩ := by
    simp [element_events, parser.next_expect_qname, parser.next]
  unfold read_cell
  rw [hstart]
  simp only [hch]
  rcases hfmt : lookup_attribute ⟨"", "s"⟩ cattrs with _ | sv
  · simp [parser.attribute, parser.attribute_present, hr, hfmt]
  · obtain ⟨id, hid⟩ := hs sv hfmt
    simp [parser.attribute, parser.attribute_present, hr, hfmt, hid]

/-- A cell whose first child has text is not read: `xml::parsing` is raised after the
cell was fetched, whatever the name of the child and whatever follows it. -/
theorem read_cell_first_child_text {F : Type} (xmlns : String) (stold : String → Except error F)
    (shared_strings : List text) (formats : List (format F)) (data_only : Bool)
    (ws : worksheet F) (cur : event) (attrs cattrs qattrs : List (qname × String))
    (q : qname) (more tail : List event) (ref txt : String)
    (hr : lookup_attribute ⟨"", "r"⟩ cattrs = some ref)
    (hs : ∀ v, lookup_attribute ⟨"", "s"⟩ cattrs = some v → ∃ id, stoull v = .ok id)
    (h : txt ≠ "") :
    read_cell xmlns stold shared_strings formats data_only
        ⟨cur, attrs, element_events ⟨xmlns, "c"⟩ cattrs ""
          (element_events q qattrs txt [] ++ more) ++ tail⟩ ws
      = .fail .parsing (ws.call ref .get_cell) := by
  apply read_cell_children_raise xmlns stold shared_strings formats data_only ws cur attrs
    cattrs _ tail ref .parsing hr hs
  rw [List.append_assoc]
  exact read_cell_children_text xmlns _ _ _ qattrs q txt _ {} h (Nat.succ_pos _)

/-- A cell whose first child is an empty formula and whose second child has text is not
read either. -/
theorem read_cell_empty_formula_then_text {F : Type} (xmlns : String)
    (stold : String → Except error F)
    (shared_strings : List text) (formats : List (format F)) (data_only : Bool)
    (ws : worksheet F) (cur : event) (attrs cattrs fattrs qattrs : List (qname × String))
    (q : qname) (more tail : List event) (ref txt : String)
    (hr : lookup_attribute ⟨"", "r"⟩ cattrs = some ref)
    (hs : ∀ v, lookup_attribute ⟨"", "s"⟩ cattrs = some v → ∃ id, stoull v = .ok id)
    (h : txt ≠ "") :
    read_cell xmlns stold shared_strings formats data_only
        ⟨cur, attrs, element_events ⟨xmlns, "c"⟩ cattrs ""
          (element_events ⟨xmlns, "f"⟩ fattrs "" []
            ++ (element_events q qattrs txt [] ++ more)) ++ tail⟩ ws
      = .fail .parsing (ws.call ref .get_cell) := by
  apply read_cell_children_raise xmlns stold shared_strings formats data_only ws cur attrs
    cattrs _ tail ref .parsing hr hs
  rw [List.append_assoc, read_cell_children_empty_formula, List.append_assoc]
  exact read_cell_children_text xmlns _ _ _ qattrs q txt _ _ h
    (by simp [element_events])

/-- A cell with the children `f` and `v`, in either order, the text of `v` not empty, is
not read. -/
theorem read_cell_formula_value_text {F : Type} (xmlns : String)
    (stold : String → Except error F)
    (shared_strings : List text) (formats : List (format F)) (data_only : Bool)
    (ws : worksheet F) (cur : event) (attrs cattrs fattrs vattrs : List (qname × String))
    (tail : List event) (ref ftxt vtxt : String) (f_first : Bool)
    (hr : lookup_attribute ⟨"", "r"⟩ cattrs = some ref)
    (hs : ∀ v, lookup_attribute ⟨"", "s"⟩ cattrs = some v → ∃ id, stoull v = .ok id)
    (hv : vtxt ≠ "") :
    read_cell xmlns stold shared_strings formats data_only
        ⟨cur, attrs, element_events ⟨xmlns, "c"⟩ cattrs ""
          (if f_first then
            element_events ⟨xmlns, "f"⟩ fattrs ftxt [] ++ element_events ⟨xmlns, "v"⟩ vattrs vtxt []
           else
            element_events ⟨xmlns, "v"⟩ vattrs vtxt [] ++ element_events ⟨xmlns, "f"⟩ fattrs ftxt [])
          ++ tail⟩ ws
      = .fail .parsing (ws.call ref .get_cell) := by
  cases f_first
  · simp only [Bool.false_eq_true, if_false]
    exact read_cell_first_child_text xmlns stold shared_strings formats data_only ws cur attrs
      cattrs vattrs _ _ tail ref vtxt hr hs hv
  · simp only [if_true]
    by_cases hf : ftxt = ""
    · subst hf
      have := read_cell_empty_formula_then_text xmlns stold shared_strings formats data_only ws
        cur attrs cattrs fattrs vattrs ⟨xmlns, "v"⟩ [] tail ref vtxt hr hs hv
      simpa using this
    · exact read_cell_first_child_text xmlns stold shared_strings formats data_only ws cur attrs
        cattrs fattrs _ _ tail ref ftxt hr hs hf

/-- The conversions of the row of `one_row_worksheet_events`. -/
theorem one_row_conversions : stoull "1" = .ok 1 ∧ read_row_span "1:1" = .ok () := by
  constructor <;> rfl

/-- The reader of the worksheet part reaches the first cell of the one row of
`one_row_worksheet_events` with the worksheet unchanged; when the cell raises, so does
`read_worksheet`, with what the cell has written. -/
theorem read_worksheet_body_first_cell_raises {F : Type} (cx : worksheet_context F)
    (xmlns xmlns_x14ac : String) (cells : List event) (ws ws1 : worksheet F) (e : error)
    (hstart : ∃ c cs, cells = c :: cs ∧ c.type = .start_element)
    (hcell : read_cell xmlns cx.stold cx.shared_strings cx.formats cx.data_only
        ⟨⟨.start_element, ⟨xmlns, "row"⟩, [(⟨"", "r"⟩, "1"), (⟨"", "spans"⟩, "1:1")], ""⟩,
          [(⟨"", "r"⟩, "1"), (⟨"", "spans"⟩, "1:1")],
          cells ++ [⟨.end_element, ⟨xmlns, "row"⟩, [], ""⟩,
            ⟨.end_element, ⟨xmlns, "sheetData"⟩, [], ""⟩,
            ⟨.end_element, ⟨xmlns, "worksheet"⟩, [], ""⟩]⟩ ws = .fail e ws1) :
    read_worksheet_body cx xmlns xmlns_x14ac
        (parser.of_events (one_row_worksheet_events xmlns cells)) ws = .fail e ws1 := by
  obtain ⟨c, cs, rfl, hc⟩ := hstart
  simp only [List.cons_append] at hcell
  have hne : c.type ≠ .end_element := by rw [hc]; decide
  have hne2 : c.type ≠ .start_namespace_decl := by rw [hc]; decide
  simp [read_worksheet_body, one_row_worksheet_events, element_events, parser.of_events,
    parser.next_expect_qname, parser.next_expect, parser.next, read_worksheet_namespaces,
    parser.peek, read_worksheet_children, read_worksheet_child, parser.qname,
    read_worksheet_sheet_data, read_rows, read_row, parser.attribute, parser.attribute_present,
    lookup_attribute, one_row_conversions.1, one_row_conversions.2, read_row_cells, hne, hcell]

/-- When the only cell of the one row is read, `read_worksheet` raises `xml::parsing`
after it: the end tag of `row` is never consumed, and the end tag of `sheetData` is asked
for where it comes (source line 1611).  What the cell has written stays. -/
theorem read_worksheet_body_one_cell_read {F : Type} (cx : worksheet_context F)
    (xmlns xmlns_x14ac : String) (cells : List event) (ws ws1 : worksheet F)
    (cur1 : event) (attrs1 : List (qname × String))
    (hstart : ∃ c cs, cells = c :: cs ∧ c.type = .start_element)
    (hcell : read_cell xmlns cx.stold cx.shared_strings cx.formats cx.data_only
        ⟨⟨.start_element, ⟨xmlns, "row"⟩, [(⟨"", "r"⟩, "1"), (⟨"", "spans"⟩, "1:1")], ""⟩,
          [(⟨"", "r"⟩, "1"), (⟨"", "spans"⟩, "1:1")],
          cells ++ [⟨.end_element, ⟨xmlns, "row"⟩, [], ""⟩,
            ⟨.end_element, ⟨xmlns, "sheetData"⟩, [], ""⟩,
            ⟨.end_element, ⟨xmlns, "worksheet"⟩, [], ""⟩]⟩ ws
      = .ok ⟨cur1, attrs1, [⟨.end_element, ⟨xmlns, "row"⟩, [], ""⟩,
            ⟨.end_element, ⟨xmlns, "sheetData"⟩, [], ""⟩,
            ⟨.end_element, ⟨xmlns, "worksheet"⟩, [], ""⟩]⟩ ws1) :
    read_worksheet_body cx xmlns xmlns_x14ac
        (parser.of_events (one_row_worksheet_events xmlns cells)) ws = .fail .parsing ws1 := by
  obtain ⟨c, cs, rfl, hc⟩ := hstart
  simp only [List.cons_append] at hcell
  have hne : c.type ≠ .end_element := by rw [hc]; decide
  have hne2 : c.type ≠ .start_namespace_decl := by rw [hc]; decide
  simp [read_worksheet_body, one_row_worksheet_events, element_events, parser.of_events,
    parser.next_expect_qname, parser.next_expect, parser.next, read_worksheet_namespaces,
    parser.peek, read_worksheet_children, read_worksheet_child, parser.qname,
    read_worksheet_sheet_data, read_rows, read_row, parser.attribute, parser.attribute_present,
    lookup_attribute, one_row_conversions.1, one_row_conversions.2, read_row_cells, hne, hcell]

/-! ## Cells: formula and cached value (C1), shared strings (C2) -/

/-- C1 (what the code does): a cell whose children are a formula `f` and a cached value
`v` with non-empty text, in either order, is not read.  The text of a child is a
`characters` event between its tags; the reader takes `parser.value()` at the start tag
(source lines 1553 and 1559) and then asks for the end tag (line 1568), where that event
comes, and `xml::parsing` is raised.  The cell has been fetched and nothing is stored on
it, neither the formula nor the value, and the reader of the worksheet part raises with
it.  Lines 1571-1574 by themselves store the formula text of a formula that is not
shared, outside data-only mode. -/
theorem read_cell_formula_value_raises {F : Type} (cx : worksheet_context F)
    (xmlns xmlns_x14ac : String) (ws : worksheet F) (cur : event)
    (attrs cattrs fattrs vattrs : List (qname × String)) (tail : List event)
    (ref ftxt vtxt : String) (f_first : Bool)
    (hr : lookup_attribute ⟨"", "r"⟩ cattrs = some ref)
    (hs : ∀ v, lookup_attribute ⟨"", "s"⟩ cattrs = some v → ∃ id, stoull v = .ok id)
    (hv : vtxt ≠ "") :
    read_cell xmlns cx.stold cx.shared_strings cx.formats cx.data_only
        ⟨cur, attrs, element_events ⟨xmlns, "c"⟩ cattrs ""
          (if f_first then
            element_events ⟨xmlns, "f"⟩ fattrs ftxt [] ++ element_events ⟨xmlns, "v"⟩ vattrs vtxt []
           else
            element_events ⟨xmlns, "v"⟩ vattrs vtxt [] ++ element_events ⟨xmlns, "f"⟩ fattrs ftxt [])
          ++ tail⟩ ws
      = .fail .parsing (ws.call ref .get_cell)
    ∧ read_worksheet_body cx xmlns xmlns_x14ac
        (parser.of_events (one_row_worksheet_events xmlns
          (element_events ⟨xmlns, "c"⟩ cattrs ""
            (if f_first then
              element_events ⟨xmlns, "f"⟩ fattrs ftxt []
                ++ element_events ⟨xmlns, "v"⟩ vattrs vtxt []
             else
              element_events ⟨xmlns, "v"⟩ vattrs vtxt []
                ++ element_events ⟨xmlns, "f"⟩ fattrs ftxt [])))) ws
      = .fail .parsing (ws.call ref .get_cell)
    ∧ ∀ l : cell_locals, l.has_formula = true → l.has_shared_formula = false →
        store_cell_formula false l ref ws = ws.call ref (.set_formula l.formula_value_string) := by
  refine ⟨?_, ?_, ?_⟩
  · exact read_cell_formula_value_text xmlns cx.stold cx.shared_strings cx.formats cx.data_only
      ws cur attrs cattrs fattrs vattrs tail ref ftxt vtxt f_first hr hs hv
  · exact read_worksheet_body_first_cell_raises cx xmlns xmlns_x14ac _ ws _ .parsing
      ⟨_, _, rfl, rfl⟩
      (read_cell_formula_value_text xmlns cx.stold cx.shared_strings cx.formats cx.data_only
        ws _ _ cattrs fattrs vattrs _ ref ftxt vtxt f_first hr hs hv)
  · intro l h1 h2
    simp [store_cell_formula, h1, h2]

/-- C1, witness: the worksheet part whose one row holds the cell
`<c r="A1"><f>A1+1</f><v>42</v></c>` is read, outside data-only mode, up to the fetching
of A1 and then raises `xml::parsing`; no formula and no value is stored. -/
theorem read_cell_formula_value_raises_witness :
    (lookup_attribute ⟨"", "r"⟩ [((⟨"", "r"⟩ : qname), "A1")] = some "A1" ∧ "42" ≠ "")
    ∧ read_worksheet_body (⟨sample_traits, stold_decimal, [], [], false⟩ : worksheet_context Nat)
        "ns" "x14ac"
        (parser.of_events (one_row_worksheet_events "ns"
          (element_events ⟨"ns", "c"⟩ [(⟨"", "r"⟩, "A1")] ""
            (element_events ⟨"ns", "f"⟩ [] "A1+1" [] ++ element_events ⟨"ns", "v"⟩ [] "42" []))))
        {}
      = .fail .parsing { cell_calls := [("A1", .get_cell)] } :=
  ⟨⟨by decide, by decide⟩,
    (read_cell_formula_value_raises ⟨sample_traits, stold_decimal, [], [], false⟩ "ns" "x14ac" {}
      eof_event [] [(⟨"", "r"⟩, "A1")] [] [] [] "A1" "A1+1" "42" true (by decide)
      (fun v h => by simp [lookup_attribute] at h) (by decide)).2.1⟩

/-- C2 (what the code does): a cell of type `s` without formula child whose value text
is the decimal numeral of an index `i` into the loaded shared strings.  Lines 1580-1585
give the cell the value `S[i]` when the text is in `value_string`.  It never is: the text
is a `characters` event, `parser.value()` is taken at the start tag of `v`, and the end
tag is asked for where the event comes.  The cell is fetched, `xml::parsing` is raised,
no value is stored, and the reader of the worksheet part raises with it. -/
theorem read_cell_shared_string_raises {F : Type} (cx : worksheet_context F)
    (xmlns xmlns_x14ac : String) (ws : worksheet F) (cur : event)
    (attrs cattrs vattrs : List (qname × String)) (tail : List event) (ref vtxt : String)
    (hr : lookup_attribute ⟨"", "r"⟩ cattrs = some ref)
    (hs : ∀ v, lookup_attribute ⟨"", "s"⟩ cattrs = some v → ∃ id, stoull v = .ok id)
    (hnum : is_numeral vtxt)
    (hi : digits_value vtxt.toList < cx.shared_strings.length)
    (h64 : digits_value vtxt.toList < 2 ^ 64) :
    read_cell xmlns cx.stold cx.shared_strings cx.formats cx.data_only
        ⟨cur, attrs, element_events ⟨xmlns, "c"⟩ cattrs ""
          (element_events ⟨xmlns, "v"⟩ vattrs vtxt []) ++ tail⟩ ws
      = .fail .parsing (ws.call ref .get_cell)
    ∧ read_worksheet_body cx xmlns xmlns_x14ac
        (parser.of_events (one_row_worksheet_events xmlns
          (element_events ⟨xmlns, "c"⟩ cattrs ""
            (element_events ⟨xmlns, "v"⟩ vattrs vtxt [])))) ws
      = .fail .parsing (ws.call ref .get_cell)
    ∧ ∀ l : cell_locals, l.has_formula = false → l.value_string = vtxt →
        store_cell_value cx.stold cx.shared_strings true "s" l ref ws
          = .ok (ws.call ref (.set_value_text cx.shared_strings[digits_value vtxt.toList])) := by
  have hv : vtxt ≠ "" := by
    intro h
    exact hnum.1 (by rw [h]; rfl)
  have hcell : ∀ (cur : event) (attrs : List (qname × String)) (tail : List event),
      read_cell xmlns cx.stold cx.shared_strings cx.formats cx.data_only
        ⟨cur, attrs, element_events ⟨xmlns, "c"⟩ cattrs ""
          (element_events ⟨xmlns, "v"⟩ vattrs vtxt []) ++ tail⟩ ws
      = .fail .parsing (ws.call ref .get_cell) := by
    intro cur attrs tail
    have := read_cell_first_child_text xmlns cx.stold cx.shared_strings cx.formats cx.data_only
      ws cur attrs cattrs vattrs ⟨xmlns, "v"⟩ [] tail ref vtxt hr hs hv
    simpa using this
  refine ⟨hcell cur attrs tail, ?_, ?_⟩
  · exact read_worksheet_body_first_cell_raises cx xmlns xmlns_x14ac _ ws _ .parsing
      ⟨_, _, rfl, rfl⟩ (hcell _ _ _)
  · intro l h1 h2
    have hst : stoull vtxt = .ok (digits_value vtxt.toList) := stoull_numeral vtxt hnum h64
    have hget : cx.shared_strings[digits_value vtxt.toList]?
        = some cx.shared_strings[digits_value vtxt.toList] := List.getElem?_eq_getElem hi
    simp only [store_cell_value, h1, h2, hst]
    rw [if_neg (by decide)]
    simp only [Bool.not_false, Bool.and_self, if_true, hget]
    rfl

/-- C2, witness, the scenario of the specification: with the shared strings `["hello"]`
the worksheet part whose one row holds `<c r="A1" t="s"><v>0</v></c>` raises
`xml::parsing` after A1 was fetched, and A1 has no value. -/
theorem read_cell_shared_string_raises_witness :
    (lookup_attribute ⟨"", "r"⟩ [((⟨"", "r"⟩ : qname), "A1"), (⟨"", "t"⟩, "s")] = some "A1"
      ∧ is_numeral "0" ∧ digits_value "0".toList < [text.set_plain_string {} "hello"].length)
    ∧ read_worksheet_body
        (⟨sample_traits, stold_decimal, [text.set_plain_string {} "hello"], [], false⟩ :
          worksheet_context Nat) "ns" "x14ac"
        (parser.of_events (one_row_worksheet_events "ns"
          (element_events ⟨"ns", "c"⟩ [(⟨"", "r"⟩, "A1"), (⟨"", "t"⟩, "s")] ""
            (element_events ⟨"ns", "v"⟩ [] "0" [])))) {}
      = .fail .parsing { cell_calls := [("A1", .get_cell)] } :=
  ⟨⟨by decide, by decide, by decide⟩,
    (read_cell_shared_string_raises
      ⟨sample_traits, stold_decimal, [text.set_plain_string {} "hello"], [], false⟩ "ns" "x14ac"
      {} eof_event [] [(⟨"", "r"⟩, "A1"), (⟨"", "t"⟩, "s")] [] [] "A1" "0" (by decide)
      (fun v h => by simp [lookup_attribute] at h) (by decide) (by decide) (by decide)).2.1⟩

/-! ## The sheet list and the order of the worksheets (C3) -/

theorem map_set_append {α : Type} (m : List (String × α)) (k : String) (v : α)
    (h : k ∉ m.map Prod.fst) : map_set m k v = m ++ [(k, v)] := by
  induction m with
  | nil => rfl
  | cons x m ih =>
    obtain ⟨k1, v1⟩ := x
    simp only [List.map_cons, List.mem_cons, not_or] at h
    simp [map_set, Ne.symm h.1, ih h.2]

theorem read_workbook_sheets_loop_spec {F : Type} (xmlns_s xmlns_r : String) (e_end : event)
    (he : e_end.type = .end_element) (tail : List event) :
    ∀ (sheets : List (String × String × String)) (fuel : Nat) (cur : event)
      (attrs : List (qname × String)) (index : Nat) (st : sheet_state F),
      sheets.length < fuel →
      (∀ s ∈ sheets, is_numeral s.2.2 ∧ digits_value s.2.2.toList < 2 ^ 64) →
      (sheets.map (fun s => s.2.1)).Nodup →
      (∀ s ∈ sheets, s.2.1 ∉ st.sheet_title_id_map_.map Prod.fst
        ∧ s.2.1 ∉ st.sheet_title_index_map_.map Prod.fst
        ∧ s.2.1 ∉ st.sheet_title_rel_id_map_.map Prod.fst) →
      ∃ cur1 attrs1,
        read_workbook_sheets_loop xmlns_s xmlns_r fuel
          ⟨cur, attrs, (sheets.map (sheet_events xmlns_s xmlns_r)).flatten ++ e_end :: tail⟩
          index st
        = .ok (⟨cur1, attrs1, e_end :: tail⟩, index + sheets.length,
            { st with
              sheet_title_id_map_ := st.sheet_title_id_map_ ++
                sheets.map (fun s => (s.2.1, digits_value s.2.2.toList))
              sheet_title_index_map_ := st.sheet_title_index_map_ ++
                (sheets.map (fun s => s.2.1)).zip (List.range' index sheets.length)
              sheet_title_rel_id_map_ := st.sheet_title_rel_id_map_ ++
                sheets.map (fun s => (s.2.1, s.1)) }) := by
  intro sheets
  induction sheets with
  | nil =>
    intro fuel cur attrs index st hfuel _ _ _
    obtain ⟨f, rfl⟩ : ∃ f, fuel = f + 1 := ⟨fuel - 1, by simp at hfuel; omega⟩
    exact ⟨cur, attrs, by simp [read_workbook_sheets_loop, parser.peek, he]⟩
  | cons s sheets ih =>
    intro fuel cur attrs index st hfuel hnum hnodup hfresh
    obtain ⟨f, rfl⟩ : ∃ f, fuel = f + 1 := ⟨fuel - 1, by simp at hfuel; omega⟩
    obtain ⟨rel, title, idtxt⟩ := s
    have hs := hnum (rel, title, idtxt) (List.mem_cons_self _ _)
    have hst : stoull idtxt = .ok (digits_value idtxt.toList) := stoull_numeral idtxt hs.1 hs.2
    have hf := hfresh (rel, title, idtxt) (List.mem_cons_self _ _)
    simp only [List.map_cons, List.nodup_cons] at hnodup
    obtain ⟨cur1, attrs1, h1⟩ := ih f ⟨.end_element, ⟨xmlns_s, "sheet"⟩, [], ""⟩
      [(⟨xmlns_r, "id"⟩, rel), (⟨"", "name"⟩, title), (⟨"", "sheetId"⟩, idtxt)] (index + 1)
      { st with
        sheet_title_id_map_ := map_set st.sheet_title_id_map_ title (digits_value idtxt.toList)
        sheet_title_index_map_ := map_set st.sheet_title_index_map_ title index
        sheet_title_rel_id_map_ := map_set st.sheet_title_rel_id_map_ title rel }
      (by simp at hfuel; omega)
      (fun x hx => hnum x (List.mem_cons_of_mem _ hx))
      hnodup.2
      (by
        intro x hx
        have hx1 := hfresh x (List.mem_cons_of_mem _ hx)
        have hne : x.2.1 ≠ title := by
          intro heq
          exact hnodup.1 (heq ▸ List.mem_map_of_mem (fun s => s.2.1) hx)
        simp only [map_set_append _ _ _ hf.1, map_set_append _ _ _ hf.2.1,
          map_set_append _ _ _ hf.2.2, List.map_append, List.map_cons, List.map_nil,
          List.mem_append, List.mem_singleton]
        exact ⟨by tauto, by tauto, by tauto⟩)
    refine ⟨cur1, attrs1, ?_⟩
    simp only [List.map_cons, List.flatten_cons, sheet_events, element_events, text_events_empty, List.nil_append, List.nil_append,
      List.cons_append, List.append_assoc, List.singleton_append]
    rw [read_workbook_sheets_loop]
    simp [parser.peek, parser.next_expect_qname, parser.next, parser.attribute_qname,
      parser.attribute, lookup_attribute, string_to_size_t, hst]
    refine h1.trans ?_
    simp [map_set_append _ _ _ hf.1, map_set_append _ _ _ hf.2.1,
      map_set_append _ _ _ hf.2.2, List.range'_succ]
    omega


theorem sheet_events_flatten_length (xmlns_s xmlns_r : String)
    (sheets : List (String × String × String)) :
    ((sheets.map (sheet_events xmlns_s xmlns_r)).flatten).length = 2 * sheets.length := by
  induction sheets with
  | nil => rfl
  | cons s sheets ih =>
    simp only [List.map_cons, List.flatten_cons, List.length_append, ih, List.length_cons]
    simp only [sheet_events, element_events, text_events_empty, List.nil_append, List.nil_append, List.length_cons, List.length_nil]
    omega

theorem find_rel_of_mem (sheets : List (String × String × String))
    (hrels : (sheets.map (fun s => s.1)).Nodup) (s : String × String × String)
    (hs : s ∈ sheets) :
    (sheets.map (fun s => (s.2.1, s.1))).find? (fun p => p.2 = s.1) = some (s.2.1, s.1) := by
  induction sheets with
  | nil => simp at hs
  | cons x xs ih =>
    simp only [List.map_cons, List.nodup_cons] at hrels
    rcases List.mem_cons.mp hs with rfl | hmem
    · simp
    · have hne : x.1 ≠ s.1 := by
        intro heq
        exact hrels.1 (heq ▸ List.mem_map_of_mem (fun s => s.1) hmem)
      simp only [List.map_cons]
      rw [List.find?_cons_of_neg _ (by simpa using hne)]
      exact ih hrels.2 hmem

theorem map_get_of_mem {α : Type} (sheets : List α) (title : α → String) (v : α → Nat)
    (hn : (sheets.map title).Nodup) (s : α) (hs : s ∈ sheets) :
    map_get (sheets.map (fun s => (title s, v s))) (title s) = v s := by
  induction sheets with
  | nil => simp at hs
  | cons x xs ih =>
    simp only [List.map_cons, List.nodup_cons] at hn
    rcases List.mem_cons.mp hs with rfl | hmem
    · simp [map_get]
    · have hne : title x ≠ title s := by
        intro heq
        exact hn.1 (heq ▸ List.mem_map_of_mem title hmem)
      simp only [List.map_cons, map_get, hne, if_false]
      exact ih hn.2 hmem

theorem map_get_zip_range (titles : List String) (hn : titles.Nodup) (i : Nat) :
    titles.map (map_get (titles.zip (List.range' i titles.length))) =
      List.range' i titles.length := by
  induction titles generalizing i with
  | nil => rfl
  | cons t ts ih =>
    simp only [List.nodup_cons] at hn
    simp only [List.length_cons, List.range'_succ, List.zip_cons_cons, List.map_cons, map_get,
      if_true, List.cons.injEq, true_and]
    refine Eq.trans (List.map_congr_left ?_) (ih hn.2 (i + 1))
    intro x hx
    have hne : t ≠ x := by
      rintro rfl
      exact hn.1 hx
    simp only [hne, if_false]
    rfl

theorem insert_worksheet_map_key {F : Type} (im : List (String × Nat)) (w : worksheet F)
    (L : List (worksheet F)) :
    (insert_worksheet im (map_get im w.title_) w L).map (fun x => map_get im x.title_) =
      List.orderedInsert (fun a b => a ≤ b) (map_get im w.title_)
        (L.map (fun x => map_get im x.title_)) := by
  induction L with
  | nil => rfl
  | cons x xs ih =>
    simp only [insert_worksheet, List.map_cons, List.orderedInsert]
    by_cases h : map_get im x.title_ < map_get im w.title_
    · have h2 : ¬ (map_get im w.title_ ≤ map_get im x.title_) := by omega
      simp only [h, h2, if_true, if_false, List.map_cons, ih]
    · have h2 : map_get im w.title_ ≤ map_get im x.title_ := by omega
      simp only [h, h2, if_true, if_false, List.map_cons]

theorem insert_worksheet_perm {F : Type} (im : List (String × Nat)) (i : Nat) (w : worksheet F)
    (L : List (worksheet F)) : (insert_worksheet im i w L).Perm (w :: L) := by
  induction L with
  | nil => exact List.Perm.refl _
  | cons x xs ih =>
    simp only [insert_worksheet]
    split
    · exact (List.Perm.cons x ih).trans (List.Perm.swap w x xs)
    · exact List.Perm.refl _

theorem map_eq_of_inj_on {α β : Type} (f : α → β) (S : List α)
    (hinj : ∀ x ∈ S, ∀ y ∈ S, f x = f y → x = y) :
    ∀ (L W : List α), (∀ x ∈ L, x ∈ S) → (∀ y ∈ W, y ∈ S) → L.map f = W.map f → L = W := by
  intro L
  induction L with
  | nil =>
    intro W _ _ h
    exact (List.map_eq_nil_iff.mp h.symm).symm
  | cons x xs ih =>
    intro W hL hW h
    cases W with
    | nil => simp at h
    | cons y ys =>
      simp only [List.map_cons, List.cons.injEq] at h
      have hxy : x = y :=
        hinj x (hL x (List.mem_cons_self _ _)) y (hW y (List.mem_cons_self _ _)) h.1
      rw [hxy, ih ys (fun a ha => hL a (List.mem_cons_of_mem _ ha))
        (fun a ha => hW a (List.mem_cons_of_mem _ ha)) h.2]


theorem read_worksheets_insert_spec {F : Type} (sheets : List (String × String × String))
    (hn : (sheets.map (fun s => s.2.1)).Nodup) (hrels : (sheets.map (fun s => s.1)).Nodup)
    (st : sheet_state F)
    (hid : st.sheet_title_id_map_ = sheets.map (fun s => (s.2.1, digits_value s.2.2.toList)))
    (hrel : st.sheet_title_rel_id_map_ = sheets.map (fun s => (s.2.1, s.1))) :
    ∀ (osheets : List (String × String × String)), (∀ s ∈ osheets, s ∈ sheets) →
      ∀ (L0 : List (worksheet F)),
      ∃ L, read_worksheets_insert (osheets.map (fun s => s.1)) { st with worksheets_ := L0 }
          = .ok { st with worksheets_ := L }
        ∧ L.Perm (osheets.map (fun s =>
            ({ title_ := s.2.1, id_ := digits_value s.2.2.toList } : worksheet F)) ++ L0)
        ∧ ((L0.map (fun x => map_get st.sheet_title_index_map_ x.title_)).Sorted
              (fun a b => a ≤ b) →
            (L.map (fun x => map_get st.sheet_title_index_map_ x.title_)).Sorted
              (fun a b => a ≤ b)) := by
  intro osheets
  induction osheets with
  | nil =>
    intro _ L0
    exact ⟨L0, rfl, List.Perm.refl _, fun h => h⟩
  | cons s os ih =>
    intro hsub L0
    have hs : s ∈ sheets := hsub s (List.mem_cons_self _ _)
    obtain ⟨L, hL, hperm, hsorted⟩ := ih (fun x hx => hsub x (List.mem_cons_of_mem _ hx))
      (insert_worksheet st.sheet_title_index_map_ (map_get st.sheet_title_index_map_ s.2.1)
        { title_ := s.2.1, id_ := digits_value s.2.2.toList } L0)
    refine ⟨L, ?_, ?_, ?_⟩
    · simp only [List.map_cons, read_worksheets_insert, read_worksheet_insert, hrel,
        find_rel_of_mem sheets hrels s hs, hid,
        map_get_of_mem sheets (fun s => s.2.1) (fun s => digits_value s.2.2.toList) hn s hs]
      simp only [hid, hrel] at hL
      exact hL
    · refine hperm.trans ?_
      refine (List.Perm.append_left _ (insert_worksheet_perm _ _ _ _)).trans ?_
      simp only [List.map_cons, List.cons_append]
      exact List.perm_middle
    · intro h0
      apply hsorted
      have := insert_worksheet_map_key st.sheet_title_index_map_
        ({ title_ := s.2.1, id_ := digits_value s.2.2.toList } : worksheet F) L0
      rw [this]
      exact List.Sorted.orderedInsert _ _ h0

/-- C3: after `read_workbook` has read a sheet list that declares pairwise distinct
titles with pairwise distinct relationship ids (and sheet ids that are `size_t`
numerals), the calls of `read_worksheet`, one for each relationship id in any order,
starting with no worksheet, leave the worksheets in the declared order, each with its
declared title and id. -/
theorem worksheets_in_declared_order {F : Type} (xmlns xmlns_s xmlns_r : String)
    (sheets : List (String × String × String)) (cur : event) (attrs : List (qname × String))
    (tail : List event) (order : List String)
    (hid : ∀ s ∈ sheets, is_numeral s.2.2 ∧ digits_value s.2.2.toList < 2 ^ 64)
    (htitles : (sheets.map (fun s => s.2.1)).Nodup)
    (hrels : (sheets.map (fun s => s.1)).Nodup)
    (horder : order.Perm (sheets.map (fun s => s.1))) :
    ∃ p st st1,
      read_workbook_sheets xmlns xmlns_s xmlns_r
          ⟨cur, attrs, sheets_events xmlns xmlns_s xmlns_r sheets ++ tail⟩ ({} : sheet_state F)
        = .ok (p, st)
      ∧ st.worksheets_ = []
      ∧ read_worksheets_insert order st = .ok st1
      ∧ st1.worksheets_ = sheets.map (fun s =>
          ({ title_ := s.2.1, id_ := digits_value s.2.2.toList } : worksheet F)) := by
  -- the sheet list
  obtain ⟨cur1, attrs1, hloop⟩ := read_workbook_sheets_loop_spec (F := F) xmlns_s xmlns_r
    ⟨.end_element, ⟨xmlns, "sheets"⟩, [], ""⟩ rfl tail sheets
    ((sheets_events xmlns xmlns_s xmlns_r sheets ++ tail).length + 1) cur attrs 0 {}
    (by
      simp only [sheets_events, List.length_append, sheet_events_flatten_length,
        List.length_cons, List.length_nil]
      omega)
    hid htitles (by intro s _; simp)
  simp only [List.nil_append, Nat.zero_add] at hloop
  have hread : read_workbook_sheets xmlns xmlns_s xmlns_r
      ⟨cur, attrs, sheets_events xmlns xmlns_s xmlns_r sheets ++ tail⟩ ({} : sheet_state F)
      = .ok (⟨⟨.end_element, ⟨xmlns, "sheets"⟩, [], ""⟩, attrs1, tail⟩,
          { sheet_title_id_map_ := sheets.map (fun s => (s.2.1, digits_value s.2.2.toList))
            sheet_title_index_map_ :=
              (sheets.map (fun s => s.2.1)).zip (List.range' 0 sheets.length)
            sheet_title_rel_id_map_ := sheets.map (fun s => (s.2.1, s.1))
            worksheets_ := [] }) := by
    unfold read_workbook_sheets
    simp only [sheets_events, List.append_assoc, List.singleton_append] at hloop ⊢
    rw [hloop]
    simp [parser.next_expect_qname, parser.next]
  -- the sheet of each relationship id, in the order of the calls
  have hfind : ∀ s ∈ sheets, sheets.find? (fun x => x.1 = s.1) = some s := by
    intro s hs
    clear hread hloop hid htitles horder
    induction sheets with
    | nil => simp at hs
    | cons x xs ih =>
      simp only [List.map_cons, List.nodup_cons] at hrels
      rcases List.mem_cons.mp hs with rfl | hmem
      · simp
      · have hne : x.1 ≠ s.1 := by
          intro heq
          exact hrels.1 (heq ▸ List.mem_map_of_mem (fun s => s.1) hmem)
        rw [List.find?_cons_of_neg _ (by simpa using hne)]
        exact ih hrels.2 hmem
  let f : String → String × String × String :=
    fun r => (sheets.find? (fun x => x.1 = r)).getD ("", "", "")
  have hf : ∀ s ∈ sheets, f s.1 = s := by
    intro s hs
    simp only [f, hfind s hs, Option.getD_some]
  have hmapf : (sheets.map (fun s => s.1)).map f = sheets := by
    rw [List.map_map]
    conv_rhs => rw [← List.map_id sheets]
    exact List.map_congr_left (fun s hs => hf s hs)
  have hoperm : (order.map f).Perm sheets := by
    have := horder.map f
    rwa [hmapf] at this
  have horel : (order.map f).map (fun s => s.1) = order := by
    rw [List.map_map]
    conv_rhs => rw [← List.map_id order]
    apply List.map_congr_left
    intro r hr
    obtain ⟨s, hs, rfl⟩ := List.mem_map.mp (horder.subset hr)
    simp only [Function.comp_apply, hf s hs, id_eq]
  obtain ⟨L, hL, hperm, hsorted⟩ := read_worksheets_insert_spec (F := F) sheets htitles hrels
    { sheet_title_id_map_ := sheets.map (fun s => (s.2.1, digits_value s.2.2.toList))
      sheet_title_index_map_ := (sheets.map (fun s => s.2.1)).zip (List.range' 0 sheets.length)
      sheet_title_rel_id_map_ := sheets.map (fun s => (s.2.1, s.1))
      worksheets_ := [] } rfl rfl (order.map f) (fun s hs => hoperm.subset hs) []
  rw [horel] at hL
  refine ⟨_, _, _, hread, rfl, hL, ?_⟩
  -- the worksheets are a sorted rearrangement of the declared ones
  simp only [List.append_nil] at hperm
  have hpermW : L.Perm (sheets.map (fun s =>
      ({ title_ := s.2.1, id_ := digits_value s.2.2.toList } : worksheet F))) :=
    hperm.trans (hoperm.map _)
  have hkeys : (sheets.map (fun s =>
      ({ title_ := s.2.1, id_ := digits_value s.2.2.toList } : worksheet F))).map
        (fun x => map_get ((sheets.map (fun s => s.2.1)).zip (List.range' 0 sheets.length))
          x.title_) = List.range sheets.length := by
    rw [List.map_map, List.range_eq_range']
    have := map_get_zip_range (sheets.map (fun s => s.2.1)) htitles 0
    rw [List.map_map, List.length_map] at this
    exact this
  have hLsorted := hsorted (by simp)
  have hLkeys := List.eq_of_perm_of_sorted (hpermW.map _) hLsorted
    (by rw [hkeys]; exact List.sorted_le_range _)
  refine map_eq_of_inj_on _ _ (List.inj_on_of_nodup_map ?_) L _
    (fun x hx => hpermW.subset hx) (fun y hy => hy) hLkeys
  rw [hkeys]
  exact List.nodup_range _


/-- Witness for `worksheets_in_declared_order`: two sheets, read in the order `rId2`,
`rId1`. -/
theorem worksheets_in_declared_order_witness :
    ∃ p st st1,
      read_workbook_sheets "ns" "ns" "r"
          ⟨eof_event, [], sheets_events "ns" "ns" "r"
            [("rId1", "First", "1"), ("rId2", "Second", "2")] ++ []⟩ ({} : sheet_state Nat)
        = .ok (p, st)
      ∧ st.worksheets_ = []
      ∧ read_worksheets_insert ["rId2", "rId1"] st = .ok st1
      ∧ st1.worksheets_ = [("rId1", "First", "1"), ("rId2", "Second", "2")].map (fun s =>
          ({ title_ := s.2.1, id_ := digits_value s.2.2.toList } : worksheet Nat)) :=
  worksheets_in_declared_order "ns" "ns" "r" [("rId1", "First", "1"), ("rId2", "Second", "2")]
    eof_event [] [] ["rId2", "rId1"] (by decide) (by decide) (by decide) (by decide)


/-! ## Shared strings: the declared count (C9) and the plain entries (C10) -/

theorem read_shared_string_table_plain_nil (xmlns u : String) (unique_count : Nat)
    (hu : stoull u = .ok unique_count) (cur : event) (attrs : List (qname × String))
    (tail : List event) (strings : List text) :
    read_shared_string_table xmlns ⟨cur, attrs, plain_sst_events xmlns u [] ++ tail⟩ strings
      = if unique_count ≠ strings.length then
          .fail (.invalid_file "sizes don't match") strings
        else
          .ok ⟨⟨.start_element, ⟨xmlns, "sst"⟩, [(⟨"", "uniqueCount"⟩, u)], ""⟩,
            [(⟨"", "uniqueCount"⟩, u)], ⟨.end_element, ⟨xmlns, "sst"⟩, [], ""⟩ :: tail⟩
            strings := by
  simp [read_shared_string_table, plain_sst_events, element_events, parser.next_expect_qname,
    parser.next, parser.attribute_present, parser.attribute, lookup_attribute,
    string_to_size_t, hu, read_shared_strings, parser.peek]

/-- A table whose first entry is a plain string with text: the empty string is stored for
it, the value being taken at the start tag of `t`, and the next entry is asked for where
the `characters` event comes. -/
theorem read_shared_string_table_plain_text (xmlns u : String) (unique_count : Nat)
    (hu : stoull u = .ok unique_count) (cur : event) (attrs : List (qname × String))
    (tail : List event) (strings : List text) (s : String) (ss : List String) (hs : s ≠ "") :
    read_shared_string_table xmlns ⟨cur, attrs, plain_sst_events xmlns u (s :: ss) ++ tail⟩
        strings
      = .fail .parsing (strings ++ [({} : text).set_plain_string ""]) := by
  simp [read_shared_string_table, plain_sst_events, plain_si_events, element_events,
    text_events_ne _ s hs, parser.next_expect_qname, parser.next_expect,
    parser.next, parser.attribute_present, parser.attribute, lookup_attribute,
    string_to_size_t, hu, read_shared_strings, read_shared_string, parser.peek, parser.name,
    parser.value]

/-- A table whose first entry is the empty plain string: the loop over the entries leaves
at the end tag of `t`, which is never consumed. -/
theorem read_shared_string_table_plain_empty (xmlns u : String) (unique_count : Nat)
    (hu : stoull u = .ok unique_count) (cur : event) (attrs : List (qname × String))
    (tail : List event) (strings : List text) (ss : List String) :
    read_shared_string_table xmlns ⟨cur, attrs, plain_sst_events xmlns u ("" :: ss) ++ tail⟩
        strings
      = if unique_count ≠ strings.length + 1 then
          .fail (.invalid_file "sizes don't match")
            (strings ++ [({} : text).set_plain_string ""])
        else
          .ok ⟨⟨.start_element, ⟨xmlns, "t"⟩, [], ""⟩, [],
              ⟨.end_element, ⟨xmlns, "t"⟩, [], ""⟩ :: ⟨.end_element, ⟨xmlns, "si"⟩, [], ""⟩ ::
                ((ss.map (plain_si_events xmlns)).flatten ++
                  ⟨.end_element, ⟨xmlns, "sst"⟩, [], ""⟩ :: tail)⟩
            (strings ++ [({} : text).set_plain_string ""]) := by
  simp [read_shared_string_table, plain_sst_events, plain_si_events, element_events,
    parser.next_expect_qname, parser.next_expect,
    parser.next, parser.attribute_present, parser.attribute, lookup_attribute,
    string_to_size_t, hu, read_shared_strings, read_shared_string, parser.peek, parser.name,
    parser.value]

/-- C9 (what the code does): whenever `read_shared_string_table` returns normally on a
part whose `sst` element declares `uniqueCount`, the destination holds exactly that number
of shared strings.  A part that declares `uniqueCount` = N+1 while holding N plain
entries is not read: without entry, or with a first entry without text, it fails with the
invalid-file error "sizes don't match"; with a first entry with text it fails with
`xml::parsing`, the text being a `characters` event that comes where the loop asks for
the next `si` (source line 928), after the empty string was stored for the entry. -/
theorem read_shared_string_table_count :
    (∀ (xmlns : String) (cur : event) (attrs sattrs : List (qname × String)) (stext : String)
        (rest : List event) (u : String) (strings : List text) (p1 : parser)
        (strings1 : List text),
        lookup_attribute ⟨"", "uniqueCount"⟩ sattrs = some u →
        read_shared_string_table xmlns
            ⟨cur, attrs, ⟨.start_element, ⟨xmlns, "sst"⟩, sattrs, stext⟩ :: rest⟩ strings
          = .ok p1 strings1 →
        stoull u = .ok strings1.length)
    ∧ (∀ (xmlns : String) (cur : event) (attrs : List (qname × String)) (tail : List event)
        (u : String) (ss : List String),
        stoull u = .ok (ss.length + 1) →
        read_shared_string_table xmlns ⟨cur, attrs, plain_sst_events xmlns u ss ++ tail⟩ []
          = match ss with
            | [] => .fail (.invalid_file "sizes don't match") []
            | s :: _ =>
              .fail (if s = "" then .invalid_file "sizes don't match" else .parsing)
                [({} : text).set_plain_string ""]) := by
  constructor
  · intro xmlns cur attrs sattrs stext rest u strings p1 strings1 hu hok
    simp only [read_shared_string_table, parser.next_expect_qname, parser.next,
      parser.attribute_present, parser.attribute, hu, and_self, if_true, Option.isSome_some,
      string_to_size_t] at hok
    rcases hst : stoull u with e | n
    · simp [hst] at hok
    · simp only [hst] at hok
      split at hok
      · exact absurd hok (by simp)
      · split at hok
        · exact absurd hok (by simp)
        · rename_i hne
          simp only [res.ok.injEq] at hok
          rw [← hok.2]
          simp only [ne_eq, not_not] at hne
          rw [hne]
  · intro xmlns cur attrs tail u ss hu
    cases ss with
    | nil =>
      rw [read_shared_string_table_plain_nil xmlns u _ hu]
      simp
    | cons s ss =>
      by_cases hs : s = ""
      · subst hs
        rw [read_shared_string_table_plain_empty xmlns u _ hu]
        simp
      · rw [read_shared_string_table_plain_text xmlns u _ hu _ _ _ _ _ _ hs]
        simp [hs]

/-- Witness for `read_shared_string_table_count`: the part
`<sst uniqueCount="1"><si><t/></si></sst>` is read and holds one string; the part
`<sst uniqueCount="2"><si><t>a</t></si></sst>` fails with `xml::parsing`. -/
theorem read_shared_string_table_count_witness :
    (lookup_attribute ⟨"", "uniqueCount"⟩ [((⟨"", "uniqueCount"⟩ : qname), "1")] = some "1"
      ∧ read_shared_string_table "ns"
          ⟨eof_event, [], plain_sst_events "ns" "1" [""]⟩ []
        = .ok ⟨⟨.start_element, ⟨"ns", "t"⟩, [], ""⟩, [],
            [⟨.end_element, ⟨"ns", "t"⟩, [], ""⟩, ⟨.end_element, ⟨"ns", "si"⟩, [], ""⟩,
              ⟨.end_element, ⟨"ns", "sst"⟩, [], ""⟩]⟩ [({} : text).set_plain_string ""]
      ∧ stoull "1" = .ok ([({} : text).set_plain_string ""]).length)
    ∧ (stoull "2" = .ok ((["a"] : List String).length + 1)
      ∧ read_shared_string_table "ns" ⟨eof_event, [], plain_sst_events "ns" "2" ["a"] ++ []⟩ []
        = .fail .parsing [({} : text).set_plain_string ""]) :=
  ⟨⟨rfl, rfl, read_shared_string_table_count.1 "ns" eof_event [] [(⟨"", "uniqueCount"⟩, "1")] ""
      ((plain_si_events "ns" "") ++ [⟨.end_element, ⟨"ns", "sst"⟩, [], ""⟩]) "1" []
      ⟨⟨.start_element, ⟨"ns", "t"⟩, [], ""⟩, [],
        [⟨.end_element, ⟨"ns", "t"⟩, [], ""⟩, ⟨.end_element, ⟨"ns", "si"⟩, [], ""⟩,
          ⟨.end_element, ⟨"ns", "sst"⟩, [], ""⟩]⟩
      [({} : text).set_plain_string ""] (by rfl) (by rfl)⟩,
    ⟨rfl, read_shared_string_table_count.2 "ns" eof_event [] [] "2" ["a"] (by rfl)⟩⟩

/-- C10 fails on the code: the part `uniqueCount="2"` with the two plain entries `a`
and `b` is rejected with `xml::parsing`, holding the empty string: the value of the
first entry is taken at the start tag of `t`, where no text has been read, and the next
`si` is then asked for where the `characters` event with `a` comes (the loop consumes
neither the text nor the end tags of `t` and `si`). -/
theorem read_shared_string_table_two_plain_entries :
    read_shared_string_table "ns" (parser.of_events (plain_sst_events "ns" "2" ["a", "b"])) []
      = .fail .parsing [({} : text).set_plain_string ""] := by
  rfl

/-! ## Number formats (C4) -/

theorem find_number_format_none (nfs : List number_format) (n : Nat)
    (h : ∀ nf ∈ nfs, nf.id ≠ n) : nfs.find? (fun nf => nf.id = n) = none := by
  rw [List.find?_eq_none]
  intro nf hnf
  simpa using h nf hnf

/-- C4: `lookup_number_format` returns a custom entry with the requested id when the
table has one, else the built-in format of the id when the id is below 164, else
`General`. -/
theorem lookup_number_format_resolves (general : number_format)
    (from_builtin_id : Nat → Except error number_format) (nfs : List number_format) (n : Nat) :
    ((∃ nf ∈ nfs, nf.id = n) →
      ∃ nf ∈ nfs, nf.id = n ∧ lookup_number_format general from_builtin_id nfs n = .ok nf)
    ∧ ((∀ nf ∈ nfs, nf.id ≠ n) → n < 164 →
      lookup_number_format general from_builtin_id nfs n = from_builtin_id n)
    ∧ ((∀ nf ∈ nfs, nf.id ≠ n) → 164 ≤ n →
      lookup_number_format general from_builtin_id nfs n = .ok general) := by
  refine ⟨?_, ?_, ?_⟩
  · rintro ⟨nf0, hmem, hid⟩
    rcases hfind : nfs.find? (fun nf => nf.id = n) with _ | nf
    · rw [List.find?_eq_none] at hfind
      exact absurd (by simpa using hid) (hfind nf0 hmem)
    · refine ⟨nf, List.mem_of_find?_eq_some hfind, ?_, ?_⟩
      · simpa using List.find?_some hfind
      · simp [lookup_number_format, hfind]
  · intro h hn
    simp [lookup_number_format, find_number_format_none nfs n h, hn]
  · intro h hn
    have hn2 : ¬ n < 164 := by omega
    simp [lookup_number_format, find_number_format_none nfs n h, hn2]

/-- Witness for `lookup_number_format_resolves`, with `General` as the general format
and a built-in table that answers every id: id 163 without custom entry resolves to
the built-in 163, id 164 without custom entry to `General`, and id 164 with the custom
entry `0.00` to that entry. -/
theorem lookup_number_format_resolves_witness :
    lookup_number_format ⟨"General", 0⟩ (fun n => .ok ⟨"builtin", n⟩) [] 163
        = .ok ⟨"builtin", 163⟩
    ∧ lookup_number_format ⟨"General", 0⟩ (fun n => .ok ⟨"builtin", n⟩) [] 164
        = .ok ⟨"General", 0⟩
    ∧ ∃ nf ∈ [(⟨"0.00", 164⟩ : number_format)], nf.id = 164 ∧
        lookup_number_format ⟨"General", 0⟩ (fun n => .ok ⟨"builtin", n⟩) [⟨"0.00", 164⟩] 164
          = .ok nf :=
  ⟨(lookup_number_format_resolves ⟨"General", 0⟩ (fun n => .ok ⟨"builtin", n⟩) [] 163).2.1
      (by simp) (by decide),
    (lookup_number_format_resolves ⟨"General", 0⟩ (fun n => .ok ⟨"builtin", n⟩) [] 164).2.2
      (by simp) (by decide),
    (lookup_number_format_resolves ⟨"General", 0⟩ (fun n => .ok ⟨"builtin", n⟩)
      [⟨"0.00", 164⟩] 164).1 ⟨⟨"0.00", 164⟩, by simp, rfl⟩⟩


/-! ## The resolution pass of `read_stylesheet` (C5, C6, C7) -/

theorem resolve_style_ok {F : Type} (general : number_format)
    (from_builtin_id : Nat → Except error number_format) (r : formatting_record)
    (d : style_data) (p : parser) (ss : stylesheet F) (b : border F) (fl : fill F)
    (fn : font F) (nf : number_format)
    (hb : ss.borders[r.border_id.1]? = some b) (hfl : ss.fills[r.fill_id.1]? = some fl)
    (hfn : ss.fonts[r.font_id.1]? = some fn)
    (hnf : lookup_number_format general from_builtin_id ss.number_formats
      r.number_format_id.1 = .ok nf) :
    resolve_style general from_builtin_id r (some d) p ss
      = .ok p { ss with styles := ss.styles ++
          [{ name := d.name, builtin_id := d.builtin_id, alignment := r.alignment,
             border := (b, r.border_id.2), fill := (fl, r.fill_id.2),
             font := (fn, r.font_id.2), number_format := (nf, r.number_format_id.2),
             protection := r.protection }] } := by
  simp [resolve_style, hb, hfl, hfn, hnf]

theorem resolve_format_ok {F : Type} (general : number_format)
    (from_builtin_id : Nat → Except error number_format) (r : formatting_record)
    (p : parser) (ss : stylesheet F) (s : style F) (b : border F) (fl : fill F)
    (fn : font F) (nf : number_format)
    (hs : ss.styles[r.style_id.1]? = some s)
    (hb : ss.borders[r.border_id.1]? = some b) (hfl : ss.fills[r.fill_id.1]? = some fl)
    (hfn : ss.fonts[r.font_id.1]? = some fn)
    (hnf : lookup_number_format general from_builtin_id ss.number_formats
      r.number_format_id.1 = .ok nf) :
    resolve_format general from_builtin_id r p ss
      = .ok p { ss with formats := ss.formats ++
          [{ style := some s.name, alignment := r.alignment,
             border := (b, r.border_id.2), fill := (fl, r.fill_id.2),
             font := (fn, r.font_id.2), number_format := (nf, r.number_format_id.2),
             protection := r.protection }] } := by
  simp [resolve_format, hs, hb, hfl, hfn, hnf]

/-- What it takes for a record to be resolved against the tables of a style sheet:
its border, fill and font ids are within their tables and its number format is
found. -/
theorem resolvable_components {F : Type} (general : number_format)
    (from_builtin_id : Nat → Except error number_format) (ss : stylesheet F)
    (r : formatting_record)
    (hrange : r.border_id.1 < ss.borders.length ∧ r.fill_id.1 < ss.fills.length
      ∧ r.font_id.1 < ss.fonts.length)
    (hnf : ∃ nf, lookup_number_format general from_builtin_id ss.number_formats
      r.number_format_id.1 = .ok nf) :
    ∃ b fl fn nf, ss.borders[r.border_id.1]? = some b ∧ ss.fills[r.fill_id.1]? = some fl
      ∧ ss.fonts[r.font_id.1]? = some fn
      ∧ lookup_number_format general from_builtin_id ss.number_formats
          r.number_format_id.1 = .ok nf := by
  obtain ⟨nf, hnf⟩ := hnf
  exact ⟨_, _, _, nf, List.getElem?_eq_getElem hrange.1, List.getElem?_eq_getElem hrange.2.1,
    List.getElem?_eq_getElem hrange.2.2, hnf⟩


theorem resolve_styles_spec {F : Type} (general : number_format)
    (from_builtin_id : Nat → Except error number_format) (p : parser) :
    ∀ (records : List formatting_record) (datas : List style_data) (ss : stylesheet F),
      records.length ≤ datas.length →
      (∀ r ∈ records, record_resolvable general from_builtin_id ss r) →
      ∃ new, resolve_styles general from_builtin_id records datas p ss
          = .ok p { ss with styles := ss.styles ++ new }
        ∧ new.length = records.length
        ∧ ∀ (i : Nat) r d, records[i]? = some r → datas[i]? = some d →
            ∃ s, new[i]? = some s ∧ style_resolves general from_builtin_id ss r d s := by
  intro records
  induction records with
  | nil =>
    intro datas ss _ _
    exact ⟨[], by simp [resolve_styles], rfl, by simp⟩
  | cons r rs ih =>
    intro datas ss hlen hres
    cases datas with
    | nil => simp at hlen
    | cons d ds =>
      obtain ⟨hrange, hnf⟩ := hres r (List.mem_cons_self _ _)
      obtain ⟨b, fl, fn, nf, hb, hfl, hfn, hnf⟩ :=
        resolvable_components general from_builtin_id ss r hrange hnf
      obtain ⟨s0, hs0⟩ : ∃ s0 : style F, s0 =
          { name := d.name, builtin_id := d.builtin_id, alignment := r.alignment,
            border := (b, r.border_id.2), fill := (fl, r.fill_id.2),
            font := (fn, r.font_id.2), number_format := (nf, r.number_format_id.2),
            protection := r.protection } := ⟨_, rfl⟩
      obtain ⟨new, hnew, hlen2, hpt⟩ := ih ds { ss with styles := ss.styles ++ [s0] }
        (by simpa using hlen)
        (fun x hx => hres x (List.mem_cons_of_mem _ hx))
      refine ⟨s0 :: new, ?_, by simp [hlen2], ?_⟩
      · simp only [resolve_styles, List.head?_cons, List.tail_cons,
          resolve_style_ok general from_builtin_id r d p ss b fl fn nf hb hfl hfn hnf,
          ← hs0, hnew]
        simp
      · intro i r1 d1 hr1 hd1
        cases i with
        | zero =>
          simp only [List.getElem?_cons_zero, Option.some.injEq] at hr1 hd1
          subst hr1 hd1
          refine ⟨s0, by simp, ?_⟩
          subst hs0
          unfold style_resolves
          exact ⟨rfl, rfl, rfl, hb, rfl, hfl, rfl, hfn, rfl, hnf, rfl, rfl⟩
        | succ j =>
          simp only [List.getElem?_cons_succ] at hr1 hd1 ⊢
          exact hpt j r1 d1 hr1 hd1

theorem resolve_formats_spec {F : Type} (general : number_format)
    (from_builtin_id : Nat → Except error number_format) (p : parser) :
    ∀ (records : List formatting_record) (ss : stylesheet F),
      (∀ r ∈ records, record_resolvable general from_builtin_id ss r) →
      (∀ r ∈ records, r.style_id.1 < ss.styles.length) →
      ∃ new, resolve_formats general from_builtin_id records p ss
          = .ok p { ss with formats := ss.formats ++ new }
        ∧ new.length = records.length
        ∧ ∀ (i : Nat) r, records[i]? = some r →
            ∃ f, new[i]? = some f ∧ format_resolves general from_builtin_id ss r f := by
  intro records
  induction records with
  | nil =>
    intro ss _ _
    exact ⟨[], by simp [resolve_formats], rfl, by simp⟩
  | cons r rs ih =>
    intro ss hres hstyle
    obtain ⟨hrange, hnf⟩ := hres r (List.mem_cons_self _ _)
    obtain ⟨b, fl, fn, nf, hb, hfl, hfn, hnf⟩ :=
      resolvable_components general from_builtin_id ss r hrange hnf
    obtain ⟨s, hs⟩ : ∃ s, ss.styles[r.style_id.1]? = some s :=
      ⟨_, List.getElem?_eq_getElem (hstyle r (List.mem_cons_self _ _))⟩
    obtain ⟨f0, hf0⟩ : ∃ f0 : format F, f0 =
        { style := some s.name, alignment := r.alignment,
          border := (b, r.border_id.2), fill := (fl, r.fill_id.2),
          font := (fn, r.font_id.2), number_format := (nf, r.number_format_id.2),
          protection := r.protection } := ⟨_, rfl⟩
    obtain ⟨new, hnew, hlen2, hpt⟩ := ih { ss with formats := ss.formats ++ [f0] }
      (fun x hx => hres x (List.mem_cons_of_mem _ hx))
      (fun x hx => hstyle x (List.mem_cons_of_mem _ hx))
    refine ⟨f0 :: new, ?_, by simp [hlen2], ?_⟩
    · simp only [resolve_formats,
        resolve_format_ok general from_builtin_id r p ss s b fl fn nf hs hb hfl hfn hnf,
        ← hf0, hnew]
      simp
    · intro i r1 hr1
      cases i with
      | zero =>
        simp only [List.getElem?_cons_zero, Option.some.injEq] at hr1
        subst hr1
        refine ⟨f0, by simp, ?_⟩
        subst hf0
        unfold format_resolves
        exact ⟨⟨_, hs, rfl⟩, rfl, hb, rfl, hfl, rfl, hfn, rfl, hnf, rfl, rfl⟩
      | succ j =>
        simp only [List.getElem?_cons_succ] at hr1 ⊢
        exact hpt j r1 hr1


theorem read_xf_attributes_ids (p : parser) (r : formatting_record)
    (h : read_xf_attributes p = .ok r) :
    attribute_index p "borderId" = .ok r.border_id.1
    ∧ attribute_index p "fillId" = .ok r.fill_id.1
    ∧ attribute_index p "fontId" = .ok r.font_id.1
    ∧ attribute_index p "numFmtId" = .ok r.number_format_id.1
    ∧ (p.name ≠ "cellXfs" → r.style_id = (0, false)) := by
  unfold read_xf_attributes at h
  rcases hb : attribute_index p "borderId" with e | b
  · simp [hb] at h
  rcases hfl : attribute_index p "fillId" with e | fl
  · simp [hb, hfl] at h
  rcases hfn : attribute_index p "fontId" with e | fn
  · simp [hb, hfl, hfn] at h
  rcases hnf : attribute_index p "numFmtId" with e | nf
  · simp [hb, hfl, hfn, hnf] at h
  simp only [hb, hfl, hfn, hnf] at h
  split at h
  · rename_i hcond
    split at h
    · simp at h
    · simp only [Except.ok.injEq] at h
      subst h
      refine ⟨rfl, rfl, rfl, rfl, ?_⟩
      intro hne
      simp [hne] at hcond
  · simp only [Except.ok.injEq] at h
    subst h
    exact ⟨rfl, rfl, rfl, rfl, fun _ => rfl⟩

theorem read_xf_children_ids {F : Type} (vt : value_traits F) (xmlns : String)
    (alignment_flag protection_flag : Bool) :
    ∀ (fuel : Nat) (p : parser) (r : formatting_record) (p1 : parser) (r1 : formatting_record),
      read_xf_children vt xmlns alignment_flag protection_flag fuel p r = .ok (p1, r1) →
      r1.border_id = r.border_id ∧ r1.fill_id = r.fill_id ∧ r1.font_id = r.font_id
      ∧ r1.number_format_id = r.number_format_id ∧ r1.style_id = r.style_id := by
  intro fuel
  induction fuel with
  | zero =>
    intro p r p1 r1 h
    simp [read_xf_children] at h
  | succ fuel ih =>
    intro p r p1 r1 h
    rw [read_xf_children] at h
    split at h
    · simp only [Except.ok.injEq, Prod.mk.injEq] at h
      rw [← h.2]
      exact ⟨rfl, rfl, rfl, rfl, rfl⟩
    · split at h
      · simp at h
      · rename_i p2 _
        split at h
        · simp at h
        · rename_i p3 r3 hchild
          split at h
          · simp at h
          · rename_i p4 _
            have h3 : r3.border_id = r.border_id ∧ r3.fill_id = r.fill_id
                ∧ r3.font_id = r.font_id ∧ r3.number_format_id = r.number_format_id
                ∧ r3.style_id = r.style_id := by
              split at hchild
              · rcases ha : read_alignment vt p2 with e | a
                · simp [ha, Except.map] at hchild
                · simp only [ha, Except.map, Except.ok.injEq, Prod.mk.injEq] at hchild
                  rw [← hchild.2]
                  exact ⟨rfl, rfl, rfl, rfl, rfl⟩
              · split at hchild
                · rcases hp : read_protection p2 with e | a
                  · simp [hp, Except.map] at hchild
                  · simp only [hp, Except.map, Except.ok.injEq, Prod.mk.injEq] at hchild
                    rw [← hchild.2]
                    exact ⟨rfl, rfl, rfl, rfl, rfl⟩
                · simp only [Except.ok.injEq, Prod.mk.injEq] at hchild
                  rw [← hchild.2]
                  exact ⟨rfl, rfl, rfl, rfl, rfl⟩
            obtain ⟨h1, h2, h3a, h4, h5⟩ := ih p4 r3 p1 r1 h
            exact ⟨h1.trans h3.1, h2.trans h3.2.1, h3a.trans h3.2.2.1, h4.trans h3.2.2.2.1,
              h5.trans h3.2.2.2.2⟩


theorem read_xf_ids {F : Type} (vt : value_traits F) (xmlns : String) (cur : event)
    (attrs xattrs : List (qname × String)) (xtext : String) (rest : List event)
    (p1 : parser) (r : formatting_record)
    (h : read_xf vt xmlns
      ⟨cur, attrs, ⟨.start_element, ⟨xmlns, "xf"⟩, xattrs, xtext⟩ :: rest⟩ = .ok (p1, r)) :
    attribute_index ⟨⟨.start_element, ⟨xmlns, "xf"⟩, xattrs, xtext⟩, xattrs, rest⟩ "borderId"
        = .ok r.border_id.1
    ∧ attribute_index ⟨⟨.start_element, ⟨xmlns, "xf"⟩, xattrs, xtext⟩, xattrs, rest⟩ "fillId"
        = .ok r.fill_id.1
    ∧ attribute_index ⟨⟨.start_element, ⟨xmlns, "xf"⟩, xattrs, xtext⟩, xattrs, rest⟩ "fontId"
        = .ok r.font_id.1
    ∧ r.style_id = (0, false) := by
  simp only [read_xf, parser.next_expect_qname, parser.next, and_self, if_true] at h
  split at h
  · simp at h
  · rename_i r0 hattr
    split at h
    · simp at h
    · rename_i p2 r2 hch
      split at h
      · simp at h
      · simp only [Except.ok.injEq, Prod.mk.injEq] at h
        obtain ⟨hb, hfl, hfn, _, hst⟩ := read_xf_attributes_ids _ r0 hattr
        obtain ⟨c1, c2, c3, _, c5⟩ := read_xf_children_ids vt xmlns _ _ _ _ r0 p2 r2 hch
        rw [← h.2, c1, c2, c3, c5]
        exact ⟨hb, hfl, hfn, hst (by simp [parser.name])⟩

theorem attribute_index_of_lookup (p : parser) (n v : String) (x : Nat)
    (h : lookup_attribute ⟨"", n⟩ p.attrs = some v) (hv : stoull v = .ok x) :
    attribute_index p n = .ok x := by
  simp [attribute_index, parser.attribute_present, parser.attribute, h, string_to_size_t, hv]

/-- C5: when the k-th format record comes from an `xf` element that declares
`fontId`, `borderId` and `fillId`, and the records can be resolved (ids within their
tables, number formats found, a `cellStyle` entry for each style record, the style
ids of the format records within the styles), the resolution pass returns and the
k-th Cell Format it adds has the font, border and fill that stand at the declared
positions of their tables. -/
theorem cell_format_components {F : Type} (vt : value_traits F) (xmlns : String)
    (general : number_format) (from_builtin_id : Nat → Except error number_format)
    (p : parser) (st : style_state F) (k : Nat) (cur : event)
    (attrs xattrs : List (qname × String)) (xtext : String) (rest : List event) (pk : parser)
    (rk : formatting_record) (ft bt gt : String) (f b g : Nat)
    (hk : st.format_records[k]? = some rk)
    (hxf : read_xf vt xmlns
      ⟨cur, attrs, ⟨.start_element, ⟨xmlns, "xf"⟩, xattrs, xtext⟩ :: rest⟩ = .ok (pk, rk))
    (hf : lookup_attribute ⟨"", "fontId"⟩ xattrs = some ft) (hft : stoull ft = .ok f)
    (hb : lookup_attribute ⟨"", "borderId"⟩ xattrs = some bt) (hbt : stoull bt = .ok b)
    (hg : lookup_attribute ⟨"", "fillId"⟩ xattrs = some gt) (hgt : stoull gt = .ok g)
    (hdatas : st.style_records.length ≤ st.style_datas.length)
    (hres : ∀ r ∈ st.style_records ++ st.format_records,
      record_resolvable general from_builtin_id st.stylesheet r)
    (hstyles : ∀ r ∈ st.format_records,
      r.style_id.1 < st.stylesheet.styles.length + st.style_records.length) :
    ∃ ss1 fmt, resolve_records general from_builtin_id p st = .ok p ss1
      ∧ ss1.formats[st.stylesheet.formats.length + k]? = some fmt
      ∧ ss1.fonts[f]? = some fmt.font.1
      ∧ ss1.borders[b]? = some fmt.border.1
      ∧ ss1.fills[g]? = some fmt.fill.1 := by
  obtain ⟨new, hnew, hlen, _⟩ := resolve_styles_spec general from_builtin_id p
    st.style_records st.style_datas st.stylesheet hdatas
    (fun r hr => hres r (List.mem_append_left _ hr))
  obtain ⟨newf, hnewf, hlenf, hptf⟩ := resolve_formats_spec general from_builtin_id p
    st.format_records { st.stylesheet with styles := st.stylesheet.styles ++ new }
    (fun r hr => hres r (List.mem_append_right _ hr))
    (fun r hr => by simpa [hlen] using hstyles r hr)
  obtain ⟨fmt, hfmt, hfr⟩ := hptf k rk hk
  obtain ⟨i1, i2, i3, _⟩ := read_xf_ids vt xmlns cur attrs xattrs xtext rest pk rk hxf
  rw [attribute_index_of_lookup _ "borderId" bt b hb hbt] at i1
  rw [attribute_index_of_lookup _ "fillId" gt g hg hgt] at i2
  rw [attribute_index_of_lookup _ "fontId" ft f hf hft] at i3
  simp only [Except.ok.injEq] at i1 i2 i3
  unfold format_resolves at hfr
  obtain ⟨_, _, hbo, _, hfi, _, hfo, _⟩ := hfr
  refine ⟨{ st.stylesheet with
      styles := st.stylesheet.styles ++ new
      formats := st.stylesheet.formats ++ newf }, fmt, ?_, ?_, ?_, ?_, ?_⟩
  · simp only [resolve_records, hnew, hnewf]
  · simp only [List.getElem?_append_right (Nat.le_add_right _ _), Nat.add_sub_cancel_left, hfmt]
  · rw [i3]; exact hfo
  · rw [i1]; exact hbo
  · rw [i2]; exact hfi


theorem sample_style_state_resolvable :
    ∀ r ∈ sample_style_state.style_records ++ sample_style_state.format_records,
      record_resolvable ⟨"General", 0⟩ sample_builtin sample_style_state.stylesheet r := by
  intro r hr
  simp only [sample_style_state, List.cons_append, List.nil_append, List.mem_cons,
    List.mem_singleton, List.not_mem_nil, or_false] at hr
  rcases hr with rfl | rfl | rfl <;> exact ⟨by decide, _, rfl⟩

/-- Witness for `cell_format_components`: in the sample style sheet the `xf` of
`cellXfs` declares `fontId`, `borderId` and `fillId` 1, and the format produced has
the second font, border and fill. -/
theorem cell_format_components_witness :
    read_stylesheet_children sample_traits "ns" "x14" (sample_stylesheet_events.length + 1)
        ⟨⟨.start_element, ⟨"ns", "styleSheet"⟩, [], ""⟩, [], sample_stylesheet_events.tail⟩ {}
      = .ok ⟨⟨.end_element, ⟨"ns", "cellStyles"⟩, [], ""⟩,
          [(⟨"", "name"⟩, "Bold"), (⟨"", "xfId"⟩, "1"), (⟨"", "builtinId"⟩, "1")],
          [⟨.end_element, ⟨"ns", "styleSheet"⟩, [], ""⟩]⟩ sample_style_state
    ∧ ∃ ss1 fmt,
        resolve_records ⟨"General", 0⟩ sample_builtin (parser.of_events []) sample_style_state
          = .ok (parser.of_events []) ss1
        ∧ ss1.formats[sample_style_state.stylesheet.formats.length + 0]? = some fmt
        ∧ ss1.fonts[1]? = some fmt.font.1
        ∧ ss1.borders[1]? = some fmt.border.1
        ∧ ss1.fills[1]? = some fmt.fill.1 :=
  ⟨by rfl,
    cell_format_components sample_traits "ns" ⟨"General", 0⟩ sample_builtin (parser.of_events [])
      sample_style_state 0 eof_event []
      [(⟨"", "fontId"⟩, "1"), (⟨"", "fillId"⟩, "1"), (⟨"", "borderId"⟩, "1"),
        (⟨"", "xfId"⟩, "1")] ""
      [⟨.end_element, ⟨"ns", "xf"⟩, [], ""⟩]
      ⟨⟨.end_element, ⟨"ns", "xf"⟩, [], ""⟩,
        [(⟨"", "fontId"⟩, "1"), (⟨"", "fillId"⟩, "1"), (⟨"", "borderId"⟩, "1"),
          (⟨"", "xfId"⟩, "1")], []⟩
      { font_id := (1, false), fill_id := (1, false), border_id := (1, false) }
      "1" "1" "1" 1 1 1 (by rfl) (by rfl) (by rfl) (by rfl) (by rfl) (by rfl) (by rfl) (by rfl)
      (by decide) sample_style_state_resolvable (by decide)⟩

/-- C6 fails on the code: in the sample style sheet the `xf` of `cellXfs` declares
`xfId="1"`, the styles are `Normal` and `Bold`, and the Cell Format is bound to
`Normal`, the style at position 0, not to `Bold`. -/
theorem read_stylesheet_format_bound_to_first_style :
    ∃ p ss,
      read_stylesheet sample_traits ⟨"General", 0⟩ sample_builtin "ns" "x14" "x14ac"
          (parser.of_events sample_stylesheet_events) {} = .ok p ss
      ∧ ss.styles.map (fun s => s.name) = ["Normal", "Bold"]
      ∧ ss.formats.map (fun f => f.style) = [some "Normal"] :=
  ⟨_, _, by rfl, by rfl, by rfl⟩


theorem resolve_format_styles {F : Type} (general : number_format)
    (from_builtin_id : Nat → Except error number_format) (r : formatting_record) (p : parser)
    (ss : stylesheet F) :
    (resolve_format general from_builtin_id r p ss).state.styles = ss.styles := by
  unfold resolve_format
  repeat' split
  all_goals rfl

theorem resolve_formats_styles {F : Type} (general : number_format)
    (from_builtin_id : Nat → Except error number_format) :
    ∀ (records : List formatting_record) (p : parser) (ss : stylesheet F),
      (resolve_formats general from_builtin_id records p ss).state.styles = ss.styles := by
  intro records
  induction records with
  | nil => intro p ss; rfl
  | cons r rs ih =>
    intro p ss
    have h := resolve_format_styles general from_builtin_id r p ss
    rw [resolve_formats]
    rcases hr : resolve_format general from_builtin_id r p ss with ⟨p1, ss1⟩ | ⟨e, ss1⟩
    · rw [hr] at h
      simp only [res.state] at h
      simp only [ih p1 ss1, h]
    · rw [hr] at h
      exact h

/-- C7: with n style records (`cellStyleXfs`) and n `cellStyle` entries, all records
resolvable, the resolution pass adds exactly n Cell Styles in table order, the i-th
with the name and builtin id of the i-th entry and the components of the i-th record;
they are added whether or not the format records resolve, and the pass returns when
the format records resolve too. -/
theorem cell_styles_in_table_order {F : Type} (general : number_format)
    (from_builtin_id : Nat → Except error number_format) (p : parser) (st : style_state F)
    (n : Nat) (hrec : st.style_records.length = n) (hdat : st.style_datas.length = n)
    (hres : ∀ r ∈ st.style_records,
      record_resolvable general from_builtin_id st.stylesheet r) :
    ∃ new : List (style F),
      (resolve_records general from_builtin_id p st).state.styles = st.stylesheet.styles ++ new
      ∧ new.length = n
      ∧ (∀ (i : Nat) r d, st.style_records[i]? = some r → st.style_datas[i]? = some d →
          ∃ s, new[i]? = some s ∧ style_resolves general from_builtin_id st.stylesheet r d s)
      ∧ ((∀ r ∈ st.format_records,
            record_resolvable general from_builtin_id st.stylesheet r
            ∧ r.style_id.1 < st.stylesheet.styles.length + n) →
          ∃ ss1, resolve_records general from_builtin_id p st = .ok p ss1) := by
  obtain ⟨new, hnew, hlen, hpt⟩ := resolve_styles_spec general from_builtin_id p
    st.style_records st.style_datas st.stylesheet (by omega) hres
  refine ⟨new, ?_, by omega, hpt, ?_⟩
  · simp only [resolve_records, hnew]
    exact resolve_formats_styles general from_builtin_id _ _ _
  · intro hfmt
    obtain ⟨newf, hnewf, _, _⟩ := resolve_formats_spec general from_builtin_id p
      st.format_records { st.stylesheet with styles := st.stylesheet.styles ++ new }
      (fun r hr => (hfmt r hr).1)
      (fun r hr => by simpa [hlen, hrec] using (hfmt r hr).2)
    refine ⟨{ st.stylesheet with
      styles := st.stylesheet.styles ++ new
      formats := st.stylesheet.formats ++ newf }, ?_⟩
    simp only [resolve_records, hnew]
    exact hnewf

/-- Witness for `cell_styles_in_table_order`: the sample style sheet has two style
records and the entries `Normal` and `Bold`. -/
theorem cell_styles_in_table_order_witness :
    ∃ new : List (style Nat),
      (resolve_records ⟨"General", 0⟩ sample_builtin (parser.of_events [])
        sample_style_state).state.styles = sample_style_state.stylesheet.styles ++ new
      ∧ new.length = 2
      ∧ (∀ (i : Nat) r d, sample_style_state.style_records[i]? = some r →
          sample_style_state.style_datas[i]? = some d →
          ∃ s, new[i]? = some s
            ∧ style_resolves ⟨"General", 0⟩ sample_builtin sample_style_state.stylesheet r d s)
      ∧ ((∀ r ∈ sample_style_state.format_records,
            record_resolvable ⟨"General", 0⟩ sample_builtin sample_style_state.stylesheet r
            ∧ r.style_id.1 < sample_style_state.stylesheet.styles.length + 2) →
          ∃ ss1, resolve_records ⟨"General", 0⟩ sample_builtin (parser.of_events [])
            sample_style_state = .ok (parser.of_events []) ss1) :=
  cell_styles_in_table_order ⟨"General", 0⟩ sample_builtin (parser.of_events [])
    sample_style_state 2 (by rfl) (by rfl)
    (fun r hr => sample_style_state_resolvable r (List.mem_append_left _ hr))


/-! ## The declared counts of the style tables (C8) -/

theorem attribute_size_t_numeral (p : parser) (n v : String)
    (h : lookup_attribute ⟨"", n⟩ p.attrs = some v) (hv : is_numeral v)
    (hlt : digits_value v.toList < 2 ^ 64) :
    p.attribute_size_t n = .ok (digits_value v.toList) := by
  obtain ⟨hne, hd⟩ := hv
  have hall : v.toList.all Char.isDigit = true := by
    rw [List.all_eq_true]
    exact hd
  simp only [parser.attribute_size_t, h]
  rw [if_pos ⟨hne, hall, hlt⟩]

theorem read_components_children {F α : Type}
    (read_one : parser → Except error (parser × α))
    (push : style_state F → α → style_state F) (e_end : event)
    (he : e_end.type = .end_element) (tail : List event) :
    ∀ (children : List (List event × α)) (fuel : Nat) (cur : event)
      (attrs : List (qname × String)) (st : style_state F),
      children.length < fuel →
      (∀ c ∈ children, parses_as read_one c.1 c.2) →
      ∃ cur1 attrs1,
        read_components read_one push fuel
          ⟨cur, attrs, (children.map Prod.fst).flatten ++ e_end :: tail⟩ st
        = .ok ⟨cur1, attrs1, e_end :: tail⟩ ((children.map Prod.snd).foldl push st) := by
  intro children
  induction children with
  | nil =>
    intro fuel cur attrs st hfuel _
    obtain ⟨f, rfl⟩ : ∃ f, fuel = f + 1 := ⟨fuel - 1, by simp at hfuel; omega⟩
    exact ⟨cur, attrs, by simp [read_components, parser.peek, he]⟩
  | cons c cs ih =>
    intro fuel cur attrs st hfuel hparse
    obtain ⟨f, rfl⟩ : ∃ f, fuel = f + 1 := ⟨fuel - 1, by simp at hfuel; omega⟩
    obtain ⟨⟨e, es, hc, hstart⟩, hread⟩ := hparse c (List.mem_cons_self _ _)
    obtain ⟨cur1, attrs1, h1⟩ := hread cur attrs
      ((cs.map Prod.fst).flatten ++ e_end :: tail)
    obtain ⟨cur2, attrs2, h2⟩ := ih f cur1 attrs1 (push st c.2)
      (by simp at hfuel; omega) (fun x hx => hparse x (List.mem_cons_of_mem _ hx))
    refine ⟨cur2, attrs2, ?_⟩
    have hpeek : (⟨cur, attrs, c.1 ++ ((cs.map Prod.fst).flatten ++ e_end :: tail)⟩ :
        parser).peek ≠ .end_element := by
      simp [parser.peek, hc, hstart]
    simp only [List.map_cons, List.flatten_cons, List.append_assoc, List.foldl_cons]
    rw [read_components, if_neg hpeek, h1]
    exact h2


theorem read_xfs_eq_read_components {F : Type} (vt : value_traits F) (xmlns : String)
    (in_style_records : Bool) :
    ∀ (fuel : Nat) (p : parser) (st : style_state F),
      read_xfs vt xmlns in_style_records fuel p st
        = read_components (read_xf vt xmlns)
            (fun s record =>
              if in_style_records then { s with style_records := s.style_records ++ [record] }
              else { s with format_records := s.format_records ++ [record] })
            fuel p st := by
  intro fuel
  induction fuel with
  | zero => intro p st; rfl
  | succ fuel ih =>
    intro p st
    rw [read_xfs, read_components]
    by_cases hp : p.peek = .end_element
    · simp only [hp, if_true]
    · simp only [hp, if_false]
      rcases read_xf vt xmlns p with e | ⟨p1, r⟩
      · rfl
      · exact ih _ _

theorem children_length_le {α : Type} (children : List (List event × α))
    (h : ∀ c ∈ children, ∃ e es, c.1 = e :: es) :
    children.length ≤ ((children.map Prod.fst).flatten).length := by
  induction children with
  | nil => simp
  | cons c cs ih =>
    obtain ⟨e, es, hc⟩ := h c (List.mem_cons_self _ _)
    have := ih (fun x hx => h x (List.mem_cons_of_mem _ hx))
    simp only [List.map_cons, List.flatten_cons, List.length_append, List.length_cons, hc]
    omega

theorem foldl_push_borders {F : Type} (xs : List (border F)) (st : style_state F) :
    xs.foldl (fun s b => { s with stylesheet := { s.stylesheet with
        borders := s.stylesheet.borders ++ [b] } }) st
      = { st with stylesheet := { st.stylesheet with
          borders := st.stylesheet.borders ++ xs } } := by
  induction xs generalizing st with
  | nil => simp
  | cons x xs ih => simp [ih]

theorem foldl_push_fills {F : Type} (xs : List (fill F)) (st : style_state F) :
    xs.foldl (fun s b => { s with stylesheet := { s.stylesheet with
        fills := s.stylesheet.fills ++ [b] } }) st
      = { st with stylesheet := { st.stylesheet with
          fills := st.stylesheet.fills ++ xs } } := by
  induction xs generalizing st with
  | nil => simp
  | cons x xs ih => simp [ih]

theorem foldl_push_fonts {F : Type} (xs : List (font F)) (st : style_state F) :
    xs.foldl (fun s b => { s with stylesheet := { s.stylesheet with
        fonts := s.stylesheet.fonts ++ [b] } }) st
      = { st with stylesheet := { st.stylesheet with
          fonts := st.stylesheet.fonts ++ xs } } := by
  induction xs generalizing st with
  | nil => simp
  | cons x xs ih => simp [ih]

theorem foldl_push_records {F : Type} (b : Bool) (xs : List formatting_record)
    (st : style_state F) :
    xs.foldl (fun s record =>
        if b then { s with style_records := s.style_records ++ [record] }
        else { s with format_records := s.format_records ++ [record] }) st
      = if b then { st with style_records := st.style_records ++ xs }
        else { st with format_records := st.format_records ++ xs } := by
  cases b
  · simp only [Bool.false_eq_true, if_false]
    induction xs generalizing st with
    | nil => simp
    | cons x xs ih => simp [ih]
  · simp only [if_true]
    induction xs generalizing st with
    | nil => simp
    | cons x xs ih => simp [ih]

theorem read_cell_styles_entries {F : Type} (xmlns : String) (e_end : event)
    (he : e_end.type = .end_element) (tail : List event) :
    ∀ (entries : List (String × String × String)) (fuel : Nat) (cur : event)
      (attrs : List (qname × String)) (st : style_state F),
      entries.length < fuel →
      (∀ s ∈ entries, (is_numeral s.2.1 ∧ digits_value s.2.1.toList < 2 ^ 64)
        ∧ (is_numeral s.2.2 ∧ digits_value s.2.2.toList < 2 ^ 64)) →
      ∃ cur1 attrs1,
        read_cell_styles xmlns fuel
          ⟨cur, attrs, (entries.map (cell_style_events xmlns)).flatten ++ e_end :: tail⟩ st
        = .ok ⟨cur1, attrs1, e_end :: tail⟩
            { st with style_datas := st.style_datas ++ entries.map cell_style_data } := by
  intro entries
  induction entries with
  | nil =>
    intro fuel cur attrs st hfuel _
    obtain ⟨f, rfl⟩ : ∃ f, fuel = f + 1 := ⟨fuel - 1, by simp at hfuel; omega⟩
    exact ⟨cur, attrs, by simp [read_cell_styles, parser.peek, he]⟩
  | cons s entries ih =>
    intro fuel cur attrs st hfuel hnum
    obtain ⟨f, rfl⟩ : ∃ f, fuel = f + 1 := ⟨fuel - 1, by simp at hfuel; omega⟩
    obtain ⟨name, xf, bi⟩ := s
    obtain ⟨⟨hx1, hx2⟩, ⟨hb1, hb2⟩⟩ := hnum (name, xf, bi) (List.mem_cons_self _ _)
    obtain ⟨cur1, attrs1, h1⟩ := ih f ⟨.end_element, ⟨xmlns, "cellStyle"⟩, [], ""⟩
      [(⟨"", "name"⟩, name), (⟨"", "xfId"⟩, xf), (⟨"", "builtinId"⟩, bi)]
      { st with style_datas := st.style_datas ++ [cell_style_data (name, xf, bi)] }
      (by simp at hfuel; omega) (fun x hx => hnum x (List.mem_cons_of_mem _ hx))
    refine ⟨cur1, attrs1, ?_⟩
    have hxf := attribute_size_t_numeral
      ⟨⟨.start_element, ⟨xmlns, "cellStyle"⟩,
          [(⟨"", "name"⟩, name), (⟨"", "xfId"⟩, xf), (⟨"", "builtinId"⟩, bi)], ""⟩,
        [(⟨"", "name"⟩, name), (⟨"", "xfId"⟩, xf), (⟨"", "builtinId"⟩, bi)],
        ⟨.end_element, ⟨xmlns, "cellStyle"⟩, [], ""⟩ ::
          ((entries.map (cell_style_events xmlns)).flatten ++ e_end :: tail)⟩
      "xfId" xf (by simp [lookup_attribute]) hx1 hx2
    have hbi := attribute_size_t_numeral
      ⟨⟨.start_element, ⟨xmlns, "cellStyle"⟩,
          [(⟨"", "name"⟩, name), (⟨"", "xfId"⟩, xf), (⟨"", "builtinId"⟩, bi)], ""⟩,
        [(⟨"", "name"⟩, name), (⟨"", "xfId"⟩, xf), (⟨"", "builtinId"⟩, bi)],
        ⟨.end_element, ⟨xmlns, "cellStyle"⟩, [], ""⟩ ::
          ((entries.map (cell_style_events xmlns)).flatten ++ e_end :: tail)⟩
      "builtinId" bi (by simp [lookup_attribute]) hb1 hb2
    simp only [List.map_cons, List.flatten_cons, cell_style_events, element_events, text_events_empty, List.nil_append,
      List.nil_append, List.cons_append, List.append_assoc, List.singleton_append]
    rw [read_cell_styles]
    simp only [parser.peek, parser.next_expect_qname, parser.next, parser.attribute,
      lookup_attribute, and_self, if_true, hxf, hbi]
    simp
    refine h1.trans ?_
    simp [cell_style_data]


theorem table_start_fuel {α : Type} (q : qname) (count : String)
    (children : List (List event × α)) (tail : List event)
    (h : ∀ c ∈ children, ∃ e es, c.1 = e :: es) :
    children.length < (table_start q count (children.map Prod.fst) tail).rest.length + 1 := by
  have := children_length_le children h
  simp only [table_start, List.length_append, List.length_cons]
  omega

theorem table_start_count (q : qname) (count : String) (children : List (List event))
    (tail : List event) (hnum : is_numeral count) (hlt : digits_value count.toList < 2 ^ 64) :
    (table_start q count children tail).attribute_size_t "count"
      = .ok (digits_value count.toList) :=
  attribute_size_t_numeral _ "count" count (by simp [table_start, lookup_attribute]) hnum hlt

theorem read_stylesheet_borders_count {F : Type} (vt : value_traits F) (xmlns xmlns_x14 : String)
    (count : String) (children : List (List event × border F)) (tail : List event)
    (st : style_state F) (hnum : is_numeral count) (hlt : digits_value count.toList < 2 ^ 64)
    (hparse : ∀ c ∈ children, parses_as (read_border vt) c.1 c.2) :
    ∃ cur1 attrs1,
      read_stylesheet_child vt xmlns xmlns_x14
          (table_start ⟨xmlns, "borders"⟩ count (children.map Prod.fst) tail) st
        = if digits_value count.toList ≠ children.length then
            .fail (.exception "counts don't match")
              { st with stylesheet := { st.stylesheet with borders := children.map Prod.snd } }
          else
            .ok ⟨cur1, attrs1, ⟨.end_element, ⟨xmlns, "borders"⟩, [], ""⟩ :: tail⟩
              { st with stylesheet := { st.stylesheet with borders := children.map Prod.snd } } := by
  obtain ⟨cur1, attrs1, h⟩ := read_components_children (read_border vt)
    (fun s b => { s with stylesheet := { s.stylesheet with
      borders := s.stylesheet.borders ++ [b] } })
    ⟨.end_element, ⟨xmlns, "borders"⟩, [], ""⟩ rfl tail children
    ((table_start ⟨xmlns, "borders"⟩ count (children.map Prod.fst) tail).rest.length + 1)
    ⟨.start_element, ⟨xmlns, "borders"⟩, [(⟨"", "count"⟩, count)], ""⟩
    [(⟨"", "count"⟩, count)]
    { st with stylesheet := { st.stylesheet with borders := [] } }
    (table_start_fuel _ _ _ _ (fun c hc => by
      obtain ⟨⟨e, es, h1, _⟩, _⟩ := hparse c hc
      exact ⟨e, es, h1⟩))
    hparse
  refine ⟨cur1, attrs1, ?_⟩
  have hq : (table_start ⟨xmlns, "borders"⟩ count (children.map Prod.fst) tail).qname
      = ⟨xmlns, "borders"⟩ := rfl
  simp only [read_stylesheet_child, hq, if_true, read_stylesheet_borders,
    table_start_count _ _ _ _ hnum hlt]
  rw [show table_start ⟨xmlns, "borders"⟩ count (children.map Prod.fst) tail
      = ⟨⟨.start_element, ⟨xmlns, "borders"⟩, [(⟨"", "count"⟩, count)], ""⟩,
          [(⟨"", "count"⟩, count)],
          (children.map Prod.fst).flatten ++ ⟨.end_element, ⟨xmlns, "borders"⟩, [], ""⟩ :: tail⟩
      from rfl] at h ⊢
  rw [h, foldl_push_borders]
  simp [check_count]


theorem read_stylesheet_child_fills {F : Type} (vt : value_traits F) (xmlns xmlns_x14 : String)
    (p : parser) (st : style_state F) (h : p.qname = ⟨xmlns, "fills"⟩) :
    read_stylesheet_child vt xmlns xmlns_x14 p st = read_stylesheet_fills vt xmlns p st := by
  simp [read_stylesheet_child, h]

theorem read_stylesheet_child_fonts {F : Type} (vt : value_traits F) (xmlns xmlns_x14 : String)
    (p : parser) (st : style_state F) (h : p.qname = ⟨xmlns, "fonts"⟩) :
    read_stylesheet_child vt xmlns xmlns_x14 p st = read_stylesheet_fonts vt xmlns p st := by
  simp [read_stylesheet_child, h]

theorem read_stylesheet_child_cell_styles {F : Type} (vt : value_traits F)
    (xmlns xmlns_x14 : String) (p : parser) (st : style_state F)
    (h : p.qname = ⟨xmlns, "cellStyles"⟩) :
    read_stylesheet_child vt xmlns xmlns_x14 p st = read_stylesheet_cell_styles xmlns p st := by
  simp [read_stylesheet_child, h]

theorem read_stylesheet_child_xfs {F : Type} (vt : value_traits F) (xmlns xmlns_x14 : String)
    (p : parser) (st : style_state F)
    (h : p.qname = ⟨xmlns, "cellStyleXfs"⟩ ∨ p.qname = ⟨xmlns, "cellXfs"⟩) :
    read_stylesheet_child vt xmlns xmlns_x14 p st = read_stylesheet_xfs vt xmlns p st := by
  rcases h with h | h <;> simp [read_stylesheet_child, h]

theorem read_stylesheet_fills_count {F : Type} (vt : value_traits F) (xmlns xmlns_x14 : String)
    (count : String) (children : List (List event × fill F)) (tail : List event)
    (st : style_state F) (hnum : is_numeral count) (hlt : digits_value count.toList < 2 ^ 64)
    (hparse : ∀ c ∈ children, parses_as (read_fill vt xmlns) c.1 c.2) :
    ∃ cur1 attrs1,
      read_stylesheet_child vt xmlns xmlns_x14
          (table_start ⟨xmlns, "fills"⟩ count (children.map Prod.fst) tail) st
        = if digits_value count.toList ≠ children.length then
            .fail (.exception "counts don't match")
              { st with stylesheet := { st.stylesheet with fills := children.map Prod.snd } }
          else
            .ok ⟨cur1, attrs1, ⟨.end_element, ⟨xmlns, "fills"⟩, [], ""⟩ :: tail⟩
              { st with stylesheet := { st.stylesheet with fills := children.map Prod.snd } } := by
  obtain ⟨cur1, attrs1, h⟩ := read_components_children (read_fill vt xmlns)
    (fun s b => { s with stylesheet := { s.stylesheet with
      fills := s.stylesheet.fills ++ [b] } })
    ⟨.end_element, ⟨xmlns, "fills"⟩, [], ""⟩ rfl tail children
    ((table_start ⟨xmlns, "fills"⟩ count (children.map Prod.fst) tail).rest.length + 1)
    ⟨.start_element, ⟨xmlns, "fills"⟩, [(⟨"", "count"⟩, count)], ""⟩
    [(⟨"", "count"⟩, count)]
    { st with stylesheet := { st.stylesheet with fills := [] } }
    (table_start_fuel _ _ _ _ (fun c hc => by
      obtain ⟨⟨e, es, h1, _⟩, _⟩ := hparse c hc
      exact ⟨e, es, h1⟩))
    hparse
  refine ⟨cur1, attrs1, ?_⟩
  rw [read_stylesheet_child_fills vt xmlns xmlns_x14
    (table_start ⟨xmlns, "fills"⟩ count (children.map Prod.fst) tail) st rfl]
  simp only [read_stylesheet_fills, table_start_count _ _ _ _ hnum hlt]
  rw [show table_start ⟨xmlns, "fills"⟩ count (children.map Prod.fst) tail
      = ⟨⟨.start_element, ⟨xmlns, "fills"⟩, [(⟨"", "count"⟩, count)], ""⟩,
          [(⟨"", "count"⟩, count)],
          (children.map Prod.fst).flatten ++ ⟨.end_element, ⟨xmlns, "fills"⟩, [], ""⟩ :: tail⟩
      from rfl] at h ⊢
  rw [h, foldl_push_fills]
  simp [check_count]

theorem read_stylesheet_fonts_count {F : Type} (vt : value_traits F) (xmlns xmlns_x14 : String)
    (count : String) (children : List (List event × font F)) (tail : List event)
    (st : style_state F) (hnum : is_numeral count) (hlt : digits_value count.toList < 2 ^ 64)
    (hparse : ∀ c ∈ children, parses_as (read_font vt xmlns) c.1 c.2) :
    ∃ cur1 attrs1,
      read_stylesheet_child vt xmlns xmlns_x14
          (table_start ⟨xmlns, "fonts"⟩ count (children.map Prod.fst) tail) st
        = if digits_value count.toList ≠ children.length then
            .fail (.exception "counts don't match")
              { st with stylesheet := { st.stylesheet with fonts := children.map Prod.snd } }
          else
            .ok ⟨cur1, attrs1, ⟨.end_element, ⟨xmlns, "fonts"⟩, [], ""⟩ :: tail⟩
              { st with stylesheet := { st.stylesheet with fonts := children.map Prod.snd } } := by
  obtain ⟨cur1, attrs1, h⟩ := read_components_children (read_font vt xmlns)
    (fun s b => { s with stylesheet := { s.stylesheet with
      fonts := s.stylesheet.fonts ++ [b] } })
    ⟨.end_element, ⟨xmlns, "fonts"⟩, [], ""⟩ rfl tail children
    ((table_start ⟨xmlns, "fonts"⟩ count (children.map Prod.fst) tail).rest.length + 1)
    ⟨.start_element, ⟨xmlns, "fonts"⟩, [(⟨"", "count"⟩, count)], ""⟩
    [(⟨"", "count"⟩, count)]
    { st with stylesheet := { st.stylesheet with fonts := [] } }
    (table_start_fuel _ _ _ _ (fun c hc => by
      obtain ⟨⟨e, es, h1, _⟩, _⟩ := hparse c hc
      exact ⟨e, es, h1⟩))
    hparse
  refine ⟨cur1, attrs1, ?_⟩
  rw [read_stylesheet_child_fonts vt xmlns xmlns_x14
    (table_start ⟨xmlns, "fonts"⟩ count (children.map Prod.fst) tail) st rfl]
  simp only [read_stylesheet_fonts, table_start_count _ _ _ _ hnum hlt]
  rw [show table_start ⟨xmlns, "fonts"⟩ count (children.map Prod.fst) tail
      = ⟨⟨.start_element, ⟨xmlns, "fonts"⟩, [(⟨"", "count"⟩, count)], ""⟩,
          [(⟨"", "count"⟩, count)],
          (children.map Prod.fst).flatten ++ ⟨.end_element, ⟨xmlns, "fonts"⟩, [], ""⟩ :: tail⟩
      from rfl] at h ⊢
  rw [h, foldl_push_fonts]
  simp [check_count]


theorem cell_style_events_flatten_length (xmlns : String)
    (entries : List (String × String × String)) :
    ((entries.map (cell_style_events xmlns)).flatten).length = 2 * entries.length := by
  induction entries with
  | nil => rfl
  | cons s entries ih =>
    simp only [List.map_cons, List.flatten_cons, List.length_append, ih, List.length_cons]
    simp only [cell_style_events, element_events, text_events_empty, List.nil_append, List.nil_append, List.length_cons,
      List.length_nil]
    omega

theorem read_stylesheet_cell_styles_count {F : Type} (vt : value_traits F)
    (xmlns xmlns_x14 : String) (count : String) (entries : List (String × String × String))
    (tail : List event) (st : style_state F) (hnum : is_numeral count)
    (hlt : digits_value count.toList < 2 ^ 64)
    (hentries : ∀ s ∈ entries, (is_numeral s.2.1 ∧ digits_value s.2.1.toList < 2 ^ 64)
      ∧ (is_numeral s.2.2 ∧ digits_value s.2.2.toList < 2 ^ 64))
    (hfirst : st.style_datas = []) :
    ∃ cur1 attrs1,
      read_stylesheet_child vt xmlns xmlns_x14
          (table_start ⟨xmlns, "cellStyles"⟩ count (entries.map (cell_style_events xmlns)) tail)
          st
        = if digits_value count.toList ≠ entries.length then
            .fail (.exception "counts don't match")
              { st with style_datas := entries.map cell_style_data }
          else
            .ok ⟨cur1, attrs1, ⟨.end_element, ⟨xmlns, "cellStyles"⟩, [], ""⟩ :: tail⟩
              { st with style_datas := entries.map cell_style_data } := by
  obtain ⟨cur1, attrs1, h⟩ := read_cell_styles_entries xmlns
    ⟨.end_element, ⟨xmlns, "cellStyles"⟩, [], ""⟩ rfl tail entries
    ((table_start ⟨xmlns, "cellStyles"⟩ count (entries.map (cell_style_events xmlns))
      tail).rest.length + 1)
    ⟨.start_element, ⟨xmlns, "cellStyles"⟩, [(⟨"", "count"⟩, count)], ""⟩
    [(⟨"", "count"⟩, count)] st
    (by
      simp only [table_start, List.length_append, cell_style_events_flatten_length,
        List.length_cons]
      omega)
    hentries
  refine ⟨cur1, attrs1, ?_⟩
  rw [read_stylesheet_child_cell_styles vt xmlns xmlns_x14
    (table_start ⟨xmlns, "cellStyles"⟩ count (entries.map (cell_style_events xmlns)) tail)
    st rfl]
  simp only [read_stylesheet_cell_styles, table_start_count _ _ _ _ hnum hlt]
  rw [show table_start ⟨xmlns, "cellStyles"⟩ count (entries.map (cell_style_events xmlns)) tail
      = ⟨⟨.start_element, ⟨xmlns, "cellStyles"⟩, [(⟨"", "count"⟩, count)], ""⟩,
          [(⟨"", "count"⟩, count)],
          (entries.map (cell_style_events xmlns)).flatten
            ++ ⟨.end_element, ⟨xmlns, "cellStyles"⟩, [], ""⟩ :: tail⟩
      from rfl] at h ⊢
  rw [h]
  simp [check_count, hfirst]

theorem read_stylesheet_xfs_count {F : Type} (vt : value_traits F) (xmlns xmlns_x14 : String)
    (in_style_records : Bool) (count : String)
    (children : List (List event × formatting_record)) (tail : List event)
    (st : style_state F) (hnum : is_numeral count) (hlt : digits_value count.toList < 2 ^ 64)
    (hparse : ∀ c ∈ children, parses_as (read_xf vt xmlns) c.1 c.2)
    (hfirst : if in_style_records then st.style_records = [] else st.format_records = []) :
    ∃ cur1 attrs1,
      read_stylesheet_child vt xmlns xmlns_x14
          (table_start ⟨xmlns, if in_style_records then "cellStyleXfs" else "cellXfs"⟩ count
            (children.map Prod.fst) tail) st
        = if digits_value count.toList ≠ children.length then
            .fail (.exception "counts don't match")
              (if in_style_records then { st with style_records := children.map Prod.snd }
               else { st with format_records := children.map Prod.snd })
          else
            .ok ⟨cur1, attrs1,
                ⟨.end_element, ⟨xmlns, if in_style_records then "cellStyleXfs" else "cellXfs"⟩,
                  [], ""⟩ :: tail⟩
              (if in_style_records then { st with style_records := children.map Prod.snd }
               else { st with format_records := children.map Prod.snd }) := by
  obtain ⟨cur1, attrs1, h⟩ := read_components_children (read_xf vt xmlns)
    (fun s record =>
      if in_style_records then { s with style_records := s.style_records ++ [record] }
      else { s with format_records := s.format_records ++ [record] })
    ⟨.end_element, ⟨xmlns, if in_style_records then "cellStyleXfs" else "cellXfs"⟩, [], ""⟩
    rfl tail children
    ((table_start ⟨xmlns, if in_style_records then "cellStyleXfs" else "cellXfs"⟩ count
      (children.map Prod.fst) tail).rest.length + 1)
    ⟨.start_element, ⟨xmlns, if in_style_records then "cellStyleXfs" else "cellXfs"⟩,
      [(⟨"", "count"⟩, count)], ""⟩
    [(⟨"", "count"⟩, count)] st
    (table_start_fuel _ _ _ _ (fun c hc => by
      obtain ⟨⟨e, es, h1, _⟩, _⟩ := hparse c hc
      exact ⟨e, es, h1⟩))
    hparse
  refine ⟨cur1, attrs1, ?_⟩
  rw [read_stylesheet_child_xfs vt xmlns xmlns_x14
    (table_start ⟨xmlns, if in_style_records then "cellStyleXfs" else "cellXfs"⟩ count
      (children.map Prod.fst) tail) st (by cases in_style_records <;> simp [table_start,
        parser.qname])]
  have hname : decide ((table_start ⟨xmlns, if in_style_records then "cellStyleXfs"
      else "cellXfs"⟩ count (children.map Prod.fst) tail).name = "cellStyleXfs")
      = in_style_records := by
    cases in_style_records <;> simp [table_start, parser.name]
  simp only [read_stylesheet_xfs, table_start_count _ _ _ _ hnum hlt, hname,
    read_xfs_eq_read_components]
  rw [show table_start ⟨xmlns, if in_style_records then "cellStyleXfs" else "cellXfs"⟩ count
        (children.map Prod.fst) tail
      = ⟨⟨.start_element, ⟨xmlns, if in_style_records then "cellStyleXfs" else "cellXfs"⟩,
            [(⟨"", "count"⟩, count)], ""⟩,
          [(⟨"", "count"⟩, count)],
          (children.map Prod.fst).flatten
            ++ ⟨.end_element, ⟨xmlns, if in_style_records then "cellStyleXfs" else "cellXfs"⟩,
              [], ""⟩ :: tail⟩
      from rfl] at h ⊢
  rw [h, foldl_push_records]
  cases in_style_records
  · simp only [Bool.false_eq_true, if_false] at hfirst ⊢
    simp [hfirst]
  · simp only [if_true] at hfirst ⊢
    simp [hfirst]


/-- The branch `cellStyles` compares the declared count with the size of the vector
`style_datas`, to which it has appended its entries. -/
theorem read_stylesheet_cell_styles_cumulative {F : Type} (vt : value_traits F)
    (xmlns xmlns_x14 : String) (count : String) (entries : List (String × String × String))
    (tail : List event) (st : style_state F) (hnum : is_numeral count)
    (hlt : digits_value count.toList < 2 ^ 64)
    (hentries : ∀ s ∈ entries, (is_numeral s.2.1 ∧ digits_value s.2.1.toList < 2 ^ 64)
      ∧ (is_numeral s.2.2 ∧ digits_value s.2.2.toList < 2 ^ 64)) :
    ∃ cur1 attrs1,
      read_stylesheet_child vt xmlns xmlns_x14
          (table_start ⟨xmlns, "cellStyles"⟩ count (entries.map (cell_style_events xmlns)) tail)
          st
        = if digits_value count.toList ≠ st.style_datas.length + entries.length then
            .fail (.exception "counts don't match")
              { st with style_datas := st.style_datas ++ entries.map cell_style_data }
          else
            .ok ⟨cur1, attrs1, ⟨.end_element, ⟨xmlns, "cellStyles"⟩, [], ""⟩ :: tail⟩
              { st with style_datas := st.style_datas ++ entries.map cell_style_data } := by
  obtain ⟨cur1, attrs1, h⟩ := read_cell_styles_entries xmlns
    ⟨.end_element, ⟨xmlns, "cellStyles"⟩, [], ""⟩ rfl tail entries
    ((table_start ⟨xmlns, "cellStyles"⟩ count (entries.map (cell_style_events xmlns))
      tail).rest.length + 1)
    ⟨.start_element, ⟨xmlns, "cellStyles"⟩, [(⟨"", "count"⟩, count)], ""⟩
    [(⟨"", "count"⟩, count)] st
    (by
      simp only [table_start, List.length_append, cell_style_events_flatten_length,
        List.length_cons]
      omega)
    hentries
  refine ⟨cur1, attrs1, ?_⟩
  rw [read_stylesheet_child_cell_styles vt xmlns xmlns_x14
    (table_start ⟨xmlns, "cellStyles"⟩ count (entries.map (cell_style_events xmlns)) tail)
    st rfl]
  simp only [read_stylesheet_cell_styles, table_start_count _ _ _ _ hnum hlt]
  rw [show table_start ⟨xmlns, "cellStyles"⟩ count (entries.map (cell_style_events xmlns)) tail
      = ⟨⟨.start_element, ⟨xmlns, "cellStyles"⟩, [(⟨"", "count"⟩, count)], ""⟩,
          [(⟨"", "count"⟩, count)],
          (entries.map (cell_style_events xmlns)).flatten
            ++ ⟨.end_element, ⟨xmlns, "cellStyles"⟩, [], ""⟩ :: tail⟩
      from rfl] at h ⊢
  rw [h]
  simp [check_count]

/-- The branch `cellStyleXfs` or `cellXfs` compares the declared count with the size of
the vector `style_records` or `format_records`, to which it has appended its records. -/
theorem read_stylesheet_xfs_cumulative {F : Type} (vt : value_traits F)
    (xmlns xmlns_x14 : String)
    (in_style_records : Bool) (count : String)
    (children : List (List event × formatting_record)) (tail : List event)
    (st : style_state F) (hnum : is_numeral count) (hlt : digits_value count.toList < 2 ^ 64)
    (hparse : ∀ c ∈ children, parses_as (read_xf vt xmlns) c.1 c.2) :
    ∃ cur1 attrs1,
      read_stylesheet_child vt xmlns xmlns_x14
          (table_start ⟨xmlns, if in_style_records then "cellStyleXfs" else "cellXfs"⟩ count
            (children.map Prod.fst) tail) st
        = if digits_value count.toList
              ≠ (if in_style_records then st.style_records.length
                  else st.format_records.length) + children.length then
            .fail (.exception "counts don't match")
              (if in_style_records then
                { st with style_records := st.style_records ++ children.map Prod.snd }
               else { st with format_records := st.format_records ++ children.map Prod.snd })
          else
            .ok ⟨cur1, attrs1,
                ⟨.end_element, ⟨xmlns, if in_style_records then "cellStyleXfs" else "cellXfs"⟩,
                  [], ""⟩ :: tail⟩
              (if in_style_records then
                { st with style_records := st.style_records ++ children.map Prod.snd }
               else
                { st with format_records := st.format_records ++ children.map Prod.snd }) := by
  obtain ⟨cur1, attrs1, h⟩ := read_components_children (read_xf vt xmlns)
    (fun s record =>
      if in_style_records then { s with style_records := s.style_records ++ [record] }
      else { s with format_records := s.format_records ++ [record] })
    ⟨.end_element, ⟨xmlns, if in_style_records then "cellStyleXfs" else "cellXfs"⟩, [], ""⟩
    rfl tail children
    ((table_start ⟨xmlns, if in_style_records then "cellStyleXfs" else "cellXfs"⟩ count
      (children.map Prod.fst) tail).rest.length + 1)
    ⟨.start_element, ⟨xmlns, if in_style_records then "cellStyleXfs" else "cellXfs"⟩,
      [(⟨"", "count"⟩, count)], ""⟩
    [(⟨"", "count"⟩, count)] st
    (table_start_fuel _ _ _ _ (fun c hc => by
      obtain ⟨⟨e, es, h1, _⟩, _⟩ := hparse c hc
      exact ⟨e, es, h1⟩))
    hparse
  refine ⟨cur1, attrs1, ?_⟩
  rw [read_stylesheet_child_xfs vt xmlns xmlns_x14
    (table_start ⟨xmlns, if in_style_records then "cellStyleXfs" else "cellXfs"⟩ count
      (children.map Prod.fst) tail) st (by cases in_style_records <;> simp [table_start,
        parser.qname])]
  have hname : decide ((table_start ⟨xmlns, if in_style_records then "cellStyleXfs"
      else "cellXfs"⟩ count (children.map Prod.fst) tail).name = "cellStyleXfs")
      = in_style_records := by
    cases in_style_records <;> simp [table_start, parser.name]
  simp only [read_stylesheet_xfs, table_start_count _ _ _ _ hnum hlt, hname,
    read_xfs_eq_read_components]
  rw [show table_start ⟨xmlns, if in_style_records then "cellStyleXfs" else "cellXfs"⟩ count
        (children.map Prod.fst) tail
      = ⟨⟨.start_element, ⟨xmlns, if in_style_records then "cellStyleXfs" else "cellXfs"⟩,
            [(⟨"", "count"⟩, count)], ""⟩,
          [(⟨"", "count"⟩, count)],
          (children.map Prod.fst).flatten
            ++ ⟨.end_element, ⟨xmlns, if in_style_records then "cellStyleXfs" else "cellXfs"⟩,
              [], ""⟩ :: tail⟩
      from rfl] at h ⊢
  rw [h, foldl_push_records]
  cases in_style_records
  · simp only [Bool.false_eq_true, if_false]
    simp
  · simp only [if_true]
    simp

/-- C8 (what the code does): for each of the tables `borders`, `fills`, `fonts`,
`cellStyles`, `cellStyleXfs` and `cellXfs`, with a declared `count` that is a `size_t`
numeral and children that are read one after the other.  The branches `borders`, `fills`
and `fonts` clear their table first, and fail with the exception "counts don't match"
exactly when the count differs from the number of children.  The branches `cellStyles`,
`cellStyleXfs` and `cellXfs` append to a vector that is never cleared and compare the
count with its size: they fail exactly when the count differs from the number of
entries the vector held before plus the number of children, so a second table of the
kind is accepted only with the sum as its count. -/
theorem style_table_counts_checked {F : Type} (vt : value_traits F) (xmlns xmlns_x14 : String)
    (count : String) (tail : List event) (st : style_state F) (hnum : is_numeral count)
    (hlt : digits_value count.toList < 2 ^ 64) :
    (∀ children : List (List event × border F),
      (∀ c ∈ children, parses_as (read_border vt) c.1 c.2) →
      ∃ cur1 attrs1,
        read_stylesheet_child vt xmlns xmlns_x14
            (table_start ⟨xmlns, "borders"⟩ count (children.map Prod.fst) tail) st
          = if digits_value count.toList ≠ children.length then
              .fail (.exception "counts don't match")
                { st with stylesheet := { st.stylesheet with borders := children.map Prod.snd } }
            else
              .ok ⟨cur1, attrs1, ⟨.end_element, ⟨xmlns, "borders"⟩, [], ""⟩ :: tail⟩
                { st with stylesheet := { st.stylesheet with
                    borders := children.map Prod.snd } })
    ∧ (∀ children : List (List event × fill F),
      (∀ c ∈ children, parses_as (read_fill vt xmlns) c.1 c.2) →
      ∃ cur1 attrs1,
        read_stylesheet_child vt xmlns xmlns_x14
            (table_start ⟨xmlns, "fills"⟩ count (children.map Prod.fst) tail) st
          = if digits_value count.toList ≠ children.length then
              .fail (.exception "counts don't match")
                { st with stylesheet := { st.stylesheet with fills := children.map Prod.snd } }
            else
              .ok ⟨cur1, attrs1, ⟨.end_element, ⟨xmlns, "fills"⟩, [], ""⟩ :: tail⟩
                { st with stylesheet := { st.stylesheet with fills := children.map Prod.snd } })
    ∧ (∀ children : List (List event × font F),
      (∀ c ∈ children, parses_as (read_font vt xmlns) c.1 c.2) →
      ∃ cur1 attrs1,
        read_stylesheet_child vt xmlns xmlns_x14
            (table_start ⟨xmlns, "fonts"⟩ count (children.map Prod.fst) tail) st
          = if digits_value count.toList ≠ children.length then
              .fail (.exception "counts don't match")
                { st with stylesheet := { st.stylesheet with fonts := children.map Prod.snd } }
            else
              .ok ⟨cur1, attrs1, ⟨.end_element, ⟨xmlns, "fonts"⟩, [], ""⟩ :: tail⟩
                { st with stylesheet := { st.stylesheet with fonts := children.map Prod.snd } })
    ∧ (∀ entries : List (String × String × String),
      (∀ s ∈ entries, (is_numeral s.2.1 ∧ digits_value s.2.1.toList < 2 ^ 64)
        ∧ (is_numeral s.2.2 ∧ digits_value s.2.2.toList < 2 ^ 64)) →
      ∃ cur1 attrs1,
        read_stylesheet_child vt xmlns xmlns_x14
            (table_start ⟨xmlns, "cellStyles"⟩ count
              (entries.map (cell_style_events xmlns)) tail) st
          = if digits_value count.toList ≠ st.style_datas.length + entries.length then
              .fail (.exception "counts don't match")
                { st with style_datas := st.style_datas ++ entries.map cell_style_data }
            else
              .ok ⟨cur1, attrs1, ⟨.end_element, ⟨xmlns, "cellStyles"⟩, [], ""⟩ :: tail⟩
                { st with style_datas := st.style_datas ++ entries.map cell_style_data })
    ∧ (∀ children : List (List event × formatting_record),
      (∀ c ∈ children, parses_as (read_xf vt xmlns) c.1 c.2) →
      ∃ cur1 attrs1,
        read_stylesheet_child vt xmlns xmlns_x14
            (table_start ⟨xmlns, "cellStyleXfs"⟩ count (children.map Prod.fst) tail) st
          = if digits_value count.toList ≠ st.style_records.length + children.length then
              .fail (.exception "counts don't match")
                { st with style_records := st.style_records ++ children.map Prod.snd }
            else
              .ok ⟨cur1, attrs1, ⟨.end_element, ⟨xmlns, "cellStyleXfs"⟩, [], ""⟩ :: tail⟩
                { st with style_records := st.style_records ++ children.map Prod.snd })
    ∧ (∀ children : List (List event × formatting_record),
      (∀ c ∈ children, parses_as (read_xf vt xmlns) c.1 c.2) →
      ∃ cur1 attrs1,
        read_stylesheet_child vt xmlns xmlns_x14
            (table_start ⟨xmlns, "cellXfs"⟩ count (children.map Prod.fst) tail) st
          = if digits_value count.toList ≠ st.format_records.length + children.length then
              .fail (.exception "counts don't match")
                { st with format_records := st.format_records ++ children.map Prod.snd }
            else
              .ok ⟨cur1, attrs1, ⟨.end_element, ⟨xmlns, "cellXfs"⟩, [], ""⟩ :: tail⟩
                { st with format_records := st.format_records ++ children.map Prod.snd }) := by
  refine ⟨?_, ?_, ?_, ?_, ?_, ?_⟩
  · intro children hparse
    exact read_stylesheet_borders_count vt xmlns xmlns_x14 count children tail st hnum hlt hparse
  · intro children hparse
    exact read_stylesheet_fills_count vt xmlns xmlns_x14 count children tail st hnum hlt hparse
  · intro children hparse
    exact read_stylesheet_fonts_count vt xmlns xmlns_x14 count children tail st hnum hlt hparse
  · intro entries hentries
    exact read_stylesheet_cell_styles_cumulative vt xmlns xmlns_x14 count entries tail st hnum
      hlt hentries
  · intro children hparse
    have := read_stylesheet_xfs_cumulative vt xmlns xmlns_x14 true count children tail st hnum
      hlt hparse
    simpa using this
  · intro children hparse
    have := read_stylesheet_xfs_cumulative vt xmlns xmlns_x14 false count children tail st hnum
      hlt hparse
    simpa using this


theorem sample_border_children_parse :
    ∀ c ∈ sample_border_children, parses_as (read_border sample_traits) c.1 c.2 := by
  intro c hc
  simp only [sample_border_children, List.mem_singleton] at hc
  subst hc
  exact ⟨⟨_, _, rfl, rfl⟩, fun cur attrs rest =>
    ⟨⟨.end_element, ⟨"ns", "border"⟩, [], ""⟩, [], by
      simp [read_border, ns_element, element_events, parser.next_expect, parser.next,
        read_border_sides, parser.peek]⟩⟩

theorem sample_fill_children_parse :
    ∀ c ∈ sample_fill_children, parses_as (read_fill sample_traits "ns") c.1 c.2 := by
  intro c hc
  simp only [sample_fill_children, List.mem_cons, List.mem_singleton, List.not_mem_nil,
    or_false] at hc
  rcases hc with rfl | rfl
  · exact ⟨⟨_, _, rfl, rfl⟩, fun cur attrs rest =>
      ⟨⟨.end_element, ⟨"ns", "fill"⟩, [], ""⟩, [(⟨"", "patternType"⟩, "none")], by
        simp [read_fill, read_fill_child, ns_element, element_events, parser.next_expect,
          parser.next_expect_qname, parser.next, read_pattern_fill_children, parser.peek,
          parser.qname, parser.attribute_present, parser.attribute, lookup_attribute,
          sample_traits]⟩⟩
  · exact ⟨⟨_, _, rfl, rfl⟩, fun cur attrs rest =>
      ⟨⟨.end_element, ⟨"ns", "fill"⟩, [], ""⟩, [(⟨"", "patternType"⟩, "gray125")], by
        simp [read_fill, read_fill_child, ns_element, element_events, parser.next_expect,
          parser.next_expect_qname, parser.next, read_pattern_fill_children, parser.peek,
          parser.qname, parser.attribute_present, parser.attribute, lookup_attribute,
          sample_traits]⟩⟩

theorem sample_font_children_parse :
    ∀ c ∈ sample_font_children, parses_as (read_font sample_traits "ns") c.1 c.2 := by
  intro c hc
  simp only [sample_font_children, List.mem_cons, List.mem_singleton, List.not_mem_nil,
    or_false] at hc
  rcases hc with rfl | rfl
  · exact ⟨⟨_, _, rfl, rfl⟩, fun cur attrs rest =>
      ⟨⟨.end_element, ⟨"ns", "font"⟩, [], ""⟩, [(⟨"", "val"⟩, "11")], by
        have h11 : string_to_size_t "11" = .ok 11 := rfl
        simp [read_font, read_font_children, read_font_child, ns_element, element_events,
          parser.next_expect, parser.next_expect_qname, parser.next, parser.peek, parser.name,
          parser.attribute, lookup_attribute, h11, Except.map]⟩⟩
  · exact ⟨⟨_, _, rfl, rfl⟩, fun cur attrs rest =>
      ⟨⟨.end_element, ⟨"ns", "font"⟩, [], ""⟩, [], by
        simp [read_font, read_font_children, read_font_child, read_flag, ns_element,
          element_events, parser.next_expect, parser.next_expect_qname, parser.next,
          parser.peek, parser.name, parser.attribute_present, parser.attribute,
          lookup_attribute]⟩⟩

theorem sample_xf_children_parse :
    ∀ c ∈ sample_style_xf_children ++ sample_format_xf_children,
      parses_as (read_xf sample_traits "ns") c.1 c.2 := by
  have h0 : stoull "0" = .ok 0 := rfl
  have h1 : stoull "1" = .ok 1 := rfl
  intro c hc
  simp only [sample_style_xf_children, sample_format_xf_children, List.cons_append,
    List.nil_append, List.mem_cons, List.mem_singleton, List.not_mem_nil, or_false] at hc
  rcases hc with rfl | rfl | rfl
  · exact ⟨⟨_, _, rfl, rfl⟩, fun cur attrs rest =>
      ⟨⟨.end_element, ⟨"ns", "xf"⟩, [], ""⟩,
        [(⟨"", "fontId"⟩, "0"), (⟨"", "fillId"⟩, "0"), (⟨"", "borderId"⟩, "0")], by
        simp [read_xf, read_xf_attributes, read_xf_children, attribute_applied,
          attribute_index, ns_element, element_events, parser.next_expect_qname, parser.next,
          parser.peek, parser.name, parser.attribute_present, parser.attribute,
          lookup_attribute, string_to_size_t, h0]⟩⟩
  · exact ⟨⟨_, _, rfl, rfl⟩, fun cur attrs rest =>
      ⟨⟨.end_element, ⟨"ns", "xf"⟩, [], ""⟩,
        [(⟨"", "fontId"⟩, "1"), (⟨"", "fillId"⟩, "0"), (⟨"", "borderId"⟩, "0")], by
        simp [read_xf, read_xf_attributes, read_xf_children, attribute_applied,
          attribute_index, ns_element, element_events, parser.next_expect_qname, parser.next,
          parser.peek, parser.name, parser.attribute_present, parser.attribute,
          lookup_attribute, string_to_size_t, h0, h1]⟩⟩
  · exact ⟨⟨_, _, rfl, rfl⟩, fun cur attrs rest =>
      ⟨⟨.end_element, ⟨"ns", "xf"⟩, [], ""⟩,
        [(⟨"", "fontId"⟩, "1"), (⟨"", "fillId"⟩, "1"), (⟨"", "borderId"⟩, "1"),
          (⟨"", "xfId"⟩, "1")], by
        simp [read_xf, read_xf_attributes, read_xf_children, attribute_applied,
          attribute_index, ns_element, element_events, parser.next_expect_qname, parser.next,
          parser.peek, parser.name, parser.attribute_present, parser.attribute,
          lookup_attribute, string_to_size_t, h1]⟩⟩

/-- Witness for `style_table_counts_checked`: after a first `cellXfs` table with one
record, a second `cellXfs` table that declares the count 2 and holds one `xf` is
accepted; and the style sheet `repeated_cell_xfs_events`, the sample style sheet with
such a second table, is read without exception and has two formats. -/
theorem style_table_counts_checked_witness :
    (∃ cur1 attrs1,
      read_stylesheet_child sample_traits "ns" "x14"
          (table_start ⟨"ns", "cellXfs"⟩ "2" (sample_format_xf_children.map Prod.fst) [])
          { ({} : style_state Nat) with format_records := [{}] }
        = .ok ⟨cur1, attrs1, ⟨.end_element, ⟨"ns", "cellXfs"⟩, [], ""⟩ :: []⟩
            { ({} : style_state Nat) with
              format_records := [{}] ++ sample_format_xf_children.map Prod.snd })
    ∧ ∃ p ss,
        read_stylesheet sample_traits ⟨"General", 0⟩ sample_builtin "ns" "x14" "x14ac"
            (parser.of_events repeated_cell_xfs_events) {} = .ok p ss
        ∧ ss.formats.length = 2 := by
  obtain ⟨_, _, _, _, _, hfx⟩ :=
    style_table_counts_checked sample_traits "ns" "x14" "2" []
      { ({} : style_state Nat) with format_records := [{}] } (by decide) (by decide)
  refine ⟨?_, _, _, by rfl, by rfl⟩
  obtain ⟨c, a, h⟩ := hfx sample_format_xf_children
    (fun c hc => sample_xf_children_parse c (List.mem_append_right _ hc))
  exact ⟨c, a, h.trans (if_neg (by decide))⟩


/-! ## Merged cells (C11, C12) -/

/-- C11 (what the code does): when the dispatch loop of `read_worksheet` comes to a
`mergeCells` element with a declared count that converts and at least one `mergeCell`
child, it merges the first reference and then raises `xml::parsing`: after the start
tag of `mergeCell` line 1478 asks for another start tag `mergeCell`, and the end tag
comes.  So no such element is processed without error, whatever its count. -/
theorem merge_cells_with_child_fails {F : Type} (cx : worksheet_context F) (xmlns count : String)
    (c : Nat) (ref : String) (refs : List String) (tail : List event) (fuel : Nat)
    (cur : event) (attrs : List (qname × String)) (ws : worksheet F)
    (hc : stoull count = .ok c) :
    read_worksheet_children cx xmlns (fuel + 1)
        ⟨cur, attrs, merge_cells_events xmlns count (ref :: refs) ++ tail⟩ ws
      = .fail .parsing { ws with merged_cells_ := ws.merged_cells_ ++ [ref] } := by
  simp [read_worksheet_children, read_worksheet_child, merge_cells_events, merge_cell_events,
    element_events, parser.peek, parser.next_expect, parser.next, parser.qname,
    read_worksheet_merge_cells, parser.attribute, lookup_attribute, hc, read_merge_cells,
    parser.next_expect_qname]

/-- Witness for `merge_cells_with_child_fails`: `<mergeCells count="1"><mergeCell
ref="A1:B2"/></mergeCells>` as the first child of a worksheet. -/
theorem merge_cells_with_child_fails_witness :
    read_worksheet_children ⟨sample_traits, stold_decimal, [], [], false⟩ "ns" 10
        ⟨⟨.start_element, ⟨"ns", "worksheet"⟩, [], ""⟩, [],
          merge_cells_events "ns" "1" ["A1:B2"] ++ [⟨.end_element, ⟨"ns", "worksheet"⟩, [], ""⟩]⟩
        ({} : worksheet Nat)
      = .fail .parsing { merged_cells_ := ["A1:B2"] } :=
  merge_cells_with_child_fails ⟨sample_traits, stold_decimal, [], [], false⟩ "ns" "1" 1 "A1:B2" []
    [⟨.end_element, ⟨"ns", "worksheet"⟩, [], ""⟩] 9 _ _ {} (by rfl)

/-- C12: when the dispatch loop of `read_worksheet` comes to a `mergeCells` element
whose declared count differs from the number of its `mergeCell` children, it fails:
without children the count check raises `invalid_file("sizes don't match")`, with
children the loop over them raises `xml::parsing` after the first one. -/
theorem merge_cells_count_mismatch_fails {F : Type} (cx : worksheet_context F)
    (xmlns count : String) (c : Nat) (refs : List String) (tail : List event) (fuel : Nat)
    (cur : event) (attrs : List (qname × String)) (ws : worksheet F)
    (hc : stoull count = .ok c) (hne : c ≠ refs.length) :
    read_worksheet_children cx xmlns (fuel + 1)
        ⟨cur, attrs, merge_cells_events xmlns count refs ++ tail⟩ ws
      = match refs with
        | [] => .fail (.invalid_file "sizes don't match") ws
        | ref :: _ => .fail .parsing { ws with merged_cells_ := ws.merged_cells_ ++ [ref] } := by
  cases refs with
  | nil =>
    have h0 : c ≠ 0 := by simpa using hne
    simp [read_worksheet_children, read_worksheet_child, merge_cells_events,
      element_events, parser.peek, parser.next_expect, parser.next, parser.qname,
      read_worksheet_merge_cells, parser.attribute, lookup_attribute, hc, read_merge_cells, h0]
  | cons ref refs =>
    simp [read_worksheet_children, read_worksheet_child, merge_cells_events, merge_cell_events,
      element_events, parser.peek, parser.next_expect, parser.next, parser.qname,
      read_worksheet_merge_cells, parser.attribute, lookup_attribute, hc, read_merge_cells,
      parser.next_expect_qname]

/-- Witness for `merge_cells_count_mismatch_fails`: `<mergeCells count="2"/>` without
children, and `<mergeCells count="2"><mergeCell ref="A1:B2"/></mergeCells>`. -/
theorem merge_cells_count_mismatch_fails_witness :
    read_worksheet_children ⟨sample_traits, stold_decimal, [], [], false⟩ "ns" 10
        ⟨⟨.start_element, ⟨"ns", "worksheet"⟩, [], ""⟩, [],
          merge_cells_events "ns" "2" [] ++ [⟨.end_element, ⟨"ns", "worksheet"⟩, [], ""⟩]⟩
        ({} : worksheet Nat)
      = .fail (.invalid_file "sizes don't match") {}
    ∧ read_worksheet_children ⟨sample_traits, stold_decimal, [], [], false⟩ "ns" 10
        ⟨⟨.start_element, ⟨"ns", "worksheet"⟩, [], ""⟩, [],
          merge_cells_events "ns" "2" ["A1:B2"]
            ++ [⟨.end_element, ⟨"ns", "worksheet"⟩, [], ""⟩]⟩
        ({} : worksheet Nat)
      = .fail .parsing { merged_cells_ := ["A1:B2"] } :=
  ⟨merge_cells_count_mismatch_fails ⟨sample_traits, stold_decimal, [], [], false⟩ "ns" "2" 2 []
      [⟨.end_element, ⟨"ns", "worksheet"⟩, [], ""⟩] 9 _ _ {} (by rfl) (by decide),
    merge_cells_count_mismatch_fails ⟨sample_traits, stold_decimal, [], [], false⟩ "ns" "2" 2
      ["A1:B2"] [⟨.end_element, ⟨"ns", "worksheet"⟩, [], ""⟩] 9 _ _ {} (by rfl) (by decide)⟩


/-! ## Column properties (C18) -/

theorem index_map_find_set {α : Type} (m : List (Nat × α)) (k : Nat) (v : α) (k1 : Nat) :
    index_map_find (index_map_set m k v) k1 = if k = k1 then some v else index_map_find m k1 := by
  induction m with
  | nil => simp [index_map_set, index_map_find]
  | cons x m ih =>
    obtain ⟨k0, v0⟩ := x
    by_cases h0 : k0 = k
    · subst h0
      by_cases h1 : k0 = k1 <;> simp [index_map_set, index_map_find, h1]
    · by_cases h1 : k0 = k1
      · subst h1
        simp [index_map_set, index_map_find, h0, Ne.symm h0]
      · simp [index_map_set, index_map_find, h0, h1, ih]

theorem set_column_properties_eq {F : Type} (a : Nat) (x : F) (s : Nat) (c : Bool)
    (column : Nat) (ws : worksheet F) :
    set_column_properties a x s c column ws
      = { ws with column_properties_ :=
            (set_column_properties a x s c column ws).column_properties_ } := by
  unfold set_column_properties
  by_cases h : ws.has_column_properties column = true
  · simp only [h, Bool.not_true, Bool.false_eq_true, if_false]
    rfl
  · have h1 : ws.has_column_properties column = false := by simpa using h
    simp only [h1, Bool.not_false, if_true]
    rfl

theorem set_column_properties_find {F : Type} (a : Nat) (x : F) (s : Nat) (c : Bool)
    (column : Nat) (ws : worksheet F) (k : Nat) :
    index_map_find (set_column_properties a x s c column ws).column_properties_ k
      = if k = a then some ⟨some x, some c, some s⟩
        else if k = column ∧ (index_map_find ws.column_properties_ k).isNone then some {}
        else index_map_find ws.column_properties_ k := by
  unfold set_column_properties
  by_cases hka : k = a
  · subst hka
    simp [worksheet.add_column_properties, worksheet.get_column_properties, index_map_find_set]
  · have hak : ¬ a = k := fun h => hka h.symm
    by_cases h : ws.has_column_properties column = true
    · simp only [h, Bool.not_true, Bool.false_eq_true, if_false,
        worksheet.add_column_properties, index_map_find_set, hak, hka]
      have hsome : (index_map_find ws.column_properties_ column).isNone = false := by
        simpa [worksheet.has_column_properties] using h
      by_cases hkc : k = column
      · subst hkc
        simp [hsome]
      · simp [hkc]
    · have h1 : ws.has_column_properties column = false := by simpa using h
      have hnone : index_map_find ws.column_properties_ column = none := by
        simpa [worksheet.has_column_properties] using h1
      simp only [h1, Bool.not_false, if_true,
        worksheet.add_column_properties, index_map_find_set, hak, hka, if_false]
      by_cases hkc : column = k
      · subst hkc
        simp [hnone]
      · have hkc1 : ¬ k = column := fun h => hkc h.symm
        simp [hkc, hkc1]

theorem set_column_range_spec {F : Type} (a b : Nat) (x : F) (s : Nat) (c : Bool)
    (hb : b + 1 < 2 ^ 32) :
    ∀ (n column fuel : Nat) (ws : worksheet F), column + n = b + 1 → n + 1 ≤ fuel →
      ∃ cp, set_column_range a b x s c fuel column ws
          = .ok { ws with column_properties_ := cp }
        ∧ ∀ k, index_map_find cp k
            = if 0 < n ∧ k = a then some ⟨some x, some c, some s⟩
              else if column ≤ k ∧ k ≤ b ∧ (index_map_find ws.column_properties_ k).isNone
              then some {}
              else index_map_find ws.column_properties_ k := by
  intro n
  induction n with
  | zero =>
    intro column fuel ws hcol hfuel
    obtain ⟨fuel, rfl⟩ : ∃ f, fuel = f + 1 := ⟨fuel - 1, by omega⟩
    refine ⟨ws.column_properties_, ?_, ?_⟩
    · have : ¬ column ≤ b := by omega
      simp [set_column_range, this]
    · intro k
      have : ¬ (column ≤ k ∧ k ≤ b ∧ (index_map_find ws.column_properties_ k).isNone) := by
        intro h
        omega
      rw [if_neg (by simp), if_neg this]
  | succ n ih =>
    intro column fuel ws hcol hfuel
    obtain ⟨fuel, rfl⟩ : ∃ f, fuel = f + 1 := ⟨fuel - 1, by omega⟩
    have hle : column ≤ b := by omega
    have hmod : (column + 1) % 2 ^ 32 = column + 1 := Nat.mod_eq_of_lt (by omega)
    rw [set_column_range, if_pos hle, hmod]
    obtain ⟨cp, h1, h2⟩ := ih (column + 1) fuel (set_column_properties a x s c column ws)
      (by omega) (by omega)
    refine ⟨cp, ?_, ?_⟩
    · rw [h1, set_column_properties_eq]
    · intro k
      rw [h2 k]
      simp only [set_column_properties_find]
      by_cases hka : k = a
      · simp [hka]
      · simp only [hka, and_false, if_false]
        by_cases hkc : k = column
        · subst hkc
          have : ¬ (k + 1 ≤ k) := by omega
          by_cases hn : (index_map_find ws.column_properties_ k).isNone = true
          · simp [this, hn, hle]
          · simp [this, hn]
        · have h4 : ¬ (k = column ∧ (index_map_find ws.column_properties_ k).isNone = true) :=
            fun h => hkc h.1
          rw [if_neg h4]
          by_cases h5 : column ≤ k ∧ k ≤ b ∧ (index_map_find ws.column_properties_ k).isNone = true
          · rw [if_pos h5, if_pos ⟨by have := h5.1; omega, h5.2⟩]
          · rw [if_neg h5, if_neg (fun h => h5 ⟨by have := h.1; omega, h.2⟩)]


/-- C18 (what the code does): a `col` element with min = a, max = b (a <= b), width
w, customWidth c and style s is read without error, and afterwards only column a has
width w, custom flag (c == "1") and style s.  Every other column k of the range gets
the default properties when it had none and keeps its own otherwise, and the columns
outside the range are left as they were: lines 1634-1636 write the properties of
`min` in every round of the loop. -/
theorem read_col_writes_min_only {F : Type} (xmlns : String) (stold : String → Except error F)
    (mn mx w cw : String) (style : Option String) (a b : Nat) (x : F) (sv : Nat)
    (cur : event) (attrs : List (qname × String)) (tail : List event) (ws : worksheet F)
    (ha : stoull mn = .ok a) (hb : stoull mx = .ok b) (hab : a ≤ b) (hb32 : b + 1 < 2 ^ 32)
    (hw : stold w = .ok x)
    (hs : (style.map stoull).getD (.ok 0) = .ok sv) :
    ∃ p1 cp,
      read_col xmlns stold ⟨cur, attrs, col_events xmlns mn mx w cw style ++ tail⟩ ws
        = .ok p1 { ws with column_properties_ := cp }
      ∧ p1.rest = tail
      ∧ index_map_find cp a = some ⟨some x, some (decide (cw = "1")), some sv⟩
      ∧ ∀ k, k ≠ a → index_map_find cp k
          = if a ≤ k ∧ k ≤ b ∧ (index_map_find ws.column_properties_ k).isNone then some {}
            else index_map_find ws.column_properties_ k := by
  obtain ⟨cp, h1, h2⟩ := set_column_range_spec a b x sv (decide (cw = "1")) hb32
    (b + 1 - a) a (b - a + 2) ws (by omega) (by omega)
  have hamod : a % 4294967296 = a := Nat.mod_eq_of_lt (by omega)
  have hbmod : b % 4294967296 = b := Nat.mod_eq_of_lt (by omega)
  have hidx : attribute_index
      ⟨⟨.start_element, ⟨xmlns, "col"⟩,
          [(⟨"", "min"⟩, mn), (⟨"", "max"⟩, mx), (⟨"", "width"⟩, w), (⟨"", "customWidth"⟩, cw)]
            ++ (style.map (fun s => ((⟨"", "style"⟩ : qname), s))).toList, ""⟩,
        [(⟨"", "min"⟩, mn), (⟨"", "max"⟩, mx), (⟨"", "width"⟩, w), (⟨"", "customWidth"⟩, cw)]
            ++ (style.map (fun s => ((⟨"", "style"⟩ : qname), s))).toList,
        ⟨.end_element, ⟨xmlns, "col"⟩, [], ""⟩ :: tail⟩ "style" = .ok sv := by
    cases style with
    | none =>
      simp only [attribute_index, parser.attribute_present, lookup_attribute, Option.map_none',
        Option.getD_none, Option.toList_none, List.append_nil] at hs ⊢
      simpa using hs
    | some t =>
      simp only [attribute_index, parser.attribute_present, parser.attribute,
        lookup_attribute, string_to_size_t, Option.map_some', Option.getD_some] at hs ⊢
      simpa using hs
  refine ⟨⟨⟨.end_element, ⟨xmlns, "col"⟩, [], ""⟩,
      [(⟨"", "min"⟩, mn), (⟨"", "max"⟩, mx), (⟨"", "width"⟩, w), (⟨"", "customWidth"⟩, cw)]
        ++ (style.map (fun s => ((⟨"", "style"⟩ : qname), s))).toList, tail⟩,
    cp, ?_, rfl, ?_, ?_⟩
  · simp only [read_col, col_events, element_events, text_events_empty, List.nil_append, parser.next_expect_qname, parser.next,
      List.cons_append, List.nil_append, and_self, if_true, parser.attribute, lookup_attribute]
    simp only [List.cons_append, List.nil_append] at hidx
    simp [ha, hb, hw, hamod, hbmod]
    rw [hidx]
    simp only []
    rw [h1]
  · rw [h2 a]
    simp
    omega
  · intro k hk
    rw [h2 k]
    simp [hk]


/-- Witness for `read_col_writes_min_only`: `<col min="1" max="2" width="10"
customWidth="1"/>` read into a worksheet without column properties. -/
theorem read_col_writes_min_only_witness :
    ∃ p1 cp,
      read_col "ns" stold_decimal ⟨eof_event, [], col_events "ns" "1" "2" "10" "1" none ++ []⟩
          ({} : worksheet Nat)
        = .ok p1 { ({} : worksheet Nat) with column_properties_ := cp }
      ∧ p1.rest = []
      ∧ index_map_find cp 1 = some ⟨some 10, some (decide ("1" = "1")), some 0⟩
      ∧ ∀ k, k ≠ 1 → index_map_find cp k
          = if 1 ≤ k ∧ k ≤ 2
                ∧ (index_map_find ({} : worksheet Nat).column_properties_ k).isNone
            then some {}
            else index_map_find ({} : worksheet Nat).column_properties_ k :=
  read_col_writes_min_only "ns" stold_decimal "1" "2" "10" "1" none 1 2 10 0 eof_event [] [] {}
    (by rfl) (by rfl) (by decide) (by decide) (by rfl) (by rfl)

/-- The column properties after `<cols><col min="1" max="2" width="10"
customWidth="1"/></cols>`: column 1 has the width, column 2 has none. -/
theorem read_worksheet_cols_example :
    read_worksheet_child ⟨sample_traits, stold_decimal, [], [], false⟩ "ns"
        ⟨⟨.start_element, ⟨"ns", "cols"⟩, [], ""⟩, [],
          col_events "ns" "1" "2" "10" "1" none ++ [⟨.end_element, ⟨"ns", "cols"⟩, [], ""⟩]⟩
        ({} : worksheet Nat)
      = .ok ⟨⟨.end_element, ⟨"ns", "cols"⟩, [], ""⟩,
            [(⟨"", "min"⟩, "1"), (⟨"", "max"⟩, "2"), (⟨"", "width"⟩, "10"),
              (⟨"", "customWidth"⟩, "1")], []⟩
          { column_properties_ :=
              [(1, { width := some 10, custom := some true, style := some 0 }), (2, {})] } := by
  rfl


/-! ## The content type of the workbook part (C13, C14) -/

/-- C13 (what the code does): `check_document_type` returns for the content type of
a sheet, and raises `invalid_file` for the content type of a template: the literal it
compares with at line 383 ends in a space, and only with that space is the template
type accepted. -/
theorem check_document_type_template_rejected :
    check_document_type
        "application/vnd.openxmlformats-officedocument.spreadsheetml.sheet.main+xml" = .ok ()
    ∧ check_document_type
        "application/vnd.openxmlformats-officedocument.spreadsheetml.template.main+xml"
      = .error (.invalid_file
          "application/vnd.openxmlformats-officedocument.spreadsheetml.template.main+xml")
    ∧ check_document_type
        "application/vnd.openxmlformats-officedocument.spreadsheetml.template.main+xml "
      = .ok () := by
  refine ⟨?_, ?_, ?_⟩ <;> simp [check_document_type]

/-- C14 (what the code does): every content type other than the sheet type and the
template type followed by a space is rejected with `invalid_file` carrying the content
type, and in `populate_workbook` the round of the office-document relationship ends
there, after the part was fetched and before `read_workbook` is called.  The template
type followed by a space is neither of the two accepted types, and for it
`read_workbook` is called. -/
theorem check_document_type_rejects {δ : Type} (rd : part_readers δ) (rel : relationship)
    (c : consumer δ) (es : List event) (ct : String)
    (hrel : rel.type = .office_document) (hread : c.source_.read rel.target = .ok es)
    (hct : c.manifest.get_content_type rel.target = .ok ct) :
    (ct ≠ "application/vnd.openxmlformats-officedocument.spreadsheetml.sheet.main+xml" →
      ct ≠ "application/vnd.openxmlformats-officedocument.spreadsheetml.template.main+xml " →
      check_document_type ct = .error (.invalid_file ct)
      ∧ populate_root_part rd rel c
        = .raised (.invalid_file ct) { c with trace := c.trace ++ [.store_read rel.target] })
    ∧ (ct = "application/vnd.openxmlformats-officedocument.spreadsheetml.template.main+xml " →
      check_document_type ct = .ok ()
      ∧ populate_root_part rd rel c
        = ({ c with trace := c.trace ++ [.store_read rel.target] } : consumer δ).dispatch
            .read_workbook rel.target (rd.read_workbook (parser.of_events es))) := by
  constructor
  · intro h1 h2
    have hc : check_document_type ct = .error (.invalid_file ct) := by
      simp [check_document_type, h1, h2]
    refine ⟨hc, ?_⟩
    simp only [populate_root_part, consumer.read_part, hread, hrel, hct, hc]
  · intro h
    have hc : check_document_type ct = .ok () := by
      subst h
      simp [check_document_type]
    refine ⟨hc, ?_⟩
    simp only [populate_root_part, consumer.read_part, hread, hrel, hct, hc]


/-- Witness for `check_document_type_rejects`: a workbook part declared with the
content type `text/plain`. -/
theorem check_document_type_rejects_witness :
    check_document_type "text/plain" = .error (.invalid_file "text/plain")
    ∧ populate_root_part sample_readers ⟨"rId1", .office_document, "/", "xl/workbook.xml"⟩
        ({ source_ := sample_package "text/plain"
           manifest := { override_types := [("/xl/workbook.xml", "text/plain")] }
           state := { destination_ := () } } : consumer Unit)
      = .raised (.invalid_file "text/plain")
          { source_ := sample_package "text/plain"
            manifest := { override_types := [("/xl/workbook.xml", "text/plain")] }
            state := { destination_ := () }
            trace := [.store_read "xl/workbook.xml"] } :=
  (check_document_type_rejects sample_readers ⟨"rId1", .office_document, "/", "xl/workbook.xml"⟩
    ({ source_ := sample_package "text/plain"
       manifest := { override_types := [("/xl/workbook.xml", "text/plain")] }
       state := { destination_ := () } } : consumer Unit) [] "text/plain"
    (by rfl) (by rfl) (by rfl)).1 (by decide) (by decide)

/-- A read of the sample package: the manifest is built, the workbook part is read,
then the shared strings and the styles, then the worksheet. -/
theorem read_sample_package :
    (read sample_package_context sample_readers (fun _ _ => ({}, ()))
        (sample_package
          "application/vnd.openxmlformats-officedocument.spreadsheetml.sheet.main+xml")
        ({ state := { destination_ := () } } : consumer Unit)).state.trace
      = [.store_read "_rels/.rels", .store_read "[Content_Types].xml",
          .store_read "xl/_rels/workbook.xml.rels",
          .store_read "xl/workbook.xml", .call .read_workbook "xl/workbook.xml",
          .store_read "xl/worksheets/sheet1.xml",
          .store_read "xl/sharedStrings.xml",
          .call .read_shared_string_table "xl/sharedStrings.xml",
          .store_read "xl/styles.xml", .call .read_stylesheet "xl/styles.xml",
          .store_read "xl/worksheets/sheet1.xml",
          .call (.read_worksheet "rId1") "xl/worksheets/sheet1.xml",
          .store_read "xl/sharedStrings.xml", .store_read "xl/styles.xml"] := by
  rfl


/-! ## The order of a read (C15, C16, C17) -/

theorem calls_append (a b : List step) : calls (a ++ b) = calls a ++ calls b := by
  induction a with
  | nil => rfl
  | cons x a ih =>
    cases x with
    | store_read p => simpa [calls] using ih
    | call r p => simp [calls, ih]

theorem calls_read_part {δ : Type} (c : consumer δ) (part : String) :
    calls (c.read_part part).2.trace = calls c.trace := by
  simp [consumer.read_part, calls_append, calls]

theorem calls_read_relationships {δ : Type} (pc : package_context) (part : String)
    (c : consumer δ) : calls (read_relationships pc part c).2.trace = calls c.trace := by
  unfold read_relationships
  by_cases h : c.source_.has_file part = true
  · simp only [h, Bool.not_true, Bool.false_eq_true, if_false]
    cases hr : c.source_.read part with
    | error e => simp [consumer.read_part, hr, calls_append, calls]
    | ok es => simp [consumer.read_part, hr, calls_append, calls]
  · have h1 : c.source_.has_file part = false := by simpa using h
    simp [h1]

theorem read_relationships_source {δ : Type} (pc : package_context) (part : String)
    (c : consumer δ) : (read_relationships pc part c).2.source_ = c.source_ := by
  unfold read_relationships
  by_cases h : c.source_.has_file part = true
  · simp only [h, Bool.not_true, Bool.false_eq_true, if_false]
    cases hr : c.source_.read part with
    | error e => simp [consumer.read_part, hr]
    | ok es => simp [consumer.read_part, hr]
  · have h1 : c.source_.has_file part = false := by simpa using h
    simp [h1]

theorem zip_file_read_missing (z : zip_file) (part : String) (h : z.has_file part = false) :
    z.read part = .error .runtime_error := by
  unfold zip_file.has_file at h
  unfold zip_file.read
  cases hf : map_find z.parts part with
  | none => rfl
  | some es => simp [hf] at h

/-- C15: when the archive lacks `_rels/.rels` or `[Content_Types].xml`, `read_manifest`
raises, and so does `read`, without a part reader having been called; without
`_rels/.rels` the exception is `invalid_file("missing package rels")`. -/
theorem read_fails_without_required_part {δ : Type} (pc : package_context)
    (rd : part_readers δ) (clear : manifest → δ → manifest × δ)
    (source : zip_file) (c : consumer δ)
    (h : source.has_file "_rels/.rels" = false ∨ source.has_file "[Content_Types].xml" = false) :
    ∃ e c1,
      read_manifest pc
          { c with
            manifest := (clear c.manifest c.state.destination_).1
            state := { c.state with destination_ := (clear c.manifest c.state.destination_).2 }
            source_ := source } = .raised e c1
      ∧ read pc rd clear source c = .raised e c1
      ∧ calls c1.trace = calls c.trace
      ∧ (source.has_file "_rels/.rels" = false → e = .invalid_file "missing package rels") := by
  by_cases hrels : source.has_file "_rels/.rels" = true
  · have hct : source.has_file "[Content_Types].xml" = false := by
      rcases h with h | h
      · rw [hrels] at h
        cases h
      · exact h
    obtain ⟨c0, hc0⟩ : ∃ c0 : consumer δ, c0 = { c with
        manifest := (clear c.manifest c.state.destination_).1
        state := { c.state with destination_ := (clear c.manifest c.state.destination_).2 }
        source_ := source } := ⟨_, rfl⟩
    have hsrc : (read_relationships pc "_rels/.rels" c0).2.source_ = source := by
      rw [read_relationships_source, hc0]
    have hcalls : calls (read_relationships pc "_rels/.rels" c0).2.trace = calls c.trace := by
      rw [calls_read_relationships, hc0]
    have hrels0 : c0.source_.has_file "_rels/.rels" = true := by rw [hc0]; exact hrels
    have key : ∃ e c1, read_manifest pc c0 = .raised e c1 ∧ calls c1.trace = calls c.trace := by
      unfold read_manifest
      simp only [hrels0, Bool.not_true, Bool.false_eq_true, if_false]
      rcases hr : read_relationships pc "_rels/.rels" c0 with ⟨r, c1⟩
      rw [hr] at hsrc hcalls
      cases r with
      | error e => exact ⟨e, c1, rfl, hcalls⟩
      | ok rels =>
        have hmiss : c1.source_.read "[Content_Types].xml" = .error .runtime_error :=
          zip_file_read_missing _ _ (by rw [hsrc]; exact hct)
        refine ⟨.runtime_error, { c1 with trace := c1.trace ++ [.store_read "[Content_Types].xml"] },
          ?_, ?_⟩
        · simp [consumer.read_part, hmiss]
        · simpa [calls_append, calls] using hcalls
    obtain ⟨e, c1, h1, h2⟩ := key
    refine ⟨e, c1, ?_, ?_, h2, ?_⟩
    · rw [← hc0]
      exact h1
    · unfold read populate_workbook
      rw [← hc0, h1]
    · intro hno
      rw [hrels] at hno
      cases hno
  · have hno : source.has_file "_rels/.rels" = false := by simpa using hrels
    refine ⟨.invalid_file "missing package rels",
      { c with
        manifest := (clear c.manifest c.state.destination_).1
        state := { c.state with destination_ := (clear c.manifest c.state.destination_).2 }
        source_ := source }, ?_, ?_, rfl, fun _ => rfl⟩
    · simp [read_manifest, hno]
    · simp [read, populate_workbook, read_manifest, hno]

/-- Witness for `read_fails_without_required_part`: the sample package without its
`[Content_Types].xml`. -/
theorem read_fails_without_required_part_witness :
    ∃ e c1,
      read_manifest sample_package_context
          ({ source_ := { parts := [("_rels/.rels",
                relationships_events "rel" [("rId1", "officeDocument", "xl/workbook.xml")]),
                ("xl/workbook.xml", [])] }
             state := { destination_ := () } } : consumer Unit) = .raised e c1
      ∧ read sample_package_context sample_readers (fun _ _ => ({}, ()))
          { parts := [("_rels/.rels",
              relationships_events "rel" [("rId1", "officeDocument", "xl/workbook.xml")]),
              ("xl/workbook.xml", [])] }
          ({ state := { destination_ := () } } : consumer Unit) = .raised e c1
      ∧ calls c1.trace = calls ([] : List step)
      ∧ ((({ parts := [("_rels/.rels",
              relationships_events "rel" [("rId1", "officeDocument", "xl/workbook.xml")]),
              ("xl/workbook.xml", [])] } : zip_file).has_file "_rels/.rels" = false) →
          e = .invalid_file "missing package rels") :=
  read_fails_without_required_part sample_package_context sample_readers
    (fun _ _ => ({}, ()))
    { parts := [("_rels/.rels",
        relationships_events "rel" [("rId1", "officeDocument", "xl/workbook.xml")]),
        ("xl/workbook.xml", [])] }
    ({ state := { destination_ := () } } : consumer Unit) (Or.inr (by rfl))


theorem calls_dispatch {δ : Type} (c : consumer δ) (r : reader) (part : String)
    (f : reader_state δ → outcome (reader_state δ)) :
    calls (c.dispatch r part f).state.trace = calls c.trace ++ [(r, part)] := by
  unfold consumer.dispatch
  cases f c.state <;> simp [outcome.state, calls_append, calls]

theorem for_each_calls {α δ : Type} (body : α → consumer δ → outcome (consumer δ))
    (f : α → List (reader × String))
    (hbody : ∀ a c, ∃ l, calls (body a c).state.trace = calls c.trace ++ l
      ∧ l <+: f a ∧ ∀ c1, body a c = .done c1 → l = f a) :
    ∀ (as : List α) (c : consumer δ),
      ∃ l, calls (for_each body as c).state.trace = calls c.trace ++ l
        ∧ l <+: (as.map f).flatten
        ∧ ∀ c1, for_each body as c = .done c1 → l = (as.map f).flatten := by
  intro as
  induction as with
  | nil =>
    intro c
    exact ⟨[], by simp [for_each, outcome.state], by simp, fun _ _ => by simp⟩
  | cons a as ih =>
    intro c
    obtain ⟨l1, h1, h2, h3⟩ := hbody a c
    cases hb : body a c with
    | raised e c1 =>
      refine ⟨l1, ?_, ?_, ?_⟩
      · rw [hb] at h1
        simpa [for_each, hb, outcome.state] using h1
      · simp only [List.map_cons, List.flatten_cons]
        exact h2.trans (List.prefix_append _ _)
      · intro c2 hc2
        simp [for_each, hb] at hc2
    | done c1 =>
      have hl1 : l1 = f a := h3 c1 hb
      rw [hb] at h1
      simp only [outcome.state] at h1
      obtain ⟨l2, g1, g2, g3⟩ := ih c1
      refine ⟨f a ++ l2, ?_, ?_, ?_⟩
      · simp only [for_each, hb]
        rw [g1, h1, hl1, List.append_assoc]
      · simp only [List.map_cons, List.flatten_cons]
        exact (List.prefix_append_right_inj _).2 g2
      · intro c2 hc2
        simp only [for_each, hb] at hc2
        simp only [List.map_cons, List.flatten_cons]
        rw [g3 c2 hc2]

theorem populate_first_pass_part_calls {δ : Type} (rd : part_readers δ) (rel : relationship)
    (c : consumer δ) :
    ∃ l, calls (populate_first_pass_part rd rel c).state.trace = calls c.trace ++ l
      ∧ l <+: first_pass_call rel
      ∧ ∀ c1, populate_first_pass_part rd rel c = .done c1 → l = first_pass_call rel := by
  unfold populate_first_pass_part
  cases hr : c.source_.read (part_path rel) with
  | error e =>
    refine ⟨[], ?_, List.nil_prefix, ?_⟩
    · simp [consumer.read_part, hr, outcome.state, calls_append, calls]
    · intro c1 hc1
      simp [consumer.read_part, hr] at hc1
  | ok es =>
    have hp : calls (c.trace ++ [step.store_read (part_path rel)]) = calls c.trace := by
      simp [calls_append, calls]
    refine ⟨first_pass_call rel, ?_, List.prefix_refl _, fun _ _ => rfl⟩
    simp only [consumer.read_part, hr]
    cases ht : rel.type <;> simp only [] <;>
      first
      | (rw [calls_dispatch]
         simp [first_pass_call, ht, hp])
      | simp [first_pass_call, ht, hp, outcome.state]

theorem populate_second_pass_part_calls {δ : Type} (rd : part_readers δ) (rel : relationship)
    (c : consumer δ) :
    ∃ l, calls (populate_second_pass_part rd rel c).state.trace = calls c.trace ++ l
      ∧ l <+: second_pass_call rel
      ∧ ∀ c1, populate_second_pass_part rd rel c = .done c1 → l = second_pass_call rel := by
  unfold populate_second_pass_part
  cases hr : c.source_.read (part_path rel) with
  | error e =>
    refine ⟨[], ?_, List.nil_prefix, ?_⟩
    · simp [consumer.read_part, hr, outcome.state, calls_append, calls]
    · intro c1 hc1
      simp [consumer.read_part, hr] at hc1
  | ok es =>
    have hp : calls (c.trace ++ [step.store_read (part_path rel)]) = calls c.trace := by
      simp [calls_append, calls]
    refine ⟨second_pass_call rel, ?_, List.prefix_refl _, fun _ _ => rfl⟩
    simp only [consumer.read_part, hr]
    cases ht : rel.type <;> simp only [] <;>
      first
      | (rw [calls_dispatch]
         simp [second_pass_call, ht, hp])
      | simp [second_pass_call, ht, hp, outcome.state]

/-- C16: for every list of relationships of the workbook part, the part readers that
the two loops of `populate_workbook` call are, in this order, the readers of shared
strings, styles and theme for the relationships in their order, then the readers of
chartsheets, dialogsheets and worksheets for the relationships in their order.  A read
that raises has called a prefix of this sequence, and a read that returns has called
all of it. -/
theorem populate_workbook_parts_order {δ : Type} (rd : part_readers δ)
    (rels : List relationship) (c : consumer δ) :
    ∃ l, calls (populate_workbook_parts rd rels c).state.trace = calls c.trace ++ l
      ∧ l <+: (rels.map first_pass_call).flatten ++ (rels.map second_pass_call).flatten
      ∧ ∀ c1, populate_workbook_parts rd rels c = .done c1 →
          l = (rels.map first_pass_call).flatten ++ (rels.map second_pass_call).flatten := by
  obtain ⟨l1, h1, h2, h3⟩ := for_each_calls (populate_first_pass_part rd) first_pass_call
    (populate_first_pass_part_calls rd) rels c
  unfold populate_workbook_parts
  cases hf : for_each (populate_first_pass_part rd) rels c with
  | raised e c1 =>
    refine ⟨l1, ?_, h2.trans (List.prefix_append _ _), ?_⟩
    · rw [hf] at h1
      exact h1
    · intro c2 hc2
      cases hc2
  | done c1 =>
    have hl1 := h3 c1 hf
    rw [hf] at h1
    simp only [outcome.state] at h1
    obtain ⟨l2, g1, g2, g3⟩ := for_each_calls (populate_second_pass_part rd) second_pass_call
      (populate_second_pass_part_calls rd) rels c1
    refine ⟨(rels.map first_pass_call).flatten ++ l2, ?_, ?_, ?_⟩
    · simp only []
      rw [g1, h1, hl1, List.append_assoc]
    · exact (List.prefix_append_right_inj _).2 g2
    · intro c2 hc2
      simp only [] at hc2
      rw [g3 c2 hc2]

/-- Witness for `populate_workbook_parts_order`: the relationships of the sample
package, with the worksheet first: the shared strings and the styles are read before
the worksheet. -/
theorem populate_workbook_parts_order_witness :
    calls (populate_workbook_parts sample_readers sample_workbook_relationships
        ({ source_ := sample_package "", state := { destination_ := () } } : consumer Unit)
      ).state.trace
      = [(.read_shared_string_table, "xl/sharedStrings.xml"),
          (.read_stylesheet, "xl/styles.xml"),
          (.read_worksheet "rId1", "xl/worksheets/sheet1.xml")] := by
  obtain ⟨l, h1, _, h3⟩ := populate_workbook_parts_order sample_readers
    sample_workbook_relationships
    ({ source_ := sample_package "", state := { destination_ := () } } : consumer Unit)
  rw [h1, h3 _ (by rfl)]
  rfl

theorem attribute_applied_eq (p : parser) (n : String) :
    attribute_applied p n = (lookup_attribute ⟨"", n⟩ p.attrs).elim false is_true := by
  unfold attribute_applied parser.attribute_present parser.attribute
  cases lookup_attribute ⟨"", n⟩ p.attrs <;> simp

theorem attribute_index_total (p : parser) (n : String)
    (h : ∀ v, lookup_attribute ⟨"", n⟩ p.attrs = some v → ∃ x, stoull v = .ok x) :
    ∃ x, attribute_index p n = .ok x := by
  unfold attribute_index parser.attribute_present parser.attribute
  cases hl : lookup_attribute ⟨"", n⟩ p.attrs with
  | none => exact ⟨0, by simp⟩
  | some v =>
    obtain ⟨x, hx⟩ := h v hl
    exact ⟨x, by simp [string_to_size_t, hx]⟩

/-- C19 (the counterexample): the record read from `<xf/>`, which carries no `apply*`
attribute, has all six applied flags false. -/
theorem read_xf_without_apply_attributes :
    ∃ p r, read_xf sample_traits "ns" ⟨eof_event, [], ns_element "xf" [] []⟩ = .ok (p, r)
      ∧ r.alignment.2 = false ∧ r.border_id.2 = false ∧ r.fill_id.2 = false
      ∧ r.font_id.2 = false ∧ r.number_format_id.2 = false ∧ r.protection.2 = false :=
  ⟨_, _, rfl, rfl, rfl, rfl, rfl, rfl, rfl⟩

/-- C19, as the code has it: an `xf` element without nested elements, whose index
attributes convert where present, is read, and the applied flag of each of the six
components is true exactly when the element carries the `apply*` attribute of the
component with the value "1" or "true"; without that attribute the flag is false.
With a nested `alignment` element that `read_alignment` accepts, the flag of the
alignment is true also when `applyAlignment` is absent, and the other flags are as
before. -/
theorem read_xf_applied_flags {F : Type} (vt : value_traits F) (xmlns : String)
    (xattrs aattrs : List (qname × String)) (a : alignment) (cur : event)
    (attrs : List (qname × String)) (rest : List event)
    (hidx : ∀ n ∈ ["borderId", "fillId", "fontId", "numFmtId"],
      ∀ v, lookup_attribute ⟨"", n⟩ xattrs = some v → ∃ x, stoull v = .ok x)
    (ha : ∀ p : parser, p.attrs = aattrs → read_alignment vt p = .ok a) :
    (∃ p r,
      read_xf vt xmlns ⟨cur, attrs, element_events ⟨xmlns, "xf"⟩ xattrs "" [] ++ rest⟩
        = .ok (p, r)
      ∧ p.rest = rest
      ∧ r.alignment = ({}, (lookup_attribute ⟨"", "applyAlignment"⟩ xattrs).elim false is_true)
      ∧ r.border_id.2 = (lookup_attribute ⟨"", "applyBorder"⟩ xattrs).elim false is_true
      ∧ r.fill_id.2 = (lookup_attribute ⟨"", "applyFill"⟩ xattrs).elim false is_true
      ∧ r.font_id.2 = (lookup_attribute ⟨"", "applyFont"⟩ xattrs).elim false is_true
      ∧ r.number_format_id.2
          = (lookup_attribute ⟨"", "applyNumberFormat"⟩ xattrs).elim false is_true
      ∧ r.protection
          = ({}, (lookup_attribute ⟨"", "applyProtection"⟩ xattrs).elim false is_true))
    ∧ (∃ p r,
      read_xf vt xmlns
          ⟨cur, attrs, element_events ⟨xmlns, "xf"⟩ xattrs ""
            (element_events ⟨xmlns, "alignment"⟩ aattrs "" []) ++ rest⟩
        = .ok (p, r)
      ∧ p.rest = rest
      ∧ r.alignment = (a, (lookup_attribute ⟨"", "applyAlignment"⟩ xattrs).elim true is_true)
      ∧ r.border_id.2 = (lookup_attribute ⟨"", "applyBorder"⟩ xattrs).elim false is_true
      ∧ r.fill_id.2 = (lookup_attribute ⟨"", "applyFill"⟩ xattrs).elim false is_true
      ∧ r.font_id.2 = (lookup_attribute ⟨"", "applyFont"⟩ xattrs).elim false is_true
      ∧ r.number_format_id.2
          = (lookup_attribute ⟨"", "applyNumberFormat"⟩ xattrs).elim false is_true
      ∧ r.protection
          = ({}, (lookup_attribute ⟨"", "applyProtection"⟩ xattrs).elim false is_true)) := by
  have hname : ∀ r1 : List event,
      (⟨⟨.start_element, ⟨xmlns, "xf"⟩, xattrs, ""⟩, xattrs, r1⟩ : parser).name = "xf" :=
    fun _ => rfl
  have hattr : ∀ r1 : List event, ∃ b fl fn nf,
      read_xf_attributes ⟨⟨.start_element, ⟨xmlns, "xf"⟩, xattrs, ""⟩, xattrs, r1⟩
        = .ok { alignment := ({}, (lookup_attribute ⟨"", "applyAlignment"⟩ xattrs).elim false is_true)
                border_id := (b, (lookup_attribute ⟨"", "applyBorder"⟩ xattrs).elim false is_true)
                fill_id := (fl, (lookup_attribute ⟨"", "applyFill"⟩ xattrs).elim false is_true)
                font_id := (fn, (lookup_attribute ⟨"", "applyFont"⟩ xattrs).elim false is_true)
                number_format_id :=
                  (nf, (lookup_attribute ⟨"", "applyNumberFormat"⟩ xattrs).elim false is_true)
                protection :=
                  ({}, (lookup_attribute ⟨"", "applyProtection"⟩ xattrs).elim false is_true) } := by
    intro r1
    obtain ⟨b, hb⟩ := attribute_index_total
      ⟨⟨.start_element, ⟨xmlns, "xf"⟩, xattrs, ""⟩, xattrs, r1⟩ "borderId"
      (hidx "borderId" (by simp))
    obtain ⟨fl, hfl⟩ := attribute_index_total
      ⟨⟨.start_element, ⟨xmlns, "xf"⟩, xattrs, ""⟩, xattrs, r1⟩ "fillId"
      (hidx "fillId" (by simp))
    obtain ⟨fn, hfn⟩ := attribute_index_total
      ⟨⟨.start_element, ⟨xmlns, "xf"⟩, xattrs, ""⟩, xattrs, r1⟩ "fontId"
      (hidx "fontId" (by simp))
    obtain ⟨nf, hnf⟩ := attribute_index_total
      ⟨⟨.start_element, ⟨xmlns, "xf"⟩, xattrs, ""⟩, xattrs, r1⟩ "numFmtId"
      (hidx "numFmtId" (by simp))
    refine ⟨b, fl, fn, nf, ?_⟩
    simp [read_xf_attributes, hb, hfl, hfn, hnf, attribute_applied_eq, hname]
  constructor
  · obtain ⟨b, fl, fn, nf, h⟩ := hattr (⟨.end_element, ⟨xmlns, "xf"⟩, [], ""⟩ :: rest)
    refine ⟨⟨⟨.end_element, ⟨xmlns, "xf"⟩, [], ""⟩, xattrs, rest⟩,
      { alignment := ({}, (lookup_attribute ⟨"", "applyAlignment"⟩ xattrs).elim false is_true)
        border_id := (b, (lookup_attribute ⟨"", "applyBorder"⟩ xattrs).elim false is_true)
        fill_id := (fl, (lookup_attribute ⟨"", "applyFill"⟩ xattrs).elim false is_true)
        font_id := (fn, (lookup_attribute ⟨"", "applyFont"⟩ xattrs).elim false is_true)
        number_format_id :=
          (nf, (lookup_attribute ⟨"", "applyNumberFormat"⟩ xattrs).elim false is_true)
        protection :=
          ({}, (lookup_attribute ⟨"", "applyProtection"⟩ xattrs).elim false is_true) },
      ?_, rfl, rfl, rfl, rfl, rfl, rfl, rfl⟩
    simp only [read_xf, element_events, text_events_empty, List.nil_append, parser.next_expect_qname, parser.next,
      List.cons_append, List.nil_append, and_self, if_true, h]
    simp [read_xf_children, parser.peek, parser.next_expect_qname, parser.next]
  · obtain ⟨b, fl, fn, nf, h⟩ := hattr
      (⟨.start_element, ⟨xmlns, "alignment"⟩, aattrs, ""⟩
        :: ⟨.end_element, ⟨xmlns, "alignment"⟩, [], ""⟩
        :: ⟨.end_element, ⟨xmlns, "xf"⟩, [], ""⟩ :: rest)
    have ha1 := ha ⟨⟨.start_element, ⟨xmlns, "alignment"⟩, aattrs, ""⟩, aattrs,
      ⟨.end_element, ⟨xmlns, "alignment"⟩, [], ""⟩
        :: ⟨.end_element, ⟨xmlns, "xf"⟩, [], ""⟩ :: rest⟩ rfl
    have hflag : (!(⟨⟨.start_element, ⟨xmlns, "xf"⟩, xattrs, ""⟩, xattrs,
          ⟨.start_element, ⟨xmlns, "alignment"⟩, aattrs, ""⟩
            :: ⟨.end_element, ⟨xmlns, "alignment"⟩, [], ""⟩
            :: ⟨.end_element, ⟨xmlns, "xf"⟩, [], ""⟩ :: rest⟩ : parser).attribute_present
            "applyAlignment"
        || attribute_applied ⟨⟨.start_element, ⟨xmlns, "xf"⟩, xattrs, ""⟩, xattrs,
          ⟨.start_element, ⟨xmlns, "alignment"⟩, aattrs, ""⟩
            :: ⟨.end_element, ⟨xmlns, "alignment"⟩, [], ""⟩
            :: ⟨.end_element, ⟨xmlns, "xf"⟩, [], ""⟩ :: rest⟩ "applyAlignment")
        = (lookup_attribute ⟨"", "applyAlignment"⟩ xattrs).elim true is_true := by
      rw [attribute_applied_eq]
      unfold parser.attribute_present
      cases lookup_attribute ⟨"", "applyAlignment"⟩ xattrs <;> simp
    refine ⟨⟨⟨.end_element, ⟨xmlns, "xf"⟩, [], ""⟩, aattrs, rest⟩,
      { alignment := (a, (lookup_attribute ⟨"", "applyAlignment"⟩ xattrs).elim true is_true)
        border_id := (b, (lookup_attribute ⟨"", "applyBorder"⟩ xattrs).elim false is_true)
        fill_id := (fl, (lookup_attribute ⟨"", "applyFill"⟩ xattrs).elim false is_true)
        font_id := (fn, (lookup_attribute ⟨"", "applyFont"⟩ xattrs).elim false is_true)
        number_format_id :=
          (nf, (lookup_attribute ⟨"", "applyNumberFormat"⟩ xattrs).elim false is_true)
        protection :=
          ({}, (lookup_attribute ⟨"", "applyProtection"⟩ xattrs).elim false is_true) },
      ?_, rfl, rfl, rfl, rfl, rfl, rfl, rfl⟩
    simp only [read_xf, element_events, text_events_empty, List.nil_append, parser.next_expect_qname, parser.next,
      List.cons_append, List.nil_append, and_self, if_true, h, hflag]
    simp [read_xf_children, parser.peek, parser.next_expect_qname, parser.next,
      parser.next_expect, parser.qname, ha1, Except.map]


/-- Witness for `read_xf_applied_flags`: `<xf fontId="1"/>`, and the same element with
a nested `<alignment wrapText="1" shrinkToFit="0"/>`. -/
theorem read_xf_applied_flags_witness :
    (∃ p r,
      read_xf sample_traits "ns"
          ⟨eof_event, [], element_events ⟨"ns", "xf"⟩ [(⟨"", "fontId"⟩, "1")] "" [] ++ []⟩
        = .ok (p, r)
      ∧ r.alignment = ({}, false) ∧ r.font_id.2 = false)
    ∧ (∃ p r,
      read_xf sample_traits "ns"
          ⟨eof_event, [], element_events ⟨"ns", "xf"⟩ [(⟨"", "fontId"⟩, "1")] ""
            (element_events ⟨"ns", "alignment"⟩
              [(⟨"", "wrapText"⟩, "1"), (⟨"", "shrinkToFit"⟩, "0")] "" []) ++ []⟩
        = .ok (p, r)
      ∧ r.alignment = ({ wrap := some true, shrink := some false }, true)
      ∧ r.font_id.2 = false) := by
  obtain ⟨⟨p, r, h1, _, h2, _, _, h3, _, _⟩, ⟨q, s, g1, _, g2, _, _, g3, _, _⟩⟩ :=
    read_xf_applied_flags sample_traits "ns" [(⟨"", "fontId"⟩, "1")]
      [(⟨"", "wrapText"⟩, "1"), (⟨"", "shrinkToFit"⟩, "0")]
      { wrap := some true, shrink := some false } eof_event [] []
      (by
        intro n hn v hv
        simp only [List.mem_cons, List.mem_singleton, List.not_mem_nil, or_false] at hn
        rcases hn with rfl | rfl | rfl | rfl
        · simp [lookup_attribute] at hv
        · simp [lookup_attribute] at hv
        · simp only [lookup_attribute, if_true, Option.some.injEq] at hv
          subst hv
          exact ⟨1, rfl⟩
        · simp [lookup_attribute] at hv)
      (by
        intro p hp
        simp [read_alignment, parser.attribute, parser.attribute_present, hp, lookup_attribute,
          is_true])
  exact ⟨⟨p, r, h1, h2.trans (by rfl), h3.trans (by rfl)⟩,
    ⟨q, s, g1, g2.trans (by rfl), g3.trans (by rfl)⟩⟩

/-! ## The format code `GENERAL` (C20) -/

/-- The part `<worksheet><dimension ref="A1:B2"/><sheetViews><sheetView/></sheetViews>
<sheetData/></worksheet>` is read to its end. -/
theorem read_worksheet_body_example :
    read_worksheet_body ⟨sample_traits, stold_decimal, [], [], false⟩ "ns" "x14ac"
        (parser.of_events (ns_element "worksheet" []
          (ns_element "dimension" [("ref", "A1:B2")] []
            ++ ns_element "sheetViews" [] (ns_element "sheetView" [] [])
            ++ ns_element "sheetData" [] [])))
        ({} : worksheet Nat)
      = .ok ⟨⟨.end_element, ⟨"ns", "worksheet"⟩, [], ""⟩, [], []⟩
          { has_dimension_ := true, has_view_ := true } := by
  rfl


/-! ## Cells: booleans (C23), numbers and error codes (C24), strings (C25) -/

/-- C23 (what the code does): a cell of type `b` whose only child is `v`.  Lines 1586-1589
store the boolean `value_string != "0"`, which is false exactly for the text `0`.  A
non-empty text is never in `value_string`: it is a `characters` event, `parser.value()`
is taken at the start tag of `v`, and the end tag is asked for where the event comes, so
the cell is fetched, `xml::parsing` is raised and no value is stored, also for the text
`0`; the reader of the worksheet part raises with it.  With an empty `v` the cell gets
the value true (and its format, if it has a style id that names a format of the
destination). -/
theorem read_cell_boolean_raises {F : Type} (cx : worksheet_context F)
    (xmlns xmlns_x14ac : String) (ws : worksheet F) (cur : event)
    (attrs cattrs vattrs : List (qname × String)) (tail : List event) (ref vtxt : String)
    (format_id : Nat) (fmt : format F)
    (hr : lookup_attribute ⟨"", "r"⟩ cattrs = some ref)
    (ht : lookup_attribute ⟨"", "t"⟩ cattrs = some "b")
    (hs : ∀ v, lookup_attribute ⟨"", "s"⟩ cattrs = some v →
      stoull v = .ok format_id ∧ cx.formats[format_id]? = some fmt) :
    (vtxt ≠ "" →
      read_cell xmlns cx.stold cx.shared_strings cx.formats cx.data_only
          ⟨cur, attrs, element_events ⟨xmlns, "c"⟩ cattrs ""
            (element_events ⟨xmlns, "v"⟩ vattrs vtxt []) ++ tail⟩ ws
        = .fail .parsing (ws.call ref .get_cell)
      ∧ read_worksheet_body cx xmlns xmlns_x14ac
          (parser.of_events (one_row_worksheet_events xmlns
            (element_events ⟨xmlns, "c"⟩ cattrs ""
              (element_events ⟨xmlns, "v"⟩ vattrs vtxt [])))) ws
        = .fail .parsing (ws.call ref .get_cell))
    ∧ read_cell xmlns cx.stold cx.shared_strings cx.formats cx.data_only
          ⟨cur, attrs, element_events ⟨xmlns, "c"⟩ cattrs ""
            (element_events ⟨xmlns, "v"⟩ vattrs "" []) ++ tail⟩ ws
        = res.ok ⟨⟨.end_element, ⟨xmlns, "c"⟩, [], ""⟩, vattrs, tail⟩
            (if (lookup_attribute ⟨"", "s"⟩ cattrs).isSome then
              ((ws.call ref .get_cell).call ref (.set_value_bool true)).call ref
                (.set_format fmt)
             else (ws.call ref .get_cell).call ref (.set_value_bool true))
    ∧ ∀ l : cell_locals,
        store_cell_value cx.stold cx.shared_strings true "b" l ref ws
          = .ok (ws.call ref (.set_value_bool (l.value_string != "0")))
        ∧ ((l.value_string != "0") = false ↔ l.value_string = "0") := by
  have hs1 : ∀ v, lookup_attribute ⟨"", "s"⟩ cattrs = some v → stoull v = .ok format_id :=
    fun v h => (hs v h).1
  have hs2 : ∀ v, lookup_attribute ⟨"", "s"⟩ cattrs = some v →
      cx.formats[format_id]? = some fmt := fun v h => (hs v h).2
  have hs0 : ∀ v, lookup_attribute ⟨"", "s"⟩ cattrs = some v → ∃ id, stoull v = .ok id :=
    fun v h => ⟨format_id, (hs v h).1⟩
  refine ⟨?_, ?_, ?_⟩
  · intro hv
    have hcell : ∀ (cur : event) (attrs : List (qname × String)) (tail : List event),
        read_cell xmlns cx.stold cx.shared_strings cx.formats cx.data_only
          ⟨cur, attrs, element_events ⟨xmlns, "c"⟩ cattrs ""
            (element_events ⟨xmlns, "v"⟩ vattrs vtxt []) ++ tail⟩ ws
        = .fail .parsing (ws.call ref .get_cell) := by
      intro cur attrs tail
      have := read_cell_first_child_text xmlns cx.stold cx.shared_strings cx.formats
        cx.data_only ws cur attrs cattrs vattrs ⟨xmlns, "v"⟩ [] tail ref vtxt hr hs0 hv
      simpa using this
    exact ⟨hcell cur attrs tail,
      read_worksheet_body_first_cell_raises cx xmlns xmlns_x14ac _ ws _ .parsing
        ⟨_, _, rfl, rfl⟩ (hcell _ _ _)⟩
  · rcases hfmt : lookup_attribute ⟨"", "s"⟩ cattrs with _ | sv <;>
    simp [read_cell, element_events, parser.next_expect_qname, parser.next_expect, parser.next,
      parser.attribute, parser.attribute_present, hr, ht, hfmt, hs1, hs2, read_cell_children,
      read_cell_child, parser.peek, parser.qname, parser.value, store_cell_formula,
      store_cell_value] <;>
    rw [if_neg (by decide), if_neg (by decide)]
  · intro l
    constructor
    · simp [store_cell_value, (by decide : ¬ ("b" : String) = "inlineStr"),
        (by decide : ¬ ("b" : String) = "str"), (by decide : ¬ ("b" : String) = "s")]
    · simp

/-- C23, witness: the worksheet part whose one row holds `<c r="A1" t="b"><v>0</v></c>`
raises `xml::parsing` after A1 was fetched; the value false is not stored. -/
theorem read_cell_boolean_raises_witness :
    (lookup_attribute ⟨"", "r"⟩ [((⟨"", "r"⟩ : qname), "A1"), (⟨"", "t"⟩, "b")] = some "A1"
      ∧ lookup_attribute ⟨"", "t"⟩ [((⟨"", "r"⟩ : qname), "A1"), (⟨"", "t"⟩, "b")] = some "b"
      ∧ "0" ≠ "")
    ∧ read_worksheet_body (⟨sample_traits, stold_decimal, [], [], false⟩ : worksheet_context Nat)
        "ns" "x14ac"
        (parser.of_events (one_row_worksheet_events "ns"
          (element_events ⟨"ns", "c"⟩ [(⟨"", "r"⟩, "A1"), (⟨"", "t"⟩, "b")] ""
            (element_events ⟨"ns", "v"⟩ [] "0" [])))) {}
      = .fail .parsing { cell_calls := [("A1", .get_cell)] } :=
  ⟨⟨by decide, by decide, by decide⟩,
    ((read_cell_boolean_raises ⟨sample_traits, stold_decimal, [], [], false⟩ "ns" "x14ac" {}
      eof_event [] [(⟨"", "r"⟩, "A1"), (⟨"", "t"⟩, "b")] [] [] "A1" "0" 0 {} (by decide)
      (by decide) (fun v h => by simp [lookup_attribute] at h)).1 (by decide)).2⟩

/-- C24 (what the code does): a cell without formula child whose type code, if it has
one, is none of `inlineStr`, `str`, `s` and `b`.  Lines 1590-1600 store a non-empty
`value_string` as the error code, and no number, when it starts with `#`, and else as the
number `stold` converts it to.  A non-empty text is never in `value_string`: it is a
`characters` event, `parser.value()` is taken at the start tag of `v`, and the end tag is
asked for where the event comes, so the cell is fetched, `xml::parsing` is raised and
neither error code nor number is stored; the reader of the worksheet part raises with
it.  With a `v` child of empty text, or without child, the cell is read and no value is
set. -/
theorem read_cell_number_or_error_raises {F : Type} (cx : worksheet_context F)
    (xmlns xmlns_x14ac : String) (ws : worksheet F) (cur : event)
    (attrs cattrs vattrs : List (qname × String)) (tail : List event) (ref vtxt : String)
    (format_id : Nat) (fmt : format F) (has_type : Bool) (type : String)
    (hr : lookup_attribute ⟨"", "r"⟩ cattrs = some ref)
    (ht : ∀ ty, lookup_attribute ⟨"", "t"⟩ cattrs = some ty →
      ty ≠ "inlineStr" ∧ ty ≠ "str" ∧ ty ≠ "s" ∧ ty ≠ "b")
    (hs : ∀ v, lookup_attribute ⟨"", "s"⟩ cattrs = some v →
      stoull v = .ok format_id ∧ cx.formats[format_id]? = some fmt)
    (htype : has_type = true →
      type ≠ "inlineStr" ∧ type ≠ "str" ∧ type ≠ "s" ∧ type ≠ "b") :
    (vtxt ≠ "" →
      read_cell xmlns cx.stold cx.shared_strings cx.formats cx.data_only
          ⟨cur, attrs, element_events ⟨xmlns, "c"⟩ cattrs ""
            (element_events ⟨xmlns, "v"⟩ vattrs vtxt []) ++ tail⟩ ws
        = .fail .parsing (ws.call ref .get_cell)
      ∧ read_worksheet_body cx xmlns xmlns_x14ac
          (parser.of_events (one_row_worksheet_events xmlns
            (element_events ⟨xmlns, "c"⟩ cattrs ""
              (element_events ⟨xmlns, "v"⟩ vattrs vtxt [])))) ws
        = .fail .parsing (ws.call ref .get_cell))
    ∧ read_cell xmlns cx.stold cx.shared_strings cx.formats cx.data_only
          ⟨cur, attrs, element_events ⟨xmlns, "c"⟩ cattrs ""
            (element_events ⟨xmlns, "v"⟩ vattrs "" []) ++ tail⟩ ws
        = res.ok ⟨⟨.end_element, ⟨xmlns, "c"⟩, [], ""⟩, vattrs, tail⟩
            (if (lookup_attribute ⟨"", "s"⟩ cattrs).isSome then
              (ws.call ref .get_cell).call ref (.set_format fmt)
             else ws.call ref .get_cell)
    ∧ read_cell xmlns cx.stold cx.shared_strings cx.formats cx.data_only
          ⟨cur, attrs, element_events ⟨xmlns, "c"⟩ cattrs "" [] ++ tail⟩ ws
        = res.ok ⟨⟨.end_element, ⟨xmlns, "c"⟩, [], ""⟩, cattrs, tail⟩
            (if (lookup_attribute ⟨"", "s"⟩ cattrs).isSome then
              (ws.call ref .get_cell).call ref (.set_format fmt)
             else ws.call ref .get_cell)
    ∧ ∀ l : cell_locals, l.has_value = true → l.value_string ≠ "" →
        store_cell_value cx.stold cx.shared_strings has_type type l ref ws
          = if l.value_string.toList.head? = some (Char.ofNat 35) then
              .ok (ws.call ref (.set_error l.value_string))
            else (cx.stold l.value_string).map (fun x => ws.call ref (.set_value_number x)) := by
  have hs1 : ∀ v, lookup_attribute ⟨"", "s"⟩ cattrs = some v → stoull v = .ok format_id :=
    fun v h => (hs v h).1
  have hs2 : ∀ v, lookup_attribute ⟨"", "s"⟩ cattrs = some v →
      cx.formats[format_id]? = some fmt := fun v h => (hs v h).2
  have hs0 : ∀ v, lookup_attribute ⟨"", "s"⟩ cattrs = some v → ∃ id, stoull v = .ok id :=
    fun v h => ⟨format_id, (hs v h).1⟩
  have e1 : ∀ ty, lookup_attribute ⟨"", "t"⟩ cattrs = some ty → ¬ ty = "inlineStr" :=
    fun ty h => (ht ty h).1
  have e2 : ∀ ty, lookup_attribute ⟨"", "t"⟩ cattrs = some ty → ¬ ty = "str" :=
    fun ty h => (ht ty h).2.1
  have e3 : ∀ ty, lookup_attribute ⟨"", "t"⟩ cattrs = some ty → ¬ ty = "s" :=
    fun ty h => (ht ty h).2.2.1
  have e4 : ∀ ty, lookup_attribute ⟨"", "t"⟩ cattrs = some ty → ¬ ty = "b" :=
    fun ty h => (ht ty h).2.2.2
  refine ⟨?_, ?_, ?_, ?_⟩
  · intro hv
    have hcell : ∀ (cur : event) (attrs : List (qname × String)) (tail : List event),
        read_cell xmlns cx.stold cx.shared_strings cx.formats cx.data_only
          ⟨cur, attrs, element_events ⟨xmlns, "c"⟩ cattrs ""
            (element_events ⟨xmlns, "v"⟩ vattrs vtxt []) ++ tail⟩ ws
        = .fail .parsing (ws.call ref .get_cell) := by
      intro cur attrs tail
      have := read_cell_first_child_text xmlns cx.stold cx.shared_strings cx.formats
        cx.data_only ws cur attrs cattrs vattrs ⟨xmlns, "v"⟩ [] tail ref vtxt hr hs0 hv
      simpa using this
    exact ⟨hcell cur attrs tail,
      read_worksheet_body_first_cell_raises cx xmlns xmlns_x14ac _ ws _ .parsing
        ⟨_, _, rfl, rfl⟩ (hcell _ _ _)⟩
  · rcases hfmt : lookup_attribute ⟨"", "s"⟩ cattrs with _ | sv <;>
    rcases hty : lookup_attribute ⟨"", "t"⟩ cattrs with _ | ty <;>
    simp [read_cell, element_events, parser.next_expect_qname, parser.next_expect,
      parser.next, parser.attribute, parser.attribute_present, hr, hty, hfmt, hs1, hs2,
      read_cell_children, read_cell_child, parser.peek, parser.qname, parser.value,
      store_cell_formula, store_cell_value, e1, e2, e3, e4]
  · rcases hfmt : lookup_attribute ⟨"", "s"⟩ cattrs with _ | sv <;>
    rcases hty : lookup_attribute ⟨"", "t"⟩ cattrs with _ | ty <;>
    simp [read_cell, element_events, parser.next_expect_qname, parser.next_expect,
      parser.next, parser.attribute, parser.attribute_present, hr, hty, hfmt, hs1, hs2,
      read_cell_children, read_cell_child, parser.peek, parser.qname, parser.value,
      store_cell_formula, store_cell_value, e1, e2, e3, e4]
  · intro l h1 h2
    have hty : (has_type && (decide (type = "inlineStr") || decide (type = "str"))) = false := by
      cases has_type
      · rfl
      · obtain ⟨t1, t2, _, _⟩ := htype rfl
        simp [t1, t2]
    have hty2 : (has_type && decide (type = "s") && !l.has_formula) = false := by
      cases has_type
      · rfl
      · obtain ⟨_, _, t3, _⟩ := htype rfl
        simp [t3]
    have hty3 : (has_type && decide (type = "b")) = false := by
      cases has_type
      · rfl
      · obtain ⟨_, _, _, t4⟩ := htype rfl
        simp [t4]
    unfold store_cell_value
    rw [hty, hty2, hty3]
    by_cases hh : l.value_string.data.head? = some (Char.ofNat 35)
    · simp [h1, h2, hh]
    · cases hst : cx.stold l.value_string <;> simp [h1, h2, hh, hst, Except.map]

/-- C24, witness: the worksheet part whose one row holds `<c r="A1"><v>#DIV/0!</v></c>`
raises `xml::parsing` after A1 was fetched; the error code is not stored. -/
theorem read_cell_number_or_error_raises_witness :
    (lookup_attribute ⟨"", "r"⟩ [((⟨"", "r"⟩ : qname), "A1")] = some "A1" ∧ "#DIV/0!" ≠ "")
    ∧ read_worksheet_body (⟨sample_traits, stold_decimal, [], [], false⟩ : worksheet_context Nat)
        "ns" "x14ac"
        (parser.of_events (one_row_worksheet_events "ns"
          (element_events ⟨"ns", "c"⟩ [(⟨"", "r"⟩, "A1")] ""
            (element_events ⟨"ns", "v"⟩ [] "#DIV/0!" [])))) {}
      = .fail .parsing { cell_calls := [("A1", .get_cell)] } :=
  ⟨⟨by decide, by decide⟩,
    ((read_cell_number_or_error_raises ⟨sample_traits, stold_decimal, [], [], false⟩ "ns"
      "x14ac" {} eof_event [] [(⟨"", "r"⟩, "A1")] [] [] "A1" "#DIV/0!" 0 {} false ""
      (by decide) (fun ty h => by simp [lookup_attribute] at h)
      (fun v h => by simp [lookup_attribute] at h) (fun h => by cases h)).1 (by decide)).2⟩

/-- A child `is` of `c` makes the loop over the children raise `xml::parsing`, whatever
the text of its `t` child: with a text, the end tag of `t` is asked for where the
`characters` event comes (source line 1565); without, the end tag of the element that is
current, which is `t`, is asked for where the end tag of `is` comes (line 1568). -/
theorem read_cell_children_inline (xmlns : String) (fuel : Nat) (cur : event)
    (attrs iattrs tattrs : List (qname × String)) (txt : String) (rest : List event)
    (l : cell_locals) :
    read_cell_children xmlns (fuel + 1)
        ⟨cur, attrs, element_events ⟨xmlns, "is"⟩ iattrs ""
          (element_events ⟨xmlns, "t"⟩ tattrs txt []) ++ rest⟩ l = .error .parsing := by
  by_cases h : txt = ""
  · subst h
    simp [read_cell_children, element_events, parser.peek, parser.next_expect, parser.next,
      read_cell_child, parser.qname, parser.next_expect_qname]
  · simp [read_cell_children, element_events, text_events_ne _ txt h, parser.peek,
      parser.next_expect, parser.next, read_cell_child, parser.qname, parser.next_expect_qname]

/-- C25 (what the code does): a cell of type `inlineStr` or `str` without formula child.
Lines 1576-1579 store `value_string` unchanged as the string value.  A non-empty text of
a `v` child is never in `value_string`: it is a `characters` event, `parser.value()` is
taken at the start tag, and the end tag is asked for where the event comes; the cell is
fetched, `xml::parsing` is raised and no string is stored.  With an `is` child the cell
is not read either, whatever the text of its `t` child: with a text, line 1565 asks for
the end tag of `t` where the `characters` event comes; without, line 1568 asks for the
end tag of the element that is current, which is `t`, where the end tag of `is` comes.
The reader of the worksheet part raises with the cell.  Only an empty `v` is read, as the
empty string. -/
theorem read_cell_inline_string {F : Type} (cx : worksheet_context F)
    (xmlns xmlns_x14ac : String) (ws : worksheet F) (cur : event)
    (attrs cattrs vattrs iattrs tattrs : List (qname × String)) (tail : List event)
    (ref vtxt : String) (format_id : Nat) (fmt : format F)
    (hr : lookup_attribute ⟨"", "r"⟩ cattrs = some ref)
    (ht : lookup_attribute ⟨"", "t"⟩ cattrs = some "inlineStr"
      ∨ lookup_attribute ⟨"", "t"⟩ cattrs = some "str")
    (hs : ∀ v, lookup_attribute ⟨"", "s"⟩ cattrs = some v →
      stoull v = .ok format_id ∧ cx.formats[format_id]? = some fmt) :
    (vtxt ≠ "" →
      read_cell xmlns cx.stold cx.shared_strings cx.formats cx.data_only
          ⟨cur, attrs, element_events ⟨xmlns, "c"⟩ cattrs ""
            (element_events ⟨xmlns, "v"⟩ vattrs vtxt []) ++ tail⟩ ws
        = .fail .parsing (ws.call ref .get_cell)
      ∧ read_worksheet_body cx xmlns xmlns_x14ac
          (parser.of_events (one_row_worksheet_events xmlns
            (element_events ⟨xmlns, "c"⟩ cattrs ""
              (element_events ⟨xmlns, "v"⟩ vattrs vtxt [])))) ws
        = .fail .parsing (ws.call ref .get_cell))
    ∧ (read_cell xmlns cx.stold cx.shared_strings cx.formats cx.data_only
          ⟨cur, attrs, element_events ⟨xmlns, "c"⟩ cattrs ""
            (element_events ⟨xmlns, "is"⟩ iattrs ""
              (element_events ⟨xmlns, "t"⟩ tattrs vtxt [])) ++ tail⟩ ws
        = .fail .parsing (ws.call ref .get_cell)
      ∧ read_worksheet_body cx xmlns xmlns_x14ac
          (parser.of_events (one_row_worksheet_events xmlns
            (element_events ⟨xmlns, "c"⟩ cattrs ""
              (element_events ⟨xmlns, "is"⟩ iattrs ""
                (element_events ⟨xmlns, "t"⟩ tattrs vtxt []))))) ws
        = .fail .parsing (ws.call ref .get_cell))
    ∧ read_cell xmlns cx.stold cx.shared_strings cx.formats cx.data_only
          ⟨cur, attrs, element_events ⟨xmlns, "c"⟩ cattrs ""
            (element_events ⟨xmlns, "v"⟩ vattrs "" []) ++ tail⟩ ws
        = res.ok ⟨⟨.end_element, ⟨xmlns, "c"⟩, [], ""⟩, vattrs, tail⟩
            (if (lookup_attribute ⟨"", "s"⟩ cattrs).isSome then
              ((ws.call ref .get_cell).call ref (.set_value_string "")).call ref
                (.set_format fmt)
             else (ws.call ref .get_cell).call ref (.set_value_string ""))
    ∧ ∀ (l : cell_locals) (ty : String), ty = "inlineStr" ∨ ty = "str" →
        store_cell_value cx.stold cx.shared_strings true ty l ref ws
          = .ok (ws.call ref (.set_value_string l.value_string)) := by
  have hs1 : ∀ v, lookup_attribute ⟨"", "s"⟩ cattrs = some v → stoull v = .ok format_id :=
    fun v h => (hs v h).1
  have hs2 : ∀ v, lookup_attribute ⟨"", "s"⟩ cattrs = some v →
      cx.formats[format_id]? = some fmt := fun v h => (hs v h).2
  have hs0 : ∀ v, lookup_attribute ⟨"", "s"⟩ cattrs = some v → ∃ id, stoull v = .ok id :=
    fun v h => ⟨format_id, (hs v h).1⟩
  refine ⟨?_, ?_, ?_, ?_⟩
  · intro hv
    have hcell : ∀ (cur : event) (attrs : List (qname × String)) (tail : List event),
        read_cell xmlns cx.stold cx.shared_strings cx.formats cx.data_only
          ⟨cur, attrs, element_events ⟨xmlns, "c"⟩ cattrs ""
            (element_events ⟨xmlns, "v"⟩ vattrs vtxt []) ++ tail⟩ ws
        = .fail .parsing (ws.call ref .get_cell) := by
      intro cur attrs tail
      have := read_cell_first_child_text xmlns cx.stold cx.shared_strings cx.formats
        cx.data_only ws cur attrs cattrs vattrs ⟨xmlns, "v"⟩ [] tail ref vtxt hr hs0 hv
      simpa using this
    exact ⟨hcell cur attrs tail,
      read_worksheet_body_first_cell_raises cx xmlns xmlns_x14ac _ ws _ .parsing
        ⟨_, _, rfl, rfl⟩ (hcell _ _ _)⟩
  · have hcell : ∀ (cur : event) (attrs : List (qname × String)) (tail : List event),
        read_cell xmlns cx.stold cx.shared_strings cx.formats cx.data_only
          ⟨cur, attrs, element_events ⟨xmlns, "c"⟩ cattrs ""
            (element_events ⟨xmlns, "is"⟩ iattrs ""
              (element_events ⟨xmlns, "t"⟩ tattrs vtxt [])) ++ tail⟩ ws
        = .fail .parsing (ws.call ref .get_cell) := by
      intro cur attrs tail
      exact read_cell_children_raise xmlns cx.stold cx.shared_strings cx.formats cx.data_only
        ws cur attrs cattrs _ tail ref .parsing hr hs0
        (read_cell_children_inline xmlns _ _ _ iattrs tattrs vtxt _ {})
    exact ⟨hcell cur attrs tail,
      read_worksheet_body_first_cell_raises cx xmlns xmlns_x14ac _ ws _ .parsing
        ⟨_, _, rfl, rfl⟩ (hcell _ _ _)⟩
  · rcases ht with ht | ht <;>
    rcases hfmt : lookup_attribute ⟨"", "s"⟩ cattrs with _ | sv <;>
    simp [read_cell, element_events, parser.next_expect_qname, parser.next_expect, parser.next,
      parser.attribute, parser.attribute_present, hr, ht, hfmt, hs1, hs2, read_cell_children,
      read_cell_child, parser.peek, parser.qname, parser.value, store_cell_formula,
      store_cell_value]
  · intro l ty hty
    rcases hty with rfl | rfl <;> simp [store_cell_value]

/-- Witness for `read_cell_inline_string`: the worksheet part whose one row holds the
cell `<c r="A1" t="inlineStr"><is><t>hello</t></is></c>` raises `xml::parsing` after A1
was fetched; the string is not stored. -/
theorem read_cell_inline_string_witness :
    (lookup_attribute ⟨"", "r"⟩ [((⟨"", "r"⟩ : qname), "A1"), (⟨"", "t"⟩, "inlineStr")]
        = some "A1"
      ∧ lookup_attribute ⟨"", "t"⟩ [((⟨"", "r"⟩ : qname), "A1"), (⟨"", "t"⟩, "inlineStr")]
        = some "inlineStr")
    ∧ read_worksheet_body (⟨sample_traits, stold_decimal, [], [], false⟩ : worksheet_context Nat)
        "ns" "x14ac"
        (parser.of_events (one_row_worksheet_events "ns"
          (element_events ⟨"ns", "c"⟩ [(⟨"", "r"⟩, "A1"), (⟨"", "t"⟩, "inlineStr")] ""
            (element_events ⟨"ns", "is"⟩ [] "" (element_events ⟨"ns", "t"⟩ [] "hello" [])))))
        {}
      = .fail .parsing { cell_calls := [("A1", .get_cell)] } :=
  ⟨⟨by decide, by decide⟩,
    (read_cell_inline_string ⟨sample_traits, stold_decimal, [], [], false⟩ "ns" "x14ac" {}
      eof_event [] [(⟨"", "r"⟩, "A1"), (⟨"", "t"⟩, "inlineStr")] [] [] [] [] "A1" "hello" 0 {}
      (by decide) (Or.inl (by decide)) (fun v h => by simp [lookup_attribute] at h)).2.1.2⟩

/-! ## Shared strings: rich-text entries (C21) -/

/-- C21 (what the code does): a rich-text `si` entry with the runs `<r><t>s</t></r>`, ...
is not read when the first run has text: the loop over the runs asks for a `t` element
right after the start tag of the first `r`, takes `parser.value()` at its start tag and
asks for the next `t` where the `characters` event comes; `xml::parsing` is raised and
nothing is stored.  When the text of the first run is empty, only that run is stored: the
loop never consumes an end tag or the start tag of a later `r`, so it leaves at the end
tag of the first `t`, and the loop over the entries leaves there too.  A run that begins
with its run properties `rPr` is not read at all: the `t` element is asked for first and
`xml::parsing` is raised. -/
theorem rich_text_entry_first_run_only (xmlns u : String) (unique_count : Nat)
    (hu : stoull u = .ok unique_count) (cur : event) (attrs : List (qname × String))
    (more tail : List event) (strings : List text) (s : String) (ss : List String)
    (properties : List event) :
    (s ≠ "" →
      read_shared_string_table xmlns
          ⟨cur, attrs, element_events ⟨xmlns, "sst"⟩ [(⟨"", "uniqueCount"⟩, u)] ""
            (rich_si_events xmlns (s :: ss) ++ more) ++ tail⟩ strings
        = .fail .parsing strings)
    ∧ read_shared_string_table xmlns
        ⟨cur, attrs, element_events ⟨xmlns, "sst"⟩ [(⟨"", "uniqueCount"⟩, u)] ""
          (rich_si_events xmlns ("" :: ss) ++ more) ++ tail⟩ strings
      = (if unique_count ≠ strings.length + 1 then
          .fail (.invalid_file "sizes don't match") (strings ++ [{ runs := [{ string := "" }] }])
        else
          .ok ⟨⟨.start_element, ⟨xmlns, "t"⟩, [], ""⟩, [],
              ⟨.end_element, ⟨xmlns, "t"⟩, [], ""⟩ :: ⟨.end_element, ⟨xmlns, "r"⟩, [], ""⟩ ::
                ((ss.map (run_events xmlns)).flatten ++
                  ⟨.end_element, ⟨xmlns, "si"⟩, [], ""⟩ ::
                    (more ++ ⟨.end_element, ⟨xmlns, "sst"⟩, [], ""⟩ :: tail))⟩
            (strings ++ [{ runs := [{ string := "" }] }]))
    ∧ read_shared_string_table xmlns
        ⟨cur, attrs, element_events ⟨xmlns, "sst"⟩ [(⟨"", "uniqueCount"⟩, u)] ""
          (element_events ⟨xmlns, "si"⟩ [] "" (formatted_run_events xmlns properties s)
            ++ more) ++ tail⟩ strings
      = .fail .parsing strings := by
  refine ⟨?_, ?_, ?_⟩
  · intro hs
    simp [read_shared_string_table, rich_si_events, run_events, element_events,
      text_events_ne _ s hs, parser.next_expect_qname, parser.next_expect,
      parser.next, parser.attribute_present, parser.attribute, lookup_attribute,
      string_to_size_t, hu, read_shared_strings, read_shared_string, read_runs, parser.peek,
      parser.name, parser.value, text.add_run]
  · simp [read_shared_string_table, rich_si_events, run_events, element_events,
      parser.next_expect_qname, parser.next_expect,
      parser.next, parser.attribute_present, parser.attribute, lookup_attribute,
      string_to_size_t, hu, read_shared_strings, read_shared_string, read_runs, parser.peek,
      parser.name, parser.value, text.add_run]
  · simp [read_shared_string_table, formatted_run_events, element_events,
      parser.next_expect_qname, parser.next_expect,
      parser.next, parser.attribute_present, parser.attribute, lookup_attribute,
      string_to_size_t, hu, read_shared_strings, read_shared_string, read_runs, parser.peek,
      parser.name, parser.value, text.add_run]

/-- Witness for `rich_text_entry_first_run_only`: the part `<sst uniqueCount="1"><si>
<r><t>a</t></r><r><t>b</t></r></si></sst>` is not read: `xml::parsing` is raised and no
string is stored. -/
theorem rich_text_entry_first_run_only_witness :
    (stoull "1" = .ok 1 ∧ "a" ≠ "")
    ∧ read_shared_string_table "ns"
        ⟨eof_event, [], element_events ⟨"ns", "sst"⟩ [(⟨"", "uniqueCount"⟩, "1")] ""
          (rich_si_events "ns" ["a", "b"] ++ []) ++ []⟩ []
      = .fail .parsing [] :=
  ⟨⟨by rfl, by decide⟩,
    (rich_text_entry_first_run_only "ns" "1" 1 (by rfl) eof_event [] [] [] [] "a" ["b"] []).1
      (by decide)⟩

/-! ## Unrecognised children of `worksheet` (C22) -/

theorem read_worksheet_child_unrecognised {F : Type} (cx : worksheet_context F) (xmlns : String)
    (p : parser) (ws : worksheet F)
    (hq : ∀ n ∈ worksheet_child_names, p.qname ≠ ⟨xmlns, n⟩) :
    read_worksheet_child cx xmlns p ws = .ok p ws := by
  have h1 := hq "dimension" (by simp [worksheet_child_names])
  have h2 := hq "sheetViews" (by simp [worksheet_child_names])
  have h3 := hq "sheetFormatPr" (by simp [worksheet_child_names])
  have h4 := hq "mergeCells" (by simp [worksheet_child_names])
  have h5 := hq "sheetData" (by simp [worksheet_child_names])
  have h6 := hq "cols" (by simp [worksheet_child_names])
  have h7 := hq "autoFilter" (by simp [worksheet_child_names])
  have h8 := hq "pageMargins" (by simp [worksheet_child_names])
  simp only [read_worksheet_child, h1, h2, h3, h4, h5, h6, h7, h8, if_false]

/-- C22 (what the code does): the dispatch loop of `read_worksheet` has no branch for an
element it does not recognise and consumes nothing of it.  When it comes to an empty
such element it leaves at the end tag of that element, with the rest of the part
unread; `read_worksheet` then asks for the end tag of `worksheet` and raises
`xml::parsing`.  So a part whose first child is an unrecognised element, empty or with
an unrecognised element nested in it, is not read, whatever follows. -/
theorem read_worksheet_unrecognised_child_fails {F : Type} (cx : worksheet_context F)
    (xmlns xmlns_x14ac : String) (q q1 : qname) (qattrs q1attrs wattrs : List (qname × String))
    (others tail : List event) (fuel : Nat) (cur : event) (attrs : List (qname × String))
    (ws : worksheet F)
    (hq : ∀ n ∈ worksheet_child_names, q ≠ ⟨xmlns, n⟩) (hw : q ≠ ⟨xmlns, "worksheet"⟩)
    (hq1 : ∀ n ∈ worksheet_child_names, q1 ≠ ⟨xmlns, n⟩) (hw1 : q1 ≠ ⟨xmlns, "worksheet"⟩) :
    read_worksheet_children cx xmlns (fuel + 2)
        ⟨cur, attrs, element_events q qattrs "" [] ++ tail⟩ ws
      = .ok ⟨⟨.start_element, q, qattrs, ""⟩, qattrs, ⟨.end_element, q, [], ""⟩ :: tail⟩ ws
    ∧ read_worksheet_body cx xmlns xmlns_x14ac
        ⟨cur, attrs, element_events ⟨xmlns, "worksheet"⟩ wattrs ""
          (element_events q qattrs "" [] ++ others) ++ tail⟩ ws
      = .fail .parsing ws
    ∧ read_worksheet_body cx xmlns xmlns_x14ac
        ⟨cur, attrs, element_events ⟨xmlns, "worksheet"⟩ wattrs ""
          (element_events q qattrs "" (element_events q1 q1attrs "" []) ++ others) ++ tail⟩ ws
      = .fail .parsing ws := by
  have hc : ∀ r : List event, read_worksheet_child cx xmlns
      ⟨⟨.start_element, q, qattrs, ""⟩, qattrs, r⟩ ws
      = .ok ⟨⟨.start_element, q, qattrs, ""⟩, qattrs, r⟩ ws :=
    fun r => read_worksheet_child_unrecognised cx xmlns _ ws hq
  have hc1 : ∀ r : List event, read_worksheet_child cx xmlns
      ⟨⟨.start_element, q1, q1attrs, ""⟩, q1attrs, r⟩ ws
      = .ok ⟨⟨.start_element, q1, q1attrs, ""⟩, q1attrs, r⟩ ws :=
    fun r => read_worksheet_child_unrecognised cx xmlns _ ws hq1
  have hw' : ¬ (q = ⟨xmlns, "worksheet"⟩) := hw
  have hw1' : ¬ (q1 = ⟨xmlns, "worksheet"⟩) := hw1
  refine ⟨?_, ?_, ?_⟩
  · simp [read_worksheet_children, element_events, parser.peek, parser.next_expect,
      parser.next, hc]
  · simp [read_worksheet_body, read_worksheet_namespaces, read_worksheet_children,
      element_events, parser.peek, parser.next_expect, parser.next_expect_qname,
      parser.next, hc, hw']
  · simp [read_worksheet_body, read_worksheet_namespaces, read_worksheet_children,
      element_events, parser.peek, parser.next_expect, parser.next_expect_qname,
      parser.next, hc, hc1, hw1']

/-- Witness for `read_worksheet_unrecognised_child_fails`: the part `<worksheet><extLst/>
<dimension ref="A1"/></worksheet>` is not read, while the part without the `extLst`
element is read to its end. -/
theorem read_worksheet_unrecognised_child_fails_witness :
    read_worksheet_body ⟨sample_traits, stold_decimal, [], [], false⟩ "ns" "x14ac"
        ⟨eof_event, [], element_events ⟨"ns", "worksheet"⟩ [] ""
          (element_events ⟨"ns", "extLst"⟩ [] "" [] ++ ns_element "dimension" [("ref", "A1")] [])
          ++ []⟩ ({} : worksheet Nat)
      = .fail .parsing {}
    ∧ read_worksheet_body ⟨sample_traits, stold_decimal, [], [], false⟩ "ns" "x14ac"
        ⟨eof_event, [], element_events ⟨"ns", "worksheet"⟩ [] ""
          (ns_element "dimension" [("ref", "A1")] []) ++ []⟩ ({} : worksheet Nat)
      = .ok ⟨⟨.end_element, ⟨"ns", "worksheet"⟩, [], ""⟩, [(⟨"", "ref"⟩, "A1")], []⟩
          { has_dimension_ := true } :=
  ⟨(read_worksheet_unrecognised_child_fails ⟨sample_traits, stold_decimal, [], [], false⟩
      "ns" "x14ac" ⟨"ns", "extLst"⟩ ⟨"ns", "ext"⟩ [] [] []
      (ns_element "dimension" [("ref", "A1")] []) [] 0 eof_event [] {}
      (by decide) (by decide) (by decide) (by decide)).2.1, by rfl⟩


/-! ## The parts fetched by the two passes (C29) -/

theorem reads_append (a b : List step) : reads (a ++ b) = reads a ++ reads b := by
  induction a with
  | nil => rfl
  | cons x a ih =>
    cases x with
    | store_read p => simp [reads, ih]
    | call r p => simpa [reads] using ih

theorem reads_dispatch {δ : Type} (c : consumer δ) (r : reader) (part : String)
    (f : reader_state δ → outcome (reader_state δ)) :
    reads (c.dispatch r part f).state.trace = reads c.trace := by
  unfold consumer.dispatch
  cases f c.state <;> simp [outcome.state, reads_append, reads]

theorem for_each_reads {α δ : Type} (body : α → consumer δ → outcome (consumer δ))
    (f : α → List String)
    (hbody : ∀ a c, ∃ l, reads (body a c).state.trace = reads c.trace ++ l
      ∧ l <+: f a ∧ ∀ c1, body a c = .done c1 → l = f a) :
    ∀ (as : List α) (c : consumer δ),
      ∃ l, reads (for_each body as c).state.trace = reads c.trace ++ l
        ∧ l <+: (as.map f).flatten
        ∧ ∀ c1, for_each body as c = .done c1 → l = (as.map f).flatten := by
  intro as
  induction as with
  | nil =>
    intro c
    exact ⟨[], by simp [for_each, outcome.state], by simp, fun _ _ => by simp⟩
  | cons a as ih =>
    intro c
    obtain ⟨l1, h1, h2, h3⟩ := hbody a c
    cases hb : body a c with
    | raised e c1 =>
      refine ⟨l1, ?_, ?_, ?_⟩
      · rw [hb] at h1
        simpa [for_each, hb, outcome.state] using h1
      · simp only [List.map_cons, List.flatten_cons]
        exact h2.trans (List.prefix_append _ _)
      · intro c2 hc2
        simp [for_each, hb] at hc2
    | done c1 =>
      have hl1 : l1 = f a := h3 c1 hb
      rw [hb] at h1
      simp only [outcome.state] at h1
      obtain ⟨l2, g1, g2, g3⟩ := ih c1
      refine ⟨f a ++ l2, ?_, ?_, ?_⟩
      · simp only [for_each, hb]
        rw [g1, h1, hl1, List.append_assoc]
      · simp only [List.map_cons, List.flatten_cons]
        exact (List.prefix_append_right_inj _).2 g2
      · intro c2 hc2
        simp only [for_each, hb] at hc2
        simp only [List.map_cons, List.flatten_cons]
        rw [g3 c2 hc2]

theorem populate_first_pass_part_reads {δ : Type} (rd : part_readers δ) (rel : relationship)
    (c : consumer δ) :
    ∃ l, reads (populate_first_pass_part rd rel c).state.trace = reads c.trace ++ l
      ∧ l <+: [part_path rel]
      ∧ ∀ c1, populate_first_pass_part rd rel c = .done c1 → l = [part_path rel] := by
  refine ⟨[part_path rel], ?_, List.prefix_refl _, fun _ _ => rfl⟩
  unfold populate_first_pass_part
  cases hr : c.source_.read (part_path rel) with
  | error e => simp [consumer.read_part, hr, outcome.state, reads_append, reads]
  | ok es =>
    simp only [consumer.read_part, hr]
    cases ht : rel.type <;> simp only [] <;>
      first
      | (rw [reads_dispatch]
         simp [reads_append, reads])
      | simp [reads_append, reads, outcome.state]

theorem populate_second_pass_part_reads {δ : Type} (rd : part_readers δ) (rel : relationship)
    (c : consumer δ) :
    ∃ l, reads (populate_second_pass_part rd rel c).state.trace = reads c.trace ++ l
      ∧ l <+: [part_path rel]
      ∧ ∀ c1, populate_second_pass_part rd rel c = .done c1 → l = [part_path rel] := by
  refine ⟨[part_path rel], ?_, List.prefix_refl _, fun _ _ => rfl⟩
  unfold populate_second_pass_part
  cases hr : c.source_.read (part_path rel) with
  | error e => simp [consumer.read_part, hr, outcome.state, reads_append, reads]
  | ok es =>
    simp only [consumer.read_part, hr]
    cases ht : rel.type <;> simp only [] <;>
      first
      | (rw [reads_dispatch]
         simp [reads_append, reads])
      | simp [reads_append, reads, outcome.state]

theorem flatten_map_singleton {α β : Type} (f : α → β) (l : List α) :
    (l.map (fun a => [f a])).flatten = l.map f := by
  induction l with
  | nil => rfl
  | cons a l ih => simp [ih]

/-- C29 (the counterexample): in the two passes over the relationships of the workbook
part of the sample package, the styles part is fetched from the archive twice. -/
theorem populate_workbook_parts_fetches_twice :
    (reads (populate_workbook_parts sample_readers sample_workbook_relationships
        ({ source_ := sample_package "", state := { destination_ := () } } : consumer Unit)
      ).state.trace).count "xl/styles.xml" = 2 := by
  decide

/-- C29, as the code has it: each of the two loops over the relationships of the
workbook part fetches the part of every relationship, whatever its type, before it
looks at the type.  The parts fetched are a prefix of the parts of the relationships in
their order, twice over, and all of it when the loops return; and for every
relationship at most one of the two loops calls a part reader. -/
theorem populate_workbook_parts_fetches {δ : Type} (rd : part_readers δ)
    (rels : List relationship) (c : consumer δ) :
    (∃ l, reads (populate_workbook_parts rd rels c).state.trace = reads c.trace ++ l
      ∧ l <+: rels.map part_path ++ rels.map part_path
      ∧ ∀ c1, populate_workbook_parts rd rels c = .done c1 →
          l = rels.map part_path ++ rels.map part_path)
    ∧ ∀ rel : relationship, first_pass_call rel = [] ∨ second_pass_call rel = [] := by
  constructor
  · obtain ⟨l1, h1, h2, h3⟩ := for_each_reads (populate_first_pass_part rd)
      (fun rel => [part_path rel]) (populate_first_pass_part_reads rd) rels c
    rw [flatten_map_singleton] at h2 h3
    unfold populate_workbook_parts
    cases hf : for_each (populate_first_pass_part rd) rels c with
    | raised e c1 =>
      refine ⟨l1, ?_, h2.trans (List.prefix_append _ _), ?_⟩
      · rw [hf] at h1
        exact h1
      · intro c2 hc2
        cases hc2
    | done c1 =>
      have hl1 := h3 c1 hf
      rw [hf] at h1
      simp only [outcome.state] at h1
      obtain ⟨l2, g1, g2, g3⟩ := for_each_reads (populate_second_pass_part rd)
        (fun rel => [part_path rel]) (populate_second_pass_part_reads rd) rels c1
      rw [flatten_map_singleton] at g2 g3
      refine ⟨rels.map part_path ++ l2, ?_, ?_, ?_⟩
      · simp only []
        rw [g1, h1, hl1, List.append_assoc]
      · exact (List.prefix_append_right_inj _).2 g2
      · intro c2 hc2
        simp only [] at hc2
        rw [g3 c2 hc2]
  · intro rel
    unfold first_pass_call second_pass_call
    cases rel.type <;> simp

/-- Witness for `populate_workbook_parts_fetches`: the parts fetched for the
relationships of the sample package. -/
theorem populate_workbook_parts_fetches_witness :
    reads (populate_workbook_parts sample_readers sample_workbook_relationships
        ({ source_ := sample_package "", state := { destination_ := () } } : consumer Unit)
      ).state.trace
      = ["xl/worksheets/sheet1.xml", "xl/sharedStrings.xml", "xl/styles.xml",
          "xl/worksheets/sheet1.xml", "xl/sharedStrings.xml", "xl/styles.xml"] := by
  obtain ⟨l, h1, _, h3⟩ := (populate_workbook_parts_fetches sample_readers
    sample_workbook_relationships
    ({ source_ := sample_package "", state := { destination_ := () } } : consumer Unit)).1
  rw [h1, h3 _ (by rfl)]
  rfl


/-! ## The relationships of the manifest (C26, C27) -/

theorem read_relationship_entries_spec (pc : package_context) (source : String)
    (ty : String → relationship_type) (e_end : event) (he : e_end.type = .end_element)
    (tail : List event) :
    ∀ (entries : List (String × String × String)) (fuel : Nat) (cur : event)
      (attrs : List (qname × String)) (acc : List relationship),
      entries.length < fuel →
      (∀ e ∈ entries, pc.to_relationship_type e.2.1 = .ok (ty e.2.1)) →
      ∃ cur1 attrs1,
        read_relationship_entries pc source fuel
          ⟨cur, attrs, (entries.map (fun r =>
              element_events ⟨pc.xmlns_relationships, "Relationship"⟩
                [(⟨"", "Id"⟩, r.1), (⟨"", "Type"⟩, r.2.1), (⟨"", "Target"⟩, r.2.2)] "" [])).flatten
            ++ e_end :: tail⟩ acc
        = .ok (⟨cur1, attrs1, e_end :: tail⟩,
            acc ++ entries.map (entry_relationship ty source)) := by
  intro entries
  induction entries with
  | nil =>
    intro fuel cur attrs acc hfuel _
    obtain ⟨f, rfl⟩ : ∃ f, fuel = f + 1 := ⟨fuel - 1, by simp at hfuel; omega⟩
    exact ⟨cur, attrs, by simp [read_relationship_entries, parser.peek, he]⟩
  | cons e entries ih =>
    intro fuel cur attrs acc hfuel hty
    obtain ⟨f, rfl⟩ : ∃ f, fuel = f + 1 := ⟨fuel - 1, by simp at hfuel; omega⟩
    obtain ⟨id, type, target⟩ := e
    have ht : pc.to_relationship_type type = .ok (ty type) :=
      hty (id, type, target) (List.mem_cons_self _ _)
    obtain ⟨cur1, attrs1, h1⟩ := ih f
      ⟨.end_element, ⟨pc.xmlns_relationships, "Relationship"⟩, [], ""⟩
      [(⟨"", "Id"⟩, id), (⟨"", "Type"⟩, type), (⟨"", "Target"⟩, target)]
      (acc ++ [⟨id, ty type, source, target⟩])
      (by simp at hfuel; omega)
      (fun x hx => hty x (List.mem_cons_of_mem _ hx))
    refine ⟨cur1, attrs1, ?_⟩
    simp only [List.map_cons, List.flatten_cons, element_events, text_events_empty, List.nil_append, List.nil_append,
      List.cons_append, List.append_assoc, List.singleton_append]
    rw [read_relationship_entries]
    simp only [List.map_cons, List.flatten_cons, element_events, text_events_empty, List.nil_append, List.nil_append,
      List.cons_append, List.append_assoc, List.singleton_append] at h1
    simp [parser.peek, parser.next_expect_qname, parser.next, parser.attribute,
      lookup_attribute, ht, h1, entry_relationship, bind, Except.bind]

theorem relationship_entries_length (xmlns : String)
    (entries : List (String × String × String)) :
    entries.length ≤ (entries.map (fun r =>
        element_events ⟨xmlns, "Relationship"⟩
          [(⟨"", "Id"⟩, r.1), (⟨"", "Type"⟩, r.2.1), (⟨"", "Target"⟩, r.2.2)] ""
          [])).flatten.length := by
  induction entries with
  | nil => simp
  | cons e es ih =>
    simp only [List.map_cons, List.flatten_cons, List.length_append, List.length_cons,
      element_events, text_events_empty, List.nil_append] at ih ⊢
    omega

theorem read_relationships_spec {δ : Type} (pc : package_context) (part : String)
    (ty : String → relationship_type) (c : consumer δ)
    (entries : List (String × String × String))
    (hpart : map_find c.source_.parts part
      = some (relationships_events pc.xmlns_relationships entries))
    (hty : ∀ e ∈ entries, pc.to_relationship_type e.2.1 = .ok (ty e.2.1)) :
    read_relationships pc part c
      = (.ok (entries.map (entry_relationship ty part)),
          { c with trace := c.trace ++ [.store_read part] }) := by
  obtain ⟨cur1, attrs1, h⟩ := read_relationship_entries_spec pc part ty
    ⟨.end_element, ⟨pc.xmlns_relationships, "Relationships"⟩, [], ""⟩ rfl [] entries
    (((entries.map (fun (r : String × String × String) =>
        element_events ⟨pc.xmlns_relationships, "Relationship"⟩
          [(⟨"", "Id"⟩, r.1), (⟨"", "Type"⟩, r.2.1), (⟨"", "Target"⟩, r.2.2)] "" [])).flatten
      ++ [(⟨.end_element, ⟨pc.xmlns_relationships, "Relationships"⟩, [], ""⟩ : event)]).length + 1)
    ⟨.start_element, ⟨pc.xmlns_relationships, "Relationships"⟩, [], ""⟩ [] []
    (by
      have := relationship_entries_length pc.xmlns_relationships entries
      simp only [List.length_append, List.length_cons, List.length_nil]
      omega)
    hty
  have hfile : c.source_.has_file part = true := by simp [zip_file.has_file, hpart]
  have hread : c.source_.read part
      = .ok (relationships_events pc.xmlns_relationships entries) := by
    simp [zip_file.read, hpart]
  simp only [read_relationships, hfile, Bool.not_true, Bool.false_eq_true, if_false,
    consumer.read_part, hread]
  simp only [relationships_events, element_events, text_events_empty, List.nil_append, parser.of_events, parser.next_expect_qname,
    parser.next, and_self, if_true, List.nil_append] at h ⊢
  rw [h]
  simp [parser.next_expect_qname, parser.next]

theorem split_last_separator (c : Char) (A B : List Char) (hB : c ∉ B) :
    ((A ++ c :: B).reverse.takeWhile (fun x => x ≠ c)).reverse = B
    ∧ (((A ++ c :: B).reverse.dropWhile (fun x => x ≠ c)).drop 1).reverse = A := by
  have hrev : (A ++ c :: B).reverse = B.reverse ++ c :: A.reverse := by simp
  have hall : ∀ x ∈ B.reverse, (decide (x ≠ c)) = true := by
    intro x hx
    have : x ≠ c := fun h => hB (h ▸ List.mem_reverse.mp hx)
    simpa using this
  rw [hrev]
  constructor
  · rw [List.takeWhile_append_of_pos hall]
    simp
  · rw [List.dropWhile_append_of_pos hall]
    simp

theorem path_parent_mk (A B : List Char) (hB : Char.ofNat 47 ∉ B) :
    path_parent (String.mk (A ++ Char.ofNat 47 :: B)) = String.mk A := by
  unfold path_parent
  exact congrArg String.mk (split_last_separator _ A B hB).2

theorem path_filename_mk (A B : List Char) (hB : Char.ofNat 47 ∉ B) :
    path_filename (String.mk (A ++ Char.ofNat 47 :: B)) = String.mk B := by
  unfold path_filename
  exact congrArg String.mk (split_last_separator _ A B hB).1

theorem path_filename_no_separator (p : String) :
    Char.ofNat 47 ∉ (path_filename p).toList := by
  unfold path_filename
  intro h
  have h1 : Char.ofNat 47 ∈ p.toList.reverse.takeWhile (fun c => c ≠ Char.ofNat 47) := by
    simpa using h
  have := List.mem_takeWhile_imp h1
  simp at this

theorem path_split_extension_first_no_separator (p : String) :
    Char.ofNat 47 ∉ (path_split_extension_first p).toList := by
  unfold path_split_extension_first
  split
  · intro h
    have h1 : Char.ofNat 47 ∈ (((path_filename p).toList.reverse.dropWhile
        (fun c => c ≠ Char.ofNat 46)).drop 1) := by simpa using h
    have h2 := (List.drop_sublist _ _).mem h1
    have h3 := (List.dropWhile_sublist _).mem h2
    exact path_filename_no_separator p (List.mem_reverse.mp h3)
  · exact path_filename_no_separator p

theorem rels_owner_ne_root (filename : String) : rels_owner filename ≠ "/" := by
  unfold rels_owner path_append
  have hs := path_split_extension_first_no_separator filename
  split
  · intro h
    rw [h] at hs
    exact hs (by decide)
  · rename_i hp
    intro h
    have h1 := congrArg String.data h
    simp only [String.data_append] at h1
    have h2 : (path_parent (path_parent filename)).data = [] := by
      cases hd : (path_parent (path_parent filename)).data with
      | nil => rfl
      | cons a l =>
        rw [hd] at h1
        have := congrArg List.length h1
        simp at this
    exact hp (String.ext h2)


theorem rels_path_data (D N : String) :
    D ++ "/_rels/" ++ N ++ ".rels"
      = String.mk ((D.data ++ [Char.ofNat 47, '_', 'r', 'e', 'l', 's']) ++ Char.ofNat 47
          :: (N.data ++ ['.', 'r', 'e', 'l', 's'])) := by
  apply String.ext
  simp only [String.data_append]
  have h1 : ('/' : Char) = Char.ofNat 47 := by decide
  rw [h1]
  simp

theorem rels_path_filename (D N : String) (hN : Char.ofNat 47 ∉ N.toList) :
    path_filename (D ++ "/_rels/" ++ N ++ ".rels") = String.mk (N.data ++ ['.', 'r', 'e', 'l', 's']) := by
  rw [rels_path_data]
  apply path_filename_mk
  intro h
  rcases List.mem_append.mp h with h | h
  · exact hN h
  · revert h
    decide

theorem rels_path_parent (D N : String) (hN : Char.ofNat 47 ∉ N.toList) :
    path_parent (path_parent (D ++ "/_rels/" ++ N ++ ".rels")) = D := by
  rw [rels_path_data, path_parent_mk]
  · have : D.data ++ [Char.ofNat 47, '_', 'r', 'e', 'l', 's']
        = D.data ++ Char.ofNat 47 :: ['_', 'r', 'e', 'l', 's'] := rfl
    rw [this, path_parent_mk _ _ (by decide)]
  · intro h
    rcases List.mem_append.mp h with h | h
    · exact hN h
    · revert h
      decide

theorem rels_path_split (D N : String) (hN : Char.ofNat 47 ∉ N.toList) :
    path_split_extension_first (D ++ "/_rels/" ++ N ++ ".rels") = N
    ∧ path_extension (D ++ "/_rels/" ++ N ++ ".rels") = "rels" := by
  have hdot : Char.ofNat 46 ∈ (String.mk (N.data ++ ['.', 'r', 'e', 'l', 's'])).toList := by
    show Char.ofNat 46 ∈ N.data ++ ['.', 'r', 'e', 'l', 's']
    exact List.mem_append_right _ (by decide)
  have hs := split_last_separator (Char.ofNat 46) N.data ['r', 'e', 'l', 's'] (by decide)
  have hl : (String.mk (N.data ++ ['.', 'r', 'e', 'l', 's'])).toList
      = N.data ++ Char.ofNat 46 :: ['r', 'e', 'l', 's'] := rfl
  unfold path_split_extension_first path_extension
  rw [rels_path_filename D N hN, if_pos hdot, if_pos hdot, hl, hs.1, hs.2]
  exact ⟨rfl, rfl⟩

theorem rels_owner_of_rels_path (D N : String) (hD : D ≠ "") (hN : Char.ofNat 47 ∉ N.toList) :
    rels_owner (D ++ "/_rels/" ++ N ++ ".rels") = D ++ "/" ++ N
    ∧ is_part_rels (D ++ "/_rels/" ++ N ++ ".rels") = true := by
  constructor
  · unfold rels_owner
    rw [rels_path_parent D N hN, (rels_path_split D N hN).1]
    simp [path_append, hD]
  · unfold is_part_rels
    rw [(rels_path_split D N hN).2]
    have : D ++ "/_rels/" ++ N ++ ".rels" ≠ "_rels/.rels" := by
      intro h
      have h1 := congrArg path_parent (congrArg path_parent h)
      rw [rels_path_parent D N hN] at h1
      exact hD (h1.trans (by decide))
    simp [this]


theorem content_type_entries_length (xmlns : String) (entries : List (Bool × String × String)) :
    entries.length ≤ (entries.map (content_type_events xmlns)).flatten.length := by
  induction entries with
  | nil => simp
  | cons e es ih =>
    obtain ⟨b, x, y⟩ := e
    cases b <;>
      simp only [List.map_cons, List.flatten_cons, List.length_append, List.length_cons,
        element_events, text_events_empty, List.nil_append, content_type_events, Bool.false_eq_true, if_false, if_true] at ih ⊢ <;>
      omega

theorem read_content_types_spec (xmlns : String) (e_end : event)
    (he : e_end.type = .end_element) (tail : List event) :
    ∀ (entries : List (Bool × String × String)) (fuel : Nat) (cur : event)
      (attrs : List (qname × String)) (m : manifest),
      entries.length < fuel →
      ∃ cur1 attrs1 m1,
        read_content_types xmlns fuel
          ⟨cur, attrs, (entries.map (content_type_events xmlns)).flatten ++ e_end :: tail⟩ m
        = .ok ⟨cur1, attrs1, e_end :: tail⟩ m1
        ∧ m1.relationships = m.relationships := by
  intro entries
  induction entries with
  | nil =>
    intro fuel cur attrs m hfuel
    obtain ⟨f, rfl⟩ : ∃ f, fuel = f + 1 := ⟨fuel - 1, by simp at hfuel; omega⟩
    exact ⟨cur, attrs, m, by simp [read_content_types, parser.peek, he], rfl⟩
  | cons e entries ih =>
    intro fuel cur attrs m hfuel
    obtain ⟨f, rfl⟩ : ∃ f, fuel = f + 1 := ⟨fuel - 1, by simp at hfuel; omega⟩
    obtain ⟨b, x, y⟩ := e
    cases b
    · obtain ⟨cur1, attrs1, m1, h1, h2⟩ := ih f
        ⟨.end_element, ⟨xmlns, "Default"⟩, [], ""⟩
        [(⟨"", "Extension"⟩, x), (⟨"", "ContentType"⟩, y)]
        (m.register_default_type x y) (by simp at hfuel; omega)
      refine ⟨cur1, attrs1, m1, ?_, h2⟩
      simp only [List.map_cons, List.flatten_cons, element_events, text_events_empty, List.nil_append, content_type_events,
        Bool.false_eq_true, if_false, List.nil_append, List.cons_append, List.append_assoc,
        List.singleton_append]
      rw [read_content_types]
      simp [parser.peek, parser.next_expect, parser.next_expect_qname, parser.next,
        parser.attribute, parser.name, lookup_attribute, h1]
    · obtain ⟨cur1, attrs1, m1, h1, h2⟩ := ih f
        ⟨.end_element, ⟨xmlns, "Override"⟩, [], ""⟩
        [(⟨"", "PartName"⟩, x), (⟨"", "ContentType"⟩, y)]
        (m.register_override_type x y) (by simp at hfuel; omega)
      refine ⟨cur1, attrs1, m1, ?_, h2⟩
      simp only [List.map_cons, List.flatten_cons, element_events, text_events_empty, List.nil_append, content_type_events,
        if_true, List.nil_append, List.cons_append, List.append_assoc,
        List.singleton_append]
      rw [read_content_types]
      simp [parser.peek, parser.next_expect, parser.next_expect_qname, parser.next,
        parser.attribute, parser.name, lookup_attribute, h1]

theorem register_relationships_spec (source : String) (rs : List relationship) :
    ∀ (m : manifest), register_relationships source rs m
      = { m with relationships :=
            m.relationships ++ rs.map (fun r => ⟨r.id, r.type, source, r.target⟩) } := by
  unfold register_relationships
  induction rs with
  | nil => intro m; simp
  | cons r rs ih =>
    intro m
    rw [List.foldl_cons, ih]
    simp [manifest.register_relationship]

theorem register_entry_relationships (ty : String → relationship_type) (source part : String)
    (entries : List (String × String × String)) (m : manifest) :
    register_relationships source (entries.map (entry_relationship ty part)) m
      = { m with relationships :=
            m.relationships ++ entries.map (entry_relationship ty source) } := by
  rw [register_relationships_spec]
  simp [entry_relationship, Function.comp_def]


theorem read_relationships_manifest {δ : Type} (pc : package_context) (part : String)
    (c : consumer δ) : (read_relationships pc part c).2.manifest = c.manifest := by
  unfold read_relationships
  by_cases h : c.source_.has_file part = true
  · simp only [h, Bool.not_true, Bool.false_eq_true, if_false]
    cases hr : c.source_.read part with
    | error e => simp [consumer.read_part, hr]
    | ok es => simp [consumer.read_part, hr]
  · have h1 : c.source_.has_file part = false := by simpa using h
    simp [h1]

theorem read_part_relationships_root {δ : Type} (pc : package_context) (filename : String)
    (c : consumer δ) :
    (read_part_relationships pc filename c).state.manifest.get_relationships "/"
        = c.manifest.get_relationships "/"
      ∧ (read_part_relationships pc filename c).state.source_ = c.source_ := by
  unfold read_part_relationships
  split
  · exact ⟨rfl, rfl⟩
  · have hm := read_relationships_manifest pc filename c
    have hs := read_relationships_source pc filename c
    cases hr : read_relationships pc filename c with
    | mk r c1 =>
      rw [hr] at hm hs
      cases r with
      | error e =>
        simp only [outcome.state]
        exact ⟨by rw [show c1.manifest = c.manifest from hm], hs⟩
      | ok part_rels =>
        simp only [outcome.state]
        refine ⟨?_, hs⟩
        rw [register_relationships_spec, show c1.manifest = c.manifest from hm]
        have hne := rels_owner_ne_root filename
        unfold rels_owner at hne
        simp [manifest.get_relationships, List.filter_append, List.filter_map, hne]

theorem for_each_part_relationships_root {δ : Type} (pc : package_context) :
    ∀ (names : List String) (c : consumer δ),
      (for_each (read_part_relationships pc) names c).state.manifest.get_relationships "/"
          = c.manifest.get_relationships "/"
        ∧ (for_each (read_part_relationships pc) names c).state.source_ = c.source_ := by
  intro names
  induction names with
  | nil => intro c; exact ⟨rfl, rfl⟩
  | cons f names ih =>
    intro c
    have h := read_part_relationships_root pc f c
    cases hb : read_part_relationships pc f c with
    | raised e c1 =>
      rw [hb] at h
      simpa [for_each, hb, outcome.state] using h
    | done c1 =>
      rw [hb] at h
      simp only [for_each, hb]
      simp only [outcome.state] at h
      exact ⟨(ih c1).1.trans h.1, (ih c1).2.trans h.2⟩

theorem for_each_part_relationships_spec {δ : Type} (pc : package_context)
    (ty : String → relationship_type) (rels : String → List (String × String × String)) :
    ∀ (names : List String) (c : consumer δ),
      (∀ f ∈ names, is_part_rels f = true →
        map_find c.source_.parts f = some (relationships_events pc.xmlns_relationships (rels f))
        ∧ ∀ e ∈ rels f, pc.to_relationship_type e.2.1 = .ok (ty e.2.1)) →
      for_each (read_part_relationships pc) names c
        = .done { c with
            manifest := { c.manifest with
              relationships := c.manifest.relationships ++ (names.map (fun f =>
                if is_part_rels f = true
                then (rels f).map (entry_relationship ty (rels_owner f)) else [])).flatten }
            trace := c.trace ++ (names.filter is_part_rels).map step.store_read } := by
  intro names
  induction names with
  | nil => intro c _; simp [for_each]
  | cons f names ih =>
    intro c h
    by_cases hf : is_part_rels f = true
    · obtain ⟨h1, h2⟩ := h f (List.mem_cons_self _ _) hf
      have hcond : ¬ (f = "_rels/.rels" ∨ path_extension f ≠ "rels") := by
        simp only [is_part_rels, Bool.and_eq_true, decide_eq_true_eq] at hf
        intro hc
        rcases hc with hc | hc
        · exact hf.1 hc
        · exact hc hf.2
      have hstep : read_part_relationships pc f c
          = .done { c with
              manifest := { c.manifest with
                relationships := c.manifest.relationships
                  ++ (rels f).map (entry_relationship ty (rels_owner f)) }
              trace := c.trace ++ [.store_read f] } := by
        unfold read_part_relationships
        rw [if_neg hcond]
        simp only [read_relationships_spec pc f ty c (rels f) h1 h2]
        rw [register_entry_relationships]
        rfl
      rw [for_each, hstep]
      simp only []
      refine (ih _ ?_).trans ?_
      · exact fun g hg hg1 => h g (List.mem_cons_of_mem _ hg) hg1
      · simp [hf, List.filter_cons]
    · have hcond : f = "_rels/.rels" ∨ path_extension f ≠ "rels" := by
        simp only [is_part_rels, Bool.and_eq_true, decide_eq_true_eq, not_and] at hf
        by_cases h0 : f = "_rels/.rels"
        · exact Or.inl h0
        · exact Or.inr (hf h0)
      have hstep : read_part_relationships pc f c = .done c := by
        unfold read_part_relationships
        rw [if_pos hcond]
      rw [for_each, hstep]
      simp only []
      refine (ih _ ?_).trans ?_
      · exact fun g hg hg1 => h g (List.mem_cons_of_mem _ hg) hg1
      · simp [hf, List.filter_cons]

theorem read_manifest_root {δ : Type} (pc : package_context) (ty : String → relationship_type)
    (c : consumer δ) (root : List (String × String × String))
    (types : List (Bool × String × String))
    (hroot : map_find c.source_.parts "_rels/.rels"
      = some (relationships_events pc.xmlns_relationships root))
    (hty : ∀ e ∈ root, pc.to_relationship_type e.2.1 = .ok (ty e.2.1))
    (htypes : map_find c.source_.parts "[Content_Types].xml"
      = some (content_types_events pc.xmlns_content_types types)) :
    ∃ m1 : manifest, m1.relationships = c.manifest.relationships
      ∧ read_manifest pc c
        = for_each (read_part_relationships pc) c.source_.infolist
            { c with
              manifest := { m1 with
                relationships := m1.relationships ++ root.map (entry_relationship ty "/") }
              trace := c.trace
                ++ [.store_read "_rels/.rels", .store_read "[Content_Types].xml"] } := by
  obtain ⟨cur1, attrs1, m1, h1, h2⟩ := read_content_types_spec pc.xmlns_content_types
    ⟨.end_element, ⟨pc.xmlns_content_types, "Types"⟩, [], ""⟩ rfl [] types
    (((types.map (content_type_events pc.xmlns_content_types)).flatten
      ++ [(⟨.end_element, ⟨pc.xmlns_content_types, "Types"⟩, [], ""⟩ : event)]).length + 1)
    ⟨.start_element, ⟨pc.xmlns_content_types, "Types"⟩, [], ""⟩ [] c.manifest
    (by
      have := content_type_entries_length pc.xmlns_content_types types
      simp only [List.length_append, List.length_cons, List.length_nil]
      omega)
  refine ⟨m1, h2, ?_⟩
  have hfile : c.source_.has_file "_rels/.rels" = true := by simp [zip_file.has_file, hroot]
  have hread : c.source_.read "[Content_Types].xml"
      = .ok (content_types_events pc.xmlns_content_types types) := by
    simp [zip_file.read, htypes]
  unfold read_manifest
  simp only [hfile, Bool.not_true, Bool.false_eq_true, if_false,
    read_relationships_spec pc "_rels/.rels" ty c root hroot hty, consumer.read_part, hread]
  simp only [content_types_events, element_events, text_events_empty, List.nil_append, parser.of_events, parser.next_expect_qname,
    parser.next, and_self, if_true, List.nil_append] at h1 ⊢
  rw [h1]
  simp only [parser.next_expect_qname, parser.next, and_self, if_true]
  rw [register_entry_relationships]
  simp


theorem read_content_types_relationships (xmlns : String) :
    ∀ (fuel : Nat) (p : parser) (m : manifest),
      (read_content_types xmlns fuel p m).state.relationships = m.relationships := by
  intro fuel
  induction fuel with
  | zero => intro p m; rfl
  | succ fuel ih =>
    intro p m
    rw [read_content_types]
    split
    · rfl
    · split
      · rfl
      · split
        · split
          · rfl
          · split
            · rfl
            · simp only []
              split
              · rfl
              · exact (ih _ _).trans rfl
        · split
          · split
            · rfl
            · split
              · rfl
              · simp only []
                split
                · rfl
                · exact (ih _ _).trans rfl
          · exact ih _ _

/-- C26: when `_rels/.rels` holds the entries `root` and `[Content_Types].xml` is a
`Types` element of `Default` and `Override` children, the relationships of the
manifest whose source is the root "/" are, after `read_manifest`, those it had before
followed by one relationship for each entry, in the order of the entries, with the
id, the type and the target of the entry and the source "/"; this holds whether or
not the relationship files of the parts can be read.  Whatever `[Content_Types].xml`
holds, a `read_manifest` that returns has registered exactly these. -/
theorem read_manifest_registers_root_entries {δ : Type} (pc : package_context)
    (ty : String → relationship_type) (c : consumer δ)
    (root : List (String × String × String))
    (hroot : map_find c.source_.parts "_rels/.rels"
      = some (relationships_events pc.xmlns_relationships root))
    (hty : ∀ e ∈ root, pc.to_relationship_type e.2.1 = .ok (ty e.2.1)) :
    (∀ types : List (Bool × String × String),
      map_find c.source_.parts "[Content_Types].xml"
        = some (content_types_events pc.xmlns_content_types types) →
      (read_manifest pc c).state.manifest.get_relationships "/"
        = c.manifest.get_relationships "/" ++ root.map (entry_relationship ty "/"))
    ∧ (∀ c1, read_manifest pc c = .done c1 →
      c1.manifest.get_relationships "/"
        = c.manifest.get_relationships "/" ++ root.map (entry_relationship ty "/")) := by
  have hfilter : ∀ m1 : manifest, m1.relationships = c.manifest.relationships →
      ({ m1 with relationships := m1.relationships ++ root.map (entry_relationship ty "/") }
        : manifest).get_relationships "/"
        = c.manifest.get_relationships "/" ++ root.map (entry_relationship ty "/") := by
    intro m1 h1
    simp [manifest.get_relationships, List.filter_append, List.filter_map, h1,
      entry_relationship, Function.comp_def]
  constructor
  · intro types htypes
    obtain ⟨m1, h1, h2⟩ := read_manifest_root pc ty c root types hroot hty htypes
    rw [h2, (for_each_part_relationships_root pc _ _).1]
    exact hfilter m1 h1
  · intro c1 hc1
    have hfile : c.source_.has_file "_rels/.rels" = true := by simp [zip_file.has_file, hroot]
    unfold read_manifest at hc1
    simp only [hfile, Bool.not_true, Bool.false_eq_true, if_false,
      read_relationships_spec pc "_rels/.rels" ty c root hroot hty, consumer.read_part] at hc1
    split at hc1
    · exact absurd hc1 (by simp)
    · rename_i es c2 heq
      split at hc1
      · exact absurd hc1 (by simp)
      · rename_i p1 hp1
        have hrel := read_content_types_relationships pc.xmlns_content_types
          (p1.rest.length + 1) p1 c2.manifest
        split at hc1
        · exact absurd hc1 (by simp)
        · rename_i p2 m1 hm1
          rw [hm1] at hrel
          simp only [res.state] at hrel
          split at hc1
          · exact absurd hc1 (by simp)
          · have hc2 : c2.manifest = c.manifest := by
              have := congrArg Prod.snd heq
              simp only [] at this
              rw [← this]
            have h3 := (for_each_part_relationships_root pc c2.source_.infolist
              { c2 with manifest := (register_relationships "/"
                  (root.map (entry_relationship ty "_rels/.rels")) m1) }).1
            rw [hc1] at h3
            simp only [outcome.state] at h3
            rw [h3, register_entry_relationships]
            exact hfilter m1 (hrel.trans (congrArg manifest.relationships hc2))

/-- C26, on the sample package: its root relationship file has one entry, and the
manifest gets one relationship of the root. -/
theorem read_manifest_registers_root_entries_witness :
    (read_manifest sample_package_context
        ({ source_ := sample_package "t", state := { destination_ := () } }
          : consumer Unit)).state.manifest.get_relationships "/"
      = [⟨"rId1", .office_document, "/", "xl/workbook.xml"⟩] :=
  (read_manifest_registers_root_entries sample_package_context sample_relationship_type
    ({ source_ := sample_package "t", state := { destination_ := () } } : consumer Unit)
    [("rId1", "officeDocument", "xl/workbook.xml")] (by rfl)
    (by simp [sample_package_context, sample_relationship_type])).1
    [(true, "/xl/workbook.xml", "t")] (by rfl)

/-- C27: when `_rels/.rels`, `[Content_Types].xml` and every other part with the
extension `rels` are well formed, `rels f` being the entries of the part `f`,
`read_manifest` returns, and the relationships of the manifest are those it had,
then those of the root, then, part after part in the order of the archive, one
relationship for each entry of a part other than `_rels/.rels` with the extension
`rels`, its source being the owner of the part, and nothing for any other part.  The
owner of `D/_rels/N.rels` is `D/N`, and such a part is one of those read. -/
theorem read_manifest_registers_part_entries {δ : Type} (pc : package_context)
    (ty : String → relationship_type) (c : consumer δ)
    (root : List (String × String × String)) (types : List (Bool × String × String))
    (rels : String → List (String × String × String))
    (hroot : map_find c.source_.parts "_rels/.rels"
      = some (relationships_events pc.xmlns_relationships root))
    (hty : ∀ e ∈ root, pc.to_relationship_type e.2.1 = .ok (ty e.2.1))
    (htypes : map_find c.source_.parts "[Content_Types].xml"
      = some (content_types_events pc.xmlns_content_types types))
    (hrels : ∀ f ∈ c.source_.infolist, f ≠ "_rels/.rels" → path_extension f = "rels" →
      map_find c.source_.parts f = some (relationships_events pc.xmlns_relationships (rels f))
      ∧ ∀ e ∈ rels f, pc.to_relationship_type e.2.1 = .ok (ty e.2.1)) :
    (∃ c1, read_manifest pc c = .done c1
      ∧ c1.manifest.relationships
        = c.manifest.relationships ++ root.map (entry_relationship ty "/")
          ++ (c.source_.infolist.map (fun f =>
              if f ≠ "_rels/.rels" ∧ path_extension f = "rels"
              then (rels f).map (entry_relationship ty (rels_owner f)) else [])).flatten)
    ∧ (∀ D N : String, D ≠ "" → Char.ofNat 47 ∉ N.toList →
        rels_owner (D ++ "/_rels/" ++ N ++ ".rels") = D ++ "/" ++ N
        ∧ D ++ "/_rels/" ++ N ++ ".rels" ≠ "_rels/.rels"
        ∧ path_extension (D ++ "/_rels/" ++ N ++ ".rels") = "rels") := by
  constructor
  · obtain ⟨m1, h1, h2⟩ := read_manifest_root pc ty c root types hroot hty htypes
    have hcond : ∀ f, (is_part_rels f = true) = (f ≠ "_rels/.rels" ∧ path_extension f = "rels") := by
      intro f
      simp [is_part_rels]
    rw [h2, for_each_part_relationships_spec pc ty rels]
    · refine ⟨_, rfl, ?_⟩
      simp only [h1, hcond, List.append_assoc]
    · intro f hf hpart
      rw [hcond] at hpart
      exact hrels f hf hpart.1 hpart.2
  · intro D N hD hN
    have h := rels_owner_of_rels_path D N hD hN
    have h2 := h.2
    simp only [is_part_rels, Bool.and_eq_true, decide_eq_true_eq] at h2
    exact ⟨h.1, h2.1, h2.2⟩


/-- C27, on the sample package: the relationship file `xl/_rels/workbook.xml.rels` is
the only part read in the loop, and its three entries are registered with the source
`xl/workbook.xml`, after the relationship of the root. -/
theorem read_manifest_registers_part_entries_witness :
    (∃ c1, read_manifest sample_package_context
          ({ source_ := sample_package "t", state := { destination_ := () } } : consumer Unit)
        = .done c1
      ∧ c1.manifest.relationships
        = ⟨"rId1", .office_document, "/", "xl/workbook.xml"⟩ :: sample_workbook_relationships)
    ∧ rels_owner ("xl" ++ "/_rels/" ++ "workbook.xml" ++ ".rels") = "xl" ++ "/" ++ "workbook.xml" := by
  have h := read_manifest_registers_part_entries sample_package_context
    sample_relationship_type
    ({ source_ := sample_package "t", state := { destination_ := () } } : consumer Unit)
    [("rId1", "officeDocument", "xl/workbook.xml")] [(true, "/xl/workbook.xml", "t")]
    sample_part_entries (by rfl)
    (by simp [sample_package_context, sample_relationship_type]) (by rfl)
    (by
      intro f hf h1 h2
      simp only [sample_package, zip_file.infolist, List.map_cons, List.map_nil,
        List.mem_cons, List.mem_singleton, List.not_mem_nil, or_false] at hf
      rcases hf with rfl | rfl | rfl | rfl | rfl | rfl | rfl
      · exact absurd rfl h1
      · exact absurd h2 (by decide)
      · exact absurd h2 (by decide)
      · refine ⟨by rfl, ?_⟩
        simp [sample_part_entries, sample_package_context, sample_relationship_type]
      · exact absurd h2 (by decide)
      · exact absurd h2 (by decide)
      · exact absurd h2 (by decide))
  obtain ⟨⟨c1, h1, h2⟩, h3⟩ := h
  exact ⟨⟨c1, h1, h2.trans (by decide)⟩, (h3 "xl" "workbook.xml" (by decide) (by decide)).1⟩


/-! ## The theme part (C28) -/

theorem map_find_replace (part : String) (es : List event) :
    ∀ (parts : List (String × List event)) (q : String),
      map_find (parts.map (fun kv => (kv.1, if kv.1 = part then es else kv.2))) q
        = if q = part then (map_find parts q).map (fun _ => es) else map_find parts q := by
  intro parts
  induction parts with
  | nil => intro q; simp [map_find]
  | cons kv parts ih =>
    intro q
    obtain ⟨k, v⟩ := kv
    simp only [List.map_cons, map_find, ih]
    by_cases hq : k = q
    · subst hq
      by_cases hk : k = part <;> simp [hk]
    · simp only [hq, if_false]

theorem zip_file_replace_has_file (z : zip_file) (part : String) (es : List event)
    (q : String) : (z.replace part es).has_file q = z.has_file q := by
  unfold zip_file.has_file zip_file.replace
  simp only [map_find_replace]
  split
  · cases map_find z.parts q <;> rfl
  · rfl

theorem zip_file_replace_infolist (z : zip_file) (part : String) (es : List event) :
    (z.replace part es).infolist = z.infolist := by
  unfold zip_file.infolist zip_file.replace
  simp only [List.map_map]
  rfl

theorem zip_file_replace_read (z : zip_file) (part : String) (es : List event)
    (q : String) (hq : q ≠ part) : (z.replace part es).read q = z.read q := by
  unfold zip_file.read zip_file.replace
  simp only [map_find_replace, if_neg hq]

theorem zip_file_replace_read_same (z : zip_file) (part : String) (es : List event) :
    (z.replace part es).read part = (z.read part).map (fun _ => es) := by
  unfold zip_file.read zip_file.replace
  simp only [map_find_replace, if_true]
  cases map_find z.parts part <;> rfl


theorem read_part_replace {δ : Type} (c : consumer δ) (part : String) (es : List event)
    (q : String) (hq : q ≠ part) :
    (c.replace_part part es).read_part q
      = ((c.read_part q).1, (c.read_part q).2.replace_part part es) := by
  simp [consumer.read_part, consumer.replace_part, zip_file_replace_read _ _ _ _ hq]

theorem read_part_replace_same {δ : Type} (c : consumer δ) (part : String) (es : List event) :
    (c.replace_part part es).read_part part
      = ((c.read_part part).1.map (fun _ => es), (c.read_part part).2.replace_part part es) := by
  simp [consumer.read_part, consumer.replace_part, zip_file_replace_read_same]

theorem dispatch_replace {δ : Type} (c : consumer δ) (part : String) (es : List event)
    (r : reader) (q : String) (f : reader_state δ → outcome (reader_state δ)) :
    (c.replace_part part es).dispatch r q f
      = (c.dispatch r q f).map (fun c1 => c1.replace_part part es) := by
  unfold consumer.dispatch
  have : (c.replace_part part es).state = c.state := rfl
  rw [this]
  cases f c.state <;> rfl

theorem for_each_map {α σ : Type} (body : α → σ → outcome σ) (T : σ → σ) :
    ∀ (as : List α), (∀ a ∈ as, ∀ s, body a (T s) = (body a s).map T) →
      ∀ s, for_each body as (T s) = (for_each body as s).map T := by
  intro as
  induction as with
  | nil => intro _ s; rfl
  | cons a as ih =>
    intro h s
    simp only [for_each]
    rw [h a (List.mem_cons_self _ _) s]
    cases body a s with
    | done s1 =>
      simp only [outcome.map]
      exact ih (fun b hb => h b (List.mem_cons_of_mem _ hb)) s1
    | raised e s1 => rfl

theorem for_each_invariant {α σ β : Type} (body : α → σ → outcome σ) (g : σ → β)
    (h : ∀ a s, g (body a s).state = g s) :
    ∀ (as : List α) (s : σ), g (for_each body as s).state = g s := by
  intro as
  induction as with
  | nil => intro s; rfl
  | cons a as ih =>
    intro s
    have h1 := h a s
    simp only [for_each]
    cases hb : body a s with
    | done s1 =>
      rw [hb] at h1
      exact (ih s1).trans h1
    | raised e s1 =>
      rw [hb] at h1
      exact h1

theorem read_relationships_replace {δ : Type} (pc : package_context) (c : consumer δ)
    (part : String) (es : List event) (q : String) (hq : q ≠ part) :
    read_relationships pc q (c.replace_part part es)
      = ((read_relationships pc q c).1, (read_relationships pc q c).2.replace_part part es) := by
  unfold read_relationships
  have hf : (c.replace_part part es).source_.has_file q = c.source_.has_file q :=
    zip_file_replace_has_file _ _ _ _
  rw [hf, read_part_replace c part es q hq]
  cases c.source_.has_file q
  · rfl
  · simp only [Bool.not_true, Bool.false_eq_true, if_false]
    cases hr : c.read_part q with
    | mk r c1 =>
      cases r <;> rfl

theorem read_part_relationships_replace {δ : Type} (pc : package_context) (c : consumer δ)
    (part : String) (es : List event) (hext : path_extension part ≠ "rels") (f : String) :
    read_part_relationships pc f (c.replace_part part es)
      = (read_part_relationships pc f c).map (fun c1 => c1.replace_part part es) := by
  unfold read_part_relationships
  split
  · rfl
  · rename_i hc
    have hq : f ≠ part := by
      intro h
      apply hc
      exact Or.inr (h ▸ hext)
    rw [read_relationships_replace pc c part es f hq]
    cases hr : read_relationships pc f c with
    | mk r c1 =>
      cases r <;> rfl

theorem read_manifest_replace {δ : Type} (pc : package_context) (c : consumer δ)
    (part : String) (es : List event) (h1 : part ≠ "_rels/.rels")
    (h2 : part ≠ "[Content_Types].xml") (hext : path_extension part ≠ "rels") :
    read_manifest pc (c.replace_part part es)
      = (read_manifest pc c).map (fun c1 => c1.replace_part part es) := by
  unfold read_manifest
  have hf : (c.replace_part part es).source_.has_file "_rels/.rels"
      = c.source_.has_file "_rels/.rels" := zip_file_replace_has_file _ _ _ _
  rw [hf, read_relationships_replace pc c part es "_rels/.rels" (Ne.symm h1)]
  cases c.source_.has_file "_rels/.rels"
  · rfl
  · simp only [Bool.not_true, Bool.false_eq_true, if_false]
    cases hr : read_relationships pc "_rels/.rels" c with
    | mk r c1 =>
      cases r with
      | error e => rfl
      | ok package_rels =>
        simp only []
        rw [read_part_replace c1 part es "[Content_Types].xml" (Ne.symm h2)]
        cases hr2 : c1.read_part "[Content_Types].xml" with
        | mk r2 c2 =>
          cases r2 with
          | error e => rfl
          | ok es2 =>
            simp only []
            cases (parser.of_events es2).next_expect_qname .start_element
                ⟨pc.xmlns_content_types, "Types"⟩ with
            | error e => rfl
            | ok p1 =>
              simp only []
              have hm : (c2.replace_part part es).manifest = c2.manifest := rfl
              rw [hm]
              cases read_content_types pc.xmlns_content_types (p1.rest.length + 1) p1
                  c2.manifest with
              | fail e m1 => rfl
              | ok p2 m1 =>
                simp only []
                cases p2.next_expect_qname .end_element ⟨pc.xmlns_content_types, "Types"⟩ with
                | error e => rfl
                | ok p3 =>
                  simp only []
                  have hi : (c2.replace_part part es).source_.infolist = c2.source_.infolist :=
                    zip_file_replace_infolist _ _ _
                  rw [hi]
                  exact for_each_map (read_part_relationships pc)
                    (fun c1 => c1.replace_part part es) c2.source_.infolist
                    (fun f _ s => read_part_relationships_replace pc s part es hext f)
                    { c2 with manifest := register_relationships "/" package_rels m1 }


theorem populate_root_part_replace {δ : Type} (rd : part_readers δ) (c : consumer δ)
    (part : String) (es : List event) (rel : relationship)
    (h : rel.target = part → rel.type = .theme) :
    populate_root_part rd rel (c.replace_part part es)
      = (populate_root_part rd rel c).map (fun c1 => c1.replace_part part es) := by
  unfold populate_root_part
  by_cases hq : rel.target = part
  · have ht := h hq
    rw [hq, read_part_replace_same c part es]
    cases hr : c.read_part part with
    | mk r c1 =>
      cases r with
      | error e => rfl
      | ok es1 =>
        simp only [Except.map, ht]
        rfl
  · rw [read_part_replace c part es rel.target hq]
    cases hr : c.read_part rel.target with
    | mk r c1 =>
      cases r with
      | error e => rfl
      | ok es1 =>
        simp only []
        have hm : (c1.replace_part part es).manifest = c1.manifest := rfl
        cases rel.type <;> simp only [dispatch_replace, hm] <;> try rfl
        cases c1.manifest.get_content_type rel.target with
        | error e => rfl
        | ok content_type =>
          simp only []
          cases check_document_type content_type with
          | error e => rfl
          | ok u => simp only [dispatch_replace]

theorem populate_first_pass_part_replace {δ θ : Type} (rd : part_readers δ)
    (set_theme : θ → δ → δ) (default_theme : θ)
    (hrd : rd.read_theme = read_theme set_theme default_theme) (c : consumer δ)
    (part : String) (es : List event) (rel : relationship)
    (h : part_path rel = part → rel.type = .theme) :
    populate_first_pass_part rd rel (c.replace_part part es)
      = (populate_first_pass_part rd rel c).map (fun c1 => c1.replace_part part es) := by
  unfold populate_first_pass_part
  by_cases hq : part_path rel = part
  · have ht := h hq
    rw [hq, read_part_replace_same c part es]
    cases hr : c.read_part part with
    | mk r c1 =>
      cases r with
      | error e => rfl
      | ok es1 =>
        simp only [Except.map, ht, dispatch_replace, hrd]
        rfl
  · rw [read_part_replace c part es (part_path rel) hq]
    cases hr : c.read_part (part_path rel) with
    | mk r c1 =>
      cases r with
      | error e => rfl
      | ok es1 =>
        simp only []
        cases rel.type <;> simp only [dispatch_replace] <;> rfl

theorem populate_second_pass_part_replace {δ : Type} (rd : part_readers δ) (c : consumer δ)
    (part : String) (es : List event) (rel : relationship)
    (h : part_path rel = part → rel.type = .theme) :
    populate_second_pass_part rd rel (c.replace_part part es)
      = (populate_second_pass_part rd rel c).map (fun c1 => c1.replace_part part es) := by
  unfold populate_second_pass_part
  by_cases hq : part_path rel = part
  · have ht := h hq
    rw [hq, read_part_replace_same c part es]
    cases hr : c.read_part part with
    | mk r c1 =>
      cases r with
      | error e => rfl
      | ok es1 =>
        simp only [Except.map, ht]
        rfl
  · rw [read_part_replace c part es (part_path rel) hq]
    cases hr : c.read_part (part_path rel) with
    | mk r c1 =>
      cases r with
      | error e => rfl
      | ok es1 =>
        simp only []
        cases rel.type <;> simp only [dispatch_replace] <;> rfl

theorem populate_workbook_parts_replace {δ θ : Type} (rd : part_readers δ)
    (set_theme : θ → δ → δ) (default_theme : θ)
    (hrd : rd.read_theme = read_theme set_theme default_theme) (c : consumer δ)
    (part : String) (es : List event) (rels : List relationship)
    (h : ∀ rel ∈ rels, part_path rel = part → rel.type = .theme) :
    populate_workbook_parts rd rels (c.replace_part part es)
      = (populate_workbook_parts rd rels c).map (fun c1 => c1.replace_part part es) := by
  unfold populate_workbook_parts
  rw [for_each_map (populate_first_pass_part rd) (fun c1 => c1.replace_part part es) rels
    (fun rel hrel s =>
      populate_first_pass_part_replace rd set_theme default_theme hrd s part es rel (h rel hrel))
    c]
  cases for_each (populate_first_pass_part rd) rels c with
  | raised e c1 => rfl
  | done c1 =>
    simp only [outcome.map]
    exact for_each_map (populate_second_pass_part rd) (fun c1 => c1.replace_part part es) rels
      (fun rel hrel s => populate_second_pass_part_replace rd s part es rel (h rel hrel)) c1

theorem dispatch_manifest {δ : Type} (c : consumer δ) (r : reader) (q : String)
    (f : reader_state δ → outcome (reader_state δ)) :
    (c.dispatch r q f).state.manifest = c.manifest := by
  unfold consumer.dispatch
  cases f c.state <;> rfl

theorem populate_root_part_manifest {δ : Type} (rd : part_readers δ) (rel : relationship)
    (c : consumer δ) : (populate_root_part rd rel c).state.manifest = c.manifest := by
  unfold populate_root_part
  cases hr : c.source_.read rel.target with
  | error e => simp [consumer.read_part, hr, outcome.state]
  | ok es1 =>
    simp only [consumer.read_part, hr]
    cases rel.type <;> simp only [] <;> try first | exact dispatch_manifest _ _ _ _ | rfl
    split
    · rfl
    · split
      · rfl
      · exact dispatch_manifest _ _ _ _

theorem populate_workbook_replace {δ θ : Type} (pc : package_context) (rd : part_readers δ)
    (set_theme : θ → δ → δ) (default_theme : θ)
    (hrd : rd.read_theme = read_theme set_theme default_theme) (c : consumer δ)
    (part : String) (es : List event) (h1 : part ≠ "_rels/.rels")
    (h2 : part ≠ "[Content_Types].xml") (hext : path_extension part ≠ "rels")
    (h : ∀ c1, read_manifest pc c = .done c1 → ∀ rel ∈ c1.manifest.relationships,
      (rel.target = part ∨ part_path rel = part) → rel.type = .theme) :
    populate_workbook pc rd (c.replace_part part es)
      = (populate_workbook pc rd c).map (fun c1 => c1.replace_part part es) := by
  unfold populate_workbook
  rw [read_manifest_replace pc c part es h1 h2 hext]
  cases hm : read_manifest pc c with
  | raised e c1 => rfl
  | done c1 =>
    have hrels := h c1 hm
    simp only [outcome.map]
    have hmem : ∀ (q : String) (rel : relationship), rel ∈ c1.manifest.get_relationships q →
        rel ∈ c1.manifest.relationships := by
      intro q rel hrel
      exact (List.mem_filter.mp hrel).1
    have hm1 : (c1.replace_part part es).manifest = c1.manifest := rfl
    rw [hm1, for_each_map (populate_root_part rd) (fun c1 => c1.replace_part part es)
      (c1.manifest.get_relationships "/")
      (fun rel hrel s => populate_root_part_replace rd s part es rel
        (fun ht => hrels rel (hmem _ rel hrel) (Or.inl ht))) c1]
    have hinv := for_each_invariant (populate_root_part rd) (fun s => s.manifest)
      (populate_root_part_manifest rd) (c1.manifest.get_relationships "/") c1
    cases hc2 : for_each (populate_root_part rd) (c1.manifest.get_relationships "/") c1 with
    | raised e c2 => rfl
    | done c2 =>
      rw [hc2] at hinv
      simp only [outcome.state] at hinv
      simp only [outcome.map]
      have hm2 : (c2.replace_part part es).manifest = c2.manifest := rfl
      rw [hm2]
      cases c2.manifest.get_relationship "/" .office_document with
      | error e => rfl
      | ok workbook_rel =>
        simp only []
        exact populate_workbook_parts_replace rd set_theme default_theme hrd c2 part es _
          (fun rel hrel ht => hrels rel (hmem workbook_rel.target rel (hinv ▸ hrel))
            (Or.inr ht))


/-- C28: `read_theme` installs the default theme whatever its parser holds, and a
read does not depend on what the theme part holds.  For a part `part` that is neither
`_rels/.rels` nor `[Content_Types].xml` nor a relationship file, and that the
relationships of the manifest point to only as a theme, the read of the archive in
which `part` holds `es` ends as the read of `z` does: it returns or raises alike,
with the same manifest, the same steps, and the same destination (so the same
theme) and title maps. -/
theorem read_theme_part_independent {δ θ : Type} (pc : package_context)
    (rd : part_readers δ) (set_theme : θ → δ → δ) (default_theme : θ)
    (hrd : rd.read_theme = read_theme set_theme default_theme)
    (clear : manifest → δ → manifest × δ)
    (z : zip_file) (c : consumer δ) (part : String) (es : List event)
    (h1 : part ≠ "_rels/.rels") (h2 : part ≠ "[Content_Types].xml")
    (hext : path_extension part ≠ "rels")
    (h : ∀ c1,
      read_manifest pc
          { c with
            manifest := (clear c.manifest c.state.destination_).1
            state := { c.state with destination_ := (clear c.manifest c.state.destination_).2 }
            source_ := z } = .done c1 →
      ∀ rel ∈ c1.manifest.relationships,
        (rel.target = part ∨ part_path rel = part) → rel.type = .theme) :
    (∀ (p : parser) (s : reader_state δ),
      rd.read_theme p s
        = .done { s with destination_ := set_theme default_theme s.destination_ })
    ∧ read pc rd clear (z.replace part es) c
      = (read pc rd clear z c).map (fun c1 => c1.replace_part part es)
    ∧ (read pc rd clear (z.replace part es) c).state.state
      = (read pc rd clear z c).state.state := by
  have hread : read pc rd clear (z.replace part es) c
      = (read pc rd clear z c).map (fun c1 => c1.replace_part part es) := by
    unfold read
    exact populate_workbook_replace pc rd set_theme default_theme hrd
      { c with
        manifest := (clear c.manifest c.state.destination_).1
        state := { c.state with destination_ := (clear c.manifest c.state.destination_).2 }
        source_ := z } part es h1 h2 hext h
  refine ⟨?_, hread, ?_⟩
  · intro p s
    rw [hrd]
    rfl
  · rw [hread]
    cases read pc rd clear z c <;> rfl

/-- C28, on a package with a theme part: the read ends with the same state whether
the theme part is empty or holds a `theme` element, and the theme of the destination
is the default one. -/
theorem read_theme_part_independent_witness :
    (read sample_theme_context sample_theme_readers (fun _ _ => ({}, none))
        ((sample_theme_package []).replace "xl/theme/theme1.xml"
          (element_events ⟨"a", "theme"⟩ [(⟨"", "name"⟩, "Office")] "" []))
        ({ state := { destination_ := none } } : consumer (Option String))).state.state
      = (read sample_theme_context sample_theme_readers (fun _ _ => ({}, none)) (sample_theme_package [])
          ({ state := { destination_ := none } } : consumer (Option String))).state.state
    ∧ (read sample_theme_context sample_theme_readers (fun _ _ => ({}, none)) (sample_theme_package [])
          ({ state := { destination_ := none } }
            : consumer (Option String))).state.state.destination_
      = some "default" :=
  ⟨(read_theme_part_independent sample_theme_context sample_theme_readers
      (fun t _ => some t) "default" (by rfl) (fun _ _ => ({}, none))
      (sample_theme_package [])
      ({ state := { destination_ := none } } : consumer (Option String))
      "xl/theme/theme1.xml"
      (element_events ⟨"a", "theme"⟩ [(⟨"", "name"⟩, "Office")] "" [])
      (by decide) (by decide) (by decide)
      (by
        intro c1 hc1 rel hrel hor
        have h0 : (read_manifest sample_theme_context
            ({ source_ := sample_theme_package [], state := { destination_ := none } }
              : consumer (Option String))).state = c1 :=
          congrArg outcome.state hc1
        subst h0
        have hl : (read_manifest sample_theme_context
            ({ source_ := sample_theme_package [], state := { destination_ := none } }
              : consumer (Option String))).state.manifest.relationships
            = [⟨"rId1", .office_document, "/", "xl/workbook.xml"⟩,
                ⟨"rId1", .theme, "xl/workbook.xml", "theme/theme1.xml"⟩] := by
          decide
        rw [hl] at hrel
        simp only [List.mem_cons, List.mem_singleton, List.not_mem_nil, or_false] at hrel
        rcases hrel with rfl | rfl
        · exact absurd hor (by decide)
        · rfl)).2.2,
    by decide⟩


/-! ## The order of the tables of a style sheet (C30) -/

theorem read_stylesheet_children_step {F : Type} (vt : value_traits F)
    (xmlns xmlns_x14 : String) (fuel : Nat) (cur : event) (attrs : List (qname × String))
    (e : event) (he : e.type = .start_element) (rest : List event) (st : style_state F) :
    read_stylesheet_children vt xmlns xmlns_x14 (fuel + 1) ⟨cur, attrs, e :: rest⟩ st
      = match read_stylesheet_child vt xmlns xmlns_x14 ⟨e, e.attributes, rest⟩ st with
        | .fail e1 st1 => .fail e1 st1
        | .ok p2 st1 =>
          match p2.next_expect .end_element with
          | .error e1 => .fail e1 st1
          | .ok p3 => read_stylesheet_children vt xmlns xmlns_x14 fuel p3 st1 := by
  rw [read_stylesheet_children]
  simp [parser.peek, parser.next_expect, parser.next, he]

theorem read_stylesheet_children_counted {F : Type} (vt : value_traits F)
    (xmlns xmlns_x14 : String) (q : qname) (count : String) (children : List (List event))
    (matches_ : Bool) (st1 : style_state F) (fuel : Nat) (cur : event)
    (attrs : List (qname × String)) (tail : List event) (st : style_state F)
    (h : ∃ cur1 attrs1,
      read_stylesheet_child vt xmlns xmlns_x14 (table_start q count children tail) st
        = if matches_ = false then .fail (.exception "counts don't match") st1
          else .ok ⟨cur1, attrs1, ⟨.end_element, q, [], ""⟩ :: tail⟩ st1) :
    ∃ cur1 attrs1,
      read_stylesheet_children vt xmlns xmlns_x14 (fuel + 1)
          ⟨cur, attrs, element_events q [(⟨"", "count"⟩, count)] "" children.flatten ++ tail⟩ st
        = if matches_ = true then
            read_stylesheet_children vt xmlns xmlns_x14 fuel ⟨cur1, attrs1, tail⟩ st1
          else .fail (.exception "counts don't match") st1 := by
  obtain ⟨cur1, attrs1, h1⟩ := h
  simp only [element_events, text_events_empty, List.nil_append, List.cons_append, List.append_assoc, List.singleton_append,
    List.nil_append]
  rw [read_stylesheet_children_step vt xmlns xmlns_x14 fuel cur attrs _ rfl]
  have hp : (⟨⟨.start_element, q, [(⟨"", "count"⟩, count)], ""⟩,
      (⟨.start_element, q, [(⟨"", "count"⟩, count)], ""⟩ : event).attributes,
      children.flatten ++ ⟨.end_element, q, [], ""⟩ :: tail⟩ : parser)
      = table_start q count children tail := rfl
  rw [hp, h1]
  cases matches_
  · exact ⟨cur, attrs, by simp⟩
  · exact ⟨⟨.end_element, q, [], ""⟩, attrs1, by
      simp [parser.next_expect, parser.next]⟩


theorem if_ne_eq_if_decide {α : Type} (a b : Nat) (x y : α) :
    (if a ≠ b then x else y) = if decide (a = b) = false then x else y := by
  by_cases h : a = b <;> simp [h]

theorem read_stylesheet_children_table {F : Type} (vt : value_traits F)
    (xmlns xmlns_x14 : String) (t : style_table F) (hwf : t.well_formed vt xmlns)
    (fuel : Nat) (cur : event) (attrs : List (qname × String)) (tail : List event)
    (st : style_state F) (hfresh : t.fresh st) :
    ∃ cur1 attrs1 e,
      read_stylesheet_children vt xmlns xmlns_x14 (fuel + 1)
          ⟨cur, attrs, t.events xmlns ++ tail⟩ st
        = if t.accepted = true then
            read_stylesheet_children vt xmlns xmlns_x14 fuel ⟨cur1, attrs1, tail⟩ (t.store st)
          else .fail e (t.store st) := by
  have counted : ∀ (q : qname) (count : String) (children : List (List event))
      (matches_ : Bool) (st1 : style_state F),
      (∃ cur1 attrs1,
        read_stylesheet_child vt xmlns xmlns_x14 (table_start q count children tail) st
          = if matches_ = false then .fail (.exception "counts don't match") st1
            else .ok ⟨cur1, attrs1, ⟨.end_element, q, [], ""⟩ :: tail⟩ st1) →
      ∃ cur1 attrs1 e,
        read_stylesheet_children vt xmlns xmlns_x14 (fuel + 1)
            ⟨cur, attrs, element_events q [(⟨"", "count"⟩, count)] "" children.flatten ++ tail⟩
            st
          = if matches_ = true then
              read_stylesheet_children vt xmlns xmlns_x14 fuel ⟨cur1, attrs1, tail⟩ st1
            else .fail e st1 := by
    intro q count children matches_ st1 h
    obtain ⟨cur1, attrs1, h1⟩ := read_stylesheet_children_counted vt xmlns xmlns_x14 q count
      children matches_ st1 fuel cur attrs tail st h
    exact ⟨cur1, attrs1, _, h1⟩
  cases t with
  | borders count children =>
    obtain ⟨⟨hnum, hlt⟩, hparse⟩ := hwf
    apply counted
    obtain ⟨c, a, h⟩ := read_stylesheet_borders_count vt xmlns xmlns_x14 count children tail st
      hnum hlt hparse
    exact ⟨c, a, h.trans (if_ne_eq_if_decide _ _ _ _)⟩
  | fills count children =>
    obtain ⟨⟨hnum, hlt⟩, hparse⟩ := hwf
    apply counted
    obtain ⟨c, a, h⟩ := read_stylesheet_fills_count vt xmlns xmlns_x14 count children tail st
      hnum hlt hparse
    exact ⟨c, a, h.trans (if_ne_eq_if_decide _ _ _ _)⟩
  | fonts count children =>
    obtain ⟨⟨hnum, hlt⟩, hparse⟩ := hwf
    apply counted
    obtain ⟨c, a, h⟩ := read_stylesheet_fonts_count vt xmlns xmlns_x14 count children tail st
      hnum hlt hparse
    exact ⟨c, a, h.trans (if_ne_eq_if_decide _ _ _ _)⟩
  | number_formats attributes children =>
    refine ⟨⟨.end_element, ⟨xmlns, "numFmts"⟩, [], ""⟩, attributes, .parsing, ?_⟩
    cases children with
    | nil =>
      simp only [style_table.events, element_events, text_events_empty, List.nil_append, List.cons_append, List.nil_append,
        style_table.accepted, List.isEmpty_nil, if_true, style_table.store, List.map_nil,
        List.flatten_nil]
      rw [read_stylesheet_children_step vt xmlns xmlns_x14 fuel cur attrs _ rfl]
      simp [read_stylesheet_child, parser.qname, read_stylesheet_number_formats,
        read_number_formats, parser.peek, parser.next_expect, parser.next]
    | cons c cs =>
      have hns : xmlns ≠ "" := by
        rcases hwf with h | h
        · exact absurd h (by simp)
        · exact h
      have hq : ¬ (({ namespace_ := xmlns, name := "numFmt" } : qname)
          = { namespace_ := "", name := "numFmt" }) := by
        intro h
        exact hns (congrArg qname.namespace_ h)
      simp only [style_table.events, element_events, text_events_empty, List.nil_append, List.cons_append, List.nil_append,
        style_table.accepted, List.isEmpty_cons, Bool.false_eq_true, if_false,
        style_table.store, List.map_cons, List.flatten_cons, List.append_assoc,
        List.singleton_append]
      rw [read_stylesheet_children_step vt xmlns xmlns_x14 fuel cur attrs _ rfl]
      simp [read_stylesheet_child, parser.qname, read_stylesheet_number_formats,
        read_number_formats, parser.peek, parser.next_expect_qname, parser.next, hq]
  | cell_styles count entries =>
    obtain ⟨⟨hnum, hlt⟩, hentries⟩ := hwf
    apply counted
    obtain ⟨c, a, h⟩ := read_stylesheet_cell_styles_count vt xmlns xmlns_x14 count entries tail
      st hnum hlt hentries hfresh
    exact ⟨c, a, h.trans (if_ne_eq_if_decide _ _ _ _)⟩
  | cell_style_xfs count children =>
    obtain ⟨⟨hnum, hlt⟩, hparse⟩ := hwf
    apply counted
    obtain ⟨c, a, h⟩ := read_stylesheet_xfs_count vt xmlns xmlns_x14 true count children tail
      st hnum hlt hparse hfresh
    exact ⟨c, a, h.trans (if_ne_eq_if_decide _ _ _ _)⟩
  | cell_xfs count children =>
    obtain ⟨⟨hnum, hlt⟩, hparse⟩ := hwf
    apply counted
    obtain ⟨c, a, h⟩ := read_stylesheet_xfs_count vt xmlns xmlns_x14 false count children tail
      st hnum hlt hparse hfresh
    exact ⟨c, a, h.trans (if_ne_eq_if_decide _ _ _ _)⟩

theorem style_table_fresh_store {F : Type} (t t1 : style_table F) (st : style_state F)
    (hk : t.kind ≠ t1.kind) (h : t1.fresh st) : t1.fresh (t.store st) := by
  cases t <;> cases t1 <;>
    first
    | exact absurd rfl hk
    | exact h

theorem style_table_store_comm {F : Type} (t t1 : style_table F) (st : style_state F)
    (hk : t.kind ≠ t1.kind) : t1.store (t.store st) = t.store (t1.store st) := by
  cases t <;> cases t1 <;>
    first
    | exact absurd rfl hk
    | rfl

theorem style_table_events_length {F : Type} (xmlns : String) (tables : List (style_table F)) :
    tables.length ≤ (tables.map (style_table.events xmlns)).flatten.length := by
  induction tables with
  | nil => simp
  | cons t ts ih =>
    simp only [List.map_cons, List.flatten_cons, List.length_append, List.length_cons]
    have : 1 ≤ (t.events xmlns).length := by
      cases t <;> simp [style_table.events, element_events]
    omega

theorem read_stylesheet_children_tables {F : Type} (vt : value_traits F)
    (xmlns xmlns_x14 : String) (e_end : event) (he : e_end.type = .end_element)
    (tail : List event) :
    ∀ (tables : List (style_table F)) (fuel : Nat) (cur : event)
      (attrs : List (qname × String)) (st : style_state F),
      tables.length < fuel →
      (∀ t ∈ tables, t.well_formed vt xmlns) →
      (tables.map style_table.kind).Nodup →
      (∀ t ∈ tables, t.fresh st) →
      (tables.all style_table.accepted = true →
        ∃ cur1 attrs1,
          read_stylesheet_children vt xmlns xmlns_x14 fuel
              ⟨cur, attrs, (tables.map (style_table.events xmlns)).flatten ++ e_end :: tail⟩ st
            = .ok ⟨cur1, attrs1, e_end :: tail⟩ (tables.foldl (fun s t => t.store s) st))
      ∧ (tables.all style_table.accepted = false →
        ∃ e s,
          read_stylesheet_children vt xmlns xmlns_x14 fuel
              ⟨cur, attrs, (tables.map (style_table.events xmlns)).flatten ++ e_end :: tail⟩ st
            = .fail e s) := by
  intro tables
  induction tables with
  | nil =>
    intro fuel cur attrs st hfuel _ _ _
    obtain ⟨f, rfl⟩ : ∃ f, fuel = f + 1 := ⟨fuel - 1, by simp at hfuel; omega⟩
    constructor
    · intro _
      exact ⟨cur, attrs, by simp [read_stylesheet_children, parser.peek, he]⟩
    · intro h
      simp at h
  | cons t ts ih =>
    intro fuel cur attrs st hfuel hwf hnodup hfresh
    obtain ⟨f, rfl⟩ : ∃ f, fuel = f + 1 := ⟨fuel - 1, by simp at hfuel; omega⟩
    obtain ⟨cur1, attrs1, e1, h1⟩ := read_stylesheet_children_table vt xmlns xmlns_x14 t
      (hwf t (List.mem_cons_self _ _)) f cur attrs
      ((ts.map (style_table.events xmlns)).flatten ++ e_end :: tail) st
      (hfresh t (List.mem_cons_self _ _))
    simp only [List.map_cons, List.nodup_cons] at hnodup
    have hk : ∀ t1 ∈ ts, t.kind ≠ t1.kind := by
      intro t1 ht1 heq
      exact hnodup.1 (heq ▸ List.mem_map_of_mem _ ht1)
    have hrec := ih f cur1 attrs1 (t.store st) (by simp at hfuel; omega)
      (fun t1 ht1 => hwf t1 (List.mem_cons_of_mem _ ht1)) hnodup.2
      (fun t1 ht1 => style_table_fresh_store t t1 st (hk t1 ht1)
        (hfresh t1 (List.mem_cons_of_mem _ ht1)))
    simp only [List.map_cons, List.flatten_cons, List.append_assoc, List.all_cons,
      List.foldl_cons]
    rw [h1]
    cases hm : t.accepted
    · constructor
      · intro h
        simp at h
      · intro _
        exact ⟨e1, t.store st, by simp⟩
    · simp only [if_true, Bool.true_and]
      exact hrec


theorem resolve_style_position {F : Type} (general : number_format)
    (from_builtin_id : Nat → Except error number_format) (record : formatting_record)
    (data : Option style_data) (p p1 : parser) (ss : stylesheet F) :
    resolve_style general from_builtin_id record data p ss
      = match resolve_style general from_builtin_id record data p1 ss with
        | .ok _ s => .ok p s
        | .fail e s => .fail e s := by
  unfold resolve_style
  cases data with
  | none => rfl
  | some d =>
    simp only []
    cases ss.borders[record.border_id.1]? with
    | none => rfl
    | some b =>
      simp only []
      cases ss.fills[record.fill_id.1]? with
      | none => rfl
      | some fl =>
        simp only []
        cases ss.fonts[record.font_id.1]? with
        | none => rfl
        | some fn =>
          simp only []
          cases lookup_number_format general from_builtin_id ss.number_formats
              record.number_format_id.1 <;> rfl

theorem resolve_styles_position {F : Type} (general : number_format)
    (from_builtin_id : Nat → Except error number_format) :
    ∀ (records : List formatting_record) (datas : List style_data) (p p1 : parser)
      (ss : stylesheet F),
      resolve_styles general from_builtin_id records datas p ss
        = match resolve_styles general from_builtin_id records datas p1 ss with
          | .ok _ s => .ok p s
          | .fail e s => .fail e s := by
  intro records
  induction records with
  | nil => intro datas p p1 ss; rfl
  | cons r rs ih =>
    intro datas p p1 ss
    simp only [resolve_styles]
    rw [resolve_style_position general from_builtin_id r datas.head? p p1 ss]
    cases resolve_style general from_builtin_id r datas.head? p1 ss with
    | fail e s => rfl
    | ok p2 s =>
      simp only []
      rw [ih datas.tail p p2 s]

theorem resolve_format_position {F : Type} (general : number_format)
    (from_builtin_id : Nat → Except error number_format) (record : formatting_record)
    (p p1 : parser) (ss : stylesheet F) :
    resolve_format general from_builtin_id record p ss
      = match resolve_format general from_builtin_id record p1 ss with
        | .ok _ s => .ok p s
        | .fail e s => .fail e s := by
  unfold resolve_format
  cases ss.styles[record.style_id.1]? with
  | none => rfl
  | some d =>
    simp only []
    cases ss.borders[record.border_id.1]? with
    | none => rfl
    | some b =>
      simp only []
      cases ss.fills[record.fill_id.1]? with
      | none => rfl
      | some fl =>
        simp only []
        cases ss.fonts[record.font_id.1]? with
        | none => rfl
        | some fn =>
          simp only []
          cases lookup_number_format general from_builtin_id ss.number_formats
              record.number_format_id.1 <;> rfl

theorem resolve_formats_position {F : Type} (general : number_format)
    (from_builtin_id : Nat → Except error number_format) :
    ∀ (records : List formatting_record) (p p1 : parser) (ss : stylesheet F),
      resolve_formats general from_builtin_id records p ss
        = match resolve_formats general from_builtin_id records p1 ss with
          | .ok _ s => .ok p s
          | .fail e s => .fail e s := by
  intro records
  induction records with
  | nil => intro p p1 ss; rfl
  | cons r rs ih =>
    intro p p1 ss
    simp only [resolve_formats]
    rw [resolve_format_position general from_builtin_id r p p1 ss]
    cases resolve_format general from_builtin_id r p1 ss with
    | fail e s => rfl
    | ok p2 s =>
      simp only []
      rw [ih p p2 s]

theorem resolve_records_value {F : Type} (general : number_format)
    (from_builtin_id : Nat → Except error number_format) (p p1 : parser) (st : style_state F) :
    (resolve_records general from_builtin_id p st).value?
      = (resolve_records general from_builtin_id p1 st).value? := by
  unfold resolve_records
  rw [resolve_styles_position general from_builtin_id st.style_records st.style_datas p p1]
  cases resolve_styles general from_builtin_id st.style_records st.style_datas p1
      st.stylesheet with
  | fail e s => rfl
  | ok p2 s =>
    simp only []
    rw [resolve_formats_position general from_builtin_id st.format_records p p2]
    cases resolve_formats general from_builtin_id st.format_records p2 s <;> rfl

theorem stylesheet_body_peek {F : Type} (xmlns : String) (tables : List (style_table F))
    (cur : event) (attrs : List (qname × String)) (e_end : event)
    (he : e_end.type = .end_element) (tail : List event) :
    parser.peek ⟨cur, attrs, (tables.map (style_table.events xmlns)).flatten ++ e_end :: tail⟩
      ≠ .start_namespace_decl := by
  cases tables with
  | nil => simp [parser.peek, he]
  | cons t ts => cases t <;> simp [parser.peek, style_table.events, element_events]

theorem read_stylesheet_tables {F : Type} (vt : value_traits F) (general : number_format)
    (from_builtin_id : Nat → Except error number_format) (xmlns xmlns_x14 xmlns_x14ac : String)
    (tables : List (style_table F)) (ss : stylesheet F)
    (hwf : ∀ t ∈ tables, t.well_formed vt xmlns)
    (hnodup : (tables.map style_table.kind).Nodup) :
    (read_stylesheet vt general from_builtin_id xmlns xmlns_x14 xmlns_x14ac
        (parser.of_events (stylesheet_events xmlns tables)) ss).value?
      = if tables.all style_table.accepted = true then
          (resolve_records general from_builtin_id (parser.of_events [])
            (tables.foldl (fun s t => t.store s) ({ stylesheet := ss } : style_state F))).value?
        else none := by
  have hloop := read_stylesheet_children_tables vt xmlns xmlns_x14
    ⟨.end_element, ⟨xmlns, "styleSheet"⟩, [], ""⟩ rfl [] tables
    (((tables.map (style_table.events xmlns)).flatten
      ++ [(⟨.end_element, ⟨xmlns, "styleSheet"⟩, [], ""⟩ : event)]).length + 1)
    ⟨.start_element, ⟨xmlns, "styleSheet"⟩, [], ""⟩ []
    ({ stylesheet := ss } : style_state F)
    (by
      have := style_table_events_length xmlns tables
      simp only [List.length_append, List.length_cons, List.length_nil]
      omega)
    hwf hnodup
    (by
      intro t _
      cases t <;> first | rfl | trivial)
  have hpeek := stylesheet_body_peek xmlns tables
    ⟨.start_element, ⟨xmlns, "styleSheet"⟩, [], ""⟩ []
    ⟨.end_element, ⟨xmlns, "styleSheet"⟩, [], ""⟩ rfl []
  unfold read_stylesheet
  simp only [stylesheet_events, element_events, text_events_empty, List.nil_append, parser.of_events, parser.next_expect_qname,
    parser.next, and_self, if_true, read_stylesheet_namespaces, hpeek, ne_eq,
    not_false_eq_true]
  cases hall : tables.all style_table.accepted
  · obtain ⟨e, s, h⟩ := hloop.2 hall
    rw [h]
    simp [res.value?]
  · obtain ⟨cur1, attrs1, h⟩ := hloop.1 hall
    rw [h]
    simp only [parser.next_expect_qname, parser.next, and_self, if_true]
    exact resolve_records_value general from_builtin_id _ _ _


/-- C30: for top-level tables of pairwise different kinds, each well formed, the
style sheet with the tables in the order `permuted` is read as the one with the
tables in the order `tables`: either both reads raise, or both return, and with the
same style table, so the same fonts, fills, borders, number formats, Cell Styles and
Cell Formats.  Both return exactly when every declared count matches, `numFmts` has
no child, and the resolution pass on the filled vectors returns. -/
theorem read_stylesheet_order_independent {F : Type} (vt : value_traits F)
    (general : number_format) (from_builtin_id : Nat → Except error number_format)
    (xmlns xmlns_x14 xmlns_x14ac : String) (tables permuted : List (style_table F))
    (ss : stylesheet F) (hperm : tables.Perm permuted)
    (hwf : ∀ t ∈ tables, t.well_formed vt xmlns)
    (hnodup : (tables.map style_table.kind).Nodup) :
    (read_stylesheet vt general from_builtin_id xmlns xmlns_x14 xmlns_x14ac
        (parser.of_events (stylesheet_events xmlns permuted)) ss).value?
      = (read_stylesheet vt general from_builtin_id xmlns xmlns_x14 xmlns_x14ac
          (parser.of_events (stylesheet_events xmlns tables)) ss).value?
    ∧ (read_stylesheet vt general from_builtin_id xmlns xmlns_x14 xmlns_x14ac
        (parser.of_events (stylesheet_events xmlns tables)) ss).value?
      = if tables.all style_table.accepted = true then
          (resolve_records general from_builtin_id (parser.of_events [])
            (tables.foldl (fun s t => t.store s) ({ stylesheet := ss } : style_state F))).value?
        else none := by
  have h1 := read_stylesheet_tables vt general from_builtin_id xmlns xmlns_x14 xmlns_x14ac
    tables ss hwf hnodup
  have h2 := read_stylesheet_tables vt general from_builtin_id xmlns xmlns_x14 xmlns_x14ac
    permuted ss (fun t ht => hwf t (hperm.mem_iff.mpr ht))
    ((List.Perm.nodup_iff (hperm.map style_table.kind)).mp hnodup)
  refine ⟨?_, h1⟩
  have hall : permuted.all style_table.accepted = tables.all style_table.accepted := by
    rw [List.all_eq, List.all_eq]
    exact decide_eq_decide.mpr
      ⟨fun h x hx => h x (hperm.mem_iff.mp hx), fun h x hx => h x (hperm.mem_iff.mpr hx)⟩
  have hfold : permuted.foldl (fun s t => t.store s) ({ stylesheet := ss } : style_state F)
      = tables.foldl (fun s t => t.store s) ({ stylesheet := ss } : style_state F) := by
    refine (List.Perm.foldl_eq' hperm ?_ _).symm
    intro x hx y hy z
    by_cases hxy : x = y
    · rw [hxy]
    · exact style_table_store_comm x y z
        (fun hk => hxy (List.inj_on_of_nodup_map hnodup hx hy hk))
  rw [h1, h2, hall, hfold]

/-- C30, on the sample tables: read with `cellXfs` first and `fonts` last, the style
sheet gives the same style table as with `fonts` first and `cellXfs` last, and it
holds two Cell Styles and one Cell Format. -/
theorem read_stylesheet_order_independent_witness :
    (read_stylesheet sample_traits ⟨"General", 0⟩ sample_builtin "ns" "x14" "x14ac"
        (parser.of_events (stylesheet_events "ns" sample_style_tables.reverse)) {}).value?
      = (read_stylesheet sample_traits ⟨"General", 0⟩ sample_builtin "ns" "x14" "x14ac"
          (parser.of_events (stylesheet_events "ns" sample_style_tables)) {}).value?
    ∧ ((read_stylesheet sample_traits ⟨"General", 0⟩ sample_builtin "ns" "x14" "x14ac"
          (parser.of_events (stylesheet_events "ns" sample_style_tables)) {}).value?.map
        (fun ss => (ss.styles.length, ss.formats.length))) = some (2, 1) :=
  ⟨(read_stylesheet_order_independent sample_traits ⟨"General", 0⟩ sample_builtin
      "ns" "x14" "x14ac" sample_style_tables sample_style_tables.reverse {}
      (List.reverse_perm _).symm
      (by
        intro t ht
        simp only [sample_style_tables, List.mem_cons, List.mem_singleton, List.not_mem_nil,
          or_false] at ht
        rcases ht with rfl | rfl | rfl | rfl | rfl | rfl | rfl
        · exact ⟨⟨by decide, by decide⟩, sample_font_children_parse⟩
        · exact ⟨⟨by decide, by decide⟩, sample_fill_children_parse⟩
        · exact ⟨⟨by decide, by decide⟩, fun c hc =>
            sample_border_children_parse c ((List.mem_append.mp hc).elim id id)⟩
        · exact Or.inl rfl
        · exact ⟨⟨by decide, by decide⟩, fun c hc =>
            sample_xf_children_parse c (List.mem_append_left _ hc)⟩
        · exact ⟨⟨by decide, by decide⟩, by decide⟩
        · exact ⟨⟨by decide, by decide⟩, fun c hc =>
            sample_xf_children_parse c (List.mem_append_right _ hc)⟩)
      (by decide)).1,
    by rfl⟩


/-! ## Cells: shared formulas and data-only mode (C31) -/

theorem store_cell_value_formula_calls {F : Type} (stold : String → Except error F)
    (shared_strings : List text) (has_type : Bool) (type : String) (l : cell_locals)
    (ref formula : String) (w w1 : worksheet F)
    (h : store_cell_value stold shared_strings has_type type l ref w = .ok w1)
    (hm : (ref, cell_call.set_formula formula) ∈ w1.cell_calls) :
    (ref, cell_call.set_formula formula) ∈ w.cell_calls := by
  have hcall : ∀ c : cell_call F, (∀ f, c ≠ .set_formula f) →
      (ref, cell_call.set_formula formula) ∈ (w.call ref c).cell_calls →
      (ref, cell_call.set_formula formula) ∈ w.cell_calls := by
    intro c hc hin
    simp only [worksheet.call, List.mem_append, List.mem_singleton, Prod.mk.injEq] at hin
    rcases hin with hin | hin
    · exact hin
    · exact absurd hin.2.symm (hc formula)
  unfold store_cell_value at h
  split at h
  · cases h
    exact hcall _ (fun f hf => by cases hf) hm
  · split at h
    · split at h
      · cases h
      · split at h
        · cases h
        · cases h
          exact hcall _ (fun f hf => by cases hf) hm
    · split at h
      · cases h
        exact hcall _ (fun f hf => by cases hf) hm
      · split at h
        · split at h
          · cases h
            exact hcall _ (fun f hf => by cases hf) hm
          · split at h
            · cases h
            · cases h
              exact hcall _ (fun f hf => by cases hf) hm
        · cases h
          exact hm

/-- The loop over the children `f` and `v` of a cell when both are empty. -/
theorem read_cell_children_formula_value (xmlns : String) (fuel : Nat) (hfuel : 3 ≤ fuel)
    (cur : event) (attrs fattrs vattrs : List (qname × String))
    (e_end : event) (he : e_end.type = .end_element) (tail : List event) :
    read_cell_children xmlns fuel
        ⟨cur, attrs, element_events ⟨xmlns, "f"⟩ fattrs "" []
          ++ element_events ⟨xmlns, "v"⟩ vattrs "" [] ++ e_end :: tail⟩ {}
      = .ok (⟨⟨.end_element, ⟨xmlns, "v"⟩, [], ""⟩, vattrs, e_end :: tail⟩,
          { has_value := true
            value_string := ""
            has_formula := true
            has_shared_formula := decide (lookup_attribute ⟨"", "t"⟩ fattrs = some "shared")
            formula_value_string := "" }) := by
  obtain ⟨f, rfl⟩ : ∃ f, fuel = f + 3 := ⟨fuel - 3, by omega⟩
  rcases hft : lookup_attribute ⟨"", "t"⟩ fattrs with _ | fv <;>
  simp [read_cell_children, read_cell_child, element_events, parser.peek, parser.next_expect,
    parser.next_expect_qname, parser.next, parser.qname, parser.value, parser.attribute,
    parser.attribute_present, hft, he]

/-- A cell with an empty formula that is shared, or read in data-only mode, and an empty
cached value gets no formula. -/
theorem read_cell_empty_formula_no_formula_call {F : Type} (xmlns : String)
    (stold : String → Except error F) (shared_strings : List text)
    (formats : List (format F)) (data_only : Bool) (ws : worksheet F)
    (cur : event) (attrs cattrs fattrs vattrs : List (qname × String)) (tail : List event)
    (ref : String)
    (hr : lookup_attribute ⟨"", "r"⟩ cattrs = some ref)
    (hshared : data_only = true ∨ lookup_attribute ⟨"", "t"⟩ fattrs = some "shared")
    (formula : String)
    (hm : (ref, cell_call.set_formula formula)
      ∈ (read_cell xmlns stold shared_strings formats data_only
          ⟨cur, attrs, element_events ⟨xmlns, "c"⟩ cattrs ""
            (element_events ⟨xmlns, "f"⟩ fattrs "" []
              ++ element_events ⟨xmlns, "v"⟩ vattrs "" []) ++ tail⟩ ws).state.cell_calls) :
    (ref, cell_call.set_formula formula) ∈ ws.cell_calls := by
  have hcall : ∀ (w : worksheet F) (c : cell_call F), (∀ f, c ≠ .set_formula f) →
      (ref, cell_call.set_formula formula) ∈ (w.call ref c).cell_calls →
      (ref, cell_call.set_formula formula) ∈ w.cell_calls := by
    intro w c hc hin
    simp only [worksheet.call, List.mem_append, List.mem_singleton, Prod.mk.injEq] at hin
    rcases hin with hin | hin
    · exact hin
    · exact absurd hin.2.symm (hc formula)
  have hget : (ref, cell_call.set_formula formula) ∈ (ws.call ref .get_cell).cell_calls →
      (ref, cell_call.set_formula formula) ∈ ws.cell_calls :=
    hcall ws _ (fun f hf => by cases hf)
  have hstore : ∀ w : worksheet F, store_cell_formula data_only
      { has_value := true
        value_string := ""
        has_formula := true
        has_shared_formula := decide (lookup_attribute ⟨"", "t"⟩ fattrs = some "shared")
        formula_value_string := "" } ref w = w := by
    intro w
    unfold store_cell_formula
    rcases hshared with h | h
    · simp [h]
    · simp [h]
  have hattr : (⟨⟨.start_element, ⟨xmlns, "c"⟩, cattrs, ""⟩, cattrs,
      element_events ⟨xmlns, "f"⟩ fattrs "" [] ++ element_events ⟨xmlns, "v"⟩ vattrs "" []
        ++ ⟨.end_element, ⟨xmlns, "c"⟩, [], ""⟩ :: tail⟩ : parser).attribute "r" = .ok ref := by
    simp [parser.attribute, hr]
  have hch := read_cell_children_formula_value xmlns
    ((element_events ⟨xmlns, "f"⟩ fattrs "" [] ++ element_events ⟨xmlns, "v"⟩ vattrs "" []
      ++ (⟨.end_element, ⟨xmlns, "c"⟩, [], ""⟩ : event) :: tail).length + 1)
    (by simp [element_events])
    ⟨.start_element, ⟨xmlns, "c"⟩, cattrs, ""⟩ cattrs fattrs vattrs
    ⟨.end_element, ⟨xmlns, "c"⟩, [], ""⟩ rfl tail
  have hp : (⟨cur, attrs, element_events ⟨xmlns, "c"⟩ cattrs ""
      (element_events ⟨xmlns, "f"⟩ fattrs "" []
        ++ element_events ⟨xmlns, "v"⟩ vattrs "" []) ++ tail⟩ : parser).next_expect_qname
        .start_element ⟨xmlns, "c"⟩
      = .ok ⟨⟨.start_element, ⟨xmlns, "c"⟩, cattrs, ""⟩, cattrs,
          element_events ⟨xmlns, "f"⟩ fattrs "" [] ++ element_events ⟨xmlns, "v"⟩ vattrs "" []
            ++ ⟨.end_element, ⟨xmlns, "c"⟩, [], ""⟩ :: tail⟩ := by
    simp [parser.next_expect_qname, parser.next, element_events]
  unfold read_cell at hm
  rw [hp] at hm
  simp only [hattr, hch, hstore] at hm
  split at hm
  · exact hget hm
  · split at hm
    · exact hget hm
    · rename_i ws3 hws3
      have h3 : (ref, cell_call.set_formula formula) ∈ ws3.cell_calls →
          (ref, cell_call.set_formula formula) ∈ ws.cell_calls :=
        fun h => hget (store_cell_value_formula_calls stold shared_strings _ _ _ ref formula
          _ ws3 hws3 h)
      split at hm
      · exact h3 hm
      · rename_i ws4 hws4
        have h4 : (ref, cell_call.set_formula formula) ∈ ws4.cell_calls →
            (ref, cell_call.set_formula formula) ∈ ws.cell_calls := by
          intro h
          split at hws4
          · split at hws4
            · cases hws4
              exact h3 (hcall ws3 _ (fun f hf => by cases hf) h)
            · cases hws4
          · cases hws4
            exact h3 h
        split at hm
        · exact h4 hm
        · exact h4 hm

/-- C31 (what the code does): a cell whose children are a formula `f` and a cached value
`v`, the formula being marked `t="shared"` or the workbook being in data-only mode.  No
formula is stored on the cell, whatever the texts: lines 1571-1574 store none for such a
formula.  A cached value with text is not interpreted at all: the text is a `characters`
event, `parser.value()` is taken at the start tag (source lines 1553 and 1559) and the
end tag is asked for where the event comes (line 1568), so the cell is fetched,
`xml::parsing` is raised and no value is stored; the same cell without the formula child
raises in the same way, and the reader of the worksheet part raises with the cell. -/
theorem read_cell_shared_formula_raises {F : Type} (cx : worksheet_context F)
    (xmlns xmlns_x14ac : String) (ws : worksheet F) (cur : event)
    (attrs cattrs fattrs vattrs : List (qname × String)) (tail : List event)
    (ref ftxt vtxt : String)
    (hr : lookup_attribute ⟨"", "r"⟩ cattrs = some ref)
    (hs : ∀ v, lookup_attribute ⟨"", "s"⟩ cattrs = some v → ∃ id, stoull v = .ok id)
    (hshared : cx.data_only = true ∨ lookup_attribute ⟨"", "t"⟩ fattrs = some "shared") :
    (vtxt ≠ "" →
      read_cell xmlns cx.stold cx.shared_strings cx.formats cx.data_only
          ⟨cur, attrs, element_events ⟨xmlns, "c"⟩ cattrs ""
            (element_events ⟨xmlns, "f"⟩ fattrs ftxt []
              ++ element_events ⟨xmlns, "v"⟩ vattrs vtxt []) ++ tail⟩ ws
        = .fail .parsing (ws.call ref .get_cell)
      ∧ read_cell xmlns cx.stold cx.shared_strings cx.formats cx.data_only
          ⟨cur, attrs, element_events ⟨xmlns, "c"⟩ cattrs ""
            (element_events ⟨xmlns, "v"⟩ vattrs vtxt []) ++ tail⟩ ws
        = .fail .parsing (ws.call ref .get_cell)
      ∧ read_worksheet_body cx xmlns xmlns_x14ac
          (parser.of_events (one_row_worksheet_events xmlns
            (element_events ⟨xmlns, "c"⟩ cattrs ""
              (element_events ⟨xmlns, "f"⟩ fattrs ftxt []
                ++ element_events ⟨xmlns, "v"⟩ vattrs vtxt [])))) ws
        = .fail .parsing (ws.call ref .get_cell))
    ∧ (∀ formula : String,
        (ref, cell_call.set_formula formula)
            ∈ (read_cell xmlns cx.stold cx.shared_strings cx.formats cx.data_only
                ⟨cur, attrs, element_events ⟨xmlns, "c"⟩ cattrs ""
                  (element_events ⟨xmlns, "f"⟩ fattrs ftxt []
                    ++ element_events ⟨xmlns, "v"⟩ vattrs vtxt []) ++ tail⟩ ws).state.cell_calls →
          (ref, cell_call.set_formula formula) ∈ ws.cell_calls)
    ∧ ∀ l : cell_locals, l.has_shared_formula = true ∨ cx.data_only = true →
        store_cell_formula cx.data_only l ref ws = ws := by
  have hget : ∀ formula : String,
      (ref, cell_call.set_formula formula) ∈ (ws.call ref .get_cell).cell_calls →
      (ref, cell_call.set_formula formula) ∈ ws.cell_calls := by
    intro formula hin
    simp only [worksheet.call, List.mem_append, List.mem_singleton, Prod.mk.injEq] at hin
    rcases hin with hin | hin
    · exact hin
    · cases hin.2
  have hfv : ∀ (cur : event) (attrs : List (qname × String)) (tail : List event),
      vtxt ≠ "" →
      read_cell xmlns cx.stold cx.shared_strings cx.formats cx.data_only
          ⟨cur, attrs, element_events ⟨xmlns, "c"⟩ cattrs ""
            (element_events ⟨xmlns, "f"⟩ fattrs ftxt []
              ++ element_events ⟨xmlns, "v"⟩ vattrs vtxt []) ++ tail⟩ ws
        = .fail .parsing (ws.call ref .get_cell) := by
    intro cur attrs tail hv
    exact read_cell_formula_value_text xmlns cx.stold cx.shared_strings cx.formats cx.data_only
      ws cur attrs cattrs fattrs vattrs tail ref ftxt vtxt true hr hs hv
  refine ⟨?_, ?_, ?_⟩
  · intro hv
    refine ⟨hfv cur attrs tail hv, ?_, ?_⟩
    · have := read_cell_first_child_text xmlns cx.stold cx.shared_strings cx.formats
        cx.data_only ws cur attrs cattrs vattrs ⟨xmlns, "v"⟩ [] tail ref vtxt hr hs hv
      simpa using this
    · exact read_worksheet_body_first_cell_raises cx xmlns xmlns_x14ac _ ws _ .parsing
        ⟨_, _, rfl, rfl⟩ (hfv _ _ _ hv)
  · intro formula hm
    by_cases hv : vtxt = ""
    · by_cases hf : ftxt = ""
      · subst hv hf
        exact read_cell_empty_formula_no_formula_call xmlns cx.stold cx.shared_strings
          cx.formats cx.data_only ws cur attrs cattrs fattrs vattrs tail ref hr hshared
          formula hm
      · rw [read_cell_first_child_text xmlns cx.stold cx.shared_strings cx.formats
          cx.data_only ws cur attrs cattrs fattrs ⟨xmlns, "f"⟩ _ tail ref ftxt hr hs hf] at hm
        exact hget formula hm
    · rw [hfv cur attrs tail hv] at hm
      exact hget formula hm
  · intro l hl
    unfold store_cell_formula
    rcases hl with h | h <;> simp [h]

/-- C31, witness: the worksheet part whose one row holds the cell
`<c r="A1"><f t="shared">B1</f><v>7</v></c>` raises `xml::parsing` after A1 was fetched;
the cached value 7 is not stored. -/
theorem read_cell_shared_formula_raises_witness :
    (lookup_attribute ⟨"", "r"⟩ [((⟨"", "r"⟩ : qname), "A1")] = some "A1"
      ∧ lookup_attribute ⟨"", "t"⟩ [((⟨"", "t"⟩ : qname), "shared")] = some "shared"
      ∧ "7" ≠ "")
    ∧ read_worksheet_body (⟨sample_traits, stold_decimal, [], [], false⟩ : worksheet_context Nat)
        "ns" "x14ac"
        (parser.of_events (one_row_worksheet_events "ns"
          (element_events ⟨"ns", "c"⟩ [(⟨"", "r"⟩, "A1")] ""
            (element_events ⟨"ns", "f"⟩ [(⟨"", "t"⟩, "shared")] "B1" []
              ++ element_events ⟨"ns", "v"⟩ [] "7" [])))) {}
      = .fail .parsing { cell_calls := [("A1", .get_cell)] } :=
  ⟨⟨by decide, by decide, by decide⟩,
    ((read_cell_shared_formula_raises ⟨sample_traits, stold_decimal, [], [], false⟩ "ns"
      "x14ac" {} eof_event [] [(⟨"", "r"⟩, "A1")] [(⟨"", "t"⟩, "shared")] [] [] "A1" "B1" "7"
      (by decide) (fun v h => by simp [lookup_attribute] at h) (Or.inr (by decide))).1
      (by decide)).2.2⟩

/-! ## Nested `alignment` and `protection` elements of an `xf` record (C32) -/

theorem read_xf_attributes_flags (xmlns : String) (xattrs : List (qname × String))
    (hidx : ∀ n ∈ ["borderId", "fillId", "fontId", "numFmtId"],
      ∀ v, lookup_attribute ⟨"", n⟩ xattrs = some v → ∃ x, stoull v = .ok x)
    (r1 : List event) :
    ∃ b fl fn nf,
      read_xf_attributes ⟨⟨.start_element, ⟨xmlns, "xf"⟩, xattrs, ""⟩, xattrs, r1⟩
        = .ok { alignment := ({}, (lookup_attribute ⟨"", "applyAlignment"⟩ xattrs).elim false is_true)
                border_id := (b, (lookup_attribute ⟨"", "applyBorder"⟩ xattrs).elim false is_true)
                fill_id := (fl, (lookup_attribute ⟨"", "applyFill"⟩ xattrs).elim false is_true)
                font_id := (fn, (lookup_attribute ⟨"", "applyFont"⟩ xattrs).elim false is_true)
                number_format_id :=
                  (nf, (lookup_attribute ⟨"", "applyNumberFormat"⟩ xattrs).elim false is_true)
                protection :=
                  ({}, (lookup_attribute ⟨"", "applyProtection"⟩ xattrs).elim false is_true) } := by
  have hname : (⟨⟨.start_element, ⟨xmlns, "xf"⟩, xattrs, ""⟩, xattrs, r1⟩ : parser).name = "xf" :=
    rfl
  obtain ⟨b, hb⟩ := attribute_index_total
    ⟨⟨.start_element, ⟨xmlns, "xf"⟩, xattrs, ""⟩, xattrs, r1⟩ "borderId"
    (hidx "borderId" (by simp))
  obtain ⟨fl, hfl⟩ := attribute_index_total
    ⟨⟨.start_element, ⟨xmlns, "xf"⟩, xattrs, ""⟩, xattrs, r1⟩ "fillId"
    (hidx "fillId" (by simp))
  obtain ⟨fn, hfn⟩ := attribute_index_total
    ⟨⟨.start_element, ⟨xmlns, "xf"⟩, xattrs, ""⟩, xattrs, r1⟩ "fontId"
    (hidx "fontId" (by simp))
  obtain ⟨nf, hnf⟩ := attribute_index_total
    ⟨⟨.start_element, ⟨xmlns, "xf"⟩, xattrs, ""⟩, xattrs, r1⟩ "numFmtId"
    (hidx "numFmtId" (by simp))
  refine ⟨b, fl, fn, nf, ?_⟩
  simp [read_xf_attributes, hb, hfl, hfn, hnf, attribute_applied_eq, hname]

/-- C32 (what the code does): for an `xf` element whose index attributes convert.
Without nested element the alignment and the protection are the default ones, each
with a flag that is true exactly when its `apply*` attribute is present with the value
"1" or "true".  With a nested `alignment` element that `read_alignment` accepts, the
flag of the alignment is true exactly when `applyAlignment` is absent or is "1" or
"true".  With a nested `protection` element the record is not read: `read_protection`
asks for the start tag of `protection` once more, the end tag comes, and `xml::parsing`
is raised. -/
theorem read_xf_nested_flags {F : Type} (vt : value_traits F) (xmlns : String)
    (xattrs aattrs pattrs : List (qname × String)) (a : alignment) (cur : event)
    (attrs : List (qname × String)) (rest : List event)
    (hidx : ∀ n ∈ ["borderId", "fillId", "fontId", "numFmtId"],
      ∀ v, lookup_attribute ⟨"", n⟩ xattrs = some v → ∃ x, stoull v = .ok x)
    (ha : ∀ p : parser, p.attrs = aattrs → read_alignment vt p = .ok a) :
    (∃ p r,
      read_xf vt xmlns ⟨cur, attrs, element_events ⟨xmlns, "xf"⟩ xattrs "" [] ++ rest⟩
        = .ok (p, r)
      ∧ r.alignment = ({}, (lookup_attribute ⟨"", "applyAlignment"⟩ xattrs).elim false is_true)
      ∧ r.protection
          = ({}, (lookup_attribute ⟨"", "applyProtection"⟩ xattrs).elim false is_true))
    ∧ (∃ p r,
      read_xf vt xmlns
          ⟨cur, attrs, element_events ⟨xmlns, "xf"⟩ xattrs ""
            (element_events ⟨xmlns, "alignment"⟩ aattrs "" []) ++ rest⟩
        = .ok (p, r)
      ∧ r.alignment = (a, (lookup_attribute ⟨"", "applyAlignment"⟩ xattrs).elim true is_true)
      ∧ r.protection
          = ({}, (lookup_attribute ⟨"", "applyProtection"⟩ xattrs).elim false is_true))
    ∧ read_xf vt xmlns
          ⟨cur, attrs, element_events ⟨xmlns, "xf"⟩ xattrs ""
            (element_events ⟨xmlns, "protection"⟩ pattrs "" []) ++ rest⟩
        = .error .parsing := by
  refine ⟨?_, ?_, ?_⟩
  · obtain ⟨b, fl, fn, nf, h⟩ := read_xf_attributes_flags xmlns xattrs hidx
      (⟨.end_element, ⟨xmlns, "xf"⟩, [], ""⟩ :: rest)
    refine ⟨⟨⟨.end_element, ⟨xmlns, "xf"⟩, [], ""⟩, xattrs, rest⟩,
      { alignment := ({}, (lookup_attribute ⟨"", "applyAlignment"⟩ xattrs).elim false is_true)
        border_id := (b, (lookup_attribute ⟨"", "applyBorder"⟩ xattrs).elim false is_true)
        fill_id := (fl, (lookup_attribute ⟨"", "applyFill"⟩ xattrs).elim false is_true)
        font_id := (fn, (lookup_attribute ⟨"", "applyFont"⟩ xattrs).elim false is_true)
        number_format_id :=
          (nf, (lookup_attribute ⟨"", "applyNumberFormat"⟩ xattrs).elim false is_true)
        protection :=
          ({}, (lookup_attribute ⟨"", "applyProtection"⟩ xattrs).elim false is_true) },
      ?_, rfl, rfl⟩
    simp only [read_xf, element_events, text_events_empty, List.nil_append, parser.next_expect_qname, parser.next,
      List.cons_append, List.nil_append, and_self, if_true, h]
    simp [read_xf_children, parser.peek, parser.next_expect_qname, parser.next]
  · obtain ⟨b, fl, fn, nf, h⟩ := read_xf_attributes_flags xmlns xattrs hidx
      (⟨.start_element, ⟨xmlns, "alignment"⟩, aattrs, ""⟩
        :: ⟨.end_element, ⟨xmlns, "alignment"⟩, [], ""⟩
        :: ⟨.end_element, ⟨xmlns, "xf"⟩, [], ""⟩ :: rest)
    have ha1 := ha ⟨⟨.start_element, ⟨xmlns, "alignment"⟩, aattrs, ""⟩, aattrs,
      ⟨.end_element, ⟨xmlns, "alignment"⟩, [], ""⟩
        :: ⟨.end_element, ⟨xmlns, "xf"⟩, [], ""⟩ :: rest⟩ rfl
    have hflag : (!(⟨⟨.start_element, ⟨xmlns, "xf"⟩, xattrs, ""⟩, xattrs,
          ⟨.start_element, ⟨xmlns, "alignment"⟩, aattrs, ""⟩
            :: ⟨.end_element, ⟨xmlns, "alignment"⟩, [], ""⟩
            :: ⟨.end_element, ⟨xmlns, "xf"⟩, [], ""⟩ :: rest⟩ : parser).attribute_present
            "applyAlignment"
        || attribute_applied ⟨⟨.start_element, ⟨xmlns, "xf"⟩, xattrs, ""⟩, xattrs,
          ⟨.start_element, ⟨xmlns, "alignment"⟩, aattrs, ""⟩
            :: ⟨.end_element, ⟨xmlns, "alignment"⟩, [], ""⟩
            :: ⟨.end_element, ⟨xmlns, "xf"⟩, [], ""⟩ :: rest⟩ "applyAlignment")
        = (lookup_attribute ⟨"", "applyAlignment"⟩ xattrs).elim true is_true := by
      rw [attribute_applied_eq]
      unfold parser.attribute_present
      cases lookup_attribute ⟨"", "applyAlignment"⟩ xattrs <;> simp
    refine ⟨⟨⟨.end_element, ⟨xmlns, "xf"⟩, [], ""⟩, aattrs, rest⟩,
      { alignment := (a, (lookup_attribute ⟨"", "applyAlignment"⟩ xattrs).elim true is_true)
        border_id := (b, (lookup_attribute ⟨"", "applyBorder"⟩ xattrs).elim false is_true)
        fill_id := (fl, (lookup_attribute ⟨"", "applyFill"⟩ xattrs).elim false is_true)
        font_id := (fn, (lookup_attribute ⟨"", "applyFont"⟩ xattrs).elim false is_true)
        number_format_id :=
          (nf, (lookup_attribute ⟨"", "applyNumberFormat"⟩ xattrs).elim false is_true)
        protection :=
          ({}, (lookup_attribute ⟨"", "applyProtection"⟩ xattrs).elim false is_true) },
      ?_, rfl, rfl⟩
    simp only [read_xf, element_events, text_events_empty, List.nil_append, parser.next_expect_qname, parser.next,
      List.cons_append, List.nil_append, and_self, if_true, h, hflag]
    simp [read_xf_children, parser.peek, parser.next_expect_qname, parser.next,
      parser.next_expect, parser.qname, ha1, Except.map]
  · obtain ⟨b, fl, fn, nf, h⟩ := read_xf_attributes_flags xmlns xattrs hidx
      (⟨.start_element, ⟨xmlns, "protection"⟩, pattrs, ""⟩
        :: ⟨.end_element, ⟨xmlns, "protection"⟩, [], ""⟩
        :: ⟨.end_element, ⟨xmlns, "xf"⟩, [], ""⟩ :: rest)
    simp only [read_xf, element_events, text_events_empty, List.nil_append, parser.next_expect_qname, parser.next,
      List.cons_append, List.nil_append, and_self, if_true, h]
    by_cases hq : (⟨xmlns, "protection"⟩ : qname) = ⟨xmlns, "alignment"⟩
    · exact absurd (show ("protection" : String) = "alignment" from congrArg qname.name hq)
        (by decide)
    · simp [read_xf_children, parser.peek, parser.next_expect_qname, parser.next,
        parser.next_expect, parser.qname, read_protection, Except.map, hq]

/-- Witness for `read_xf_nested_flags`: `<xf applyProtection="1"/>` is read with the
protection flag true, and `<xf><protection locked="1" hidden="0"/></xf>` is not
read. -/
theorem read_xf_nested_flags_witness :
    (∃ p r,
      read_xf sample_traits "ns"
          ⟨eof_event, [], element_events ⟨"ns", "xf"⟩ [(⟨"", "applyProtection"⟩, "1")] "" []
            ++ []⟩
        = .ok (p, r)
      ∧ r.protection = ({}, true))
    ∧ read_xf sample_traits "ns"
          ⟨eof_event, [], element_events ⟨"ns", "xf"⟩ [(⟨"", "applyProtection"⟩, "1")] ""
            (element_events ⟨"ns", "protection"⟩
              [(⟨"", "locked"⟩, "1"), (⟨"", "hidden"⟩, "0")] "" []) ++ []⟩
        = .error .parsing := by
  obtain ⟨⟨p, r, h1, _, h3⟩, _, h4⟩ :=
    read_xf_nested_flags sample_traits "ns" [(⟨"", "applyProtection"⟩, "1")]
      [(⟨"", "wrapText"⟩, "1"), (⟨"", "shrinkToFit"⟩, "0")]
      [(⟨"", "locked"⟩, "1"), (⟨"", "hidden"⟩, "0")]
      { wrap := some true, shrink := some false } eof_event [] []
      (by
        intro n hn v hv
        simp only [List.mem_cons, List.mem_singleton, List.not_mem_nil, or_false] at hn
        rcases hn with rfl | rfl | rfl | rfl <;> simp [lookup_attribute] at hv)
      (by
        intro p hp
        simp [read_alignment, parser.attribute, parser.attribute_present, hp, lookup_attribute,
          is_true])
  exact ⟨⟨p, r, h1, h3.trans (by rfl)⟩, h4⟩


/-! ## The counts of `dxfs` and `tableStyles` (C33) -/

theorem skip_children_empty (e_end : event) (he : e_end.type = .end_element)
    (tail : List event) :
    ∀ (children : List (qname × List (qname × String))) (fuel : Nat) (cur : event)
      (attrs : List (qname × String)),
      children.length < fuel →
      ∃ cur1 attrs1,
        skip_children fuel ⟨cur, attrs, empty_elements children ++ e_end :: tail⟩
          = .ok ⟨cur1, attrs1, e_end :: tail⟩ := by
  intro children
  induction children with
  | nil =>
    intro fuel cur attrs hfuel
    obtain ⟨f, rfl⟩ : ∃ f, fuel = f + 1 := ⟨fuel - 1, by simp at hfuel; omega⟩
    exact ⟨cur, attrs, by simp [skip_children, empty_elements, parser.peek, he]⟩
  | cons c cs ih =>
    intro fuel cur attrs hfuel
    obtain ⟨f, rfl⟩ : ∃ f, fuel = f + 1 := ⟨fuel - 1, by simp at hfuel; omega⟩
    obtain ⟨cur1, attrs1, h⟩ := ih f ⟨.end_element, c.1, [], ""⟩ c.2
      (by simp at hfuel; omega)
    refine ⟨cur1, attrs1, ?_⟩
    simp only [empty_elements, element_events, text_events_empty, List.nil_append, List.nil_append, List.cons_append,
      List.singleton_append] at h
    simp only [empty_elements, List.map_cons, List.flatten_cons, element_events, text_events_empty, List.nil_append,
      List.nil_append, List.cons_append, List.append_assoc, List.singleton_append]
    rw [skip_children]
    simp [parser.peek, parser.next_expect, parser.next, h]

theorem empty_elements_length (children : List (qname × List (qname × String))) :
    children.length ≤ (empty_elements children).length := by
  induction children with
  | nil => simp [empty_elements]
  | cons c cs ih =>
    simp only [empty_elements, List.map_cons, List.flatten_cons, List.length_append,
      List.length_cons, element_events, text_events_empty, List.nil_append] at ih ⊢
    omega

theorem read_stylesheet_child_dxfs {F : Type} (vt : value_traits F) (xmlns xmlns_x14 : String)
    (p : parser) (st : style_state F) (h : p.qname = ⟨xmlns, "dxfs"⟩) :
    read_stylesheet_child vt xmlns xmlns_x14 p st = read_stylesheet_dxfs p st := by
  simp [read_stylesheet_child, h]

theorem read_stylesheet_child_table_styles {F : Type} (vt : value_traits F)
    (xmlns xmlns_x14 : String) (p : parser) (st : style_state F)
    (h : p.qname = ⟨xmlns, "tableStyles"⟩) :
    read_stylesheet_child vt xmlns xmlns_x14 p st = read_stylesheet_table_styles p st := by
  simp [read_stylesheet_child, h]

theorem read_stylesheet_table_styles_eq {F : Type} (p : parser) (st : style_state F)
    (h1 : (lookup_attribute ⟨"", "defaultTableStyle"⟩ p.attrs).isSome = true)
    (h2 : (lookup_attribute ⟨"", "defaultPivotStyle"⟩ p.attrs).isSome = true) :
    read_stylesheet_table_styles p st = read_stylesheet_dxfs p st := by
  obtain ⟨a, ha⟩ := Option.isSome_iff_exists.mp h1
  obtain ⟨b, hb⟩ := Option.isSome_iff_exists.mp h2
  simp [read_stylesheet_table_styles, read_stylesheet_dxfs, parser.attribute, ha, hb]

theorem read_stylesheet_dxfs_empty_children {F : Type} (q : qname)
    (tattrs : List (qname × String)) (count : String)
    (children : List (qname × List (qname × String))) (e_end : event)
    (he : e_end.type = .end_element) (tail : List event) (st : style_state F)
    (hcount : lookup_attribute ⟨"", "count"⟩ tattrs = some count)
    (hnum : is_numeral count) (hlt : digits_value count.toList < 2 ^ 64) :
    ∃ cur1 attrs1,
      read_stylesheet_dxfs
          ⟨⟨.start_element, q, tattrs, ""⟩, tattrs, empty_elements children ++ e_end :: tail⟩ st
        = if digits_value count.toList = 0 then .ok ⟨cur1, attrs1, e_end :: tail⟩ st
          else .fail (.exception "counts don't match") st := by
  obtain ⟨cur1, attrs1, h⟩ := skip_children_empty e_end he tail children
    ((empty_elements children ++ e_end :: tail).length + 1)
    ⟨.start_element, q, tattrs, ""⟩ tattrs
    (by
      have := empty_elements_length children
      simp only [List.length_append, List.length_cons]
      omega)
  refine ⟨cur1, attrs1, ?_⟩
  have hc := attribute_size_t_numeral
    ⟨⟨.start_element, q, tattrs, ""⟩, tattrs, empty_elements children ++ e_end :: tail⟩
    "count" count hcount hnum hlt
  simp only [read_stylesheet_dxfs, hc, h, check_count]
  by_cases h0 : digits_value count.toList = 0 <;> simp [h0]

theorem read_stylesheet_dxfs_nested_child {F : Type} (q : qname)
    (tattrs : List (qname × String)) (count : String) (c n : event)
    (hc : c.type = .start_element) (hn : n.type = .start_element) (rest : List event)
    (st : style_state F)
    (hcount : lookup_attribute ⟨"", "count"⟩ tattrs = some count)
    (hnum : is_numeral count) (hlt : digits_value count.toList < 2 ^ 64) :
    read_stylesheet_dxfs ⟨⟨.start_element, q, tattrs, ""⟩, tattrs, c :: n :: rest⟩ st
      = .fail .parsing st := by
  have h1 := attribute_size_t_numeral
    ⟨⟨.start_element, q, tattrs, ""⟩, tattrs, c :: n :: rest⟩ "count" count hcount hnum hlt
  simp [read_stylesheet_dxfs, h1, skip_children, parser.peek, parser.next_expect, parser.next,
    hc, hn]

theorem read_stylesheet_dxfs_accepted {F : Type} (p p1 : parser) (st st1 : style_state F)
    (h : read_stylesheet_dxfs p st = .ok p1 st1) :
    p.attribute_size_t "count" = .ok 0 ∧ st1 = st := by
  unfold read_stylesheet_dxfs at h
  split at h
  · cases h
  · rename_i count hcount
    split at h
    · cases h
    · simp only [check_count] at h
      split at h
      · cases h
      · rename_i h0
        cases h
        have : count = 0 := by
          by_contra hne
          exact h0 hne
        exact ⟨by rw [hcount, this], rfl⟩

theorem read_stylesheet_table_styles_accepted {F : Type} (p p1 : parser)
    (st st1 : style_state F) (h : read_stylesheet_table_styles p st = .ok p1 st1) :
    p.attribute_size_t "count" = .ok 0 ∧ st1 = st := by
  unfold read_stylesheet_table_styles at h
  split at h
  · cases h
  · split at h
    · cases h
    · split at h
      · cases h
      · rename_i count hcount
        split at h
        · cases h
        · simp only [check_count] at h
          split at h
          · cases h
          · rename_i h0
            cases h
            have : count = 0 := by
              by_contra hne
              exact h0 hne
            exact ⟨by rw [hcount, this], rfl⟩


/-- C33 (the counterexample): the style sheet
`<styleSheet><dxfs count="1"><dxf><font/></dxf></dxfs></styleSheet>`, whose `dxfs` has
the one child it declares, is rejected with `xml::parsing`, not with "counts don't
match": the loop over the children asks for the end tag of `dxf` where `font`
starts. -/
theorem read_stylesheet_dxfs_nested_parsing :
    read_stylesheet sample_traits ⟨"General", 0⟩ sample_builtin "ns" "x14" "x14ac"
        (parser.of_events
          (ns_element "styleSheet" []
            (ns_element "dxfs" [("count", "1")] (ns_element "dxf" [] (ns_element "font" [] [])))))
        ({} : stylesheet Nat)
      = .fail .parsing {} := by
  rfl

/-- C33, as the code has it, for `dxfs` and for `tableStyles` (with its two default
style attributes), the count being a `size_t` numeral.  When the children are empty
elements, however many, the branch returns if the count is 0 and raises "counts don't
match" if it is not, and so does `read_stylesheet` on a part in which the table comes
first.  When the first child has a nested element the branch raises `xml::parsing`,
whatever the count.  The branch never returns with another count than 0. -/
theorem differential_styles_count_zero {F : Type} (vt : value_traits F)
    (general : number_format) (from_builtin_id : Nat → Except error number_format)
    (xmlns xmlns_x14 xmlns_x14ac : String) (name : String)
    (sattrs tattrs : List (qname × String)) (count : String)
    (children : List (qname × List (qname × String))) (others tail : List event)
    (st : style_state F) (ss : stylesheet F)
    (hname : name = "dxfs"
      ∨ (name = "tableStyles"
        ∧ (lookup_attribute ⟨"", "defaultTableStyle"⟩ tattrs).isSome = true
        ∧ (lookup_attribute ⟨"", "defaultPivotStyle"⟩ tattrs).isSome = true))
    (hcount : lookup_attribute ⟨"", "count"⟩ tattrs = some count)
    (hnum : is_numeral count) (hlt : digits_value count.toList < 2 ^ 64) :
    (∃ cur1 attrs1,
      read_stylesheet_child vt xmlns xmlns_x14
          ⟨⟨.start_element, ⟨xmlns, name⟩, tattrs, ""⟩, tattrs,
            empty_elements children ++ ⟨.end_element, ⟨xmlns, name⟩, [], ""⟩ :: tail⟩ st
        = if digits_value count.toList = 0 then
            .ok ⟨cur1, attrs1, ⟨.end_element, ⟨xmlns, name⟩, [], ""⟩ :: tail⟩ st
          else .fail (.exception "counts don't match") st)
    ∧ (digits_value count.toList ≠ 0 →
      read_stylesheet vt general from_builtin_id xmlns xmlns_x14 xmlns_x14ac
          (parser.of_events
            (element_events ⟨xmlns, "styleSheet"⟩ sattrs ""
              (element_events ⟨xmlns, name⟩ tattrs "" (empty_elements children) ++ others)))
          ss
        = .fail (.exception "counts don't match") ss)
    ∧ (∀ (c n : event) (rest : List event),
      c.type = .start_element → n.type = .start_element →
      read_stylesheet_child vt xmlns xmlns_x14
          ⟨⟨.start_element, ⟨xmlns, name⟩, tattrs, ""⟩, tattrs, c :: n :: rest⟩ st
        = .fail .parsing st)
    ∧ (∀ (p p1 : parser) (st1 : style_state F),
      p.qname = ⟨xmlns, name⟩ →
      read_stylesheet_child vt xmlns xmlns_x14 p st = .ok p1 st1 →
      p.attribute_size_t "count" = .ok 0 ∧ st1 = st) := by
  have hchild : ∀ (r : List event) (s : style_state F),
      read_stylesheet_child vt xmlns xmlns_x14
          ⟨⟨.start_element, ⟨xmlns, name⟩, tattrs, ""⟩, tattrs, r⟩ s
        = read_stylesheet_dxfs ⟨⟨.start_element, ⟨xmlns, name⟩, tattrs, ""⟩, tattrs, r⟩ s := by
    intro r s
    rcases hname with rfl | ⟨rfl, h1, h2⟩
    · exact read_stylesheet_child_dxfs vt xmlns xmlns_x14 _ s rfl
    · rw [read_stylesheet_child_table_styles vt xmlns xmlns_x14
        ⟨⟨.start_element, ⟨xmlns, "tableStyles"⟩, tattrs, ""⟩, tattrs, r⟩ s rfl]
      exact read_stylesheet_table_styles_eq _ s h1 h2
  refine ⟨?_, ?_, ?_, ?_⟩
  · obtain ⟨cur1, attrs1, h⟩ := read_stylesheet_dxfs_empty_children (F := F) ⟨xmlns, name⟩
      tattrs count children ⟨.end_element, ⟨xmlns, name⟩, [], ""⟩ rfl tail st hcount hnum hlt
    exact ⟨cur1, attrs1, (hchild _ st).trans h⟩
  · intro h0
    obtain ⟨cur1, attrs1, h⟩ := read_stylesheet_dxfs_empty_children (F := F) ⟨xmlns, name⟩
      tattrs count children ⟨.end_element, ⟨xmlns, name⟩, [], ""⟩ rfl
      (others ++ [⟨.end_element, ⟨xmlns, "styleSheet"⟩, [], ""⟩])
      ({ stylesheet := ss } : style_state F) hcount hnum hlt
    rw [if_neg h0] at h
    have h1 := (hchild _ ({ stylesheet := ss } : style_state F)).trans h
    simp only [read_stylesheet, element_events, text_events_empty, List.nil_append, parser.of_events, parser.next_expect_qname,
      parser.next, and_self, if_true, List.cons_append, List.nil_append, List.append_assoc,
      List.singleton_append]
    rw [read_stylesheet_namespaces]
    simp only [parser.peek, ne_eq, not_false_eq_true, if_true, reduceCtorEq]
    rw [read_stylesheet_children_step vt xmlns xmlns_x14 _ _ _ _ rfl]
    simp only [List.append_assoc, List.cons_append, List.nil_append,
      List.singleton_append] at h1
    rw [h1]
  · intro c n rest hc hn
    exact (hchild _ st).trans
      (read_stylesheet_dxfs_nested_child ⟨xmlns, name⟩ tattrs count c n hc hn rest st hcount
        hnum hlt)
  · intro p p1 st1 hq h
    rcases hname with rfl | ⟨rfl, _, _⟩
    · rw [read_stylesheet_child_dxfs vt xmlns xmlns_x14 p st hq] at h
      exact read_stylesheet_dxfs_accepted p p1 st st1 h
    · rw [read_stylesheet_child_table_styles vt xmlns xmlns_x14 p st hq] at h
      exact read_stylesheet_table_styles_accepted p p1 st st1 h

/-- Witness for `differential_styles_count_zero`: the style sheet
`<styleSheet><dxfs count="2"><dxf/><dxf/></dxfs></styleSheet>` is rejected with
"counts don't match". -/
theorem differential_styles_count_zero_witness :
    read_stylesheet sample_traits ⟨"General", 0⟩ sample_builtin "ns" "x14" "x14ac"
        (parser.of_events
          (element_events ⟨"ns", "styleSheet"⟩ [] ""
            (element_events ⟨"ns", "dxfs"⟩ [(⟨"", "count"⟩, "2")] ""
              (empty_elements [(⟨"ns", "dxf"⟩, []), (⟨"ns", "dxf"⟩, [])]) ++ [])))
        ({} : stylesheet Nat)
      = .fail (.exception "counts don't match") {} :=
  (differential_styles_count_zero sample_traits ⟨"General", 0⟩ sample_builtin "ns" "x14"
    "x14ac" "dxfs" [] [(⟨"", "count"⟩, "2")] "2" [(⟨"ns", "dxf"⟩, []), (⟨"ns", "dxf"⟩, [])]
    [] [] {} {} (Or.inl rfl) (by rfl) (by decide) (by decide)).2.1 (by decide)


/-! ## Failures of the resolution pass (C34) -/

theorem getElem?_some_lt {α : Type} (l : List α) (i : Nat) (x : α) (h : l[i]? = some x) :
    i < l.length := by
  by_contra hlt
  rw [List.getElem?_eq_none (by omega)] at h
  cases h

theorem resolve_style_returns {F : Type} (general : number_format)
    (from_builtin_id : Nat → Except error number_format) (r : formatting_record)
    (data : Option style_data) (p p1 : parser) (ss ss1 : stylesheet F)
    (h : resolve_style general from_builtin_id r data p ss = .ok p1 ss1) :
    (r.border_id.1 < ss.borders.length ∧ r.fill_id.1 < ss.fills.length
      ∧ r.font_id.1 < ss.fonts.length)
    ∧ ss1.borders = ss.borders ∧ ss1.fills = ss.fills ∧ ss1.fonts = ss.fonts
    ∧ ss1.number_formats = ss.number_formats := by
  unfold resolve_style at h
  split at h
  · cases h
  · simp only [] at h
    split at h
    · cases h
    · rename_i b hb
      split at h
      · cases h
      · rename_i fl hfl
        split at h
        · cases h
        · rename_i fn hfn
          split at h
          · cases h
          · cases h
            exact ⟨⟨getElem?_some_lt _ _ _ hb, getElem?_some_lt _ _ _ hfl,
              getElem?_some_lt _ _ _ hfn⟩, rfl, rfl, rfl, rfl⟩

theorem resolve_styles_returns {F : Type} (general : number_format)
    (from_builtin_id : Nat → Except error number_format) :
    ∀ (records : List formatting_record) (datas : List style_data) (p p1 : parser)
      (ss ss1 : stylesheet F),
      resolve_styles general from_builtin_id records datas p ss = .ok p1 ss1 →
      (∀ r ∈ records, r.border_id.1 < ss.borders.length ∧ r.fill_id.1 < ss.fills.length
        ∧ r.font_id.1 < ss.fonts.length)
      ∧ ss1.borders = ss.borders ∧ ss1.fills = ss.fills ∧ ss1.fonts = ss.fonts
      ∧ ss1.number_formats = ss.number_formats := by
  intro records
  induction records with
  | nil =>
    intro datas p p1 ss ss1 h
    simp only [resolve_styles] at h
    cases h
    exact ⟨fun r hr => absurd hr (List.not_mem_nil _), rfl, rfl, rfl, rfl⟩
  | cons r rs ih =>
    intro datas p p1 ss ss1 h
    simp only [resolve_styles] at h
    split at h
    · cases h
    · rename_i p2 ss2 h2
      obtain ⟨hr, hb, hfl, hfn, hnf⟩ := resolve_style_returns general from_builtin_id r _ p p2
        ss ss2 h2
      obtain ⟨hrs, gb, gfl, gfn, gnf⟩ := ih datas.tail p2 p1 ss2 ss1 h
      refine ⟨?_, gb.trans hb, gfl.trans hfl, gfn.trans hfn, gnf.trans hnf⟩
      intro x hx
      rcases List.mem_cons.mp hx with rfl | hx
      · exact hr
      · have := hrs x hx
        rw [hb, hfl, hfn] at this
        exact this

theorem resolve_format_returns {F : Type} (general : number_format)
    (from_builtin_id : Nat → Except error number_format) (r : formatting_record)
    (p p1 : parser) (ss ss1 : stylesheet F)
    (h : resolve_format general from_builtin_id r p ss = .ok p1 ss1) :
    (r.style_id.1 < ss.styles.length
      ∧ r.border_id.1 < ss.borders.length ∧ r.fill_id.1 < ss.fills.length
      ∧ r.font_id.1 < ss.fonts.length)
    ∧ ss1.styles = ss.styles
    ∧ ss1.borders = ss.borders ∧ ss1.fills = ss.fills ∧ ss1.fonts = ss.fonts
    ∧ ss1.number_formats = ss.number_formats := by
  unfold resolve_format at h
  split at h
  · cases h
  · rename_i s hs
    simp only [] at h
    split at h
    · cases h
    · rename_i b hb
      split at h
      · cases h
      · rename_i fl hfl
        split at h
        · cases h
        · rename_i fn hfn
          split at h
          · cases h
          · cases h
            exact ⟨⟨getElem?_some_lt _ _ _ hs, getElem?_some_lt _ _ _ hb,
              getElem?_some_lt _ _ _ hfl, getElem?_some_lt _ _ _ hfn⟩, rfl, rfl, rfl, rfl, rfl⟩

theorem resolve_formats_returns {F : Type} (general : number_format)
    (from_builtin_id : Nat → Except error number_format) :
    ∀ (records : List formatting_record) (p p1 : parser) (ss ss1 : stylesheet F),
      resolve_formats general from_builtin_id records p ss = .ok p1 ss1 →
      (∀ r ∈ records, r.style_id.1 < ss.styles.length
        ∧ r.border_id.1 < ss.borders.length ∧ r.fill_id.1 < ss.fills.length
        ∧ r.font_id.1 < ss.fonts.length)
      ∧ ss1.styles = ss.styles
      ∧ ss1.borders = ss.borders ∧ ss1.fills = ss.fills ∧ ss1.fonts = ss.fonts
      ∧ ss1.number_formats = ss.number_formats := by
  intro records
  induction records with
  | nil =>
    intro p p1 ss ss1 h
    simp only [resolve_formats] at h
    cases h
    exact ⟨fun r hr => absurd hr (List.not_mem_nil _), rfl, rfl, rfl, rfl, rfl⟩
  | cons r rs ih =>
    intro p p1 ss ss1 h
    simp only [resolve_formats] at h
    split at h
    · cases h
    · rename_i p2 ss2 h2
      obtain ⟨hr, hs, hb, hfl, hfn, hnf⟩ := resolve_format_returns general from_builtin_id r p
        p2 ss ss2 h2
      obtain ⟨hrs, gs, gb, gfl, gfn, gnf⟩ := ih p2 p1 ss2 ss1 h
      refine ⟨?_, gs.trans hs, gb.trans hb, gfl.trans hfl, gfn.trans hfn, gnf.trans hnf⟩
      intro x hx
      rcases List.mem_cons.mp hx with rfl | hx
      · exact hr
      · have := hrs x hx
        rw [hs, hb, hfl, hfn] at this
        exact this

theorem resolve_records_returns {F : Type} (general : number_format)
    (from_builtin_id : Nat → Except error number_format) (p p1 : parser)
    (st : style_state F) (ss1 : stylesheet F)
    (h : resolve_records general from_builtin_id p st = .ok p1 ss1) :
    ∀ r ∈ st.style_records ++ st.format_records,
      r.border_id.1 < st.stylesheet.borders.length ∧ r.fill_id.1 < st.stylesheet.fills.length
        ∧ r.font_id.1 < st.stylesheet.fonts.length := by
  unfold resolve_records at h
  split at h
  · cases h
  · rename_i p2 ss2 h2
    obtain ⟨hrs, hb, hfl, hfn, _⟩ := resolve_styles_returns general from_builtin_id
      st.style_records st.style_datas p p2 st.stylesheet ss2 h2
    obtain ⟨grs, _, _, _, _, _⟩ := resolve_formats_returns general from_builtin_id
      st.format_records p2 p1 ss2 ss1 h
    intro r hr
    rcases List.mem_append.mp hr with hr | hr
    · exact hrs r hr
    · have := (grs r hr).2
      rw [hb, hfl, hfn] at this
      exact this


theorem resolve_style_raises {F : Type} (general : number_format)
    (from_builtin_id : Nat → Except error number_format) (r : formatting_record)
    (d : style_data) (p : parser) (ss ss1 : stylesheet F) (e : error)
    (hnf : ∃ nf, lookup_number_format general from_builtin_id ss.number_formats
      r.number_format_id.1 = .ok nf)
    (h : resolve_style general from_builtin_id r (some d) p ss = .fail e ss1) :
    e = .out_of_range := by
  obtain ⟨nf, hnf⟩ := hnf
  unfold resolve_style at h
  simp only [hnf] at h
  split at h
  · cases h; rfl
  · split at h
    · cases h; rfl
    · split at h
      · cases h; rfl
      · cases h

theorem resolve_styles_raises {F : Type} (general : number_format)
    (from_builtin_id : Nat → Except error number_format) :
    ∀ (records : List formatting_record) (datas : List style_data) (p : parser)
      (ss ss1 : stylesheet F) (e : error),
      records.length ≤ datas.length →
      (∀ r ∈ records, ∃ nf, lookup_number_format general from_builtin_id ss.number_formats
        r.number_format_id.1 = .ok nf) →
      resolve_styles general from_builtin_id records datas p ss = .fail e ss1 →
      e = .out_of_range := by
  intro records
  induction records with
  | nil =>
    intro datas p ss ss1 e _ _ h
    simp only [resolve_styles] at h
    cases h
  | cons r rs ih =>
    intro datas p ss ss1 e hlen hnf h
    cases datas with
    | nil => simp at hlen
    | cons d ds =>
      simp only [resolve_styles, List.head?_cons, List.tail_cons] at h
      split at h
      · rename_i e2 ss2 h2
        cases h
        exact resolve_style_raises general from_builtin_id r d p ss ss1 e
          (hnf r (List.mem_cons_self _ _)) h2
      · rename_i p2 ss2 h2
        obtain ⟨_, _, _, _, gnf⟩ := resolve_style_returns general from_builtin_id r _ p p2
          ss ss2 h2
        exact ih ds p2 ss2 ss1 e (by simpa using hlen)
          (fun x hx => by rw [gnf]; exact hnf x (List.mem_cons_of_mem _ hx)) h

theorem resolve_format_raises {F : Type} (general : number_format)
    (from_builtin_id : Nat → Except error number_format) (r : formatting_record)
    (p : parser) (ss ss1 : stylesheet F) (e : error)
    (hnf : ∃ nf, lookup_number_format general from_builtin_id ss.number_formats
      r.number_format_id.1 = .ok nf)
    (h : resolve_format general from_builtin_id r p ss = .fail e ss1) :
    e = .out_of_range := by
  obtain ⟨nf, hnf⟩ := hnf
  unfold resolve_format at h
  simp only [hnf] at h
  split at h
  · cases h; rfl
  · split at h
    · cases h; rfl
    · split at h
      · cases h; rfl
      · split at h
        · cases h; rfl
        · cases h

theorem resolve_formats_raises {F : Type} (general : number_format)
    (from_builtin_id : Nat → Except error number_format) :
    ∀ (records : List formatting_record) (p : parser) (ss ss1 : stylesheet F) (e : error),
      (∀ r ∈ records, ∃ nf, lookup_number_format general from_builtin_id ss.number_formats
        r.number_format_id.1 = .ok nf) →
      resolve_formats general from_builtin_id records p ss = .fail e ss1 →
      e = .out_of_range := by
  intro records
  induction records with
  | nil =>
    intro p ss ss1 e _ h
    simp only [resolve_formats] at h
    cases h
  | cons r rs ih =>
    intro p ss ss1 e hnf h
    simp only [resolve_formats] at h
    split at h
    · rename_i e2 ss2 h2
      cases h
      exact resolve_format_raises general from_builtin_id r p ss ss1 e
        (hnf r (List.mem_cons_self _ _)) h2
    · rename_i p2 ss2 h2
      obtain ⟨_, _, _, _, _, gnf⟩ := resolve_format_returns general from_builtin_id r p p2
        ss ss2 h2
      exact ih p2 ss2 ss1 e
        (fun x hx => by rw [gnf]; exact hnf x (List.mem_cons_of_mem _ hx)) h

theorem resolve_records_raises {F : Type} (general : number_format)
    (from_builtin_id : Nat → Except error number_format) (p : parser) (st : style_state F)
    (ss1 : stylesheet F) (e : error)
    (hlen : st.style_records.length ≤ st.style_datas.length)
    (hnf : ∀ r ∈ st.style_records ++ st.format_records,
      ∃ nf, lookup_number_format general from_builtin_id st.stylesheet.number_formats
        r.number_format_id.1 = .ok nf)
    (h : resolve_records general from_builtin_id p st = .fail e ss1) :
    e = .out_of_range := by
  unfold resolve_records at h
  split at h
  · rename_i e2 ss2 h2
    cases h
    exact resolve_styles_raises general from_builtin_id st.style_records st.style_datas p
      st.stylesheet ss1 e hlen (fun r hr => hnf r (List.mem_append_left _ hr)) h2
  · rename_i p2 ss2 h2
    obtain ⟨_, _, _, _, gnf⟩ := resolve_styles_returns general from_builtin_id
      st.style_records st.style_datas p p2 st.stylesheet ss2 h2
    exact resolve_formats_raises general from_builtin_id st.format_records p2 ss2 ss1 e
      (fun r hr => by rw [gnf]; exact hnf r (List.mem_append_right _ hr)) h

/-- C34: the resolution pass of `read_stylesheet` (source lines 1333-1364).  With at
least one format record, no style record and no style in the table, it raises
`out_of_range` at the first format record, which is left behind as a default format.
With a record whose border, fill or font id is not below the size of its table it
raises; the exception is `out_of_range` when there is a `cellStyle` entry for every
style record and the number format of every record is found.  And `read_stylesheet`
is the resolution pass on what its loops return with. -/
theorem resolution_pass_out_of_range {F : Type} (vt : value_traits F)
    (general : number_format) (from_builtin_id : Nat → Except error number_format)
    (xmlns xmlns_x14 xmlns_x14ac : String) (p : parser) (st : style_state F) :
    (st.style_records = [] → st.stylesheet.styles = [] → st.format_records ≠ [] →
      resolve_records general from_builtin_id p st
        = .fail .out_of_range { st.stylesheet with formats := st.stylesheet.formats ++ [{}] })
    ∧ ((∃ r ∈ st.style_records ++ st.format_records,
          ¬ (r.border_id.1 < st.stylesheet.borders.length
            ∧ r.fill_id.1 < st.stylesheet.fills.length
            ∧ r.font_id.1 < st.stylesheet.fonts.length)) →
        (∃ e ss1, resolve_records general from_builtin_id p st = .fail e ss1)
        ∧ (st.style_records.length ≤ st.style_datas.length →
            (∀ r ∈ st.style_records ++ st.format_records,
              ∃ nf, lookup_number_format general from_builtin_id
                st.stylesheet.number_formats r.number_format_id.1 = .ok nf) →
            ∃ ss1, resolve_records general from_builtin_id p st = .fail .out_of_range ss1))
    ∧ (∀ (p0 p1 p2 p3 : parser) (ss : stylesheet F) (st0 : style_state F),
        p0.next_expect_qname .start_element ⟨xmlns, "styleSheet"⟩ = .ok p1 →
        read_stylesheet_namespaces xmlns_x14ac (p1.rest.length + 1) p1
            ({ stylesheet := ss } : style_state F) = .ok p2 st0 →
        read_stylesheet_children vt xmlns xmlns_x14 (p2.rest.length + 1) p2 st0 = .ok p3 st →
        p3.next_expect_qname .end_element ⟨xmlns, "styleSheet"⟩ = .ok p →
        read_stylesheet vt general from_builtin_id xmlns xmlns_x14 xmlns_x14ac p0 ss
          = resolve_records general from_builtin_id p st) := by
  refine ⟨?_, ?_, ?_⟩
  · intro hs hst hf
    obtain ⟨r, rs, hrs⟩ := List.exists_cons_of_ne_nil hf
    simp [resolve_records, hs, resolve_styles, hrs, resolve_formats, resolve_format, hst]
  · intro hbad
    have hfail : ∃ e ss1, resolve_records general from_builtin_id p st = .fail e ss1 := by
      cases hr : resolve_records general from_builtin_id p st with
      | fail e ss1 => exact ⟨e, ss1, rfl⟩
      | ok p1 ss1 =>
        obtain ⟨r, hmem, hnot⟩ := hbad
        exact absurd (resolve_records_returns general from_builtin_id p p1 st ss1 hr r hmem) hnot
    refine ⟨hfail, ?_⟩
    intro hlen hnf
    obtain ⟨e, ss1, h⟩ := hfail
    have he := resolve_records_raises general from_builtin_id p st ss1 e hlen hnf h
    exact ⟨ss1, by rw [h, he]⟩
  · intro p0 p1 p2 p3 ss st0 h1 h2 h3 h4
    simp only [read_stylesheet, h1, h2, h3, h4]

/-- C34, on a style sheet with one `cellXfs` record and nothing else: the loops return,
and the read raises `out_of_range` with the default format left in the table. -/
theorem resolution_pass_out_of_range_witness :
    read_stylesheet sample_traits ⟨"General", 0⟩ sample_builtin "ns" "x14" "x14ac"
        (parser.of_events
          (ns_element "styleSheet" []
            (ns_element "cellXfs" [("count", "1")] (ns_element "xf" [] []))))
        ({} : stylesheet Nat)
      = .fail .out_of_range { formats := [{}] } := by
  have h := resolution_pass_out_of_range sample_traits ⟨"General", 0⟩ sample_builtin
    "ns" "x14" "x14ac" ⟨⟨.end_element, ⟨"ns", "styleSheet"⟩, [], ""⟩, [], []⟩
    ({ format_records := [{}] } : style_state Nat)
  rw [h.2.2 _ _ _ _ {} _ (by rfl) (by rfl) (by rfl) (by rfl)]
  exact (h.1 (by rfl) (by rfl) (by decide)).trans (by rfl)


/-! ## Cells: a shared string index out of range (C35) -/

theorem stoull_numeral_large (s : String) (h : is_numeral s) (hge : 2 ^ 64 ≤ digits_value s.toList) :
    stoull s = .error .out_of_range := by
  obtain ⟨hne, hd⟩ := h
  obtain ⟨c, cs, hcs⟩ := List.exists_cons_of_ne_nil hne
  have hc : c.isDigit = true := hd c (by rw [hcs]; exact List.mem_cons_self _ _)
  have hsp := isDigit_not_isspace c hc
  obtain ⟨hm, hp⟩ := isDigit_ne_sign c hc
  have htw : List.takeWhile Char.isDigit (c :: cs) = c :: cs := by
    rw [List.takeWhile_eq_self_iff]
    intro x hx
    exact hd x (by rw [hcs]; exact hx)
  have hge2 : 2 ^ 64 ≤ digits_value (c :: cs) := by
    rw [← hcs]; exact hge
  unfold stoull
  simp only [hcs, List.dropWhile_cons, hsp, Bool.false_eq_true, if_false, List.head?_cons,
    Option.some.injEq, hm, hp, or_self, htw]
  have hge3 : 18446744073709551616 ≤ digits_value (c :: cs) := by simpa using hge2
  simp [hge3]

/-- C35 (what the code does): a cell of type `s` without formula child whose value text
is the decimal numeral of an index that is not below the number of the loaded shared
strings.  Lines 1580-1585 raise `out_of_range` for such a `value_string`, by
`shared_strings.at` or, for a numeral of 2^64 or more, by `std::stoull`.  They are not
reached: the text is a `characters` event, `parser.value()` is taken at the start tag of
`v`, and the end tag is asked for where the event comes, so the exception is
`xml::parsing`.  The cell has been fetched and has no value, and the reader of the
worksheet part raises with it. -/
theorem read_cell_shared_string_index_raises {F : Type} (cx : worksheet_context F)
    (xmlns xmlns_x14ac : String) (ws : worksheet F) (cur : event)
    (attrs cattrs vattrs : List (qname × String)) (tail : List event) (ref vtxt : String)
    (hr : lookup_attribute ⟨"", "r"⟩ cattrs = some ref)
    (hs : ∀ v, lookup_attribute ⟨"", "s"⟩ cattrs = some v → ∃ id, stoull v = .ok id)
    (hnum : is_numeral vtxt)
    (hi : cx.shared_strings.length ≤ digits_value vtxt.toList) :
    read_cell xmlns cx.stold cx.shared_strings cx.formats cx.data_only
        ⟨cur, attrs, element_events ⟨xmlns, "c"⟩ cattrs ""
          (element_events ⟨xmlns, "v"⟩ vattrs vtxt []) ++ tail⟩ ws
      = .fail .parsing (ws.call ref .get_cell)
    ∧ read_worksheet_body cx xmlns xmlns_x14ac
        (parser.of_events (one_row_worksheet_events xmlns
          (element_events ⟨xmlns, "c"⟩ cattrs ""
            (element_events ⟨xmlns, "v"⟩ vattrs vtxt [])))) ws
      = .fail .parsing (ws.call ref .get_cell)
    ∧ (∀ c : cell_call F, c.sets_value = true →
        (ref, c) ∈ (ws.call ref .get_cell).cell_calls → (ref, c) ∈ ws.cell_calls)
    ∧ ∀ l : cell_locals, l.has_formula = false → l.value_string = vtxt →
        store_cell_value cx.stold cx.shared_strings true "s" l ref ws
          = .error .out_of_range := by
  have hv : vtxt ≠ "" := by
    intro h
    exact hnum.1 (by rw [h]; rfl)
  have hcell : ∀ (cur : event) (attrs : List (qname × String)) (tail : List event),
      read_cell xmlns cx.stold cx.shared_strings cx.formats cx.data_only
        ⟨cur, attrs, element_events ⟨xmlns, "c"⟩ cattrs ""
          (element_events ⟨xmlns, "v"⟩ vattrs vtxt []) ++ tail⟩ ws
      = .fail .parsing (ws.call ref .get_cell) := by
    intro cur attrs tail
    have := read_cell_first_child_text xmlns cx.stold cx.shared_strings cx.formats cx.data_only
      ws cur attrs cattrs vattrs ⟨xmlns, "v"⟩ [] tail ref vtxt hr hs hv
    simpa using this
  refine ⟨hcell cur attrs tail, ?_, ?_, ?_⟩
  · exact read_worksheet_body_first_cell_raises cx xmlns xmlns_x14ac _ ws _ .parsing
      ⟨_, _, rfl, rfl⟩ (hcell _ _ _)
  · intro c hc hin
    simp only [worksheet.call, List.mem_append, List.mem_singleton, Prod.mk.injEq] at hin
    rcases hin with hin | hin
    · exact hin
    · rw [hin.2] at hc
      cases hc
  · intro l h1 h2
    simp only [store_cell_value, h1, h2]
    rw [if_neg (by decide)]
    simp only [Bool.not_false, Bool.and_self, if_true]
    by_cases h64 : digits_value vtxt.toList < 2 ^ 64
    · have hget : cx.shared_strings[digits_value vtxt.toList]? = none :=
        List.getElem?_eq_none hi
      rw [stoull_numeral vtxt hnum h64]
      simp only [hget]
      rfl
    · rw [stoull_numeral_large vtxt hnum (by omega)]
      rfl

/-- C35, witness: with the shared strings `["hello"]`, the worksheet part whose one row
holds `<c r="A1" t="s"><v>1</v></c>` raises `xml::parsing`, not `out_of_range`, after A1
was fetched. -/
theorem read_cell_shared_string_index_raises_witness :
    (lookup_attribute ⟨"", "r"⟩ [((⟨"", "r"⟩ : qname), "A1"), (⟨"", "t"⟩, "s")] = some "A1"
      ∧ is_numeral "1" ∧ [text.set_plain_string {} "hello"].length ≤ digits_value "1".toList)
    ∧ read_worksheet_body
        (⟨sample_traits, stold_decimal, [text.set_plain_string {} "hello"], [], false⟩ :
          worksheet_context Nat) "ns" "x14ac"
        (parser.of_events (one_row_worksheet_events "ns"
          (element_events ⟨"ns", "c"⟩ [(⟨"", "r"⟩, "A1"), (⟨"", "t"⟩, "s")] ""
            (element_events ⟨"ns", "v"⟩ [] "1" [])))) {}
      = .fail .parsing { cell_calls := [("A1", .get_cell)] } :=
  ⟨⟨by decide, by decide, by decide⟩,
    (read_cell_shared_string_index_raises
      ⟨sample_traits, stold_decimal, [text.set_plain_string {} "hello"], [], false⟩ "ns" "x14ac"
      {} eof_event [] [(⟨"", "r"⟩, "A1"), (⟨"", "t"⟩, "s")] [] [] "A1" "1" (by decide)
      (fun v h => by simp [lookup_attribute] at h) (by decide) (by decide)).2.1⟩

/-! ## `w3cdtf_to_datetime` (C36) -/

/-- C36 (the counterexample): a year of eleven digits is beyond the range of `int`, and
`std::stoi` raises `out_of_range`. -/
theorem w3cdtf_to_datetime_large_year :
    w3cdtf_to_datetime "99999999999-08-12T03:16:56Z" = .error .out_of_range := by
  rfl


theorem stoi_field (f x : List Char) (hne : f ≠ []) (hd : ∀ c ∈ f, c.isDigit = true)
    (hx : ∀ c, x.head? = some c → c.isDigit = false) :
    stoi (String.mk (f ++ x))
      = if digits_value f < 2 ^ 31 then .ok (digits_value f : Int)
        else .error .out_of_range := by
  obtain ⟨c, cs, hcs⟩ := List.exists_cons_of_ne_nil hne
  have hc : c.isDigit = true := hd c (by rw [hcs]; exact List.mem_cons_self _ _)
  have hsp := isDigit_not_isspace c hc
  obtain ⟨hm, hp⟩ := isDigit_ne_sign c hc
  have hx0 : List.takeWhile Char.isDigit x = [] := by
    cases x with
    | nil => rfl
    | cons a as =>
      have := hx a rfl
      simp [List.takeWhile_cons, this]
  have htw : List.takeWhile Char.isDigit (c :: (cs ++ x)) = c :: cs := by
    have h1 : c :: (cs ++ x) = (c :: cs) ++ x := rfl
    rw [h1, List.takeWhile_append_of_pos (fun a ha => hd a (by rw [hcs]; exact ha)), hx0,
      List.append_nil]
  unfold stoi
  simp only [String.toList, hcs, List.cons_append, List.dropWhile_cons, hsp,
    Bool.false_eq_true, if_false, List.head?_cons, Option.some.injEq, hm, hp, or_self, htw]
  by_cases hv : digits_value (c :: cs) < 2 ^ 31
  · have hlt3 : ¬ (2147483648 ≤ digits_value (c :: cs)) := by omega
    have hlt4 : digits_value (c :: cs) < 2147483648 := by omega
    simp [hlt3, hlt4]
  · have hlt3 : 2147483648 ≤ digits_value (c :: cs) := by omega
    have hlt4 : ¬ (digits_value (c :: cs) < 2147483648) := by omega
    simp [hlt3, hlt4]

theorem w3cdtf_field (s : String) (pos : Nat) (a f rest : List Char) (c : Char)
    (hs : s.toList = a ++ f ++ c :: rest) (hpos : pos = a.length)
    (hc : c.isDigit = false) (hne : f ≠ []) (hd : ∀ x ∈ f, x.isDigit = true)
    (hlen : s.toList.length < 2 ^ 64) :
    string_find s c pos = pos + f.length
    ∧ (string_substr s pos (pos + f.length) >>= stoi)
        = (if digits_value f < 2 ^ 31 then .ok (digits_value f : Int)
           else .error .out_of_range)
    ∧ (pos + f.length + 1) % 2 ^ 64 = pos + f.length + 1 := by
  have hcf : c ∉ f := by
    intro hmem
    have := hd c hmem
    rw [hc] at this
    cases this
  have hdrop : s.toList.drop pos = f ++ c :: rest := by
    rw [hs, hpos, List.append_assoc, List.drop_left]
  have hidx : (f ++ c :: rest).indexOf c = f.length := by
    rw [List.indexOf_append_of_not_mem hcf, List.indexOf_cons_self, Nat.add_zero]
  have hl : s.toList.length = pos + f.length + 1 + rest.length := by
    rw [hs, hpos]
    simp only [List.length_append, List.length_cons]
    omega
  refine ⟨?_, ?_, ?_⟩
  · unfold string_find
    rw [hdrop, hidx, if_pos (by omega)]
  · unfold string_substr
    rw [if_neg (by omega), hdrop]
    have htake : (f ++ c :: rest).take (pos + f.length) = f ++ (c :: rest).take pos := by
      rw [List.take_append_eq_append_take, List.take_of_length_le (by omega)]
      congr 1
      congr 1
      omega
    rw [htake]
    show stoi (String.mk (f ++ (c :: rest).take pos)) = _
    apply stoi_field f _ hne hd
    intro x hx
    cases pos with
    | zero => simp at hx
    | succ n =>
      simp only [List.take_succ_cons, List.head?_cons, Option.some.injEq] at hx
      rw [← hx]
      exact hc
  · exact Nat.mod_eq_of_lt (by omega)


/-- C36, as the code has it: for a string `Y-M-DTh:m:sZ` whose six fields are decimal
numerals, `w3cdtf_to_datetime` returns the datetime with the values of the fields when
all six values are below 2^31, the range of `int`, and raises `out_of_range` when one
of them is not.  The length of the string is a `size_t`. -/
theorem w3cdtf_to_datetime_fields (year month day hour minute second : String)
    (hyear : is_numeral year) (hmonth : is_numeral month) (hday : is_numeral day)
    (hhour : is_numeral hour) (hminute : is_numeral minute) (hsecond : is_numeral second)
    (hlen : (w3cdtf_string year month day hour minute second).toList.length < 2 ^ 64) :
    w3cdtf_to_datetime (w3cdtf_string year month day hour minute second)
      = if digits_value year.toList < 2 ^ 31 ∧ digits_value month.toList < 2 ^ 31
            ∧ digits_value day.toList < 2 ^ 31 ∧ digits_value hour.toList < 2 ^ 31
            ∧ digits_value minute.toList < 2 ^ 31 ∧ digits_value second.toList < 2 ^ 31 then
          .ok { year := (digits_value year.toList : Int)
                month := (digits_value month.toList : Int)
                day := (digits_value day.toList : Int)
                hour := (digits_value hour.toList : Int)
                minute := (digits_value minute.toList : Int)
                second := (digits_value second.toList : Int) }
        else .error .out_of_range := by
  have hS : (w3cdtf_string year month day hour minute second).toList
      = year.toList ++ Char.ofNat 45 :: (month.toList ++ Char.ofNat 45 :: (day.toList
          ++ Char.ofNat 84 :: (hour.toList ++ Char.ofNat 58 :: (minute.toList
          ++ Char.ofNat 58 :: (second.toList ++ [Char.ofNat 90]))))) := by
    simp only [w3cdtf_string, String.toList, String.data_append]
    have e1 : ('-' : Char) = Char.ofNat 45 := by decide
    have e2 : ('T' : Char) = Char.ofNat 84 := by decide
    have e3 : (':' : Char) = Char.ofNat 58 := by decide
    have e4 : ('Z' : Char) = Char.ofNat 90 := by decide
    have f1 : "-".data = ['-'] := rfl
    have f2 : "T".data = ['T'] := rfl
    have f3 : ":".data = [':'] := rfl
    have f4 : "Z".data = ['Z'] := rfl
    simp only [f1, f2, f3, f4, e1, e2, e3, e4, List.append_assoc, List.singleton_append,
      List.cons_append, List.nil_append]
  have c45 : (Char.ofNat 45).isDigit = false := by decide
  have c84 : (Char.ofNat 84).isDigit = false := by decide
  have c58 : (Char.ofNat 58).isDigit = false := by decide
  have c90 : (Char.ofNat 90).isDigit = false := by decide
  obtain ⟨y1, y2⟩ := hyear
  obtain ⟨m1, m2⟩ := hmonth
  obtain ⟨d1, d2⟩ := hday
  obtain ⟨h1, h2⟩ := hhour
  obtain ⟨n1, n2⟩ := hminute
  obtain ⟨s1, s2⟩ := hsecond
  obtain ⟨a1, a2, a3⟩ := w3cdtf_field (w3cdtf_string year month day hour minute second) 0
    [] year.toList
    (month.toList ++ Char.ofNat 45 :: (day.toList
      ++ Char.ofNat 84 :: (hour.toList ++ Char.ofNat 58 :: (minute.toList
      ++ Char.ofNat 58 :: (second.toList ++ [Char.ofNat 90])))))
    (Char.ofNat 45) (by rw [hS]; rfl) rfl c45 y1 y2 hlen
  obtain ⟨b1, b2, b3⟩ := w3cdtf_field (w3cdtf_string year month day hour minute second)
    (0 + year.toList.length + 1)
    (year.toList ++ [Char.ofNat 45]) month.toList
    (day.toList ++ Char.ofNat 84 :: (hour.toList ++ Char.ofNat 58 :: (minute.toList
      ++ Char.ofNat 58 :: (second.toList ++ [Char.ofNat 90]))))
    (Char.ofNat 45)
    (by rw [hS]; simp only [List.append_assoc, List.singleton_append, List.cons_append,
      List.nil_append])
    (by simp) c45 m1 m2 hlen
  obtain ⟨e1, e2, e3⟩ := w3cdtf_field (w3cdtf_string year month day hour minute second)
    (0 + year.toList.length + 1 + month.toList.length + 1)
    (year.toList ++ Char.ofNat 45 :: (month.toList ++ [Char.ofNat 45])) day.toList
    (hour.toList ++ Char.ofNat 58 :: (minute.toList
      ++ Char.ofNat 58 :: (second.toList ++ [Char.ofNat 90])))
    (Char.ofNat 84)
    (by rw [hS]; simp only [List.append_assoc, List.singleton_append, List.cons_append,
      List.nil_append])
    (by simp; omega) c84 d1 d2 hlen
  obtain ⟨f1, f2, f3⟩ := w3cdtf_field (w3cdtf_string year month day hour minute second)
    (0 + year.toList.length + 1 + month.toList.length + 1 + day.toList.length + 1)
    (year.toList ++ Char.ofNat 45 :: (month.toList ++ Char.ofNat 45 :: (day.toList
      ++ [Char.ofNat 84]))) hour.toList
    (minute.toList ++ Char.ofNat 58 :: (second.toList ++ [Char.ofNat 90]))
    (Char.ofNat 58)
    (by rw [hS]; simp only [List.append_assoc, List.singleton_append, List.cons_append,
      List.nil_append])
    (by simp; omega) c58 h1 h2 hlen
  obtain ⟨g1, g2, g3⟩ := w3cdtf_field (w3cdtf_string year month day hour minute second)
    (0 + year.toList.length + 1 + month.toList.length + 1 + day.toList.length + 1
      + hour.toList.length + 1)
    (year.toList ++ Char.ofNat 45 :: (month.toList ++ Char.ofNat 45 :: (day.toList
      ++ Char.ofNat 84 :: (hour.toList ++ [Char.ofNat 58])))) minute.toList
    (second.toList ++ [Char.ofNat 90])
    (Char.ofNat 58)
    (by rw [hS]; simp only [List.append_assoc, List.singleton_append, List.cons_append,
      List.nil_append])
    (by simp; omega) c58 n1 n2 hlen
  obtain ⟨k1, k2, k3⟩ := w3cdtf_field (w3cdtf_string year month day hour minute second)
    (0 + year.toList.length + 1 + month.toList.length + 1 + day.toList.length + 1
      + hour.toList.length + 1 + minute.toList.length + 1)
    (year.toList ++ Char.ofNat 45 :: (month.toList ++ Char.ofNat 45 :: (day.toList
      ++ Char.ofNat 84 :: (hour.toList ++ Char.ofNat 58 :: (minute.toList
      ++ [Char.ofNat 58]))))) second.toList [] (Char.ofNat 90)
    (by rw [hS]; simp only [List.append_assoc, List.singleton_append, List.cons_append,
      List.nil_append])
    (by simp; omega) c90 s1 s2 hlen
  unfold w3cdtf_to_datetime
  simp only [a1, a2, a3, b1, b2, b3, e1, e2, e3, f1, f2, f3, g1, g2, g3, k1, k2, k3]
  by_cases y3 : digits_value year.toList < 2 ^ 31
  swap
  · simp only [y3, false_and, if_false]
    rfl
  by_cases m3 : digits_value month.toList < 2 ^ 31
  swap
  · simp only [y3, m3, false_and, and_false, if_true, if_false]
    rfl
  by_cases d3 : digits_value day.toList < 2 ^ 31
  swap
  · simp only [y3, m3, d3, false_and, and_false, if_true, if_false]
    rfl
  by_cases h3 : digits_value hour.toList < 2 ^ 31
  swap
  · simp only [y3, m3, d3, h3, false_and, and_false, if_true, if_false]
    rfl
  by_cases n3 : digits_value minute.toList < 2 ^ 31
  swap
  · simp only [y3, m3, d3, h3, n3, false_and, and_false, if_true, if_false]
    rfl
  by_cases s3 : digits_value second.toList < 2 ^ 31
  swap
  · simp only [y3, m3, d3, h3, n3, s3, and_false, if_true, if_false]
    rfl
  simp only [y3, m3, d3, h3, n3, s3, and_self, if_true]
  rfl

/-- Witness for `w3cdtf_to_datetime_fields`: the time stamp `2016-08-12T03:16:56Z` gives
its six values, and the same stamp with a second of eleven digits raises. -/
theorem w3cdtf_to_datetime_fields_witness :
    w3cdtf_to_datetime "2016-08-12T03:16:56Z"
        = .ok { year := 2016, month := 8, day := 12, hour := 3, minute := 16, second := 56 }
    ∧ w3cdtf_to_datetime "2016-08-12T03:16:99999999999Z" = .error .out_of_range :=
  ⟨w3cdtf_to_datetime_fields "2016" "08" "12" "03" "16" "56"
      (by decide) (by decide) (by decide) (by decide) (by decide) (by decide) (by decide),
    w3cdtf_to_datetime_fields "2016" "08" "12" "03" "16" "99999999999"
      (by decide) (by decide) (by decide) (by decide) (by decide) (by decide) (by decide)⟩


/-! ## `read_color` (C37) -/

/-- C37: `read_color` on an element with the attributes `p.attrs`.  With an attribute
`auto` the color is the default one, whatever else the element carries.  Without it
the color is the RGB color of `rgb` if that attribute is present, else the theme color
of `theme` if present, else the palette color of `indexed` if present, else the default
color; an index that `string_to_size_t` does not convert raises, the attributes after
it in the priority are not tried.  The color carries the tint that the attribute
`tint` converts to when that attribute is present, and no tint when it is absent. -/
theorem read_color_priority {F : Type} (vt : value_traits F) (p : parser) :
    ((lookup_attribute ⟨"", "auto"⟩ p.attrs).isSome = true → read_color vt p = .ok {})
    ∧ (lookup_attribute ⟨"", "auto"⟩ p.attrs = none →
      let with_tint := fun (k : color_kind) =>
        (lookup_attribute ⟨"", "tint"⟩ p.attrs).elim
          (.ok ({ kind := k, tint := none } : color F))
          (fun v => (vt.to_double v).map (fun x => ({ kind := k, tint := some x } : color F)))
      (∀ v, lookup_attribute ⟨"", "rgb"⟩ p.attrs = some v → read_color vt p = with_tint (.rgb v))
      ∧ (lookup_attribute ⟨"", "rgb"⟩ p.attrs = none →
          (∀ v, lookup_attribute ⟨"", "theme"⟩ p.attrs = some v →
            read_color vt p = match string_to_size_t v with
              | .ok n => with_tint (.theme n)
              | .error e => .error e)
          ∧ (lookup_attribute ⟨"", "theme"⟩ p.attrs = none →
              (∀ v, lookup_attribute ⟨"", "indexed"⟩ p.attrs = some v →
                read_color vt p = match string_to_size_t v with
                  | .ok n => with_tint (.indexed n)
                  | .error e => .error e)
              ∧ (lookup_attribute ⟨"", "indexed"⟩ p.attrs = none →
                  read_color vt p = with_tint .automatic)))) := by
  constructor
  · intro h
    simp [read_color, parser.attribute_present, h]
  · intro hauto
    refine ⟨?_, ?_⟩
    · intro v hv
      cases ht : lookup_attribute ⟨"", "tint"⟩ p.attrs <;>
        simp [read_color, parser.attribute_present, parser.attribute, hauto, hv, ht,
          Except.map]
    · intro hrgb
      refine ⟨?_, ?_⟩
      · intro v hv
        cases hn : string_to_size_t v <;>
          cases ht : lookup_attribute ⟨"", "tint"⟩ p.attrs <;>
          simp [read_color, parser.attribute_present, parser.attribute, hauto, hrgb, hv, hn,
            ht, Except.map]
      · intro htheme
        refine ⟨?_, ?_⟩
        · intro v hv
          cases hn : string_to_size_t v <;>
            cases ht : lookup_attribute ⟨"", "tint"⟩ p.attrs <;>
            simp [read_color, parser.attribute_present, parser.attribute, hauto, hrgb, htheme,
              hv, hn, ht, Except.map]
        · intro hindexed
          cases ht : lookup_attribute ⟨"", "tint"⟩ p.attrs <;>
            simp [read_color, parser.attribute_present, parser.attribute, hauto, hrgb, htheme,
              hindexed, ht, Except.map]

/-- C37, witness: on `<color rgb="FF0000" theme="1" tint="5"/>` the color is the RGB
color with the tint, the attribute `theme` being passed over. -/
theorem read_color_priority_witness :
    lookup_attribute ⟨"", "auto"⟩
        [((⟨"", "rgb"⟩ : qname), "FF0000"), (⟨"", "theme"⟩, "1"), (⟨"", "tint"⟩, "5")] = none
    ∧ lookup_attribute ⟨"", "rgb"⟩
        [((⟨"", "rgb"⟩ : qname), "FF0000"), (⟨"", "theme"⟩, "1"), (⟨"", "tint"⟩, "5")]
        = some "FF0000"
    ∧ read_color sample_traits ⟨⟨.start_element, ⟨"ns", "color"⟩,
          [(⟨"", "rgb"⟩, "FF0000"), (⟨"", "theme"⟩, "1"), (⟨"", "tint"⟩, "5")], ""⟩,
          [(⟨"", "rgb"⟩, "FF0000"), (⟨"", "theme"⟩, "1"), (⟨"", "tint"⟩, "5")], []⟩
        = .ok { kind := .rgb "FF0000", tint := some 5 } :=
  ⟨rfl, rfl,
    ((read_color_priority sample_traits ⟨⟨.start_element, ⟨"ns", "color"⟩,
          [(⟨"", "rgb"⟩, "FF0000"), (⟨"", "theme"⟩, "1"), (⟨"", "tint"⟩, "5")], ""⟩,
          [(⟨"", "rgb"⟩, "FF0000"), (⟨"", "theme"⟩, "1"), (⟨"", "tint"⟩, "5")], []⟩).2
      rfl).1 "FF0000" rfl⟩

/-! ## `read_font` (C38) -/

/-- One child of `font` is read from the name of the start tag and its attributes
alone. -/
theorem read_font_child_start {F : Type} (vt : value_traits F) (c : qname × List (qname × String))
    (rest : List event) (f : font F) :
    read_font_child vt ⟨⟨.start_element, c.1, c.2, ""⟩, c.2, rest⟩ f
      = read_font_child vt (child_start c) f := rfl

/-- The loop over empty children of `font` is the left fold of `read_font_child`. -/
theorem read_font_children_empty {F : Type} (vt : value_traits F) (e_end : event)
    (he : e_end.type = .end_element) (tail : List event) :
    ∀ (children : List (qname × List (qname × String))) (fuel : Nat) (cur : event)
      (attrs : List (qname × String)) (f : font F),
      children.length + 1 ≤ fuel →
      (∀ e, children.foldlM (fun f c => read_font_child vt (child_start c) f) f = .error e →
        read_font_children vt fuel ⟨cur, attrs, empty_elements children ++ e_end :: tail⟩ f
          = .error e)
      ∧ (∀ f1, children.foldlM (fun f c => read_font_child vt (child_start c) f) f = .ok f1 →
        ∃ cur1 attrs1,
          read_font_children vt fuel ⟨cur, attrs, empty_elements children ++ e_end :: tail⟩ f
            = .ok (⟨cur1, attrs1, e_end :: tail⟩, f1)) := by
  intro children
  induction children with
  | nil =>
    intro fuel cur attrs f hfuel
    obtain ⟨fuel, rfl⟩ : ∃ k, fuel = k + 1 := ⟨fuel - 1, by simp at hfuel; omega⟩
    constructor
    · intro e h
      simp [List.foldlM, pure, Except.pure] at h
    · intro f1 h
      simp only [List.foldlM, pure, Except.pure, Except.ok.injEq] at h
      subst h
      exact ⟨cur, attrs, by simp [read_font_children, empty_elements, parser.peek, he]⟩
  | cons c cs ih =>
    intro fuel cur attrs f hfuel
    obtain ⟨fuel, rfl⟩ : ∃ k, fuel = k + 1 := ⟨fuel - 1, by simp at hfuel; omega⟩
    have hfuel1 : cs.length + 1 ≤ fuel := by simp at hfuel; omega
    have hstep : read_font_children vt (fuel + 1)
        ⟨cur, attrs, empty_elements (c :: cs) ++ e_end :: tail⟩ f
        = match read_font_child vt (child_start c) f with
          | .error e => .error e
          | .ok f1 => read_font_children vt fuel
              ⟨⟨.end_element, c.1, [], ""⟩, c.2, empty_elements cs ++ e_end :: tail⟩ f1 := by
      simp [read_font_children, empty_elements, element_events, parser.peek,
        parser.next_expect, parser.next, read_font_child_start]
    rw [hstep]
    cases hc : read_font_child vt (child_start c) f with
    | error e0 =>
      constructor
      · intro e h
        simp [List.foldlM, hc, bind, Except.bind] at h
        simp [h]
      · intro f1 h
        simp [List.foldlM, hc, bind, Except.bind] at h
    | ok f0 =>
      have hfold : (c :: cs).foldlM (fun f c => read_font_child vt (child_start c) f) f
          = cs.foldlM (fun f c => read_font_child vt (child_start c) f) f0 := by
        simp [List.foldlM, hc, bind, Except.bind]
      rw [hfold]
      exact ih fuel _ _ f0 hfuel1


/-- A mapped conversion that succeeds has a converted value. -/
theorem except_map_ok {α β : Type} (x : Except error α) (g : α → β) (b : β)
    (h : x.map g = .ok b) : ∃ a, b = g a := by
  cases x with
  | error e => simp [Except.map] at h
  | ok a => exact ⟨a, by simpa [Except.map] using h.symm⟩

/-- What one child of `font` does to the flags and the underline. -/
theorem read_font_child_fields {F : Type} (vt : value_traits F)
    (c : qname × List (qname × String)) (f f1 : font F)
    (h : read_font_child vt (child_start c) f = .ok f1) :
    f1.bold = (if c.1.name = "b"
        then some ((lookup_attribute ⟨"", "val"⟩ c.2).elim true is_true) else f.bold)
    ∧ f1.italic = (if c.1.name = "i"
        then some ((lookup_attribute ⟨"", "val"⟩ c.2).elim true is_true) else f.italic)
    ∧ f1.strikethrough = (if c.1.name = "strike"
        then some ((lookup_attribute ⟨"", "val"⟩ c.2).elim true is_true) else f.strikethrough)
    ∧ (c.1.name ≠ "u" → f1.underline = f.underline)
    ∧ (c.1.name = "u" → lookup_attribute ⟨"", "val"⟩ c.2 = none →
        f1.underline = some "single") := by
  obtain ⟨⟨ns, n⟩, attrs⟩ := c
  have hflag : read_flag (child_start (⟨ns, n⟩, attrs))
      = (lookup_attribute ⟨"", "val"⟩ attrs).elim true is_true := by
    cases hv : lookup_attribute ⟨"", "val"⟩ attrs <;>
      simp [read_flag, child_start, parser.attribute_present, parser.attribute, hv]
  have hname : (child_start (⟨ns, n⟩, attrs)).name = n := rfl
  simp only [read_font_child, hname, hflag] at h
  simp only []
  by_cases h1 : n = "sz"
  · subst h1
    rw [if_pos rfl] at h
    cases hv : (child_start (⟨ns, "sz"⟩, attrs)).attribute "val" with
    | error e => simp [hv] at h
    | ok v =>
      simp only [hv] at h
      obtain ⟨a, rfl⟩ := except_map_ok _ _ _ h
      simp
  rw [if_neg h1] at h
  by_cases h2 : n = "name"
  · subst h2
    rw [if_pos rfl] at h
    obtain ⟨a, rfl⟩ := except_map_ok _ _ _ h
    simp
  rw [if_neg h2] at h
  by_cases h3 : n = "color"
  · subst h3
    rw [if_pos rfl] at h
    obtain ⟨a, rfl⟩ := except_map_ok _ _ _ h
    simp
  rw [if_neg h3] at h
  by_cases h4 : n = "family"
  · subst h4
    rw [if_pos rfl] at h
    cases hv : (child_start (⟨ns, "family"⟩, attrs)).attribute "val" with
    | error e => simp [hv] at h
    | ok v =>
      simp only [hv] at h
      obtain ⟨a, rfl⟩ := except_map_ok _ _ _ h
      simp
  rw [if_neg h4] at h
  by_cases h5 : n = "scheme"
  · subst h5
    rw [if_pos rfl] at h
    obtain ⟨a, rfl⟩ := except_map_ok _ _ _ h
    simp
  rw [if_neg h5] at h
  by_cases h6 : n = "b"
  · subst h6
    rw [if_pos rfl] at h
    simp only [Except.ok.injEq] at h
    subst h
    simp
  rw [if_neg h6] at h
  by_cases h7 : n = "strike"
  · subst h7
    rw [if_pos rfl] at h
    simp only [Except.ok.injEq] at h
    subst h
    simp
  rw [if_neg h7] at h
  by_cases h8 : n = "i"
  · subst h8
    rw [if_pos rfl] at h
    simp only [Except.ok.injEq] at h
    subst h
    simp
  rw [if_neg h8] at h
  by_cases h9 : n = "u"
  · subst h9
    rw [if_pos rfl] at h
    cases hv : lookup_attribute ⟨"", "val"⟩ attrs with
    | none =>
      simp [child_start, parser.attribute_present, hv] at h
      subst h
      simp
    | some v =>
      simp only [child_start, parser.attribute_present, parser.attribute, hv, Option.isSome_some,
        if_true] at h
      obtain ⟨a, rfl⟩ := except_map_ok _ _ _ h
      simp
  rw [if_neg h9] at h
  simp only [Except.ok.injEq] at h
  subst h
  simp [h6, h7, h8, h9]


/-- Children of `font` with other names leave a property as it is: `g` is a property that
one child with a name other than `n` does not change. -/
theorem read_font_fold_other {F β : Type} (vt : value_traits F) (g : font F → β) (n : String)
    (hg : ∀ (c : qname × List (qname × String)) (f f1 : font F),
      read_font_child vt (child_start c) f = .ok f1 → c.1.name ≠ n → g f1 = g f) :
    ∀ (post : List (qname × List (qname × String))) (f f1 : font F),
      (∀ d ∈ post, d.1.name ≠ n) →
      post.foldlM (fun f c => read_font_child vt (child_start c) f) f = .ok f1 →
      g f1 = g f := by
  intro post
  induction post with
  | nil =>
    intro f f1 _ h
    simp only [List.foldlM, pure, Except.pure, Except.ok.injEq] at h
    rw [h]
  | cons d ds ih =>
    intro f f1 hn h
    cases hd : read_font_child vt (child_start d) f with
    | error e => simp [List.foldlM, hd, bind, Except.bind] at h
    | ok f0 =>
      have h0 : ds.foldlM (fun f c => read_font_child vt (child_start c) f) f0 = .ok f1 := by
        simpa [List.foldlM, hd, bind, Except.bind] using h
      rw [ih f0 f1 (fun x hx => hn x (List.mem_cons_of_mem _ hx)) h0]
      exact hg d f f0 hd (hn d (List.mem_cons_self _ _))

/-- The last child of `font` with the name `n` decides a property that only children of that
name change: the fold ends with the value that this child gave. -/
theorem read_font_fold_last {F β : Type} (vt : value_traits F) (g : font F → β) (n : String)
    (hg : ∀ (c : qname × List (qname × String)) (f f1 : font F),
      read_font_child vt (child_start c) f = .ok f1 → c.1.name ≠ n → g f1 = g f)
    (pre post : List (qname × List (qname × String))) (c : qname × List (qname × String))
    (f f1 : font F) (hpost : ∀ d ∈ post, d.1.name ≠ n)
    (h : (pre ++ c :: post).foldlM (fun f c => read_font_child vt (child_start c) f) f
      = .ok f1) :
    ∃ f0 f2, read_font_child vt (child_start c) f0 = .ok f2 ∧ g f1 = g f2 := by
  rw [List.foldlM_append] at h
  cases hpre : pre.foldlM (fun f c => read_font_child vt (child_start c) f) f with
  | error e => simp [hpre, bind, Except.bind] at h
  | ok f0 =>
    cases hc : read_font_child vt (child_start c) f0 with
    | error e => simp [hpre, List.foldlM, hc, bind, Except.bind] at h
    | ok f2 =>
      have h0 : post.foldlM (fun f c => read_font_child vt (child_start c) f) f2 = .ok f1 := by
        simpa [hpre, List.foldlM, hc, bind, Except.bind] using h
      exact ⟨f0, f2, hc, read_font_fold_other vt g n hg post f2 f1 hpost h0⟩


/-- A `font` element with empty children is read as the left fold of `read_font_child`
over them, from the default font. -/
theorem read_font_empty_children {F : Type} (vt : value_traits F) (xmlns : String)
    (fattrs : List (qname × String)) (children : List (qname × List (qname × String)))
    (cur : event) (attrs : List (qname × String)) (tail : List event) :
    (∀ e, children.foldlM (fun f c => read_font_child vt (child_start c) f) {} = .error e →
      read_font vt xmlns ⟨cur, attrs,
        element_events ⟨xmlns, "font"⟩ fattrs "" (empty_elements children) ++ tail⟩ = .error e)
    ∧ (∀ f, children.foldlM (fun f c => read_font_child vt (child_start c) f) {} = .ok f →
      ∃ cur1 attrs1, read_font vt xmlns ⟨cur, attrs,
        element_events ⟨xmlns, "font"⟩ fattrs "" (empty_elements children) ++ tail⟩
          = .ok (⟨cur1, attrs1, tail⟩, f)) := by
  have hlen := empty_elements_length children
  have hfuel : children.length + 1
      ≤ (empty_elements children ++ ⟨.end_element, ⟨xmlns, "font"⟩, [], ""⟩ :: tail).length
        + 1 := by
    simp only [List.length_append, List.length_cons]
    omega
  have hloop := read_font_children_empty vt ⟨.end_element, ⟨xmlns, "font"⟩, [], ""⟩ rfl tail
    children _ ⟨.start_element, ⟨xmlns, "font"⟩, fattrs, ""⟩ fattrs ({} : font F) hfuel
  have hstart : read_font vt xmlns ⟨cur, attrs,
      element_events ⟨xmlns, "font"⟩ fattrs "" (empty_elements children) ++ tail⟩
      = match read_font_children vt
          ((empty_elements children ++ ⟨.end_element, ⟨xmlns, "font"⟩, [], ""⟩ :: tail).length
            + 1)
          ⟨⟨.start_element, ⟨xmlns, "font"⟩, fattrs, ""⟩, fattrs,
            empty_elements children ++ ⟨.end_element, ⟨xmlns, "font"⟩, [], ""⟩ :: tail⟩ {} with
        | .error e => .error e
        | .ok (p2, f) =>
          match p2.next_expect_qname .end_element ⟨xmlns, "font"⟩ with
          | .error e => .error e
          | .ok p3 => .ok (p3, f) := by
    simp [read_font, element_events, parser.next_expect_qname, parser.next]
  rw [hstart]
  constructor
  · intro e h
    rw [hloop.1 e h]
  · intro f h
    obtain ⟨cur1, attrs1, h1⟩ := hloop.2 f h
    rw [h1]
    exact ⟨⟨.end_element, ⟨xmlns, "font"⟩, [], ""⟩, attrs1,
      by simp [parser.next_expect_qname, parser.next]⟩


/-- C38: `read_font` on a `font` element whose children are the empty elements
`children`, in document order.  The element is read, up to its end tag, when each child
by itself is one that `read_font_child` accepts.  In the font that is returned, bold
(italic, strikethrough) is unset when no child is named `b` (`i`, `strike`), and
otherwise it is decided by the last child `c` of that name: true when `c` has no
attribute `val`, and `is_true` of its value when it has one.  When the last child named
`u` has no attribute `val`, the underline is `single`. -/
theorem read_font_flags {F : Type} (vt : value_traits F) (xmlns : String)
    (fattrs : List (qname × String)) (children : List (qname × List (qname × String)))
    (cur : event) (attrs : List (qname × String)) (tail : List event) :
    ((∀ c ∈ children, ∀ f : font F, ∃ f1, read_font_child vt (child_start c) f = .ok f1) →
      ∃ cur1 attrs1 f, read_font vt xmlns ⟨cur, attrs,
        element_events ⟨xmlns, "font"⟩ fattrs "" (empty_elements children) ++ tail⟩
          = .ok (⟨cur1, attrs1, tail⟩, f))
    ∧ ∀ p1 f, read_font vt xmlns ⟨cur, attrs,
        element_events ⟨xmlns, "font"⟩ fattrs "" (empty_elements children) ++ tail⟩
          = .ok (p1, f) →
      ((∀ d ∈ children, d.1.name ≠ "b") → f.bold = none)
      ∧ ((∀ d ∈ children, d.1.name ≠ "i") → f.italic = none)
      ∧ ((∀ d ∈ children, d.1.name ≠ "strike") → f.strikethrough = none)
      ∧ ∀ pre c post, children = pre ++ c :: post →
          (c.1.name = "b" → (∀ d ∈ post, d.1.name ≠ "b") →
            f.bold = some ((lookup_attribute ⟨"", "val"⟩ c.2).elim true is_true))
          ∧ (c.1.name = "i" → (∀ d ∈ post, d.1.name ≠ "i") →
            f.italic = some ((lookup_attribute ⟨"", "val"⟩ c.2).elim true is_true))
          ∧ (c.1.name = "strike" → (∀ d ∈ post, d.1.name ≠ "strike") →
            f.strikethrough = some ((lookup_attribute ⟨"", "val"⟩ c.2).elim true is_true))
          ∧ (c.1.name = "u" → (∀ d ∈ post, d.1.name ≠ "u") →
            lookup_attribute ⟨"", "val"⟩ c.2 = none → f.underline = some "single") := by
  obtain ⟨herr, hok⟩ := read_font_empty_children vt xmlns fattrs children cur attrs tail
  have hbold : ∀ (c : qname × List (qname × String)) (f f1 : font F),
      read_font_child vt (child_start c) f = .ok f1 → c.1.name ≠ "b" → f1.bold = f.bold :=
    fun c f f1 h hn => by rw [(read_font_child_fields vt c f f1 h).1, if_neg hn]
  have hitalic : ∀ (c : qname × List (qname × String)) (f f1 : font F),
      read_font_child vt (child_start c) f = .ok f1 → c.1.name ≠ "i" → f1.italic = f.italic :=
    fun c f f1 h hn => by rw [(read_font_child_fields vt c f f1 h).2.1, if_neg hn]
  have hstrike : ∀ (c : qname × List (qname × String)) (f f1 : font F),
      read_font_child vt (child_start c) f = .ok f1 → c.1.name ≠ "strike" →
        f1.strikethrough = f.strikethrough :=
    fun c f f1 h hn => by rw [(read_font_child_fields vt c f f1 h).2.2.1, if_neg hn]
  have hunder : ∀ (c : qname × List (qname × String)) (f f1 : font F),
      read_font_child vt (child_start c) f = .ok f1 → c.1.name ≠ "u" →
        f1.underline = f.underline :=
    fun c f f1 h hn => (read_font_child_fields vt c f f1 h).2.2.2.1 hn
  constructor
  · intro hall
    have hfold : ∀ (cs : List (qname × List (qname × String))) (f : font F),
        (∀ c ∈ cs, ∀ f : font F, ∃ f1, read_font_child vt (child_start c) f = .ok f1) →
        ∃ f1, cs.foldlM (fun f c => read_font_child vt (child_start c) f) f = .ok f1 := by
      intro cs
      induction cs with
      | nil => intro f _; exact ⟨f, rfl⟩
      | cons c cs ih =>
        intro f hcs
        obtain ⟨f0, h0⟩ := hcs c (List.mem_cons_self _ _) f
        obtain ⟨f1, h1⟩ := ih f0 (fun x hx => hcs x (List.mem_cons_of_mem _ hx))
        exact ⟨f1, by simpa [List.foldlM, h0, bind, Except.bind] using h1⟩
    obtain ⟨f, hf⟩ := hfold children {} hall
    obtain ⟨cur1, attrs1, h⟩ := hok f hf
    exact ⟨cur1, attrs1, f, h⟩
  · intro p1 f h
    have hf : children.foldlM (fun f c => read_font_child vt (child_start c) f) {} = .ok f := by
      cases hfold : children.foldlM (fun f c => read_font_child vt (child_start c) f)
          ({} : font F) with
      | error e => rw [herr e hfold] at h; cases h
      | ok f0 =>
        obtain ⟨cur1, attrs1, h0⟩ := hok f0 hfold
        rw [h0] at h
        simp only [Except.ok.injEq, Prod.mk.injEq] at h
        rw [h.2]
    refine ⟨?_, ?_, ?_, ?_⟩
    · intro hn
      exact read_font_fold_other vt (fun f => f.bold) "b" hbold children {} f hn hf
    · intro hn
      exact read_font_fold_other vt (fun f => f.italic) "i" hitalic children {} f hn hf
    · intro hn
      exact read_font_fold_other vt (fun f => f.strikethrough) "strike" hstrike children {} f
        hn hf
    · intro pre c post hchildren
      subst hchildren
      refine ⟨?_, ?_, ?_, ?_⟩
      · intro hc hpost
        obtain ⟨f0, f2, h2, hg⟩ := read_font_fold_last vt (fun f => f.bold) "b" hbold pre post c
          {} f hpost hf
        rw [hg, (read_font_child_fields vt c f0 f2 h2).1, if_pos hc]
      · intro hc hpost
        obtain ⟨f0, f2, h2, hg⟩ := read_font_fold_last vt (fun f => f.italic) "i" hitalic pre
          post c {} f hpost hf
        rw [hg, (read_font_child_fields vt c f0 f2 h2).2.1, if_pos hc]
      · intro hc hpost
        obtain ⟨f0, f2, h2, hg⟩ := read_font_fold_last vt (fun f => f.strikethrough) "strike"
          hstrike pre post c {} f hpost hf
        rw [hg, (read_font_child_fields vt c f0 f2 h2).2.2.1, if_pos hc]
      · intro hc hpost hval
        obtain ⟨f0, f2, h2, hg⟩ := read_font_fold_last vt (fun f => f.underline) "u" hunder pre
          post c {} f hpost hf
        rw [hg]
        exact (read_font_child_fields vt c f0 f2 h2).2.2.2.2 hc hval

/-- C38, witness: `<font><b/><b val="0"/><i val="true"/><strike/><u/></font>` is read as
a font that is not bold (the last `b` decides), italic, struck through and underlined
`single`. -/
theorem read_font_flags_witness :
    (∀ c ∈ [((⟨"ns", "b"⟩ : qname), ([] : List (qname × String))),
          (⟨"ns", "b"⟩, [(⟨"", "val"⟩, "0")]), (⟨"ns", "i"⟩, [(⟨"", "val"⟩, "true")]),
          (⟨"ns", "strike"⟩, []), (⟨"ns", "u"⟩, [])],
        ∀ f : font Nat, ∃ f1, read_font_child sample_traits (child_start c) f = .ok f1)
    ∧ ∃ cur1 attrs1 f, read_font sample_traits "ns" ⟨eof_event, [],
        element_events ⟨"ns", "font"⟩ [] "" (empty_elements
          [(⟨"ns", "b"⟩, []), (⟨"ns", "b"⟩, [(⟨"", "val"⟩, "0")]),
            (⟨"ns", "i"⟩, [(⟨"", "val"⟩, "true")]), (⟨"ns", "strike"⟩, []), (⟨"ns", "u"⟩, [])])
          ++ []⟩ = .ok (⟨cur1, attrs1, []⟩, f)
        ∧ f = { bold := some false, italic := some true, strikethrough := some true,
                underline := some "single" } :=
  have h : ∀ c ∈ [((⟨"ns", "b"⟩ : qname), ([] : List (qname × String))),
          (⟨"ns", "b"⟩, [(⟨"", "val"⟩, "0")]), (⟨"ns", "i"⟩, [(⟨"", "val"⟩, "true")]),
          (⟨"ns", "strike"⟩, []), (⟨"ns", "u"⟩, [])],
        ∀ f : font Nat, ∃ f1, read_font_child sample_traits (child_start c) f = .ok f1 := by
    intro c hc f
    simp only [List.mem_cons, List.mem_singleton, List.not_mem_nil, or_false] at hc
    rcases hc with rfl | rfl | rfl | rfl | rfl <;> exact ⟨_, rfl⟩
  ⟨h, by
    obtain ⟨cur1, attrs1, f, hf⟩ := (read_font_flags sample_traits "ns" [] _ eof_event [] []).1 h
    refine ⟨cur1, attrs1, f, hf, ?_⟩
    have hval : read_font sample_traits "ns" ⟨eof_event, [],
        element_events ⟨"ns", "font"⟩ [] "" (empty_elements
          [(⟨"ns", "b"⟩, []), (⟨"ns", "b"⟩, [(⟨"", "val"⟩, "0")]),
            (⟨"ns", "i"⟩, [(⟨"", "val"⟩, "true")]), (⟨"ns", "strike"⟩, []), (⟨"ns", "u"⟩, [])])
          ++ []⟩ = .ok (⟨⟨.end_element, ⟨"ns", "font"⟩, [], ""⟩, [], []⟩,
            { bold := some false, italic := some true, strikethrough := some true,
              underline := some "single" }) := rfl
    rw [hval] at hf
    simp only [Except.ok.injEq, Prod.mk.injEq] at hf
    exact hf.2.symm⟩


/-! ## `compare_relationships_xml` (C39) -/

/-- The loop of `compare_relationships_xml` returns true exactly when every left child
finds a right child with its `Id`, and the left child and the first such right child
both have the attributes `Type` and `Target`. -/
theorem compare_relationships_children_iff (right_children : List xml_node) :
    ∀ left_children : List xml_node,
      compare_relationships_children right_children left_children = true ↔
        ∀ left_child ∈ left_children, ∃ right_child,
          right_children.find? (fun right_child =>
            (left_child.attribute "Id").getD "" = (right_child.attribute "Id").getD "")
            = some right_child
          ∧ (left_child.attribute "Type").isSome ∧ (left_child.attribute "Target").isSome
          ∧ (right_child.attribute "Type").isSome
          ∧ (right_child.attribute "Target").isSome := by
  intro left_children
  induction left_children with
  | nil => simp [compare_relationships_children]
  | cons l ls ih =>
    simp only [compare_relationships_children, List.mem_cons, forall_eq_or_imp]
    cases hfind : right_children.find? (fun right_child =>
        (l.attribute "Id").getD "" = (right_child.attribute "Id").getD "") with
    | none => simp
    | some m =>
      simp only [Option.some.injEq, exists_eq_left', ne_eq, not_true_eq_false, or_self,
        if_false]
      rw [← ih]
      cases l.attribute "Type" <;> cases l.attribute "Target" <;> cases m.attribute "Type" <;>
        cases m.attribute "Target" <;> simp

/-- C39: `compare_relationships_xml left right` returns true exactly when both documents
have a child `Relationships`, the two have the same number of children, and every child
of the left one finds a child of the right one with its `Id` such that the left child
and the first right child with that `Id` both carry the attributes `Type` and `Target`;
the values of `Type` and `Target` of the right child are not looked at.  In particular a
true result gives every left child a right child with the same `Id`. -/
theorem compare_relationships_xml_true (left right : xml_node) :
    (compare_relationships_xml left right = true ↔
      ∃ l r, left.child "Relationships" = some l ∧ right.child "Relationships" = some r
        ∧ l.children.length = r.children.length
        ∧ ∀ left_child ∈ l.children, ∃ right_child,
            r.children.find? (fun right_child =>
              (left_child.attribute "Id").getD "" = (right_child.attribute "Id").getD "")
              = some right_child
            ∧ (left_child.attribute "Type").isSome ∧ (left_child.attribute "Target").isSome
            ∧ (right_child.attribute "Type").isSome
            ∧ (right_child.attribute "Target").isSome)
    ∧ (compare_relationships_xml left right = true →
      ∃ l r, left.child "Relationships" = some l ∧ right.child "Relationships" = some r
        ∧ l.children.length = r.children.length
        ∧ ∀ left_child ∈ l.children, ∃ right_child ∈ r.children,
            (left_child.attribute "Id").getD "" = (right_child.attribute "Id").getD "") := by
  have hiff : compare_relationships_xml left right = true ↔
      ∃ l r, left.child "Relationships" = some l ∧ right.child "Relationships" = some r
        ∧ l.children.length = r.children.length
        ∧ ∀ left_child ∈ l.children, ∃ right_child,
            r.children.find? (fun right_child =>
              (left_child.attribute "Id").getD "" = (right_child.attribute "Id").getD "")
              = some right_child
            ∧ (left_child.attribute "Type").isSome ∧ (left_child.attribute "Target").isSome
            ∧ (right_child.attribute "Type").isSome
            ∧ (right_child.attribute "Target").isSome := by
    unfold compare_relationships_xml
    cases hl : left.child "Relationships" with
    | none => simp
    | some l =>
      cases hr : right.child "Relationships" with
      | none => simp
      | some r =>
        simp only [Option.some.injEq, exists_and_left, exists_eq_left']
        by_cases hlen : l.children.length = r.children.length
        · simp only [hlen, ne_eq, not_true_eq_false, if_false, true_and]
          exact compare_relationships_children_iff r.children l.children
        · simp [hlen]
  refine ⟨hiff, ?_⟩
  intro h
  obtain ⟨l, r, hl, hr, hlen, hall⟩ := hiff.mp h
  refine ⟨l, r, hl, hr, hlen, ?_⟩
  intro left_child hmem
  obtain ⟨right_child, hfind, _⟩ := hall left_child hmem
  refine ⟨right_child, List.mem_of_find?_eq_some hfind, ?_⟩
  have := List.find?_some hfind
  simpa using this

/-- C39, witness: the documents `<Relationships><Relationship Id="rId1" Type="t1"
Target="a.xml"/></Relationships>` and the same with `Type="t2" Target="b.xml"` compare
as true, although the right document has no child with the `Type` or the `Target` of the
left child. -/
theorem compare_relationships_xml_true_witness :
    compare_relationships_xml (relationships_document [relationship_node "rId1" "t1" "a.xml"])
        (relationships_document [relationship_node "rId1" "t2" "b.xml"]) = true
    ∧ (∀ right_child ∈ [relationship_node "rId1" "t2" "b.xml"],
        right_child.attribute "Type" ≠ (relationship_node "rId1" "t1" "a.xml").attribute "Type"
        ∧ right_child.attribute "Target"
          ≠ (relationship_node "rId1" "t1" "a.xml").attribute "Target") :=
  ⟨(compare_relationships_xml_true
      (relationships_document [relationship_node "rId1" "t1" "a.xml"])
      (relationships_document [relationship_node "rId1" "t2" "b.xml"])).1.mpr
      ⟨.mk .element "Relationships" "" [] [relationship_node "rId1" "t1" "a.xml"],
        .mk .element "Relationships" "" [] [relationship_node "rId1" "t2" "b.xml"],
        rfl, rfl, rfl, by
          intro left_child hmem
          simp only [xml_node.children, List.mem_singleton] at hmem
          subst hmem
          exact ⟨relationship_node "rId1" "t2" "b.xml", rfl, rfl, rfl, rfl, rfl⟩⟩,
    by
      intro right_child hmem
      simp only [List.mem_singleton] at hmem
      subst hmem
      exact ⟨by decide, by decide⟩⟩

/-! ## `compare_xml_nodes` (C40) -/

/-- The loop over the left attributes finishes exactly when every attribute is the
special one or is found with the same value among the attributes of the right node. -/
theorem compare_left_attributes_none (n : String) (other : List (String × String)) :
    ∀ attrs : List (String × String),
      compare_left_attributes n other attrs = none ↔
        ∀ a ∈ attrs, (n = "mc:AlternateContent" ∧ a.1 = "xmlns:mc")
          ∨ find_attribute a.1 other = some a.2 := by
  intro attrs
  induction attrs with
  | nil => simp [compare_left_attributes]
  | cons a rest ih =>
    obtain ⟨k, v⟩ := a
    simp only [compare_left_attributes, List.mem_cons, forall_eq_or_imp]
    by_cases hs : n = "mc:AlternateContent" ∧ k = "xmlns:mc"
    · obtain ⟨rfl, rfl⟩ := hs
      simp [ih]
    · cases hf : find_attribute k other with
      | none => simp [hs]
      | some w =>
        by_cases hv : v = w
        · simp [hs, hv, ih]
        · simp [hs, hv, Ne.symm hv]

/-- The loop over the right attributes finishes under the same condition. -/
theorem compare_right_attributes_none (n : String) (other : List (String × String)) :
    ∀ attrs : List (String × String),
      compare_right_attributes n other attrs = none ↔
        ∀ a ∈ attrs, (n = "mc:AlternateContent" ∧ a.1 = "xmlns:mc")
          ∨ find_attribute a.1 other = some a.2 := by
  intro attrs
  induction attrs with
  | nil => simp [compare_right_attributes]
  | cons a rest ih =>
    obtain ⟨k, v⟩ := a
    simp only [compare_right_attributes, List.mem_cons, forall_eq_or_imp]
    by_cases hs : n = "mc:AlternateContent" ∧ k = "xmlns:mc"
    · obtain ⟨rfl, rfl⟩ := hs
      simp [ih]
    · cases hf : find_attribute k other with
      | none => simp [hs]
      | some w =>
        by_cases hv : w = v
        · simp [hs, hv, ih]
        · simp [hs, hv, Ne.symm hv]

/-- A `return` out of the loop over the left attributes is not `equivalent`. -/
theorem compare_left_attributes_some (n : String) (other : List (String × String)) :
    ∀ (attrs : List (String × String)) (r : comparison_result),
      compare_left_attributes n other attrs = some r → r.to_bool = false := by
  intro attrs
  induction attrs with
  | nil => intro r h; simp [compare_left_attributes] at h
  | cons a rest ih =>
    intro r h
    obtain ⟨k, v⟩ := a
    simp only [compare_left_attributes] at h
    split_ifs at h
    · simp only [Option.some.injEq] at h; subst h; rfl
    · simp only [Option.some.injEq] at h; subst h; rfl
    · exact ih r h

/-- A `return` out of the loop over the right attributes is not `equivalent`. -/
theorem compare_right_attributes_some (n : String) (other : List (String × String)) :
    ∀ (attrs : List (String × String)) (r : comparison_result),
      compare_right_attributes n other attrs = some r → r.to_bool = false := by
  intro attrs
  induction attrs with
  | nil => intro r h; simp [compare_right_attributes] at h
  | cons a rest ih =>
    intro r h
    obtain ⟨k, v⟩ := a
    simp only [compare_right_attributes] at h
    split_ifs at h
    · simp only [Option.some.injEq] at h; subst h; rfl
    · simp only [Option.some.injEq] at h; subst h; rfl
    · exact ih r h

/-- The comparison of the texts passes exactly when the two nodes have the same text or
both have none. -/
theorem compare_text_none (a b : Option String) : compare_text a b = none ↔ a = b := by
  cases a <;> cases b <;> simp [compare_text]

/-- A `return` out of the comparison of the texts is not `equivalent`. -/
theorem compare_text_some (a b : Option String) (r : comparison_result)
    (h : compare_text a b = some r) : r.to_bool = false := by
  cases a <;> cases b <;> simp only [compare_text] at h
  · cases h
  · simp only [Option.some.injEq] at h; subst h; rfl
  · simp only [Option.some.injEq] at h; subst h; rfl
  · split_ifs at h
    · simp only [Option.some.injEq] at h; subst h; rfl

/-- When `compare_xml_nodes` answers `equivalent`: the names agree, both attribute loops
finish, the texts agree and the children compare as equivalent. -/
theorem compare_xml_nodes_to_bool (lt rt : xml_node_type) (ln lv rn rv : String)
    (la ra : List (String × String)) (lc rc : List xml_node) :
    (compare_xml_nodes (.mk lt ln lv la lc) (.mk rt rn rv ra rc)).to_bool = true ↔
      ln = rn ∧ compare_left_attributes ln ra la = none
      ∧ compare_right_attributes ln la ra = none
      ∧ (xml_node.mk lt ln lv la lc).text = (xml_node.mk rt rn rv ra rc).text
      ∧ (compare_xml_children lc rc).to_bool = true := by
  rw [compare_xml_nodes]
  by_cases hn : ln = rn
  · simp only [hn, ne_eq, not_true_eq_false, if_false, true_and]
    cases h1 : compare_left_attributes rn ra la with
    | some r => simp [compare_left_attributes_some _ _ _ _ h1]
    | none =>
      cases h2 : compare_right_attributes rn la ra with
      | some r => simp [compare_right_attributes_some _ _ _ _ h2]
      | none =>
        cases h3 : compare_text (xml_node.mk lt rn lv la lc).text
            (xml_node.mk rt rn rv ra rc).text with
        | some r =>
          have hne := (not_congr (compare_text_none _ _)).mp (by rw [h3]; simp)
          simp [compare_text_some _ _ _ h3, hne]
        | none => simp [(compare_text_none _ _).mp h3]
  · simp [hn, comparison_result.to_bool]

/-- When the loop over the children answers `equivalent`. -/
theorem compare_xml_children_to_bool (l r : xml_node) (ls rs : List xml_node) :
    (compare_xml_children (l :: ls) (r :: rs)).to_bool = true ↔
      (compare_xml_nodes l r).to_bool = true ∧ (compare_xml_children ls rs).to_bool = true := by
  rw [compare_xml_children]
  by_cases h : (compare_xml_nodes l r).to_bool = true
  · simp [h]
  · simp [h]

/-- Induction over a tree: a property holds of every node when it holds of a node whose
children all have it. -/
theorem xml_node_induction (P : xml_node → Prop)
    (h : ∀ t n v a cs, (∀ c ∈ cs, P c) → P (.mk t n v a cs)) : ∀ x, P x :=
  @xml_node.rec P (fun cs => ∀ c ∈ cs, P c) (fun t n v a cs ih => h t n v a cs ih)
    (fun c hc => absurd hc (List.not_mem_nil c))
    (fun hd tl ih1 ih2 c hc => by
      rcases List.mem_cons.mp hc with rfl | hmem
      · exact ih1
      · exact ih2 c hmem)

/-- The loop over the children is symmetric as a boolean when the comparison of each
left child is. -/
theorem compare_xml_children_symm :
    ∀ (ls : List xml_node),
      (∀ c ∈ ls, ∀ y, (compare_xml_nodes c y).to_bool = (compare_xml_nodes y c).to_bool) →
      ∀ rs, (compare_xml_children ls rs).to_bool = (compare_xml_children rs ls).to_bool := by
  intro ls
  induction ls with
  | nil =>
    intro _ rs
    cases rs with
    | nil => rfl
    | cons r rs => simp [compare_xml_children, comparison_result.to_bool]
  | cons l ls ih =>
    intro hall rs
    cases rs with
    | nil => simp [compare_xml_children, comparison_result.to_bool]
    | cons r rs =>
      rw [Bool.eq_iff_iff, compare_xml_children_to_bool, compare_xml_children_to_bool,
        hall l (List.mem_cons_self _ _) r,
        ih (fun c hc => hall c (List.mem_cons_of_mem _ hc)) rs]

/-- The comparison `compare_xml_nodes` is symmetric as a boolean. -/
theorem compare_xml_nodes_symm :
    ∀ x y, (compare_xml_nodes x y).to_bool = (compare_xml_nodes y x).to_bool := by
  intro x
  induction x using xml_node_induction with
  | h lt ln lv la lc ih =>
    intro y
    obtain ⟨rt, rn, rv, ra, rc⟩ := y
    rw [Bool.eq_iff_iff, compare_xml_nodes_to_bool, compare_xml_nodes_to_bool,
      compare_xml_children_symm lc ih rc]
    constructor
    · rintro ⟨rfl, h1, h2, h3, h4⟩
      exact ⟨rfl, (compare_left_attributes_none _ _ _).mpr
          ((compare_right_attributes_none _ _ _).mp h2),
        (compare_right_attributes_none _ _ _).mpr ((compare_left_attributes_none _ _ _).mp h1),
        h3.symm, h4⟩
    · rintro ⟨rfl, h1, h2, h3, h4⟩
      exact ⟨rfl, (compare_left_attributes_none _ _ _).mpr
          ((compare_right_attributes_none _ _ _).mp h2),
        (compare_right_attributes_none _ _ _).mpr ((compare_left_attributes_none _ _ _).mp h1),
        h3.symm, h4⟩

/-- With unique names, an attribute of the list is the one that its name finds. -/
theorem find_attribute_of_mem :
    ∀ (attrs : List (String × String)), (attrs.map Prod.fst).Nodup →
      ∀ a ∈ attrs, find_attribute a.1 attrs = some a.2 := by
  intro attrs
  induction attrs with
  | nil => intro _ a ha; cases ha
  | cons b rest ih =>
    intro hnodup a ha
    obtain ⟨k, v⟩ := b
    simp only [List.map_cons, List.nodup_cons] at hnodup
    rcases List.mem_cons.mp ha with rfl | hmem
    · simp [find_attribute]
    · have hne : k ≠ a.1 := by
        intro hk
        exact hnodup.1 (hk ▸ List.mem_map_of_mem Prod.fst hmem)
      simp only [find_attribute, if_neg hne]
      exact ih hnodup.2 a hmem

/-- The loop over the children answers `equivalent` on a list against itself when each
child does against itself. -/
theorem compare_xml_children_refl :
    ∀ (cs : List xml_node),
      (∀ c ∈ cs, c.unique_attribute_names = true → (compare_xml_nodes c c).to_bool = true) →
      unique_attribute_names_all cs = true → (compare_xml_children cs cs).to_bool = true := by
  intro cs
  induction cs with
  | nil => intro _ _; rfl
  | cons c cs ih =>
    intro hall hu
    simp only [unique_attribute_names_all, Bool.and_eq_true] at hu
    rw [compare_xml_children_to_bool]
    exact ⟨hall c (List.mem_cons_self _ _) hu.1,
      ih (fun d hd => hall d (List.mem_cons_of_mem _ hd)) hu.2⟩

/-- The comparison of a tree with unique attribute names against itself answers
`equivalent`. -/
theorem compare_xml_nodes_refl :
    ∀ x : xml_node, x.unique_attribute_names = true → (compare_xml_nodes x x).to_bool = true := by
  intro x
  induction x using xml_node_induction with
  | h t n v a cs ih =>
    intro hu
    simp only [xml_node.unique_attribute_names, Bool.and_eq_true, decide_eq_true_eq] at hu
    rw [compare_xml_nodes_to_bool]
    refine ⟨rfl, ?_, ?_, rfl, compare_xml_children_refl cs ih hu.2⟩
    · exact (compare_left_attributes_none _ _ _).mpr
        (fun b hb => Or.inr (find_attribute_of_mem a hu.1 b hb))
    · exact (compare_right_attributes_none _ _ _).mpr
        (fun b hb => Or.inr (find_attribute_of_mem a hu.1 b hb))

/-- C40: `compare_xml_nodes` answers `equivalent` for every tree compared with itself
when the attribute names are unique within each element of the tree, and it is symmetric
as a boolean: the answer for `x` and `y` is `equivalent` exactly when the answer for `y`
and `x` is.  Without unique names the first part fails: the element with the attributes
`a="1"` and `a="2"` differs from itself. -/
theorem compare_xml_nodes_reflexive_symmetric :
    (∀ x : xml_node, x.unique_attribute_names = true →
      (compare_xml_nodes x x).difference = .equivalent)
    ∧ (∀ x y : xml_node, (compare_xml_nodes x y).difference = .equivalent
        ↔ (compare_xml_nodes y x).difference = .equivalent)
    ∧ compare_xml_nodes (.mk .element "e" "" [("a", "1"), ("a", "2")] [])
        (.mk .element "e" "" [("a", "1"), ("a", "2")] [])
        = ⟨.attribute_values_differ, "2", "1"⟩ := by
  refine ⟨?_, ?_, rfl⟩
  · intro x hx
    simpa [comparison_result.to_bool] using compare_xml_nodes_refl x hx
  · intro x y
    have h := compare_xml_nodes_symm x y
    rw [Bool.eq_iff_iff] at h
    simpa [comparison_result.to_bool] using h

/-- C40, witness: the tree of `<a x="1" y="2">text<b/><b z="3"/></a>` has unique
attribute names and compares as equivalent with itself. -/
theorem compare_xml_nodes_reflexive_symmetric_witness :
    (xml_node.mk .element "a" "" [("x", "1"), ("y", "2")]
        [.mk .pcdata "" "text" [] [], .mk .element "b" "" [] [],
          .mk .element "b" "" [("z", "3")] []]).unique_attribute_names = true
    ∧ (compare_xml_nodes
        (.mk .element "a" "" [("x", "1"), ("y", "2")]
          [.mk .pcdata "" "text" [] [], .mk .element "b" "" [] [],
            .mk .element "b" "" [("z", "3")] []])
        (.mk .element "a" "" [("x", "1"), ("y", "2")]
          [.mk .pcdata "" "text" [] [], .mk .element "b" "" [] [],
            .mk .element "b" "" [("z", "3")] []])).difference = .equivalent :=
  ⟨by decide, compare_xml_nodes_reflexive_symmetric.1 _ (by decide)⟩

end xlnt
